import Mathlib

/-! Tengine TensorFlow serializer: graph construction, graph surgery, the rewrite
passes and the lowering to the target graph.

A shallow embedding of `src/serializer/tensorflow/tf_serializer.cpp`.

* `TFNode*` pointers are addresses (`Nat`); the objects they point to live in
  the `heap` component of `TFGraph`, so aliasing between `base_node`,
  `parent_node` and their neighbours is kept exactly as in the source.
* `std::string` is `List Char`, `std::vector<T>` is `List T`.
* A source path whose behaviour is undefined in C++ (`erase(end())`, reading
  through a null pointer, growing a vector that is being iterated) makes the
  embedded function return `none`.
-/

namespace Tengine

/-! ## Data model -/

/-- Modelled from the spec: `tensorflow::DataType`, of which the source tests
`DT_FLOAT` and `DT_INT32`. -/
inductive DataType where
  | DT_FLOAT
  | DT_INT32
  | DT_OTHER
deriving DecidableEq

/-- Modelled from the spec: `tensorflow::TensorProto` (protobuf header not among
the sources): the element type, the sizes `tensor_shape().dim(k).size()`, the raw
`tensor_content()` and the packed `float_val` and `int_val` lists. Values are
only copied by the source, never computed with: a 4-byte element, `float` or
`int`, is represented by an integer, and the raw content by the list of its
4-byte elements. -/
structure TensorProto where
  dtype : DataType := DataType.DT_OTHER
  tensor_shape : List Int := []
  tensor_content : List Int := []
  float_val : List Int := []
  int_val : List Int := []
deriving DecidableEq

/-- Modelled from the spec: `tensorflow::AttrValue` (protobuf header not among
the sources), with the accessors the source reads: `s()`, `f()`, `b()`,
`list().i(k)`, `shape().dim(k).size()`, `tensor()` and `has_tensor()`. An accessor
of a part that is not set reads the default value. -/
structure AttrValue where
  s : List Char := []
  f : Int := 0
  b : Bool := false
  list_i : List Int := []
  shape : List Int := []
  tensor : Option TensorProto := none
deriving DecidableEq

/-- Modelled from the spec: the flat record `tensorflow::NodeDef`, whose
declaration (the protobuf header) is not among the sources. The accessors the
source reads are kept: `name()`, `op()`, the ordered input-reference strings
`input(j)` and the attribute map `attr()`. -/
structure NodeDef where
  name : List Char := []
  op : List Char := []
  input : List (List Char) := []
  attr : List (List Char × AttrValue) := []
deriving DecidableEq

/-- The flat record list `tensorflow::GraphDef`; `tf_net.node(i)` is `tf_net[i]`. -/
abbrev GraphDef := List NodeDef

/-- Modelled from the spec: the members `struct LSTMNode` adds to `TFNode`
(declared in `tf_serializer.hpp`, not among the sources): the set `rnn_graph` of
absorbed nodes and the slots the source file writes and reads, each the address
of a node or null. -/
structure LSTMSlots where
  rnn_graph : List Nat := []
  kernel : Option Nat := none
  bias : Option Nat := none
  w_f_diag : Option Nat := none
  w_o_diag : Option Nat := none
  w_i_diag : Option Nat := none
  projection : Option Nat := none
  init_c : Option Nat := none
  init_h : Option Nat := none
  forget_bias : Option Nat := none
deriving DecidableEq

/-- Modelled from the spec: `struct TFNode`, whose declaration
(`tf_serializer.hpp`) is not among the sources. The fields are those the
source file reads and writes. `inputs` and `outputs` hold addresses of other
nodes, `pb_defs` holds the positions in `tf_net` of the records the node stands
for (the source stores `&tf_net.node(i)`), `static_node` and `static_tensor` hold
the handles of the target node and tensor (null until lowering sets them).
An object made by `new LSTMNode()` carries the members of the derived class in
`lstm`; a plain node has none. -/
structure TFNode where
  idx : Nat := 0
  name : List Char := []
  op : List Char := []
  inputs : List Nat := []
  outputs : List Nat := []
  pb_defs : List Nat := []
  no_static_node : Bool := false
  BNAddType : Int := 0
  static_node : Option Nat := none
  static_tensor : Option Nat := none
  lstm : Option LSTMSlots := none
deriving DecidableEq

instance : Inhabited TFNode := ⟨{}⟩

/-- Modelled from the spec: `struct TFGraph` (declared in `tf_serializer.hpp`,
not among the sources) together with the free store its nodes live in.
`seq_nodes` is the vector of node pointers, `heap a` is the object at address
`a`, and `next` is the address the next `new TFNode()` returns. -/
structure TFGraph where
  seq_nodes : List Nat := []
  heap : Nat → TFNode := fun _ => {}
  next : Nat := 0

/-- The freshly declared `TFGraph tf_graph;` of `LoadGraph`. -/
def TFGraph.init : TFGraph := {}

/-- Write through a pointer: `a->field = ...` replaces the object at `a`. -/
def TFGraph.modify (g : TFGraph) (a : Nat) (f : TFNode → TFNode) : TFGraph :=
  { g with heap := fun b => if b = a then f (g.heap b) else g.heap b }

/-- The loop `for(i = 0; i < v.size(); i++) if(v[i] == old) { v[i] = new; break; }`. -/
def replaceFirst (old new : Nat) : List Nat → List Nat
  | [] => []
  | x :: xs => if x = old then new :: xs else x :: replaceFirst old new xs

/-! ## Graph surgery primitives -/

/-- One turn of the first loop of `DisconnectNode`: look for `cur_node` in
`input_node->outputs` and erase the position found. When `cur_node` is absent
the source logs an error and still calls `erase(end())`, which is undefined. -/
def disconnectInput (cur_node : Nat) (g : TFGraph) (input_node : Nat) : Option TFGraph :=
  if cur_node ∈ (g.heap input_node).outputs then
    some (g.modify input_node fun n => { n with outputs := n.outputs.erase cur_node })
  else none

/-- One turn of the second loop of `DisconnectNode`, on `output_node->inputs`. -/
def disconnectOutput (cur_node : Nat) (g : TFGraph) (output_node : Nat) : Option TFGraph :=
  if cur_node ∈ (g.heap output_node).inputs then
    some (g.modify output_node fun n => { n with inputs := n.inputs.erase cur_node })
  else none

/-- `TFSerializer::DisconnectNode`. Neither loop changes the vector it walks
(the first writes `outputs` while walking `cur_node->inputs`, the second writes
`inputs` while walking `cur_node->outputs`), so each walks the list read at its
start; the second one starts after `cur_node->inputs.clear()`. -/
def DisconnectNode (g : TFGraph) (cur_node : Nat) : Option TFGraph := do
  let g1 ← (g.heap cur_node).inputs.foldlM (disconnectInput cur_node) g
  let g2 := g1.modify cur_node fun n => { n with inputs := [] }
  let g3 ← (g2.heap cur_node).outputs.foldlM (disconnectOutput cur_node) g2
  pure (g3.modify cur_node fun n => { n with outputs := [] })

/-- One turn of `for(auto node : parent_node->inputs)` in `MergeParentNode`:
the first `parent_node` in `node->outputs` becomes `base_node`. -/
def relinkOutput (parent_node base_node : Nat) (g : TFGraph) (node : Nat) : TFGraph :=
  g.modify node fun n => { n with outputs := replaceFirst parent_node base_node n.outputs }

/-- One turn of the loop in `MergeChildNode` (and the inner loop of the bridge
in `MergeParentNode`): the first `old_node` in `node->inputs` becomes `base_node`. -/
def relinkInput (old_node base_node : Nat) (g : TFGraph) (node : Nat) : TFGraph :=
  g.modify node fun n => { n with inputs := replaceFirst old_node base_node n.inputs }

/-- One turn of the "bridge parent's output" loop of `MergeParentNode`. -/
def bridgeOutput (parent_node base_node : Nat) (g : TFGraph) (node : Nat) : TFGraph :=
  if node ≠ base_node then
    relinkInput parent_node base_node
      (g.modify base_node fun n => { n with outputs := n.outputs ++ [node] }) node
  else g

/-- One turn of the last loop of `MergeChildNode`. -/
def bridgeInput (child_node base_node : Nat) (g : TFGraph) (node : Nat) : TFGraph :=
  if node ≠ base_node then
    relinkOutput child_node base_node
      (g.modify base_node fun n => { n with inputs := n.inputs ++ [node] }) node
  else g

/-- `TFSerializer::MergeParentNode`; the source returns `true` on every path, so
only the graph is returned. `none` stands for undefined behaviour:
`base_node->inputs.erase(end())` when `parent_node` is not an input, and, when
`base_node == parent_node`, the insertion of a vector's own range into itself
and the `push_back` on the vector the bridge loop is iterating. With two
different nodes no loop changes the vector it walks. -/
def MergeParentNode (g : TFGraph) (base_node parent_node : Nat) : Option TFGraph :=
  if base_node = parent_node then none
  else if parent_node ∉ (g.heap base_node).inputs then none
  else
    let g1 := g.modify base_node fun n => { n with inputs := n.inputs.erase parent_node }
    let g2 := g1.modify base_node fun n =>
      { n with inputs := n.inputs ++ (g1.heap parent_node).inputs }
    let g3 := (g2.heap parent_node).inputs.foldl (relinkOutput parent_node base_node) g2
    let g4 := (g3.heap parent_node).outputs.foldl (bridgeOutput parent_node base_node) g3
    let g5 := g4.modify base_node fun n =>
      { n with pb_defs := n.pb_defs ++ (g4.heap parent_node).pb_defs }
    some (g5.modify parent_node fun n => { n with inputs := [], outputs := [] })

/-- `TFSerializer::MergeChildNode`, with the same conventions as
`MergeParentNode`. -/
def MergeChildNode (g : TFGraph) (base_node child_node : Nat) : Option TFGraph :=
  if base_node = child_node then none
  else if child_node ∉ (g.heap base_node).outputs then none
  else
    let g1 := g.modify base_node fun n => { n with outputs := n.outputs.erase child_node }
    let g2 := g1.modify base_node fun n =>
      { n with outputs := n.outputs ++ (g1.heap child_node).outputs }
    let g3 := (g2.heap child_node).outputs.foldl (relinkInput child_node base_node) g2
    let g4 := (g3.heap child_node).inputs.foldl (bridgeInput child_node base_node) g3
    let g5 := g4.modify base_node fun n =>
      { n with pb_defs := n.pb_defs ++ (g4.heap child_node).pb_defs }
    some (g5.modify child_node fun n => { n with inputs := [], outputs := [] })

/-! ## Strings -/

/-- `s.find(pat)`: the position of the first occurrence of `pat` in `s`, `none`
for `std::string::npos`. -/
def strFind (pat : List Char) : List Char → Option Nat
  | [] => if pat = [] then some 0 else none
  | c :: cs =>
    if pat.isPrefixOf (c :: cs) then some 0 else (strFind pat cs).map fun k => k + 1

/-- `s.replace(pos, len, str)` for a position inside the string. -/
def strReplace (s : List Char) (pos len : Nat) (str : List Char) : List Char :=
  s.take pos ++ str ++ s.drop (pos + len)

/-! ## The rewrite passes of `OptimizeGraph`

Every pass walks `tf_graph.seq_nodes` with an iterator. A pass that erases
elements is a function of the part of the sequence still to be visited and
returns the elements it keeps; nothing a pass calls reads `seq_nodes`, so the
sequence is written back once at the end of the pass (`TFGraph.withSeq`). Reading
`v[i]` past the end of a vector is undefined and gives `none`. `delete cur_node`
is not modelled: the object stays in the store, and a later read through a
dangling pointer, undefined in the source, reads the stale object. -/

/-- Write the sequence a pass has kept back into the graph. -/
def TFGraph.withSeq (r : List Nat × TFGraph) : TFGraph :=
  { r.2 with seq_nodes := r.1 }

/-- Keep `cur_node` in the sequence (`ir++`) and go on with the rest. -/
def keepNode (cur_node : Nat) (r : Option (List Nat × TFGraph)) : Option (List Nat × TFGraph) :=
  r.map fun p => (cur_node :: p.1, p.2)

/-- First loop of `OptimizeGraph`, "clean up the predictions module": a Reshape
next to a Softmax or feeding a MatMul is spliced out and erased. -/
def cleanupPredictions : List Nat → TFGraph → Option (List Nat × TFGraph)
  | [], g => some ([], g)
  | cur_node :: rest, g =>
    if (g.heap cur_node).op = "Reshape".toList then do
      let input_node0 ← (g.heap cur_node).inputs[0]?
      let input_node1 ← (g.heap cur_node).inputs[1]?
      if (g.heap input_node0).op = "Softmax".toList ∨
          (g.heap input_node1).op = "Softmax".toList then do
        let g1 ← DisconnectNode g cur_node
        cleanupPredictions rest g1
      else do
        let output_node ← (g.heap cur_node).outputs[0]?
        if (g.heap output_node).op = "Softmax".toList ∨
            (g.heap output_node).op = "MatMul".toList then do
          let g1 ← if (g.heap input_node0).op = "Const".toList then DisconnectNode g input_node0
            else DisconnectNode g input_node1
          let input_node := if (g.heap input_node0).op = "Const".toList then input_node1
            else input_node0
          let g2 ← MergeChildNode g1 input_node cur_node
          cleanupPredictions rest g2
        else keepNode cur_node (cleanupPredictions rest g)
    else keepNode cur_node (cleanupPredictions rest g)

/-- The scan of `cur_node->outputs` in the Squeeze case: the last output whose op
is `op`, null (`none`) when there is none. -/
def lastOutputWithOp (g : TFGraph) (op : List Char) (outputs : List Nat) : Option Nat :=
  outputs.foldl (fun found node => if (g.heap node).op = op then some node else found) none

/-- Second loop of `OptimizeGraph`, "remove the squeeze node and identity", which
also moves the axis operand of a ConcatV2 into its definition list. The three
`if` statements of the source test the op of the same node, which nothing in
between changes, so they are written as one chain. -/
def removeSqueezeIdentity : List Nat → TFGraph → Option (List Nat × TFGraph)
  | [], g => some ([], g)
  | cur_node :: rest, g =>
    if (g.heap cur_node).op = "Squeeze".toList then
      match lastOutputWithOp g "Softmax".toList (g.heap cur_node).outputs with
      | some _ => do
        let g1 ← match lastOutputWithOp g "Shape".toList (g.heap cur_node).outputs with
          | some shape_node => DisconnectNode g shape_node
          | none => some g
        let input_node ← (g1.heap cur_node).inputs[0]?
        let g2 ← MergeChildNode g1 input_node cur_node
        removeSqueezeIdentity rest g2
      | none =>
        if (g.heap cur_node).outputs.length = 1 then do
          let child_node ← (g.heap cur_node).outputs[0]?
          let g1 ← MergeParentNode g child_node cur_node
          removeSqueezeIdentity rest g1
        else keepNode cur_node (removeSqueezeIdentity rest g)
    else if (g.heap cur_node).op = "Identity".toList then do
      let input_node ← (g.heap cur_node).inputs[0]?
      let g1 ← MergeChildNode g input_node cur_node
      removeSqueezeIdentity rest g1
    else if (g.heap cur_node).op = "ConcatV2".toList then
      match (g.heap cur_node).inputs.find? fun check_node =>
          decide ((g.heap check_node).op = "Const".toList) with
      | some axis_node => do
        let d ← (g.heap axis_node).pb_defs[0]?
        let g1 := g.modify cur_node fun n => { n with pb_defs := n.pb_defs ++ [d] }
        let g2 ← DisconnectNode g1 axis_node
        keepNode cur_node (removeSqueezeIdentity rest g2)
      | none => keepNode cur_node (removeSqueezeIdentity rest g)
    else keepNode cur_node (removeSqueezeIdentity rest g)

/-- Third loop of `OptimizeGraph`, "merge FIFOQueueV2 DequeueManyV2": the first
queue node absorbs its first consumer, then the loop breaks. -/
def mergeQueue : List Nat → TFGraph → Option TFGraph
  | [], g => some g
  | cur_node :: rest, g =>
    if (g.heap cur_node).op = "FIFOQueueV2".toList then do
      let queue_node ← (g.heap cur_node).outputs[0]?
      let g1 ← if (g.heap queue_node).op = "QueueDequeueManyV2".toList then do
          let parent ← (g.heap queue_node).inputs[1]?
          MergeParentNode g queue_node parent
        else some g
      MergeChildNode g1 cur_node queue_node
    else mergeQueue rest g

/-- Fourth loop of `OptimizeGraph`, "remove ExpandDims". -/
def removeExpandDims : List Nat → TFGraph → Option (List Nat × TFGraph)
  | [], g => some ([], g)
  | cur_node :: rest, g =>
    if (g.heap cur_node).op = "ExpandDims".toList then do
      let input0 ← (g.heap cur_node).inputs[0]?
      let input1 ← (g.heap cur_node).inputs[1]?
      if (g.heap input0).op = "Constant".toList ∧ (g.heap input1).op = "Const".toList then do
        let child_node ← (g.heap cur_node).outputs[0]?
        let g1 ← DisconnectNode g input1
        let g2 ← DisconnectNode g1 cur_node
        let g3 := g2.modify child_node fun n => { n with inputs := n.inputs ++ [input1] }
        let g4 := g3.modify input1 fun n => { n with outputs := n.outputs ++ [child_node] }
        removeExpandDims rest g4
      else do
        let g1 ← if (g.heap input1).op = "Const".toList then DisconnectNode g input1
          else DisconnectNode g input0
        let child_node ← (g1.heap cur_node).outputs[0]?
        let g2 ← MergeParentNode g1 child_node cur_node
        removeExpandDims rest g2
    else keepNode cur_node (removeExpandDims rest g)

/-- Fifth loop of `OptimizeGraph`, "merge biasadd and conv". -/
def mergeBiasAdd : List Nat → TFGraph → Option TFGraph
  | [], g => some g
  | cur_node :: rest, g =>
    if (g.heap cur_node).op = "Conv2D".toList ∨
        (g.heap cur_node).op = "DepthwiseConv2dNative".toList ∨
        (g.heap cur_node).op = "MatMul".toList then do
      let output_node ← (g.heap cur_node).outputs[0]?
      let g1 ← if (g.heap output_node).op = "BiasAdd".toList ∨
            (g.heap output_node).op = "Add".toList then MergeChildNode g cur_node output_node
        else some g
      mergeBiasAdd rest g1
    else mergeBiasAdd rest g

/-- `TFSerializer::CheckComposedBNAdd`: the returned flag and the graph, in which
`BNAddType` of the node has been set when the flag is `true`. -/
def CheckComposedBNAdd (g : TFGraph) (cur_node : Nat) : Option (Bool × TFGraph) :=
  if (g.heap cur_node).op ≠ "Add".toList then some (false, g)
  else do
    let input0 ← (g.heap cur_node).inputs[0]?
    let input1 ← (g.heap cur_node).inputs[1]?
    if (g.heap input0).op ≠ "Mul".toList ∨ (g.heap input1).op ≠ "Sub".toList then
      some (false, g)
    else if (strFind "/add_1".toList (g.heap cur_node).name).isSome then
      if (strFind "/mul_1".toList (g.heap input0).name).isSome ∨
          (strFind "/mul_1".toList (g.heap input1).name).isSome then
        some (true, g.modify cur_node fun n => { n with BNAddType := 1 })
      else some (true, g.modify cur_node fun n => { n with BNAddType := 0 })
    else some (false, g)

/-- The idiom `ir = v.begin(); if((*ir)->name.find(pat) == npos) ir++;` of
`BNRecursiveInputMerge`: the position the iterator ends at. Dereferencing
`begin()` of an empty vector is undefined. -/
def skipUnlessNamed (g : TFGraph) (pat : List Char) (v : List Nat) : Option Nat := do
  let first ← v[0]?
  pure (if (strFind pat (g.heap first).name).isNone then 1 else 0)

/-- `TFSerializer::BNRecursiveInputMerge`. The recursion follows input edges and
does not end on a graph in which they form a cycle; `fuel` bounds its depth, and
running out of it gives no result. -/
def BNRecursiveInputMerge : Nat → TFGraph → Nat → Option TFGraph
  | 0, _, _ => none
  | fuel + 1, g, node => do
    let name := (g.heap node).name
    let (g1, skip_first) ←
      if (strFind "/mul".toList name).isSome then
        if (g.heap node).BNAddType = 1 then
          if (strFind "/mul_1".toList name).isSome then some (g, true)
          else if (strFind "/mul_2".toList name).isNone then do
            let k ← skipUnlessNamed g "/mul2".toList (g.heap node).outputs
            let mul2_node ← (g.heap node).outputs[k]?
            let g1 := g.modify node fun n => { n with outputs := n.outputs.eraseIdx k }
            let k2 ← skipUnlessNamed g1 "/mul".toList (g1.heap mul2_node).inputs
            if k2 < (g1.heap mul2_node).inputs.length then
              some (g1.modify mul2_node fun n => { n with inputs := n.inputs.eraseIdx k2 }, false)
            else none
          else some (g, false)
        else
          if (strFind "/mul_1".toList name).isSome then do
            let k ← skipUnlessNamed g "/add_1".toList (g.heap node).inputs
            let Rsqrt_node ← (g.heap node).inputs[k]?
            if (strFind "/add_1".toList (g.heap Rsqrt_node).name).isSome then do
              let g1 := g.modify node fun n => { n with inputs := n.inputs.eraseIdx k }
              let k2 ← skipUnlessNamed g1 "/mul_1".toList (g1.heap Rsqrt_node).outputs
              if k2 < (g1.heap Rsqrt_node).outputs.length then
                some (g1.modify Rsqrt_node fun n =>
                  { n with outputs := n.outputs.eraseIdx k2 }, false)
              else none
            else some (g, false)
          else some (g, true)
      else some (g, false)
    let input_cpy := (g1.heap node).inputs
    let todo := if skip_first then input_cpy.drop 1 else input_cpy
    todo.foldlM (fun h input_node => do
      let h1 := h.modify input_node fun n => { n with BNAddType := (h.heap node).BNAddType }
      if (h1.heap input_node).op = "Const".toList then some h1
      else do
        let h2 ← BNRecursiveInputMerge fuel h1 input_node
        MergeParentNode h2 node input_node) g1

/-- `TFSerializer::FuseComposedBN`; `fuel` is handed to `BNRecursiveInputMerge`.
`name.replace(npos, ...)` throws and gives no result. -/
def FuseComposedBN (fuel : Nat) (g : TFGraph) (cur_node : Nat) : Option TFGraph := do
  let g1 ← BNRecursiveInputMerge fuel g cur_node
  let g2 := g1.modify cur_node fun n => { n with op := "ComposedBN".toList }
  let pos ← strFind "/add_1".toList (g2.heap cur_node).name
  let g3 := g2.modify cur_node fun n =>
    { n with name := strReplace n.name pos "/add_1".toList.length "bn.fused".toList }
  pure ((g3.heap cur_node).inputs.foldl (fun h node =>
    if (strFind "/add/y".toList (h.heap node).name).isSome then
      h.modify node fun n => { n with no_static_node := true }
    else h) g3)

/-- Sixth loop of `OptimizeGraph`, "merge composed BatchNormal". -/
def fuseBatchNorm (fuel : Nat) : List Nat → TFGraph → Option TFGraph
  | [], g => some g
  | cur_node :: rest, g => do
    let r ← CheckComposedBNAdd g cur_node
    let g1 ← if r.1 then FuseComposedBN fuel r.2 cur_node else some r.2
    fuseBatchNorm fuel rest g1

/-- The scan of `data_node->outputs` in `CleanupResizeNearestNeighbor`: the first
output whose op is Shape, else the last output, null for an empty list. -/
def findDataShapeNode (g : TFGraph) : List Nat → Option Nat
  | [] => none
  | node :: rest =>
    if (g.heap node).op = "Shape".toList then some node
    else match rest with
      | [] => some node
      | _ :: _ => findDataShapeNode g rest

/-- `TFSerializer::CleanupResizeNearestNeighbor`, as a loop over the sequence.
`DisconnectNode(nullptr)` is undefined. -/
def CleanupResizeNearestNeighbor : List Nat → TFGraph → Option TFGraph
  | [], g => some g
  | cur_node :: rest, g =>
    if (g.heap cur_node).op = "ResizeNearestNeighbor".toList then do
      let data_node ← (g.heap cur_node).inputs[0]?
      let data_shape_node ← findDataShapeNode g (g.heap data_node).outputs
      let g1 ← DisconnectNode g data_shape_node
      let mul_node ← (g1.heap cur_node).inputs[1]?
      let stride_slice ← (g1.heap mul_node).inputs[0]?
      let g2 ← DisconnectNode g1 stride_slice
      let g3 ← DisconnectNode g2 mul_node
      CleanupResizeNearestNeighbor rest g3
    else CleanupResizeNearestNeighbor rest g

/-- `TFSerializer::MergeReluMinimum`, as a loop over the sequence. -/
def MergeReluMinimum : List Nat → TFGraph → Option TFGraph
  | [], g => some g
  | cur_node :: rest, g =>
    match (g.heap cur_node).inputs[0]? with
    | none => MergeReluMinimum rest g
    | some input0 =>
      if (g.heap cur_node).op = "Minimum".toList ∧ (g.heap input0).op = "Relu".toList then do
        let const_node ← (g.heap cur_node).inputs[1]?
        let g1 ← DisconnectNode g const_node
        let g2 ← MergeChildNode g1 input0 cur_node
        MergeReluMinimum rest (g2.modify input0 fun n => { n with op := "Relu6".toList })
      else MergeReluMinimum rest g

/-- Loop "merge input node and reshape" of `OptimizeGraph`: the first Reshape
fed by a Placeholder is merged into it and erased, and the loop breaks. -/
def mergeInputReshape : List Nat → TFGraph → Option (List Nat × TFGraph)
  | [], g => some ([], g)
  | cur_node :: rest, g =>
    if (g.heap cur_node).op = "Reshape".toList then do
      let input_node0 ← (g.heap cur_node).inputs[0]?
      let input_node1 ← (g.heap cur_node).inputs[1]?
      if (g.heap input_node0).op = "Placeholder".toList ∨
          (g.heap input_node1).op = "Placeholder".toList then do
        let const_node := if (g.heap input_node0).op = "Const".toList then input_node0
          else input_node1
        let input_node := if (g.heap input_node0).op = "Const".toList then input_node1
          else input_node0
        let g1 ← DisconnectNode g const_node
        let g2 ← MergeChildNode g1 input_node cur_node
        let d ← (g2.heap const_node).pb_defs[0]?
        some (rest, g2.modify input_node fun n => { n with pb_defs := n.pb_defs ++ [d] })
      else keepNode cur_node (mergeInputReshape rest g)
    else keepNode cur_node (mergeInputReshape rest g)

/-- Loop "remove the shape and StrideSlice" of `OptimizeGraph`. -/
def removeShapeSlice : List Nat → TFGraph → Option TFGraph
  | [], g => some g
  | cur_node :: rest, g =>
    if (g.heap cur_node).op = "StridedSlice".toList then do
      let input_node ← (g.heap cur_node).inputs[0]?
      if (g.heap input_node).op = "Shape".toList then do
        let g1 ← DisconnectNode g cur_node
        DisconnectNode g1 input_node
      else removeShapeSlice rest g
    else removeShapeSlice rest g

/-- Loop "merge pad and conv" of `OptimizeGraph`, which also moves the axis
operand of a Mean into its definition list. `inputs[input_size - 1]` on an
empty vector is undefined. -/
def mergePadConv : List Nat → TFGraph → Option TFGraph
  | [], g => some g
  | cur_node :: rest, g =>
    if (g.heap cur_node).op = "Conv2D".toList ∨
        (g.heap cur_node).op = "DepthwiseConv2dNative".toList then do
      let input_node ← (g.heap cur_node).inputs[0]?
      if (g.heap input_node).op = "Pad".toList then do
        let padding_args ← (g.heap input_node).inputs[1]?
        let d ← (g.heap padding_args).pb_defs[0]?
        let g1 := g.modify input_node fun n => { n with pb_defs := n.pb_defs ++ [d] }
        let g2 ← DisconnectNode g1 padding_args
        let g3 ← MergeParentNode g2 cur_node input_node
        let new_input ← (g3.heap cur_node).inputs.getLast?
        mergePadConv rest
          (g3.modify cur_node fun n => { n with inputs := new_input :: n.inputs.dropLast })
      else mergePadConv rest g
    else if (g.heap cur_node).op = "Mean".toList then do
      let indices ← (g.heap cur_node).inputs[1]?
      let g1 ← DisconnectNode g indices
      let d ← (g1.heap indices).pb_defs[0]?
      mergePadConv rest (g1.modify cur_node fun n => { n with pb_defs := n.pb_defs ++ [d] })
    else mergePadConv rest g

/-- Loop "remove ArgMax node" of `OptimizeGraph`: the first ArgMax is
disconnected and erased, and the loop breaks. -/
def removeArgMax : List Nat → TFGraph → Option (List Nat × TFGraph)
  | [], g => some ([], g)
  | cur_node :: rest, g =>
    if (g.heap cur_node).op = "ArgMax".toList then
      (DisconnectNode g cur_node).map fun g1 => (rest, g1)
    else keepNode cur_node (removeArgMax rest g)

/-- Loop "remove last squeeze" of `OptimizeGraph`. -/
def removeLastSqueeze : List Nat → TFGraph → Option TFGraph
  | [], g => some g
  | cur_node :: rest, g =>
    if (g.heap cur_node).op = "Squeeze".toList ∧ (g.heap cur_node).outputs = [] then
      DisconnectNode g cur_node
    else removeLastSqueeze rest g

/-- Loop "remove no input and output nodes" of `OptimizeGraph`: the sequence
without the nodes that have neither input nor output. -/
def removeIsolated (g : TFGraph) : TFGraph :=
  { g with seq_nodes := g.seq_nodes.filter fun cur_node =>
      !(decide ((g.heap cur_node).inputs.length = 0 ∧ (g.heap cur_node).outputs.length = 0)) }

/-- The test of the last loop of `OptimizeGraph`: no input, and an op that is
neither Const nor Placeholder nor FIFOQueueV2. -/
def isOrphan (g : TFGraph) (cur_node : Nat) : Bool :=
  decide ((g.heap cur_node).inputs.length = 0 ∧ (g.heap cur_node).op ≠ "Const".toList ∧
    (g.heap cur_node).op ≠ "Placeholder".toList ∧ (g.heap cur_node).op ≠ "FIFOQueueV2".toList)

/-- Loop "remove no input but not placeholder/const nodes" of `OptimizeGraph`:
the first orphan found is disconnected and erased and the scan restarts from the
beginning. Every restart shortens the sequence by one, so `fuel` equal to its
length is never used up: with no fuel left the sequence is empty. -/
def removeOrphans : Nat → TFGraph → Option TFGraph
  | 0, g => if g.seq_nodes.any (isOrphan g) then none else some g
  | fuel + 1, g =>
    match g.seq_nodes.find? (isOrphan g) with
    | none => some g
    | some cur_node => do
      let g1 ← DisconnectNode g cur_node
      removeOrphans fuel { g1 with seq_nodes := g.seq_nodes.eraseP (isOrphan g) }

/-- The first five loops of `OptimizeGraph`, in the order of the source. -/
def optimizeFusions (tf_graph : TFGraph) : Option TFGraph := do
  let g1 ← (cleanupPredictions tf_graph.seq_nodes tf_graph).map TFGraph.withSeq
  let g2 ← (removeSqueezeIdentity g1.seq_nodes g1).map TFGraph.withSeq
  let g3 ← mergeQueue g2.seq_nodes g2
  let g4 ← (removeExpandDims g3.seq_nodes g3).map TFGraph.withSeq
  mergeBiasAdd g4.seq_nodes g4

/-- The next five loops of `OptimizeGraph`, from the batch-norm fusion to the
removal of the Shape and StridedSlice helpers. The depth of the batch-norm
recursion is bounded by the number of allocated nodes. -/
def optimizeHelpers (g5 : TFGraph) : Option TFGraph := do
  let g6 ← fuseBatchNorm g5.next g5.seq_nodes g5
  let g7 ← CleanupResizeNearestNeighbor g6.seq_nodes g6
  let g8 ← MergeReluMinimum g7.seq_nodes g7
  let g9 ← (mergeInputReshape g8.seq_nodes g8).map TFGraph.withSeq
  removeShapeSlice g9.seq_nodes g9

/-- The last five loops of `OptimizeGraph`, from the pad fusion to the two
pruning scans. -/
def optimizeTrims (g10 : TFGraph) : Option TFGraph := do
  let g11 ← mergePadConv g10.seq_nodes g10
  let g12 ← (removeArgMax g11.seq_nodes g11).map TFGraph.withSeq
  let g13 ← removeLastSqueeze g12.seq_nodes g12
  removeOrphans (removeIsolated g13).seq_nodes.length (removeIsolated g13)

/-- `TFSerializer::OptimizeGraph`: the loops in the order of the source, in three
groups. The only `return` of the source is `return true`. -/
def OptimizeGraph (tf_graph : TFGraph) : Option (Bool × TFGraph) := do
  let g5 ← optimizeFusions tf_graph
  let g10 ← optimizeHelpers g5
  let g15 ← optimizeTrims g10
  pure (true, g15)

/-! ## Graph construction -/

/-- The reference clean-up of `ConstructGraph`: `pos` is the position of the
first `':'` (`find`), or the length when there is none; a reference starting
with `'^'` yields `substr(1, pos)`, any other `substr(0, pos)`, where
`substr(a, n)` takes `n` characters from position `a` on. -/
def cleanupName (input_name : List Char) : List Char :=
  let pos := if ':' ∈ input_name then input_name.indexOf ':' else input_name.length
  if input_name.head? = some '^' then (input_name.drop 1).take pos
  else (input_name.drop 0).take pos

/-- The `std::unordered_map<std::string, TFNode*> node_map`; a missing key reads
as the null pointer, here `none`. -/
abbrev NodeMap := List Char → Option Nat

/-- The assignment `node_map[key] = tf_node`. -/
def NodeMap.insert (m : NodeMap) (key : List Char) (tf_node : Nat) : NodeMap :=
  fun k => if k = key then some tf_node else m k

/-- The first scan of `ConstructGraph` from record number `i` on: each record
gets a new node (at the fresh address `next`) with `idx`, `name`, `op` and a
one-element `pb_defs`, pushed on `seq_nodes` and entered in `node_map`. -/
def setupNodes : List NodeDef → Nat → TFGraph → NodeMap → TFGraph × NodeMap
  | [], _, g, node_map => (g, node_map)
  | node_param :: rest, i, g, node_map =>
    let tf_node := g.next
    let g1 : TFGraph :=
      { seq_nodes := g.seq_nodes ++ [tf_node]
        heap := fun b =>
          if b = tf_node then
            { idx := i, name := node_param.name, op := node_param.op, pb_defs := [i] }
          else g.heap b
        next := g.next + 1 }
    setupNodes rest (i + 1) g1 (node_map.insert node_param.name tf_node)

/-- The inner loop of the second scan, over the references of one record.
`cur_node` is what `node_map[name]` returned; writing through it when it is null
is undefined (`none`). A reference that resolves to null ends the whole
function with `false`, leaving the graph as built so far. -/
def connectInputs (node_map : NodeMap) (cur_node : Option Nat) :
    List (List Char) → TFGraph → Option (Bool × TFGraph)
  | [], g => some (true, g)
  | input_name :: rest, g =>
    match node_map (cleanupName input_name) with
    | none => some (false, g)
    | some input_node =>
      match cur_node with
      | none => none
      | some cur =>
        let g1 := g.modify cur fun n => { n with inputs := n.inputs ++ [input_node] }
        let g2 := g1.modify input_node fun n => { n with outputs := n.outputs ++ [cur] }
        connectInputs node_map (some cur) rest g2

/-- The second scan of `ConstructGraph`. -/
def setupConnections (node_map : NodeMap) : List NodeDef → TFGraph → Option (Bool × TFGraph)
  | [], g => some (true, g)
  | node_param :: rest, g =>
    match connectInputs node_map (node_map node_param.name) node_param.input g with
    | none => none
    | some (false, g1) => some (false, g1)
    | some (true, g1) => setupConnections node_map rest g1

/-- `TFSerializer::ConstructGraph`: the returned flag and the graph as the call
leaves it. -/
def ConstructGraph (tf_net : GraphDef) (tf_graph : TFGraph) : Option (Bool × TFGraph) :=
  let s := setupNodes tf_net 0 tf_graph (fun _ => none)
  setupConnections s.2 tf_net s.1

/-! ## The target graph

The builder interface of the engine (`CreateStaticNode`, `SetTensorDim`, ...) is
declared outside the file under study. A `StaticNode*`, `StaticTensor*` or
`StaticOp*` is the position of the object in the list of the graph that owns it;
the setters write through a pointer that a `Create...` call returned. -/

/-- Modelled from the spec: `struct ConvParam` (its header is not among the
sources), with the fields `LoadConv2D` writes. -/
structure ConvParam where
  kernel_h : Int := 0
  kernel_w : Int := 0
  stride_h : Int := 0
  stride_w : Int := 0
  pad_h : Int := 0
  pad_w : Int := 0
  dilation_h : Int := 0
  dilation_w : Int := 0
  output_channel : Int := 0
  group : Int := 0
  pads : List Int := []
deriving DecidableEq

/-- Modelled from the spec: `struct GemmParam` (its header is not among the
sources), with the fields `LoadGemm` writes. -/
structure GemmParam where
  transA : Bool := false
  transB : Bool := false
  alpha : Int := 0
  beta : Int := 0
deriving DecidableEq

/-- Modelled from the spec: `struct FCParam` (its header is not among the
sources), with the field `LoadGemm` writes. -/
structure FCParam where
  num_output : Int := 0
deriving DecidableEq

/-- Modelled from the spec: `struct ConcatParam` (its header is not among the
sources), with the field `LoadConcat` writes. -/
structure ConcatParam where
  axis : Int := 0
deriving DecidableEq

/-- Modelled from the spec: the parameter block a target operator carries
(`SetOperatorParam`): none, a `ConvParam`, a `ReLuParam` given by its
`negative_slope`, a `GemmParam`, an `FCParam` or a `ConcatParam`. -/
inductive OpParam where
  | unset
  | conv (param : ConvParam)
  | relu (negative_slope : Int)
  | gemm (param : GemmParam)
  | fc (param : FCParam)
  | concat (param : ConcatParam)
deriving DecidableEq

/-- Modelled from the spec: a target operator, made by `CreateStaticOp(graph, name)`. -/
structure StaticOp where
  name : List Char := []
  param : OpParam := OpParam.unset
deriving DecidableEq

/-- Modelled from the spec: a target tensor. `const_tensor` tells a tensor made
by `CreateStaticConstTensor` from one made by `CreateStaticTensor`; `data_type` is
the type name whose id `SetTensorDataType` stores; `mem_addr` is the buffer of a
constant tensor (`none` for the null pointer), a list of 4-byte elements. -/
structure StaticTensor where
  name : List Char := []
  const_tensor : Bool := false
  dims : List Int := []
  data_type : List Char := []
  data_layout : List Char := []
  mem_size : Int := 0
  mem_addr : Option (List Int) := none
  file_offset : Int := 0
  file_size : Int := 0
deriving DecidableEq

/-- Modelled from the spec: a target node, with the handle of its operator and
the handles of its input and output tensors. -/
structure StaticNode where
  name : List Char := []
  op : Option Nat := none
  input_tensor_list : List Nat := []
  output_tensor_list : List Nat := []
deriving DecidableEq

/-- Modelled from the spec: the target graph `StaticGraph`: the nodes, tensors
and operators created so far and the declared input nodes. -/
structure StaticGraph where
  node_list : List StaticNode := []
  tensor_list : List StaticTensor := []
  op_list : List StaticOp := []
  input_node_list : List Nat := []
deriving DecidableEq

/-- Modelled from the spec: `CreateStaticNode(graph, name)`; the new node and
its handle. -/
def CreateStaticNode (graph : StaticGraph) (name : List Char) : Nat × StaticGraph :=
  (graph.node_list.length, { graph with node_list := graph.node_list ++ [{ name := name }] })

/-- Modelled from the spec: `CreateStaticTensor(graph, name)`. -/
def CreateStaticTensor (graph : StaticGraph) (name : List Char) : Nat × StaticGraph :=
  (graph.tensor_list.length,
    { graph with tensor_list := graph.tensor_list ++ [{ name := name }] })

/-- Modelled from the spec: `CreateStaticConstTensor(graph, name)`. -/
def CreateStaticConstTensor (graph : StaticGraph) (name : List Char) : Nat × StaticGraph :=
  (graph.tensor_list.length,
    { graph with tensor_list := graph.tensor_list ++ [{ name := name, const_tensor := true }] })

/-- Modelled from the spec: `CreateStaticOp(graph, name)`. -/
def CreateStaticOp (graph : StaticGraph) (name : List Char) : Nat × StaticGraph :=
  (graph.op_list.length, { graph with op_list := graph.op_list ++ [{ name := name }] })

/-- A write through a `StaticTensor*`. -/
def StaticGraph.setTensor (graph : StaticGraph) (tensor : Nat)
    (f : StaticTensor → StaticTensor) : StaticGraph :=
  { graph with tensor_list := graph.tensor_list.modify f tensor }

/-- A write through a `StaticNode*`. -/
def StaticGraph.setNode (graph : StaticGraph) (node : Nat)
    (f : StaticNode → StaticNode) : StaticGraph :=
  { graph with node_list := graph.node_list.modify f node }

/-- Modelled from the spec: `SetTensorDataLayout(tensor, layout)`. -/
def SetTensorDataLayout (graph : StaticGraph) (tensor : Nat) (layout : List Char) : StaticGraph :=
  graph.setTensor tensor fun t => { t with data_layout := layout }

/-- Modelled from the spec: `SetTensorDataType(tensor, DataType::GetTypeID(name))`. -/
def SetTensorDataType (graph : StaticGraph) (tensor : Nat) (name : List Char) : StaticGraph :=
  graph.setTensor tensor fun t => { t with data_type := name }

/-- Modelled from the spec: `SetTensorDim(tensor, dims)`. -/
def SetTensorDim (graph : StaticGraph) (tensor : Nat) (dims : List Int) : StaticGraph :=
  graph.setTensor tensor fun t => { t with dims := dims }

/-- Modelled from the spec: `SetTensorSize(tensor, size)`. -/
def SetTensorSize (graph : StaticGraph) (tensor : Nat) (size : Int) : StaticGraph :=
  graph.setTensor tensor fun t => { t with mem_size := size }

/-- Modelled from the spec: `SetConstTensorBuffer(tensor, addr)`. -/
def SetConstTensorBuffer (graph : StaticGraph) (tensor : Nat) (addr : Option (List Int)) :
    StaticGraph :=
  graph.setTensor tensor fun t => { t with mem_addr := addr }

/-- Modelled from the spec: `GetConstTensorBuffer(tensor)`; `none` also for a
handle that names no tensor. -/
def GetConstTensorBuffer (graph : StaticGraph) (tensor : Nat) : Option (List Int) :=
  graph.tensor_list[tensor]?.bind fun t => t.mem_addr

/-- Modelled from the spec: `SetConstTensorFileLocation(tensor, offset, size)`. -/
def SetConstTensorFileLocation (graph : StaticGraph) (tensor : Nat) (offset size : Int) :
    StaticGraph :=
  graph.setTensor tensor fun t => { t with file_offset := offset, file_size := size }

/-- Modelled from the spec: `AddNodeInputTensor(node, tensor)`. -/
def AddNodeInputTensor (graph : StaticGraph) (node tensor : Nat) : StaticGraph :=
  graph.setNode node fun n => { n with input_tensor_list := n.input_tensor_list ++ [tensor] }

/-- Modelled from the spec: `AddNodeOutputTensor(node, tensor)`. -/
def AddNodeOutputTensor (graph : StaticGraph) (node tensor : Nat) : StaticGraph :=
  graph.setNode node fun n => { n with output_tensor_list := n.output_tensor_list ++ [tensor] }

/-- Modelled from the spec: `SetNodeOp(node, op)`. -/
def SetNodeOp (graph : StaticGraph) (node op : Nat) : StaticGraph :=
  graph.setNode node fun n => { n with op := some op }

/-- Modelled from the spec: `SetOperatorParam(op, param)`. -/
def SetOperatorParam (graph : StaticGraph) (op : Nat) (param : OpParam) : StaticGraph :=
  { graph with op_list := graph.op_list.modify (fun o => { o with param := param }) op }

/-- Modelled from the spec: `AddGraphInputNode(graph, node)`. -/
def AddGraphInputNode (graph : StaticGraph) (node : Nat) : StaticGraph :=
  { graph with input_node_list := graph.input_node_list ++ [node] }

/-! ## Lowering: constants and inputs

The C++ `int` has 32 bits. A size of a shape and an entry of an integer list are
`int64` values of the records: stored into an `int` they are converted by
`toInt`, and a product of `int`s is taken modulo `2^32` as well, the way two's
complement hardware computes it. -/

/-- The `int` an integer value is stored as: the value modulo `2^32`, between
`-2^31` and `2^31 - 1`. -/
def toInt (x : Int) : Int :=
  (x + 2147483648) % 4294967296 - 2147483648

/-- The range of `int`. -/
abbrev InInt (x : Int) : Prop :=
  -2147483648 ≤ x ∧ x ≤ 2147483647

/-- `GetAttrValue(node, key, value)`: the entry of the attribute map under
`key`, `none` when the source returns `false`. -/
def GetAttrValue (node : NodeDef) (key : List Char) : Option AttrValue :=
  node.attr.lookup key

/-- The read `p[i]` of a buffer `p`: undefined (`none`) through the null pointer
or outside the buffer. -/
def readAt (p : Option (List Int)) (i : Int) : Option Int :=
  if 0 ≤ i then p.bind fun l => l[i.toNat]? else none

/-- The loop `for(int i = 0; i < n; i++) mem[i] = val(i);` started at `i`, with
`count` turns to go; `mem` is the part of the buffer written so far. -/
def copyValues (val : List Int) : Nat → Nat → List Int → Option (List Int)
  | 0, _, mem => some mem
  | count + 1, i, mem =>
    match val[i]? with
    | none => none
    | some x => copyValues val count (i + 1) (mem ++ [x])

/-- The loop `for(int i = data_num; i < elem_num; i++) mem[i] = mem[data_num - 1];`
with `count` turns to go. -/
def fillValues (data_num : Int) : Nat → List Int → Option (List Int)
  | 0, mem => some mem
  | count + 1, mem =>
    match readAt (some mem) (data_num - 1) with
    | none => none
    | some x => fillValues data_num count (mem ++ [x])

/-- The branch of `GetTensorContentAndDim` for the packed format, the same for
`float_val` and `int_val`: the buffer of `elem_num` elements. -/
def packedBuffer (val : List Int) (elem_num : Int) : Option (List Int) :=
  let data_num : Int := val.length
  if data_num ≥ elem_num then copyValues val elem_num.toNat 0 []
  else
    match copyValues val data_num.toNat 0 [] with
    | none => none
    | some mem => fillValues data_num (elem_num - data_num).toNat mem

/-- The `switch(dim_size)` at the end of `GetTensorContentAndDim`; `layout` is
the string the caller passed in. -/
def layoutOfRank (dim_size : Nat) (layout : List Char) : List Char :=
  match dim_size with
  | 0 => "W".toList
  | 1 => "W".toList
  | 2 => "HW".toList
  | 4 => "NHWC".toList
  | _ => layout

/-- `tf_serializer::GetTensorContentAndDim`, called with an empty `dim`: the
dims pushed, `*mem_ptr` (`none` for `nullptr`) and `layout`. The outer `none`
is a read outside the packed list or the buffer. `elem_num` and the elements of
`dim` are `int`s: the product `elem_num *= size` and each `size` pushed are
converted. -/
def GetTensorContentAndDim (tf_tensor : TensorProto) (layout : List Char) :
    Option (List Int × Option (List Int) × List Char) :=
  let shape := tf_tensor.tensor_shape
  let elem_num : Int := shape.foldl (fun e d => toInt (e * d)) 1
  let dim := shape.map toInt
  let out := layoutOfRank shape.length layout
  if tf_tensor.tensor_content.length ≠ 0 then some (dim, some tf_tensor.tensor_content, out)
  else if tf_tensor.dtype = DataType.DT_FLOAT then
    (packedBuffer tf_tensor.float_val elem_num).map fun mem => (dim, some mem, out)
  else if tf_tensor.dtype = DataType.DT_INT32 then
    (packedBuffer tf_tensor.int_val elem_num).map fun mem => (dim, some mem, out)
  else some (dim, none, out)

/-- The record behind `tf_node->pb_defs[i]`; `none` when the vector has no
position `i`. -/
def pbDef (tf_net : GraphDef) (n : TFNode) (i : Nat) : Option NodeDef :=
  n.pb_defs[i]?.bind fun k => tf_net[k]?

/-- The dims `CreateInputNode` takes from the attribute `shape`, by `dim_size`;
`dim` is a `std::vector<int>`, each size is converted when it is stored. -/
def inputDimsOfShape (shape : List Int) : List Int :=
  match shape with
  | [d0, d1, d2, d3] => [toInt d0, toInt d3, toInt d1, toInt d2]
  | [d0, d1, d2] => [toInt d0, toInt d2, toInt d1]
  | [d0, d1] => [toInt d0, toInt d1]
  | [d0] => [toInt d0]
  | _ => []

/-- The reads `p[i]` for the positions `i` of a list, in order. -/
def readValues (p : Option (List Int)) : List Int → Option (List Int)
  | [] => some []
  | i :: rest =>
    match readAt p i, readValues p rest with
    | some x, some xs => some (x :: xs)
    | _, _ => none

/-- The dims `CreateInputNode` takes from a bound constant: `tf_dims` and
`mem_ptr` are what `GetTensorContentAndDim` returned and `reshape_dim` is
`mem_ptr` read as integers. Reading `tf_dims[0]` of an empty vector is
undefined. -/
def inputDimsOfTarget (tf_dims : List Int) (mem_ptr : Option (List Int)) : Option (List Int) :=
  match tf_dims[0]? with
  | none => none
  | some d0 =>
    let dim :=
      if d0 = 4 then readValues mem_ptr [0, 3, 1, 2]
      else readValues mem_ptr ((List.range d0.toNat).map Int.ofNat)
    dim.map fun l => l.map fun d => if d = -1 then 1 else d

/-- The part of `CreateInputNode` between the creation of the tensor and
`AddNodeOutputTensor`: the graph after `SetTensorDim`, if it is reached. -/
def inputTensorDims (tf_net : GraphDef) (n : TFNode) (graph : StaticGraph) (tensor : Nat) :
    Option StaticGraph :=
  let pb_defs_cnt := n.pb_defs.length
  if pb_defs_cnt = 1 then
    match pbDef tf_net n 0 with
    | none => none
    | some node_def =>
      match GetAttrValue node_def "shape".toList with
      | none => some graph
      | some shape => some (SetTensorDim graph tensor (inputDimsOfShape shape.shape))
  else
    match (if pb_defs_cnt = 0 then none else pbDef tf_net n (pb_defs_cnt - 1)) with
    | none => none
    | some node_def =>
      match GetAttrValue node_def "value".toList with
      | none => some graph
      | some value =>
        match GetTensorContentAndDim (value.tensor.getD {}) [] with
        | none => none
        | some (tf_dims, mem_ptr, _) =>
          (inputDimsOfTarget tf_dims mem_ptr).map fun dim => SetTensorDim graph tensor dim

/-- `tf_serializer::CreateInputNode`: the source graph, whose node gets its two
handles, and the target graph. -/
def CreateInputNode (tf_net : GraphDef) (tf_graph : TFGraph) (tf_node : Nat)
    (graph : StaticGraph) : Option (TFGraph × StaticGraph) :=
  let n := tf_graph.heap tf_node
  let r1 := CreateStaticNode graph n.name
  let node := r1.1
  let r2 := CreateStaticTensor r1.2 n.name
  let tensor := r2.1
  let s1 := SetTensorDataType (SetTensorDataLayout r2.2 tensor "NCHW".toList) tensor
    "float32".toList
  (inputTensorDims tf_net n s1 tensor).map fun s2 =>
    let s3 := AddNodeOutputTensor s2 node tensor
    let r3 := CreateStaticOp s3 "InputOp".toList
    let s4 := AddGraphInputNode (SetNodeOp r3.2 node r3.1) node
    (tf_graph.modify tf_node fun m =>
      { m with static_node := some node, static_tensor := some tensor }, s4)

/-- The block of `LoadConstTensor` guarded by `GetAttrValue(node_def, "value", value)`;
`mem_size` starts from `sizeof(float)`. -/
def constTensorValue (node_def : NodeDef) (graph : StaticGraph) (tensor : Nat) :
    Option StaticGraph :=
  match GetAttrValue node_def "value".toList with
  | none => some graph
  | some value =>
    match GetTensorContentAndDim (value.tensor.getD {}) [] with
    | none => none
    | some (dims, mem_ptr, layout) =>
      let mem_size : Int := dims.foldl (fun m d => toInt (m * d)) 4
      some (SetConstTensorBuffer
        (SetTensorDataLayout (SetTensorSize (SetTensorDim graph tensor dims) tensor mem_size)
          tensor layout) tensor mem_ptr)

/-- `tf_serializer::LoadConstTensor` (the source returns `true` on every path). -/
def LoadConstTensor (tf_net : GraphDef) (tf_graph : TFGraph) (tf_node : Nat)
    (graph : StaticGraph) : Option (TFGraph × StaticGraph) :=
  let n := tf_graph.heap tf_node
  let r1 := CreateStaticNode graph n.name
  let node := r1.1
  let r2 := CreateStaticConstTensor r1.2 n.name
  let tensor := r2.1
  let s1 := SetTensorDataType r2.2 tensor "float32".toList
  match pbDef tf_net n 0 with
  | none => none
  | some node_def =>
    (constTensorValue node_def s1 tensor).map fun s2 =>
      let s3 := AddNodeOutputTensor (SetConstTensorFileLocation s2 tensor (-1) 0) node tensor
      let r3 := CreateStaticOp s3 "Const".toList
      (tf_graph.modify tf_node fun m =>
        { m with static_node := some node, static_tensor := some tensor },
        SetNodeOp r3.2 node r3.1)

/-- The dims of the tensor behind a handle. -/
def StaticGraph.dimsOf (graph : StaticGraph) (tensor : Nat) : Option (List Int) :=
  graph.tensor_list[tensor]?.map fun t => t.dims

/-! ## Lowering: the translators

A translator is called with a node, the source graph and the target graph. None
of the translators in the file writes to the source graph, so a translator is a
function to the flag it returns and the new target graph. Handing a null handle
to the builder interface, or reading a vector or a repeated field of a record
outside its range, is undefined (`none`). -/

/-- Modelled from the spec: `op_load_t`, the type of a translator. -/
abbrev op_load_t := Nat → TFGraph → StaticGraph → Option (Bool × StaticGraph)

/-- The start of `LoadConv2D`: the input tensors are added to the node. The
result is `node`, the handle `input1->static_tensor` and the target graph. -/
def convInputs (tf_graph : TFGraph) (n : TFNode) (graph : StaticGraph) :
    Option (Nat × Nat × StaticGraph) :=
  match n.inputs[0]?, n.inputs[1]?, n.static_node with
  | some input0, some input1, some node =>
    match (tf_graph.heap input0).static_tensor, (tf_graph.heap input1).static_tensor with
    | some t0, some t1 =>
      let s := AddNodeInputTensor (AddNodeInputTensor graph node t0) node t1
      if n.inputs.length > 2 then
        match n.inputs[2]?.bind fun input2 => (tf_graph.heap input2).static_tensor with
        | some t2 => some (node, t1, AddNodeInputTensor s node t2)
        | none => none
      else some (node, t1, s)
    | _, _ => none
  | _, _, _ => none

/-- The attribute blocks `dilations`, `padding` and `strides` of `LoadConv2D`,
applied to `param`; the entries `list().i(k)` are stored into `int` members. -/
def convAttributes (node_def : NodeDef) (param : ConvParam) : Option ConvParam :=
  let dilated : Option ConvParam :=
    match GetAttrValue node_def "dilations".toList with
    | none => some param
    | some value =>
      match value.list_i[1]?, value.list_i[2]? with
      | some d1, some d2 => some { param with dilation_h := toInt d1, dilation_w := toInt d2 }
      | _, _ => none
  match dilated with
  | none => none
  | some p1 =>
    let p2 : ConvParam :=
      match GetAttrValue node_def "padding".toList with
      | none => p1
      | some value =>
        if value.s = "VALID".toList then { p1 with pad_h := 0, pad_w := 0 }
        else if value.s = "SAME".toList then { p1 with pad_h := -1, pad_w := -1 }
        else p1
    match GetAttrValue node_def "strides".toList with
    | none => some p2
    | some value =>
      match value.list_i[1]?, value.list_i[2]? with
      | some s1, some s2 => some { p2 with stride_h := toInt s1, stride_w := toInt s2 }
      | _, _ => none

/-- The local variables `in_channel`, `out_channel`, `kernel_h`, `kernel_w` and
`group` of `LoadConv2D`, with their initial values. -/
structure ConvDims where
  in_channel : Int := 1
  out_channel : Int := 1
  kernel_h : Int := 0
  kernel_w : Int := 0
  group : Int := 1
deriving DecidableEq

/-- The block of `LoadConv2D` that reads the shape of the weights, and the
`DepthwiseConv2dNative` block after it. The five variables are `int`s: the sizes
are converted when they are assigned, and so is the product. -/
def weightDims (weight_def : NodeDef) (op : List Char) : ConvDims :=
  let d : ConvDims :=
    match GetAttrValue weight_def "value".toList with
    | none => {}
    | some value =>
      match (value.tensor.getD {}).tensor_shape with
      | [d0, d1, d2, d3] =>
        { kernel_h := toInt d0, kernel_w := toInt d1, in_channel := toInt d2,
          out_channel := toInt d3 }
      | [d0, d1, d2] =>
        { kernel_h := 1, kernel_w := toInt d0, in_channel := toInt d1, out_channel := toInt d2 }
      | _ => {}
  if op = "DepthwiseConv2dNative".toList then
    { d with group := d.in_channel, out_channel := toInt (d.in_channel * d.out_channel),
             in_channel := 1 }
  else d

/-- The number of `float`s `new_weight` has room for:
`elem_size = out_channel * in_channel * kernel_h * kernel_w`, computed in `int`. -/
def weightElemSize (d : ConvDims) : Int :=
  toInt (toInt (toInt (d.out_channel * d.in_channel) * d.kernel_h) * d.kernel_w)

/-- The number of elements the four nested loops of `LoadConv2D` write through
`dst`: a loop with a bound that is not positive has no turn. -/
def weightWrites (d : ConvDims) : Int :=
  if 0 < d.out_channel ∧ 0 < d.in_channel ∧ 0 < d.kernel_h ∧ 0 < d.kernel_w then
    d.out_channel * d.in_channel * d.kernel_h * d.kernel_w
  else 0

/-- The second `DepthwiseConv2dNative` block of `LoadConv2D`, with the values the
loops run on; the division is that of C++, undefined by zero and for the
quotient of `-2^31` by `-1`. The loops write `weightWrites` elements to the
`weightElemSize` elements allocated for `new_weight`: a write outside the
buffer is undefined. Where the writes fit, the products of the index expression
lie below `elem_size` and are not altered by the conversion. -/
def loopDims (d : ConvDims) (op : List Char) : Option ConvDims :=
  let l : Option ConvDims :=
    if op = "DepthwiseConv2dNative".toList then
      if d.group = 0 ∨ (d.out_channel = -2147483648 ∧ d.group = -1) then none
      else some { d with in_channel := d.group, out_channel := Int.tdiv d.out_channel d.group }
    else some d
  l.bind fun l =>
    if weightWrites l = 0 ∨ weightWrites l ≤ weightElemSize l then some l else none

/-- The positions of `src` the four nested loops of `LoadConv2D` read, in the
order they are written through `dst`. -/
def weightIndices (out_channel in_channel kernel_h kernel_w : Int) : List Int :=
  (List.range out_channel.toNat).flatMap fun (o : Nat) =>
    (List.range in_channel.toNat).flatMap fun (i : Nat) =>
      (List.range kernel_h.toNat).flatMap fun (h : Nat) =>
        (List.range kernel_w.toNat).map fun (w : Nat) =>
          (h : Int) * (kernel_w * in_channel * out_channel) + (w : Int) * (in_channel * out_channel)
            + (i : Int) * out_channel + (o : Int)

/-- The vector `shape_data(8)` of `LoadConv2D` after the copy of `l` to its
front; more than 8 elements do not fit. -/
def shapeData (l : List Int) : Option (List Int) :=
  if l.length ≤ 8 then some (l ++ List.replicate (8 - l.length) 0) else none

/-- The block "special handle on merged PAD op" of `LoadConv2D`: `none` inside
when `SetOperatorParam` is not reached, else the four `pads`. -/
def mergedPads (tf_net : GraphDef) (n : TFNode) : Option (Option (List Int)) :=
  let pb_def_num := n.pb_defs.length
  if pb_def_num > 1 then
    match pbDef tf_net n (pb_def_num - 1) with
    | none => none
    | some node_def =>
      if node_def.op = "Const".toList then
        match (GetAttrValue node_def "value".toList).bind fun value => value.tensor with
        | none => some none
        | some tf_tensor =>
          if tf_tensor.tensor_shape = [4, 2] then
            let shape_data :=
              if tf_tensor.tensor_content.length ≠ 0 then shapeData tf_tensor.tensor_content
              else shapeData tf_tensor.int_val
            match shape_data with
            | some [_, _, s2, s3, s4, s5, _, _] => some (some [s2, s4, s3, s5])
            | _ => none
          else some none
      else some none
  else some none

/-- `tf_serializer::LoadConv2D`. `def_param` is what
`OpManager::GetOpDefParam("Convolution")` returns, which the file does not
define. -/
def LoadConv2D (tf_net : GraphDef) (def_param : ConvParam) : op_load_t :=
  fun tf_node tf_graph graph =>
  let n := tf_graph.heap tf_node
  match convInputs tf_graph n graph,
    (pbDef tf_net n 0).bind (fun node_def => convAttributes node_def def_param),
    n.inputs[1]?.bind (fun input1 => pbDef tf_net (tf_graph.heap input1) 0) with
  | some (node, weight_tensor, s1), some attrs, some weight_def =>
    let d := weightDims weight_def n.op
    let s2 := SetTensorDataLayout
      (SetTensorDim s1 weight_tensor [d.out_channel, d.in_channel, d.kernel_h, d.kernel_w])
      weight_tensor "NCHW".toList
    let param : ConvParam :=
      { attrs with kernel_h := d.kernel_h, kernel_w := d.kernel_w,
                   output_channel := d.out_channel, group := d.group }
    let r := CreateStaticOp s2 "Convolution".toList
    let s3 := SetNodeOp (SetOperatorParam r.2 r.1 (OpParam.conv param)) node r.1
    match loopDims d n.op with
    | none => none
    | some l =>
      match readValues (GetConstTensorBuffer s3 weight_tensor)
          (weightIndices l.out_channel l.in_channel l.kernel_h l.kernel_w),
        mergedPads tf_net n with
      | some new_weight, some pads =>
        let s4 := SetConstTensorBuffer s3 weight_tensor (some new_weight)
        match pads with
        | none => some (true, s4)
        | some p => some (true, SetOperatorParam s4 r.1 (OpParam.conv { param with pads := p }))
      | _, _ => none
  | _, _, _ => none

/-- `tf_serializer::LoadRelu`; of `ReLuParam` only `negative_slope`, which the
source sets, is kept. -/
def LoadRelu : op_load_t :=
  fun tf_node tf_graph graph =>
  let n := tf_graph.heap tf_node
  match n.inputs[0]?.bind (fun input => (tf_graph.heap input).static_tensor), n.static_node with
  | some t, some node =>
    let s1 := AddNodeInputTensor graph node t
    let r := CreateStaticOp s1 "ReLu".toList
    some (true, SetNodeOp (SetOperatorParam r.2 r.1 (OpParam.relu 0)) node r.1)
  | _, _ => none

/-- `tf_serializer::LoadRelu6`. -/
def LoadRelu6 : op_load_t :=
  fun tf_node tf_graph graph =>
  let n := tf_graph.heap tf_node
  match n.inputs[0]?.bind (fun input => (tf_graph.heap input).static_tensor), n.static_node with
  | some t, some node =>
    let s1 := AddNodeInputTensor graph node t
    let r := CreateStaticOp s1 "ReLu6".toList
    some (true, SetNodeOp r.2 node r.1)
  | _, _ => none

/-! ## Lowering: `GenerateStaticGraph` -/

/-- The first loop of `GenerateStaticGraph` ("create all tensor node") over the
part of `seq_nodes` still to visit. -/
def createTensorNodes (tf_net : GraphDef) :
    List Nat → TFGraph → StaticGraph → Option (TFGraph × StaticGraph)
  | [], g, graph => some (g, graph)
  | tf_node :: rest, g, graph =>
    let n := g.heap tf_node
    if n.no_static_node then createTensorNodes tf_net rest g graph
    else if n.op = "Const".toList then
      match LoadConstTensor tf_net g tf_node graph with
      | none => none
      | some (g1, s1) => createTensorNodes tf_net rest g1 s1
    else if n.op = "Placeholder".toList then
      match CreateInputNode tf_net g tf_node graph with
      | none => none
      | some (g1, s1) => createTensorNodes tf_net rest g1 s1
    else
      let r1 := CreateStaticNode graph n.name
      let r2 := CreateStaticTensor r1.2 n.name
      let s1 := SetTensorDataType (SetTensorDataLayout r2.2 r2.1 "NCHW".toList) r2.1
        "float32".toList
      createTensorNodes tf_net rest
        (g.modify tf_node fun m => { m with static_node := some r1.1, static_tensor := some r2.1 })
        (AddNodeOutputTensor s1 r1.1 r2.1)

/-- The second loop of `GenerateStaticGraph` over the part of `seq_nodes` still
to visit, and the test `i < node_number` after it: a `break` gives `false`.
`registry op` is `none` when `FindOpLoadMethod(op)` fails and the translator
`GetOpLoadMethod(op)` otherwise. -/
def loadNodes (registry : List Char → Option op_load_t) (tf_graph : TFGraph) :
    List Nat → StaticGraph → Option (Bool × StaticGraph)
  | [], graph => some (true, graph)
  | tf_node :: rest, graph =>
    let n := tf_graph.heap tf_node
    if n.op = "Placeholder".toList ∨ n.op = "Const".toList then
      loadNodes registry tf_graph rest graph
    else
      match registry n.op with
      | none => some (false, graph)
      | some op_func =>
        match op_func tf_node tf_graph graph with
        | none => none
        | some (false, s1) => some (false, s1)
        | some (true, s1) => loadNodes registry tf_graph rest s1

/-- `TFSerializer::GenerateStaticGraph`: the flag, the source graph with the
handles set, and the target graph. -/
def GenerateStaticGraph (tf_net : GraphDef) (registry : List Char → Option op_load_t)
    (tf_graph : TFGraph) (graph : StaticGraph) : Option (Bool × TFGraph × StaticGraph) :=
  match createTensorNodes tf_net tf_graph.seq_nodes tf_graph graph with
  | none => none
  | some (g1, s1) =>
    (loadNodes registry g1 g1.seq_nodes s1).map fun r => (r.1, g1, r.2)

/-! ## The extraction of a recurrent scope -/

/-- The first loop of `TFSerializer::StripRNNScope` over the part of `seq_nodes`
still to visit: a node for which `name.find(rnn_scope.c_str(), 0, prefix_len)`
finds the `prefix_len` characters of `rnn_scope` is erased from the sequence and
inserted into the set `rnn_graph`, any other node is kept. The result is the
sequence kept and `rnn_graph`; the `std::set` is a list without duplicates, the
order of which plays no role. -/
def stripScopeNodes (g : TFGraph) (rnn_scope : List Char) :
    List Nat → List Nat → List Nat × List Nat
  | [], rnn_graph => ([], rnn_graph)
  | node :: rest, rnn_graph =>
    if (strFind rnn_scope (g.heap node).name).isNone then
      ((node :: (stripScopeNodes g rnn_scope rest rnn_graph).1),
        (stripScopeNodes g rnn_scope rest rnn_graph).2)
    else stripScopeNodes g rnn_scope rest (rnn_graph.insert node)

/-! ## Lowering: matrix multiplication -/

/-- Modelled from the spec: `FindTensor(graph, name)`, the tensor of the graph
with this name; null (`none`) when there is none. -/
def FindTensor (graph : StaticGraph) (name : List Char) : Option Nat :=
  if graph.tensor_list.findIdx (fun t => decide (t.name = name)) < graph.tensor_list.length then
    some (graph.tensor_list.findIdx fun t => decide (t.name = name))
  else none

/-- The attribute blocks `transpose_a` and `transpose_b` of `LoadGemm` and the
two assignments after them, applied to `param`. -/
def gemmAttributes (node_def : NodeDef) (param : GemmParam) : GemmParam :=
  let p1 : GemmParam :=
    match GetAttrValue node_def "transpose_a".toList with
    | none => param
    | some value => { param with transA := value.b }
  let p2 : GemmParam :=
    match GetAttrValue node_def "transpose_b".toList with
    | none => p1
    | some value => { p1 with transB := value.b }
  { p2 with alpha := 1, beta := 1 }

/-- The block of `LoadGemm` guarded by `tf_node->inputs.size() > 2`. -/
def gemmBias (tf_graph : TFGraph) (n : TFNode) (node : Nat) (graph : StaticGraph) :
    Option StaticGraph :=
  if n.inputs.length > 2 then
    match n.inputs[2]? with
    | none => none
    | some bias =>
      match (tf_graph.heap bias).static_tensor with
      | none => none
      | some t2 =>
        match FindTensor (AddNodeInputTensor graph node t2) (tf_graph.heap bias).name with
        | none => none
        | some bias_tensor =>
          some (SetTensorDataLayout (AddNodeInputTensor graph node t2) bias_tensor "W".toList)
  else some graph

/-- The positions of `data` the two nested loops of `LoadGemm` read, in the
order of the positions `i * k + j` of `tmp` they write. -/
def gemmIndices (k n : Int) : List Int :=
  (List.range n.toNat).flatMap fun (i : Nat) =>
    (List.range k.toNat).map fun (j : Nat) => (j : Int) * n + (i : Int)

/-- The block "swap shape" of `LoadGemm` on `weight_tensor`: `dims[0]` and
`dims[1]` are exchanged and the front of the buffer is overwritten by `tmp`.
With a negative `k` or `n` the loops write nothing, and `memcpy` is defined only
for the size 0. -/
def gemmTranspose (graph : StaticGraph) (weight_tensor : Nat) : Option StaticGraph :=
  match graph.dimsOf weight_tensor with
  | some (k :: n :: rest) =>
    let s1 := graph.setTensor weight_tensor fun t => { t with dims := n :: k :: rest }
    if k < 0 ∨ n < 0 then
      if n * k = 0 then some s1 else none
    else
      match readValues (GetConstTensorBuffer s1 weight_tensor) (gemmIndices k n) with
      | none => none
      | some tmp =>
        some (s1.setTensor weight_tensor fun t =>
          { t with mem_addr := t.mem_addr.map fun data => tmp ++ data.drop tmp.length })
  | _ => none

/-- The end of `LoadGemm` when `transA` is not set ("create fc instead"). -/
def gemmAsFC (def_fc : FCParam) (transB : Bool) (node weight_tensor : Nat)
    (graph : StaticGraph) : Option (Bool × StaticGraph) :=
  match (if transB then some graph else gemmTranspose graph weight_tensor) with
  | none => none
  | some s1 =>
    let r := CreateStaticOp s1 "FullyConnected".toList
    match (s1.dimsOf weight_tensor).bind fun dims => dims[0]? with
    | none => none
    | some num_output =>
      some (true, SetNodeOp
        (SetOperatorParam r.2 r.1 (OpParam.fc { def_fc with num_output := num_output }))
        node r.1)

/-- `tf_serializer::LoadGemm`. `def_gemm` and `def_fc` are what
`OpManager::GetOpDefParam` returns for `"Gemm"` and `"FullyConnected"`, which the
file does not define. -/
def LoadGemm (tf_net : GraphDef) (def_gemm : GemmParam) (def_fc : FCParam) : op_load_t :=
  fun tf_node tf_graph graph =>
  let n := tf_graph.heap tf_node
  match n.inputs[0]?, n.inputs[1]?, n.static_node, pbDef tf_net n 0 with
  | some i0, some i1, some node, some node_def =>
    let input0 := if (tf_graph.heap i0).op = "Const".toList then i1 else i0
    let input1 := if (tf_graph.heap i0).op = "Const".toList then i0 else i1
    match (tf_graph.heap input0).static_tensor, (tf_graph.heap input1).static_tensor with
    | some t0, some t1 =>
      let s1 := AddNodeInputTensor (AddNodeInputTensor graph node t0) node t1
      let param := gemmAttributes node_def def_gemm
      match FindTensor s1 (tf_graph.heap input1).name with
      | none => none
      | some weight_tensor =>
        match gemmBias tf_graph n node (SetTensorDataLayout s1 weight_tensor "HW".toList) with
        | none => none
        | some s3 =>
          if param.transA then
            let r := CreateStaticOp s3 "Gemm".toList
            some (true, SetNodeOp (SetOperatorParam r.2 r.1 (OpParam.gemm param)) node r.1)
          else gemmAsFC def_fc param.transB node weight_tensor s3
    | _, _ => none
  | _, _, _, _ => none

/-! ## Lowering: concatenation -/

/-- The table `static int nhwc_axis_swap[] = {0, 2, 3, 1}`. -/
def nhwc_axis_swap : List Int := [0, 2, 3, 1]

/-- The loop of `LoadConcat` over `tf_node->inputs`: the tensor of each input is
added to the target node. -/
def concatInputs (tf_graph : TFGraph) (node : Nat) : List Nat → StaticGraph → Option StaticGraph
  | [], graph => some graph
  | input :: rest, graph =>
    match (tf_graph.heap input).static_tensor with
    | none => none
    | some t => concatInputs tf_graph node rest (AddNodeInputTensor graph node t)

/-- The axis block of `LoadConcat`: without the attribute `value` the parameter
is left as it is; else `param.axis = nhwc_axis_swap[int_val(0)]`, a read that is
undefined outside the packed list or outside the table. -/
def concatAxis (node_def : NodeDef) (param : ConcatParam) : Option ConcatParam :=
  match GetAttrValue node_def "value".toList with
  | none => some param
  | some value =>
    match (value.tensor.getD {}).int_val[0]? with
    | none => none
    | some axis => (readAt (some nhwc_axis_swap) axis).map fun a => { param with axis := a }

/-- `tf_serializer::LoadConcat`. `def_param` is what
`OpManager::GetOpDefParam("Concat")` returns, which the file does not define. -/
def LoadConcat (tf_net : GraphDef) (def_param : ConcatParam) : op_load_t :=
  fun tf_node tf_graph graph =>
  let n := tf_graph.heap tf_node
  match n.static_node with
  | none => none
  | some node =>
    match concatInputs tf_graph node n.inputs graph,
      (pbDef tf_net n 1).bind (fun node_def => concatAxis node_def def_param) with
    | some s1, some param =>
      let r := CreateStaticOp s1 "Concat".toList
      some (true, SetNodeOp (SetOperatorParam r.2 r.1 (OpParam.concat param)) node r.1)
    | _, _ => none

/-! ## The extraction of recurrent scopes: detection, rewiring, slots

A `std::set<TFNode*>` is kept as the list of its elements in the order the set is
iterated, ascending addresses; the addresses are those of the store. -/

/-- Modelled from the spec: the constants `TF_RNN_LSTM`, `TF_RNN_GRU` and
`TF_RNN_BASIC_LSTM` (declared in `tf_serializer.hpp`, not among the sources), the
values `FindRNNScope` returns besides `-1`; only that they differ from each
other and from `-1` is used. -/
inductive RNNType where
  | TF_RNN_LSTM
  | TF_RNN_GRU
  | TF_RNN_BASIC_LSTM
deriving DecidableEq

/-- `s.find(pat, pos)`: the first occurrence of `pat` in `s` at or after `pos`,
`none` for `npos`, which is also the result for a `pos` beyond the end. -/
def strFindFrom (pat : List Char) (pos : Nat) (s : List Char) : Option Nat :=
  if pos ≤ s.length then (strFind pat (s.drop pos)).map fun k => k + pos else none

/-- `s.rfind(c)` for a one-character pattern: the position of the last
occurrence, `none` for `npos`. -/
def strRFind (c : Char) : List Char → Option Nat
  | [] => none
  | x :: xs =>
    match strRFind c xs with
    | some k => some (k + 1)
    | none => if x = c then some 0 else none

/-- The tests of the loop of `FindRNNScope` on one name: `none` when the loop
goes on to the next node, else `while_pos` and the type found. -/
def rnnMarker (name : List Char) : Option (Nat × RNNType) :=
  match strFind "while".toList name with
  | none => none
  | some while_pos =>
    if (strFindFrom "lstm_cell".toList while_pos name).isSome then
      some (while_pos, RNNType.TF_RNN_LSTM)
    else if (strFindFrom "gru".toList while_pos name).isSome then
      some (while_pos, RNNType.TF_RNN_GRU)
    else if (strFindFrom "basic_lstm_cell".toList while_pos name).isSome then
      some (while_pos, RNNType.TF_RNN_BASIC_LSTM)
    else none

/-- The scope `FindRNNScope` derives from the name it stopped at:
`rnn_node.substr(0, while_pos - 1)` up to and including its last `'/'`. The
arithmetic is that of `size_type`: `while_pos - 1` is `npos` for `while_pos = 0`
and the whole name is taken, and `npos + 1` is `0` when there is no `'/'`. -/
def rnnScopeOf (rnn_node : List Char) (while_pos : Nat) : List Char :=
  let rnn_layer := if while_pos = 0 then rnn_node else rnn_node.take (while_pos - 1)
  match strRFind '/' rnn_layer with
  | none => []
  | some up_pos => rnn_layer.take (up_pos + 1)

/-- `TFSerializer::FindRNNScope`: the returned type (`none` for `-1`) and the
value of the reference parameter `rnn_scope` afterwards. -/
def FindRNNScope (tf_graph : TFGraph) (rnn_scope : List Char) : Option RNNType × List Char :=
  match tf_graph.seq_nodes.findSome? fun node =>
      (rnnMarker (tf_graph.heap node).name).map fun r => ((tf_graph.heap node).name, r) with
  | none => (none, rnn_scope)
  | some (rnn_node, while_pos, rnn_type) =>
    if rnn_node = [] then (none, rnn_scope)
    else (some rnn_type, rnnScopeOf rnn_node while_pos)

/-- `std::set::insert` on a set kept in ascending order. -/
def setInsert (a : Nat) : List Nat → List Nat
  | [] => [a]
  | b :: l => if a < b then a :: b :: l else if a = b then b :: l else b :: setInsert a l

/-- The set of the elements of a list, in ascending order. -/
def setOrder (l : List Nat) : List Nat :=
  l.foldr setInsert []

/-- The second loop of `StripRNNScope`: the sets `rnn_inputs` and `rnn_outputs` of
the nodes outside `rnn_graph` that an absorbed node reads, or that read one. -/
def rnnBoundary (g : TFGraph) (rnn_graph : List Nat) : List Nat × List Nat :=
  (setOrder (rnn_graph.flatMap fun node =>
      (g.heap node).inputs.filter fun input => decide (input ∉ rnn_graph)),
    setOrder (rnn_graph.flatMap fun node =>
      (g.heap node).outputs.filter fun output => decide (output ∉ rnn_graph)))

/-- The loop "insert lstm node" of `StripRNNScope`: `lstm_node` is put before the
first node of the sequence that is in `rnn_inputs`, if there is one. -/
def insertLSTMNode (rnn_inputs : List Nat) (lstm_node : Nat) : List Nat → List Nat
  | [] => []
  | node :: rest =>
    if node ∈ rnn_inputs then lstm_node :: node :: rest
    else node :: insertLSTMNode rnn_inputs lstm_node rest

/-- One turn of the loop of `StripRNNScope` over `rnn_inputs`. -/
def connectRNNInput (rnn_graph : List Nat) (lstm_node : Nat) (g : TFGraph)
    (input_node : Nat) : Option TFGraph :=
  let g1 := g.modify input_node fun n =>
    { n with outputs := n.outputs.map fun child_node =>
        if child_node ∈ rnn_graph then lstm_node else child_node }
  let g2 := g1.modify lstm_node fun n => { n with inputs := n.inputs ++ [input_node] }
  if (g2.heap input_node).op = "Identity".toList then do
    let parent_node ← (g2.heap input_node).inputs[0]?
    MergeChildNode g2 parent_node input_node
  else some g2

/-- One turn of the loop of `StripRNNScope` over `rnn_outputs`. -/
def connectRNNOutput (rnn_graph : List Nat) (lstm_node : Nat) (g : TFGraph)
    (output_node : Nat) : TFGraph :=
  let g1 := g.modify output_node fun n =>
    { n with inputs := n.inputs.map fun parent_node =>
        if parent_node ∈ rnn_graph then lstm_node else parent_node }
  g1.modify lstm_node fun n => { n with outputs := n.outputs ++ [output_node] }

/-- One turn of the first loop of `ParseLSTMGraph`, on an input of the
composite node. -/
def parseLSTMInput (g : TFGraph) (slots : LSTMSlots) (node : Nat) : LSTMSlots :=
  let name := (g.heap node).name
  if (g.heap node).op ≠ "Const".toList then slots
  else if (strFind "lstm_cell/kernel".toList name).isSome then { slots with kernel := some node }
  else if (strFind "lstm_cell/bias".toList name).isSome then { slots with bias := some node }
  else if (strFind "lstm_cell/w_f_diag".toList name).isSome then
    { slots with w_f_diag := some node }
  else if (strFind "lstm_cell/w_o_diag".toList name).isSome then
    { slots with w_o_diag := some node }
  else if (strFind "lstm_cell/w_i_diag".toList name).isSome then
    { slots with w_i_diag := some node }
  else if (strFind "lstm_cell/projection/kernel".toList name).isSome then
    { slots with projection := some node }
  else slots

/-- The test `name.find(pat, name_len - pat.size()) != npos` of `ParseLSTMGraph`.
The difference is taken in `size_type`: for a name shorter than `pat` it is
beyond the end of the name and nothing is found. -/
def strEndsAt (pat name : List Char) : Bool :=
  if pat.length ≤ name.length then
    (strFindFrom pat (name.length - pat.length) name).isSome
  else false

/-- One turn of the second loop of `ParseLSTMGraph`, on an absorbed node. -/
def parseLSTMState (g : TFGraph) (slots : LSTMSlots) (node : Nat) : LSTMSlots :=
  let name := (g.heap node).name
  if strEndsAt "LSTMCellZeroState/zeros".toList name then { slots with init_c := some node }
  else if strEndsAt "LSTMCellZeroState/zeros_1".toList name then
    { slots with init_h := some node }
  else if strEndsAt "lstm_cell/add/y".toList name then { slots with forget_bias := some node }
  else slots

/-- `TFSerializer::ParseLSTMGraph`. The slots are those of the object at
`lstm_node`, which the caller made by `new LSTMNode()`; for an object without
the members of `LSTMNode` the call would not type-check, and the slots start
empty here. -/
def ParseLSTMGraph (g : TFGraph) (lstm_node : Nat) (rnn_graph : List Nat) : TFGraph :=
  let slots := (g.heap lstm_node).lstm.getD {}
  let s1 := (g.heap lstm_node).inputs.foldl (parseLSTMInput g) slots
  let s2 := rnn_graph.foldl (parseLSTMState g) s1
  g.modify lstm_node fun n => { n with lstm := some s2 }

/-- The last loop of `StripRNNScope`, "cleanup zero in/zero out node". -/
def removeUnlinked (g : TFGraph) : TFGraph :=
  { g with seq_nodes := g.seq_nodes.filter fun node =>
      !(decide ((g.heap node).inputs.length = 0 ∧ (g.heap node).outputs.length = 0)) }

/-- `TFSerializer::StripRNNScope`. The composite node is allocated at the
address `next`. -/
def StripRNNScope (tf_graph : TFGraph) (rnn_scope : List Char) (rnn_type : Option RNNType) :
    Option TFGraph :=
  let lstm_node := tf_graph.next
  let r := stripScopeNodes tf_graph rnn_scope tf_graph.seq_nodes []
  let rnn_graph := setOrder r.2
  let g0 : TFGraph :=
    { seq_nodes := r.1
      heap := fun b =>
        if b = lstm_node then
          { name := rnn_scope ++ "lstm".toList, op := "LSTM".toList,
            lstm := some { rnn_graph := rnn_graph } }
        else tf_graph.heap b
      next := tf_graph.next + 1 }
  let b := rnnBoundary g0 rnn_graph
  let g1 : TFGraph := { g0 with seq_nodes := insertLSTMNode b.1 lstm_node g0.seq_nodes }
  match b.1.foldlM (connectRNNInput rnn_graph lstm_node) g1 with
  | none => none
  | some g2 =>
    let g3 := b.2.foldl (connectRNNOutput rnn_graph lstm_node) g2
    let g4 := if rnn_type = some RNNType.TF_RNN_LSTM then ParseLSTMGraph g3 lstm_node rnn_graph
      else g3
    some (removeUnlinked g4)

/-- `TFSerializer::OptimizeRNN`. The loop of the source has no bound; `fuel`
bounds the number of its turns, and running out of it gives no result. -/
def OptimizeRNN : Nat → TFGraph → Option (Bool × TFGraph)
  | 0, _ => none
  | fuel + 1, tf_graph =>
    let r := FindRNNScope tf_graph []
    if r.2 = [] then some (true, tf_graph)
    else
      match StripRNNScope tf_graph r.2 r.1 with
      | none => none
      | some g1 => OptimizeRNN fuel g1

/-! ## Properties of graphs used in the statements -/

/-- Edge symmetry as the specification words it: `b` is among the outputs of
`a` if and only if `a` is among the inputs of `b`. -/
def EdgeSym (g : TFGraph) : Prop :=
  ∀ a b, b ∈ (g.heap a).outputs ↔ a ∈ (g.heap b).inputs

/-- Edge symmetry with multiplicities: `b` occurs in the outputs of `a` exactly
as many times as `a` occurs in the inputs of `b`. -/
def CountSym (g : TFGraph) : Prop :=
  ∀ a b, (g.heap a).outputs.count b = (g.heap b).inputs.count a

/-- Exchange the input and output lists of a node. -/
def TFNode.swap (n : TFNode) : TFNode :=
  { n with inputs := n.outputs, outputs := n.inputs }

/-- Reverse every edge of the graph. -/
def TFGraph.mirror (g : TFGraph) : TFGraph :=
  { g with heap := fun a => (g.heap a).swap }

/-- The entries of an adjacency list that are neither `base` nor `parent`. -/
def externalNeighbours (base parent : Nat) (l : List Nat) : List Nat :=
  l.filter fun x => x ≠ base ∧ x ≠ parent

/-- A graph given by the list of its node objects: the node at position `a` of
the list has address `a`, every other address holds an empty node. -/
def TFGraph.ofNodes (l : List TFNode) : TFGraph :=
  { seq_nodes := List.range l.length, heap := fun a => l.getD a {}, next := l.length }

/-- Every address stored in an adjacency list of `l` is a position of `l`. -/
def closedNodes (l : List TFNode) : Prop :=
  ∀ n ∈ l, ∀ x ∈ n.inputs ++ n.outputs, x < l.length

instance (l : List TFNode) : Decidable (closedNodes l) := by
  unfold closedNodes; infer_instance

/-- A node with its two adjacency lists emptied: what no edge operation changes. -/
def TFNode.unlinked (n : TFNode) : TFNode :=
  { n with inputs := [], outputs := [] }

/-- The name a reference stands for as the specification words it: the
control-dependency marker `'^'` in front is stripped and so is the trailing
`":<output-index>"` selector. -/
def specReferencedName (ref : List Char) : List Char :=
  (if ref.head? = some '^' then ref.drop 1 else ref).takeWhile fun c => c ≠ ':'

/-- No dangling reference, in the specification's sense: every reference of
every record, marker and selector stripped, is the name of a record. -/
def NoDanglingRefs (tf_net : GraphDef) : Prop :=
  ∀ r ∈ tf_net, ∀ ref ∈ r.input, ∃ r2 ∈ tf_net, r2.name = specReferencedName ref

instance (tf_net : GraphDef) : Decidable (NoDanglingRefs tf_net) := by
  unfold NoDanglingRefs; infer_instance

/-- The records carry pairwise different names. -/
def UniqueNames (tf_net : GraphDef) : Prop :=
  (tf_net.map fun r => r.name).Nodup

instance (tf_net : GraphDef) : Decidable (UniqueNames tf_net) := by
  unfold UniqueNames; infer_instance

/-- Total number of input references of the records. -/
def refCount (tf_net : GraphDef) : Nat :=
  (tf_net.map fun r => r.input.length).sum

/-- Number of edges of the graph, counted on the input lists of its nodes. -/
def inputEdgeCount (g : TFGraph) : Nat :=
  (g.seq_nodes.map fun a => (g.heap a).inputs.length).sum

/-- Number of edges of the graph, counted on the output lists of its nodes. -/
def outputEdgeCount (g : TFGraph) : Nat :=
  (g.seq_nodes.map fun a => (g.heap a).outputs.length).sum

/-- Two nodes joined by a double edge, as `ConstructGraph` builds for a record
`b` with inputs `["a", "a"]`: node 0 is `b`, node 1 is `a`. -/
def doubleEdgeGraph : TFGraph :=
  TFGraph.ofNodes [{ inputs := [1, 1] }, { outputs := [0, 0] }]

/-- Two nodes on a cycle: each is the single input and the single output of the
other. -/
def twoCycleGraph : TFGraph :=
  TFGraph.ofNodes [{ inputs := [1], outputs := [1] }, { inputs := [0], outputs := [0] }]

/-- Node 0 carries a self-loop and has node 1 as its second input. -/
def selfLoopGraph : TFGraph :=
  TFGraph.ofNodes [{ inputs := [0, 1], outputs := [0] }, { outputs := [0] }]

/-- Node 1 lists node 0 twice among its outputs, node 0 lists node 1 once among
its inputs. -/
def doubledOutputGraph : TFGraph :=
  TFGraph.ofNodes [{ inputs := [1] }, { outputs := [0, 0] }]

/-- Node 1 lists node 0 twice among its inputs, node 0 lists node 1 once among
its outputs. -/
def doubledInputGraph : TFGraph :=
  TFGraph.ofNodes [{ outputs := [1] }, { inputs := [0, 0] }]

/-- Node 1 is the single input of node 0 and carries a self-loop. -/
def selfLoopParentGraph : TFGraph :=
  TFGraph.ofNodes [{ inputs := [1] }, { inputs := [1], outputs := [1, 0] }]

/-- Node 1 feeds node 0 once and node 2; node 2 lists node 1 twice among its
inputs. -/
def unevenGraph : TFGraph :=
  TFGraph.ofNodes [{ inputs := [1] }, { outputs := [0, 2] }, { inputs := [1, 1] }]

/-- A chain `0 → 1 → 2` with a second consumer `3` of node 1 and a second
producer `4` of node 1. -/
def chainGraph : TFGraph :=
  TFGraph.ofNodes
    [{ outputs := [1] }, { inputs := [0, 4], outputs := [2, 3] }, { inputs := [1] },
     { inputs := [1] }, { outputs := [1] }]

/-- Two records, the second holding one reference that carries both the control
marker and an output-index selector. -/
def markedSelectorNet : GraphDef :=
  [{ name := "a".toList, op := "Const".toList },
   { name := "b".toList, op := "Identity".toList, input := ["^a:0".toList] }]

/-- Two records, the second referring to the first once with a selector and once
with both the control marker and a selector. -/
def twoReferenceNet : GraphDef :=
  [{ name := "x".toList, op := "Placeholder".toList },
   { name := "y".toList, op := "Add".toList, input := ["x:0".toList, "^x:1".toList] }]

/-- Three records whose references use the forms `name`, `name:<k>` and `^name`. -/
def smallNet : GraphDef :=
  [{ name := "a".toList, op := "Placeholder".toList },
   { name := "b".toList, op := "Relu".toList, input := ["a".toList] },
   { name := "c".toList, op := "Add".toList, input := ["a:0".toList, "^b".toList] }]

/-- The flattened references of the records, in the order the second scan of
`ConstructGraph` reaches them. -/
def allReferences (tf_net : GraphDef) : List (List Char) :=
  tf_net.flatMap fun r => r.input

/-- The number of references the second scan of `ConstructGraph` resolves before
the first one whose cleaned-up name is the name of no record. -/
def resolvedBefore (tf_net : GraphDef) : Nat :=
  ((allReferences tf_net).takeWhile fun ref =>
    decide (cleanupName ref ∈ tf_net.map fun r => r.name)).length

/-- Two records `p` and `q`; the reference of `q` names `p` with the control
marker and an output-index selector. -/
def resolvableButFailingNet : GraphDef :=
  [{ name := "p".toList, op := "Const".toList },
   { name := "q".toList, op := "Identity".toList, input := ["^p:0".toList] }]

/-- Two records `a:` and `b`; the reference `^a:0` of `b` names, marker and
selector stripped, a node `a` that does not exist. -/
def danglingButAcceptedNet : GraphDef :=
  [{ name := "a:".toList, op := "Const".toList },
   { name := "b".toList, op := "Identity".toList, input := ["^a:0".toList] }]

/-- Three records; the second reference of `c` names no record. -/
def danglingNet : GraphDef :=
  [{ name := "a".toList, op := "Placeholder".toList },
   { name := "b".toList, op := "Relu".toList, input := ["a".toList] },
   { name := "c".toList, op := "Add".toList, input := ["b".toList, "missing".toList] }]

/-- The operator types some pass of `OptimizeGraph` looks for. -/
def patternOps : List (List Char) :=
  ["Reshape".toList, "Squeeze".toList, "Identity".toList, "ConcatV2".toList,
   "FIFOQueueV2".toList, "ExpandDims".toList, "Conv2D".toList,
   "DepthwiseConv2dNative".toList, "MatMul".toList, "Add".toList,
   "ResizeNearestNeighbor".toList, "Minimum".toList, "StridedSlice".toList, "Mean".toList,
   "ArgMax".toList]

/-- A Placeholder feeding a Relu. -/
def plainGraph : TFGraph :=
  TFGraph.ofNodes
    [{ idx := 0, name := "input".toList, op := "Placeholder".toList, outputs := [1],
       pb_defs := [0] },
     { idx := 1, name := "relu".toList, op := "Relu".toList, inputs := [0], pb_defs := [1] }]

/-- A Reshape with a single input, fed by a Placeholder and feeding a Softmax. -/
def shortReshapeGraph : TFGraph :=
  TFGraph.ofNodes
    [{ idx := 0, name := "input".toList, op := "Placeholder".toList, outputs := [1],
       pb_defs := [0] },
     { idx := 1, name := "reshape".toList, op := "Reshape".toList, inputs := [0],
       outputs := [2], pb_defs := [1] },
     { idx := 2, name := "prob".toList, op := "Softmax".toList, inputs := [1],
       pb_defs := [2] }]

/-- An ExpandDims with a single input, fed by a Placeholder and feeding a Relu. -/
def shortExpandDimsGraph : TFGraph :=
  TFGraph.ofNodes
    [{ idx := 0, name := "input".toList, op := "Placeholder".toList, outputs := [1],
       pb_defs := [0] },
     { idx := 1, name := "expand".toList, op := "ExpandDims".toList, inputs := [0],
       outputs := [2], pb_defs := [1] },
     { idx := 2, name := "relu".toList, op := "Relu".toList, inputs := [1], pb_defs := [2] }]

/-- A Conv2D with its two inputs and no consumer. -/
def lastConvGraph : TFGraph :=
  TFGraph.ofNodes
    [{ idx := 0, name := "input".toList, op := "Placeholder".toList, outputs := [2],
       pb_defs := [0] },
     { idx := 1, name := "weights".toList, op := "Const".toList, outputs := [2],
       pb_defs := [1] },
     { idx := 2, name := "conv".toList, op := "Conv2D".toList, inputs := [0, 1],
       pb_defs := [2] }]

/-- A Squeeze with two consumers, neither of them a Softmax: the shape the
Squeeze removal expects (a single consumer) is absent. -/
def forkedSqueezeGraph : TFGraph :=
  TFGraph.ofNodes
    [{ idx := 0, name := "input".toList, op := "Placeholder".toList, outputs := [1],
       pb_defs := [0] },
     { idx := 1, name := "squeeze".toList, op := "Squeeze".toList, inputs := [0],
       outputs := [2, 3], pb_defs := [1] },
     { idx := 2, name := "relu".toList, op := "Relu".toList, inputs := [1], pb_defs := [2] },
     { idx := 3, name := "tanh".toList, op := "Tanh".toList, inputs := [1], pb_defs := [3] }]

/-- The graph of a Relu, a scalar Const and a Minimum with inputs `[Relu, Const]`. -/
def reluMinimumGraph : TFGraph :=
  TFGraph.ofNodes
    [{ idx := 0, name := "relu".toList, op := "Relu".toList, outputs := [2], pb_defs := [0] },
     { idx := 1, name := "six".toList, op := "Const".toList, outputs := [2], pb_defs := [1] },
     { idx := 2, name := "min".toList, op := "Minimum".toList, inputs := [0, 1],
       pb_defs := [2] }]

/-- The same graph with a Placeholder feeding the Relu. -/
def fedReluMinimumGraph : TFGraph :=
  TFGraph.ofNodes
    [{ idx := 0, name := "input".toList, op := "Placeholder".toList, outputs := [1],
       pb_defs := [0] },
     { idx := 1, name := "relu".toList, op := "Relu".toList, inputs := [0], outputs := [3],
       pb_defs := [1] },
     { idx := 2, name := "six".toList, op := "Const".toList, outputs := [3], pb_defs := [2] },
     { idx := 3, name := "min".toList, op := "Minimum".toList, inputs := [1, 2],
       pb_defs := [3] }]

/-- The value of a constant reshape target `[-1, 28, 28, 3]`, in raw form. -/
def reshapeTarget : TensorProto :=
  { dtype := DataType.DT_INT32, tensor_shape := [4], tensor_content := [-1, 28, 28, 3] }

/-- Three records: a Placeholder with the shape `[1, 224, 224, 3]`, the constant
`reshapeTarget` and the Reshape that takes both. -/
def shapedInputNet : GraphDef :=
  [{ name := "x".toList, op := "Placeholder".toList,
     attr := [("shape".toList, { shape := [1, 224, 224, 3] })] },
   { name := "target".toList, op := "Const".toList,
     attr := [("value".toList, { tensor := some reshapeTarget })] },
   { name := "flat".toList, op := "Reshape".toList, input := ["x".toList, "target".toList] }]

/-- The Placeholder of `shapedInputNet` alone. -/
def shapedInputGraph : TFGraph :=
  TFGraph.ofNodes [{ idx := 0, name := "x".toList, op := "Placeholder".toList, pb_defs := [0] }]

/-- The Placeholder of `shapedInputNet` after it absorbed the Reshape and its
constant target. -/
def reshapedInputGraph : TFGraph :=
  TFGraph.ofNodes
    [{ idx := 0, name := "x".toList, op := "Placeholder".toList, pb_defs := [0, 2, 1] }]

/-- The position of the element `(h, w, i, o)` in a buffer laid out as
`[H, W, I, O]`, as the specification writes it. -/
def hwioIndex (W I O : Nat) (o i h w : Nat) : Nat :=
  ((h * W + w) * I + i) * O + o

/-- The position of the element `(o, i, h, w)` in a buffer laid out as
`[O, I, H, W]`, as the specification writes it. -/
def oihwIndex (I H W : Nat) (o i h w : Nat) : Nat :=
  ((o * I + i) * H + h) * W + w

/-- The `[H, W, I, O]` positions of all elements, listed in `[O, I, H, W]` order. -/
def transposedPositions (O I H W : Nat) : List Nat :=
  (List.range O).flatMap fun o =>
    (List.range I).flatMap fun i =>
      (List.range H).flatMap fun h =>
        (List.range W).map fun w => hwioIndex W I O o i h w

/-- The value of a weight constant of shape `[1, 2, 2, 2]`. -/
def smallWeights : TensorProto :=
  { dtype := DataType.DT_FLOAT, tensor_shape := [1, 2, 2, 2],
    tensor_content := [10, 11, 12, 13, 14, 15, 16, 17] }

/-- Three records: a Placeholder, the constant `smallWeights` and a Conv2D that
takes both. -/
def smallConvNet : GraphDef :=
  [{ name := "x".toList, op := "Placeholder".toList,
     attr := [("shape".toList, { shape := [1, 4, 4, 2] })] },
   { name := "w".toList, op := "Const".toList,
     attr := [("value".toList, { tensor := some smallWeights })] },
   { name := "conv".toList, op := "Conv2D".toList, input := ["x".toList, "w".toList],
     attr := [("padding".toList, { s := "SAME".toList }),
              ("strides".toList, { list_i := [1, 1, 1, 1] })] }]

/-- The graph of `smallConvNet` with the handles that the first loop of
`GenerateStaticGraph` gives its nodes. -/
def smallConvGraph : TFGraph :=
  TFGraph.ofNodes
    [{ idx := 0, name := "x".toList, op := "Placeholder".toList, outputs := [2],
       pb_defs := [0], static_node := some 0, static_tensor := some 0 },
     { idx := 1, name := "w".toList, op := "Const".toList, outputs := [2],
       pb_defs := [1], static_node := some 1, static_tensor := some 1 },
     { idx := 2, name := "conv".toList, op := "Conv2D".toList, inputs := [0, 1],
       pb_defs := [2], static_node := some 2, static_tensor := some 2 }]

/-- A target graph with the three nodes and tensors of `smallConvGraph`; the
weight tensor holds the raw content of `smallWeights`. -/
def smallConvTarget : StaticGraph :=
  { node_list := [{ name := "x".toList, output_tensor_list := [0] },
                  { name := "w".toList, output_tensor_list := [1] },
                  { name := "conv".toList, output_tensor_list := [2] }]
    tensor_list := [{ name := "x".toList, dims := [1, 2, 4, 4] },
                    { name := "w".toList, const_tensor := true, dims := [1, 2, 2, 2],
                      mem_addr := some [10, 11, 12, 13, 14, 15, 16, 17] },
                    { name := "conv".toList }] }

/-- The registry filled by `TFSerializerRegisterOpLoader`, for the translators of
the convolutions and of Relu and Relu6; `others` stands for the entries under
the remaining op names. -/
def registeredLoaders (tf_net : GraphDef) (def_param : ConvParam)
    (others : List Char → Option op_load_t) : List Char → Option op_load_t :=
  fun op =>
    if op = "Conv2D".toList ∨ op = "DepthwiseConv2dNative".toList then
      some (LoadConv2D tf_net def_param)
    else if op = "Relu6".toList then some LoadRelu6
    else if op = "Relu".toList then some LoadRelu
    else others op

/-- The test `FindRNNScope` makes on the name of a node: it contains `"while"`
and, from that position on, `"lstm_cell"`, `"gru"` or `"basic_lstm_cell"`. -/
def namesRNNCell (name : List Char) : Bool :=
  match strFind "while".toList name with
  | none => false
  | some while_pos =>
    (strFind "lstm_cell".toList (name.drop while_pos)).isSome ||
      (strFind "gru".toList (name.drop while_pos)).isSome ||
      (strFind "basic_lstm_cell".toList (name.drop while_pos)).isSome

/-- `TFSerializer::LoadGraph` into an empty target graph: `ConstructGraph`,
`OptimizeRNN`, `OptimizeGraph`, `GenerateStaticGraph`; the flag is `false` as soon
as a step returns `false`. When no name passes the test of `FindRNNScope`,
`OptimizeRNN` leaves its loop at once and returns `true`; this definition does
not follow the extraction of a recurrent scope, and a graph with such a name
gives `none` here. -/
def LoadGraph (tf_net : GraphDef) (registry : List Char → Option op_load_t) :
    Option (Bool × TFGraph × StaticGraph) :=
  match ConstructGraph tf_net TFGraph.init with
  | none => none
  | some (false, g) => some (false, g, {})
  | some (true, g) =>
    if g.seq_nodes.any (fun a => namesRNNCell (g.heap a).name) then none
    else
      match OptimizeGraph g with
      | none => none
      | some (false, g1) => some (false, g1, {})
      | some (true, g1) => GenerateStaticGraph tf_net registry g1 {}

/-- The weights of the scenario: shape `[3, 3, 3, 8]`, packed as the single
value `5`. -/
def scenarioWeights : TensorProto :=
  { dtype := DataType.DT_FLOAT, tensor_shape := [3, 3, 3, 8], float_val := [5] }

/-- The bias of the scenario: shape `[8]`, packed as the single value `1`. -/
def scenarioBias : TensorProto :=
  { dtype := DataType.DT_FLOAT, tensor_shape := [8], float_val := [1] }

/-- The records of the scenario: a Placeholder of shape `[1, 224, 224, 3]`
feeding a Conv2D (weights of shape `[3, 3, 3, 8]`, strides `[1, 1, 1, 1]`,
padding `SAME`) feeding a BiasAdd (with a bias constant) feeding a Relu. -/
def scenarioNet : GraphDef :=
  [{ name := "input".toList, op := "Placeholder".toList,
     attr := [("shape".toList, { shape := [1, 224, 224, 3] })] },
   { name := "weights".toList, op := "Const".toList,
     attr := [("value".toList, { tensor := some scenarioWeights })] },
   { name := "conv".toList, op := "Conv2D".toList,
     input := ["input".toList, "weights".toList],
     attr := [("strides".toList, { list_i := [1, 1, 1, 1] }),
              ("padding".toList, { s := "SAME".toList })] },
   { name := "bias".toList, op := "Const".toList,
     attr := [("value".toList, { tensor := some scenarioBias })] },
   { name := "biasadd".toList, op := "BiasAdd".toList,
     input := ["conv".toList, "bias".toList] },
   { name := "relu".toList, op := "Relu".toList, input := ["biasadd".toList] }]

/-- The `ConvParam` of the operator behind a handle, if it carries one. -/
def StaticGraph.convParamOf (graph : StaticGraph) (op : Nat) : Option ConvParam :=
  match graph.op_list[op]? with
  | some { name := _, param := OpParam.conv p } => some p
  | _ => none

/-- The name of the operator attached to each node of the target graph, in the
order of creation of the nodes (`none` for a node without operator). -/
def StaticGraph.nodeOps (graph : StaticGraph) : List (Option (List Char)) :=
  graph.node_list.map fun n => (n.op.bind fun k => graph.op_list[k]?).map fun o => o.name

/-- The pad table `[[0, 0], [1, 2], [3, 4], [0, 0]]` in raw form. -/
def padTableRaw : TensorProto :=
  { dtype := DataType.DT_INT32, tensor_shape := [4, 2],
    tensor_content := [0, 0, 1, 2, 3, 4, 0, 0] }

/-- The pad table `[[0, 0], [1, 2], [3, 4], [0, 0]]` as a packed list. -/
def padTablePacked : TensorProto :=
  { dtype := DataType.DT_INT32, tensor_shape := [4, 2], int_val := [0, 0, 1, 2, 3, 4, 0, 0] }

/-- Five records: a Placeholder, a constant pad table, the Pad of both, the
constant `smallWeights` and a Conv2D of the Pad and the weights. -/
def paddedConvNet (table : TensorProto) : GraphDef :=
  [{ name := "x".toList, op := "Placeholder".toList,
     attr := [("shape".toList, { shape := [1, 4, 4, 2] })] },
   { name := "paddings".toList, op := "Const".toList,
     attr := [("value".toList, { tensor := some table })] },
   { name := "pad".toList, op := "Pad".toList, input := ["x".toList, "paddings".toList] },
   { name := "w".toList, op := "Const".toList,
     attr := [("value".toList, { tensor := some smallWeights })] },
   { name := "conv".toList, op := "Conv2D".toList, input := ["pad".toList, "w".toList],
     attr := [("padding".toList, { s := "VALID".toList }),
              ("strides".toList, { list_i := [1, 1, 1, 1] })] }]

/-- The graph of `paddedConvNet` after the Conv2D absorbed the Pad and its table,
with the handles of `smallConvTarget`. -/
def paddedConvGraph : TFGraph :=
  TFGraph.ofNodes
    [{ idx := 0, name := "x".toList, op := "Placeholder".toList, outputs := [2],
       pb_defs := [0], static_node := some 0, static_tensor := some 0 },
     { idx := 3, name := "w".toList, op := "Const".toList, outputs := [2],
       pb_defs := [3], static_node := some 1, static_tensor := some 1 },
     { idx := 4, name := "conv".toList, op := "Conv2D".toList, inputs := [0, 1],
       pb_defs := [4, 2, 1], static_node := some 2, static_tensor := some 2 }]

/-- A Tanh fed by a Sigmoid without input and by a Placeholder. -/
def orphanGraph : TFGraph :=
  TFGraph.ofNodes
    [{ idx := 0, name := "dead".toList, op := "Sigmoid".toList, outputs := [2], pb_defs := [0] },
     { idx := 1, name := "input".toList, op := "Placeholder".toList, outputs := [2],
       pb_defs := [1] },
     { idx := 2, name := "out".toList, op := "Tanh".toList, inputs := [0, 1], pb_defs := [2] }]

/-- A ResizeNearestNeighbor (node 4) whose data input (node 0) also feeds a Relu
(node 5) and has no Shape consumer; the scale input is a Mul (node 3) of a
StridedSlice (node 2) of a constant (node 1). -/
def resizeGraph : TFGraph :=
  TFGraph.ofNodes
    [{ idx := 0, name := "data".toList, op := "Placeholder".toList, outputs := [4, 5],
       pb_defs := [0] },
     { idx := 1, name := "size".toList, op := "Const".toList, outputs := [2], pb_defs := [1] },
     { idx := 2, name := "slice".toList, op := "StridedSlice".toList, inputs := [1],
       outputs := [3], pb_defs := [2] },
     { idx := 3, name := "mul".toList, op := "Mul".toList, inputs := [2], outputs := [4],
       pb_defs := [3] },
     { idx := 4, name := "resize".toList, op := "ResizeNearestNeighbor".toList,
       inputs := [0, 3], pb_defs := [4] },
     { idx := 5, name := "relu".toList, op := "Relu".toList, inputs := [0], pb_defs := [5] }]

/-- The same graph without the Relu: the resize node is the only consumer of its
data input. -/
def loneResizeGraph : TFGraph :=
  TFGraph.ofNodes
    [{ idx := 0, name := "data".toList, op := "Placeholder".toList, outputs := [4],
       pb_defs := [0] },
     { idx := 1, name := "size".toList, op := "Const".toList, outputs := [2], pb_defs := [1] },
     { idx := 2, name := "slice".toList, op := "StridedSlice".toList, inputs := [1],
       outputs := [3], pb_defs := [2] },
     { idx := 3, name := "mul".toList, op := "Mul".toList, inputs := [2], outputs := [4],
       pb_defs := [3] },
     { idx := 4, name := "resize".toList, op := "ResizeNearestNeighbor".toList,
       inputs := [0, 3], pb_defs := [4] }]

/-- A ConcatV2 (node 3) of a constant (node 0), a Placeholder (node 1) and the
constant axis (node 2), in this order. -/
def constConcatGraph : TFGraph :=
  TFGraph.ofNodes
    [{ idx := 0, name := "table".toList, op := "Const".toList, outputs := [3], pb_defs := [0] },
     { idx := 1, name := "input".toList, op := "Placeholder".toList, outputs := [3],
       pb_defs := [1] },
     { idx := 2, name := "axis".toList, op := "Const".toList, outputs := [3], pb_defs := [2] },
     { idx := 3, name := "concat".toList, op := "ConcatV2".toList, inputs := [0, 1, 2],
       pb_defs := [3] }]

/-- A Conv2D (node 2) of a Placeholder and constant weights, whose only consumer
is a BiasAdd (node 4) with a constant bias (node 3), read by a Relu (node 5). -/
def biasedConvGraph : TFGraph :=
  TFGraph.ofNodes
    [{ idx := 0, name := "input".toList, op := "Placeholder".toList, outputs := [2],
       pb_defs := [0] },
     { idx := 1, name := "weights".toList, op := "Const".toList, outputs := [2],
       pb_defs := [1] },
     { idx := 2, name := "conv".toList, op := "Conv2D".toList, inputs := [0, 1],
       outputs := [4], pb_defs := [2] },
     { idx := 3, name := "bias".toList, op := "Const".toList, outputs := [4], pb_defs := [3] },
     { idx := 4, name := "biasadd".toList, op := "BiasAdd".toList, inputs := [2, 3],
       outputs := [5], pb_defs := [4] },
     { idx := 5, name := "relu".toList, op := "Relu".toList, inputs := [4], pb_defs := [5] }]

/-- A Conv2D (node 4) of a Pad (node 2) and constant weights (node 3); the Pad
takes a Placeholder (node 0) and a constant table of paddings (node 1). -/
def padConvGraph : TFGraph :=
  TFGraph.ofNodes
    [{ idx := 0, name := "x".toList, op := "Placeholder".toList, outputs := [2],
       pb_defs := [0] },
     { idx := 1, name := "paddings".toList, op := "Const".toList, outputs := [2],
       pb_defs := [1] },
     { idx := 2, name := "pad".toList, op := "Pad".toList, inputs := [0, 1], outputs := [4],
       pb_defs := [2] },
     { idx := 3, name := "w".toList, op := "Const".toList, outputs := [4], pb_defs := [3] },
     { idx := 4, name := "conv".toList, op := "Conv2D".toList, inputs := [2, 3],
       pb_defs := [4] }]

/-- Three nodes: one named inside the scope `rnn/`, one whose name has `rnn/`
further in, and one that does not mention it. -/
def scopedGraph : TFGraph :=
  TFGraph.ofNodes
    [{ idx := 0, name := "rnn/cell".toList, op := "MatMul".toList, pb_defs := [0] },
     { idx := 1, name := "pre/rnn/out".toList, op := "Relu".toList, pb_defs := [1] },
     { idx := 2, name := "dense".toList, op := "MatMul".toList, pb_defs := [2] }]

/-- The positions `j * n + i` of a `[k, n]` buffer, listed in the order of the
positions `i * k + j` of its transpose. -/
def gemmPositions (k n : Nat) : List Nat :=
  (List.range n).flatMap fun i => (List.range k).map fun j => j * n + i

/-- The value of a weight constant of shape `[2, 3]`. -/
def gemmWeights : TensorProto :=
  { dtype := DataType.DT_FLOAT, tensor_shape := [2, 3],
    tensor_content := [1, 2, 3, 4, 5, 6] }

/-- Three records: a Placeholder, the constant `gemmWeights` and a MatMul of both
with `transpose_a` false and `transpose_b` as given. -/
def gemmNet (transpose_b : Bool) : GraphDef :=
  [{ name := "x".toList, op := "Placeholder".toList },
   { name := "w".toList, op := "Const".toList,
     attr := [("value".toList, { tensor := some gemmWeights })] },
   { name := "matmul".toList, op := "MatMul".toList, input := ["x".toList, "w".toList],
     attr := [("transpose_a".toList, { b := false }),
              ("transpose_b".toList, { b := transpose_b })] }]

/-- The graph of `gemmNet` with the handles that the first loop of
`GenerateStaticGraph` gives its nodes. -/
def gemmGraph : TFGraph :=
  TFGraph.ofNodes
    [{ idx := 0, name := "x".toList, op := "Placeholder".toList, outputs := [2],
       pb_defs := [0], static_node := some 0, static_tensor := some 0 },
     { idx := 1, name := "w".toList, op := "Const".toList, outputs := [2],
       pb_defs := [1], static_node := some 1, static_tensor := some 1 },
     { idx := 2, name := "matmul".toList, op := "MatMul".toList, inputs := [0, 1],
       pb_defs := [2], static_node := some 2, static_tensor := some 2 }]

/-- A target graph with the three nodes and tensors of `gemmGraph`; the weight
tensor holds the raw content of `gemmWeights`. -/
def gemmTarget : StaticGraph :=
  { node_list := [{ name := "x".toList, output_tensor_list := [0] },
                  { name := "w".toList, output_tensor_list := [1] },
                  { name := "matmul".toList, output_tensor_list := [2] }]
    tensor_list := [{ name := "x".toList },
                    { name := "w".toList, const_tensor := true, dims := [2, 3],
                      mem_addr := some [1, 2, 3, 4, 5, 6] },
                    { name := "matmul".toList }] }

/-- The expansion of a batch-norm with scale, with the names given by `name`:
node 0 is the data `x`, nodes 1 to 5 are the constants variance, eps, gamma,
mean and beta, nodes 6 to 12 are `add = Add(variance, eps)`, `Rsqrt = Rsqrt(add)`,
`mul = Mul(Rsqrt, gamma)`, `mul_1 = Mul(x, mul)`, `mul_2 = Mul(mean, mul)`,
`sub = Sub(beta, mul_2)` and `add_1 = Add(mul_1, sub)`, and node 13 reads `add_1`.
The consumers of `mul` are `[mul_1, mul_2]`. -/
def composedBNNodes (name : Nat → List Char) : List TFNode :=
  [{ idx := 0, name := name 0, op := "Placeholder".toList, outputs := [9], pb_defs := [0] },
   { idx := 1, name := name 1, op := "Const".toList, outputs := [6], pb_defs := [1] },
   { idx := 2, name := name 2, op := "Const".toList, outputs := [6], pb_defs := [2] },
   { idx := 3, name := name 3, op := "Const".toList, outputs := [8], pb_defs := [3] },
   { idx := 4, name := name 4, op := "Const".toList, outputs := [10], pb_defs := [4] },
   { idx := 5, name := name 5, op := "Const".toList, outputs := [11], pb_defs := [5] },
   { idx := 6, name := name 6, op := "Add".toList, inputs := [1, 2], outputs := [7],
     pb_defs := [6] },
   { idx := 7, name := name 7, op := "Rsqrt".toList, inputs := [6], outputs := [8],
     pb_defs := [7] },
   { idx := 8, name := name 8, op := "Mul".toList, inputs := [7, 3], outputs := [9, 10],
     pb_defs := [8] },
   { idx := 9, name := name 9, op := "Mul".toList, inputs := [0, 8], outputs := [12],
     pb_defs := [9] },
   { idx := 10, name := name 10, op := "Mul".toList, inputs := [4, 8], outputs := [11],
     pb_defs := [10] },
   { idx := 11, name := name 11, op := "Sub".toList, inputs := [5, 10], outputs := [12],
     pb_defs := [11] },
   { idx := 12, name := name 12, op := "Add".toList, inputs := [9, 11], outputs := [13],
     pb_defs := [12] },
   { idx := 13, name := name 13, op := "Relu".toList, inputs := [12], pb_defs := [13] }]

/-- The names of the expansion under the prefix `prefix_name`: the seven
operations end in `/add`, `/Rsqrt`, `/mul`, `/mul_1`, `/mul_2`, `/sub`, `/add_1` and
eps is `<prefix>/add/y`. -/
def composedBNNames (prefix_name : List Char) (a : Nat) : List Char :=
  match a with
  | 0 => "x".toList
  | 1 => prefix_name ++ "/moving_variance".toList
  | 2 => prefix_name ++ "/add/y".toList
  | 3 => prefix_name ++ "/gamma".toList
  | 4 => prefix_name ++ "/moving_mean".toList
  | 5 => prefix_name ++ "/beta".toList
  | 6 => prefix_name ++ "/add".toList
  | 7 => prefix_name ++ "/Rsqrt".toList
  | 8 => prefix_name ++ "/mul".toList
  | 9 => prefix_name ++ "/mul_1".toList
  | 10 => prefix_name ++ "/mul_2".toList
  | 11 => prefix_name ++ "/sub".toList
  | 12 => prefix_name ++ "/add_1".toList
  | _ => "out".toList

/-- The expansion with the names of `composedBNNames`. -/
def composedBNGraph (prefix_name : List Char) : TFGraph :=
  TFGraph.ofNodes (composedBNNodes (composedBNNames prefix_name))

/-- The graph `g2` has the sequence of `g1`, and a node that has the op Identity
in `g2` has it in `g1`: what every edge operation and every rewrite of a pass
keeps. -/
def IdentityFrame (g1 g2 : TFGraph) : Prop :=
  g2.seq_nodes = g1.seq_nodes ∧
    ∀ a, (g2.heap a).op = "Identity".toList → (g1.heap a).op = "Identity".toList

/-- No node of the sequence has the op Identity. -/
def IdentityFree (g : TFGraph) : Prop :=
  ∀ a ∈ g.seq_nodes, (g.heap a).op ≠ "Identity".toList

/-- A Placeholder (node 0) read through two Identity nodes in a row (nodes 1
and 2) by a Relu (node 3). -/
def identityChainGraph : TFGraph :=
  TFGraph.ofNodes
    [{ idx := 0, name := "x".toList, op := "Placeholder".toList, outputs := [1], pb_defs := [0] },
     { idx := 1, name := "id1".toList, op := "Identity".toList, inputs := [0], outputs := [2],
       pb_defs := [1] },
     { idx := 2, name := "id2".toList, op := "Identity".toList, inputs := [1], outputs := [3],
       pb_defs := [2] },
     { idx := 3, name := "relu".toList, op := "Relu".toList, inputs := [2], pb_defs := [3] }]

/-- A Conv2D (node 5) with inputs `[id, w]`, where the Identity `id` (node 3)
reads a Pad (node 2) of the Placeholder `x` (node 0) with the constant paddings
(node 1), and `w` (node 4) is a constant; a Relu (node 6) reads the Conv2D. -/
def identityPadGraph : TFGraph :=
  TFGraph.ofNodes
    [{ idx := 0, name := "x".toList, op := "Placeholder".toList, outputs := [2], pb_defs := [0] },
     { idx := 1, name := "paddings".toList, op := "Const".toList, outputs := [2],
       pb_defs := [1] },
     { idx := 2, name := "pad".toList, op := "Pad".toList, inputs := [0, 1], outputs := [3],
       pb_defs := [2] },
     { idx := 3, name := "id".toList, op := "Identity".toList, inputs := [2], outputs := [5],
       pb_defs := [3] },
     { idx := 4, name := "w".toList, op := "Const".toList, outputs := [5], pb_defs := [4] },
     { idx := 5, name := "conv".toList, op := "Conv2D".toList, inputs := [3, 4],
       outputs := [6], pb_defs := [5] },
     { idx := 6, name := "relu".toList, op := "Relu".toList, inputs := [5], pb_defs := [6] }]

/-- The part of `BNRecursiveInputMerge` before its loop: the graph after the
edge between `mul` and `mul_2` (or between `mul_1` and its first input) has been
cut, and whether the loop skips the first input. -/
def bnPrepare (g : TFGraph) (node : Nat) : Option (TFGraph × Bool) :=
  let name := (g.heap node).name
  if (strFind "/mul".toList name).isSome then
    if (g.heap node).BNAddType = 1 then
      if (strFind "/mul_1".toList name).isSome then some (g, true)
      else if (strFind "/mul_2".toList name).isNone then do
        let k ← skipUnlessNamed g "/mul2".toList (g.heap node).outputs
        let mul2_node ← (g.heap node).outputs[k]?
        let g1 := g.modify node fun n => { n with outputs := n.outputs.eraseIdx k }
        let k2 ← skipUnlessNamed g1 "/mul".toList (g1.heap mul2_node).inputs
        if k2 < (g1.heap mul2_node).inputs.length then
          some (g1.modify mul2_node fun n => { n with inputs := n.inputs.eraseIdx k2 }, false)
        else none
      else some (g, false)
    else
      if (strFind "/mul_1".toList name).isSome then do
        let k ← skipUnlessNamed g "/add_1".toList (g.heap node).inputs
        let Rsqrt_node ← (g.heap node).inputs[k]?
        if (strFind "/add_1".toList (g.heap Rsqrt_node).name).isSome then do
          let g1 := g.modify node fun n => { n with inputs := n.inputs.eraseIdx k }
          let k2 ← skipUnlessNamed g1 "/mul_1".toList (g1.heap Rsqrt_node).outputs
          if k2 < (g1.heap Rsqrt_node).outputs.length then
            some (g1.modify Rsqrt_node fun n =>
              { n with outputs := n.outputs.eraseIdx k2 }, false)
          else none
        else some (g, false)
      else some (g, true)
  else some (g, false)

/-- One turn of the loop of `BNRecursiveInputMerge` on `input_node`; `merge` is
the recursive call. -/
def bnStep (merge : TFGraph → Nat → Option TFGraph) (node : Nat) (h : TFGraph)
    (input_node : Nat) : Option TFGraph :=
  let h1 := h.modify input_node fun n => { n with BNAddType := (h.heap node).BNAddType }
  if (h1.heap input_node).op = "Const".toList then some h1
  else do
    let h2 ← merge h1 input_node
    MergeParentNode h2 node input_node

/-- The graph with the name of every node `a` replaced by `r a`. -/
def TFGraph.rename (g : TFGraph) (r : Nat → List Char) : TFGraph :=
  { g with heap := fun a => { g.heap a with name := r a } }

/-- The strings `CheckComposedBNAdd`, `BNRecursiveInputMerge` and `FuseComposedBN`
look for in the names of nodes. -/
def bnMarkers : List (List Char) :=
  ["/mul".toList, "/mul_1".toList, "/mul_2".toList, "/mul2".toList, "/add_1".toList,
    "/add/y".toList]

/-- The names `r` contain each marker exactly where the names of `g` do. -/
def SameMarks (r : Nat → List Char) (g : TFGraph) : Prop :=
  ∀ a, ∀ pat ∈ bnMarkers, (strFind pat (r a)).isSome = (strFind pat (g.heap a).name).isSome

/-- A base (node 0) with the child 1, which node 2 reads twice while the
child lists node 2 once among its outputs: symmetric as to membership. -/
def twiceReadChildGraph : TFGraph :=
  TFGraph.ofNodes
    [{ outputs := [1] }, { inputs := [0], outputs := [2] }, { inputs := [1, 1] }]

/-- A parent (node 0) of the base 1, which node 2 reads twice while the parent
lists node 2 once among its outputs: symmetric as to membership. -/
def twiceReadParentGraph : TFGraph :=
  TFGraph.ofNodes
    [{ outputs := [1, 2] }, { inputs := [0] }, { inputs := [0, 0] }]

/-- A base (node 0) whose child 1 reads the base and itself. -/
def selfReadingChildGraph : TFGraph :=
  TFGraph.ofNodes [{ outputs := [1] }, { inputs := [0, 1], outputs := [1] }]

/-- A dense layer: the MatMul (node 2) of a Placeholder (node 0) and a constant
(node 1), followed by the Add (node 4) of the MatMul and a constant (node 3),
read by a Relu (node 5). -/
def denseAddGraph : TFGraph :=
  TFGraph.ofNodes
    [{ idx := 0, name := "x".toList, op := "Placeholder".toList, outputs := [2], pb_defs := [0] },
     { idx := 1, name := "w".toList, op := "Const".toList, outputs := [2], pb_defs := [1] },
     { idx := 2, name := "dense/MatMul".toList, op := "MatMul".toList, inputs := [0, 1],
       outputs := [4], pb_defs := [2] },
     { idx := 3, name := "b".toList, op := "Const".toList, outputs := [4], pb_defs := [3] },
     { idx := 4, name := "dense/add".toList, op := "Add".toList, inputs := [2, 3],
       outputs := [5], pb_defs := [4] },
     { idx := 5, name := "dense/Relu".toList, op := "Relu".toList, inputs := [4],
       pb_defs := [5] }]

/-- The value of a depthwise weight constant of shape `[1, 1, 2, 2]`: two input
channels with two multipliers each; the filter of channel `c` and multiplier `m`
is the single value `10 * (c + 1) + m`. -/
def depthwiseWeights : TensorProto :=
  { dtype := DataType.DT_FLOAT, tensor_shape := [1, 1, 2, 2],
    tensor_content := [10, 11, 20, 21] }

/-- Three records: a Placeholder, the constant `depthwiseWeights` and a
DepthwiseConv2dNative that takes both. -/
def depthwiseNet : GraphDef :=
  [{ name := "x".toList, op := "Placeholder".toList,
     attr := [("shape".toList, { shape := [1, 4, 4, 2] })] },
   { name := "w".toList, op := "Const".toList,
     attr := [("value".toList, { tensor := some depthwiseWeights })] },
   { name := "dw".toList, op := "DepthwiseConv2dNative".toList,
     input := ["x".toList, "w".toList],
     attr := [("padding".toList, { s := "SAME".toList }),
              ("strides".toList, { list_i := [1, 1, 1, 1] })] }]

/-- The graph of `depthwiseNet` with the handles that the first loop of
`GenerateStaticGraph` gives its nodes. -/
def depthwiseGraph : TFGraph :=
  TFGraph.ofNodes
    [{ idx := 0, name := "x".toList, op := "Placeholder".toList, outputs := [2],
       pb_defs := [0], static_node := some 0, static_tensor := some 0 },
     { idx := 1, name := "w".toList, op := "Const".toList, outputs := [2],
       pb_defs := [1], static_node := some 1, static_tensor := some 1 },
     { idx := 2, name := "dw".toList, op := "DepthwiseConv2dNative".toList, inputs := [0, 1],
       pb_defs := [2], static_node := some 2, static_tensor := some 2 }]

/-- A target graph with the three nodes and tensors of `depthwiseGraph`; the
weight tensor holds the raw content of `depthwiseWeights`. -/
def depthwiseTarget : StaticGraph :=
  { node_list := [{ name := "x".toList, output_tensor_list := [0] },
                  { name := "w".toList, output_tensor_list := [1] },
                  { name := "dw".toList, output_tensor_list := [2] }]
    tensor_list := [{ name := "x".toList, dims := [1, 2, 4, 4] },
                    { name := "w".toList, const_tensor := true, dims := [1, 1, 2, 2],
                      mem_addr := some [10, 11, 20, 21] },
                    { name := "dw".toList }] }

/-- A recurrent layer as a frozen graph holds it: the kernel (node 1) and the
bias (node 3) are constants outside the name scope `model/`, read through the
Identity nodes 2 and 4; inside the scope are the zero state (node 5) and two
nodes of the cell body (6 and 7); node 0 is the input and node 8 reads the
layer. -/
def lstmLayerGraph : TFGraph :=
  TFGraph.ofNodes
    [{ idx := 0, name := "input".toList, op := "Placeholder".toList, outputs := [6],
       pb_defs := [0] },
     { idx := 1, name := "rnn/lstm_cell/kernel".toList, op := "Const".toList, outputs := [2],
       pb_defs := [1] },
     { idx := 2, name := "rnn/lstm_cell/kernel/read".toList, op := "Identity".toList,
       inputs := [1], outputs := [6], pb_defs := [2] },
     { idx := 3, name := "rnn/lstm_cell/bias".toList, op := "Const".toList, outputs := [4],
       pb_defs := [3] },
     { idx := 4, name := "rnn/lstm_cell/bias/read".toList, op := "Identity".toList,
       inputs := [3], outputs := [7], pb_defs := [4] },
     { idx := 5, name := "model/rnn/LSTMCellZeroState/zeros".toList, op := "Fill".toList,
       outputs := [6], pb_defs := [5] },
     { idx := 6, name := "model/rnn/while/lstm_cell/MatMul".toList, op := "MatMul".toList,
       inputs := [0, 2, 5], outputs := [7], pb_defs := [6] },
     { idx := 7, name := "model/rnn/while/lstm_cell/BiasAdd".toList, op := "BiasAdd".toList,
       inputs := [6, 4], outputs := [8], pb_defs := [7] },
     { idx := 8, name := "logits".toList, op := "Relu".toList, inputs := [7], pb_defs := [8] }]

/-- An Identity outside the scope `model/` (node 2) that reads the absorbed node
1 and feeds the absorbed node 3. -/
def tappedScopeGraph : TFGraph :=
  TFGraph.ofNodes
    [{ idx := 0, name := "input".toList, op := "Placeholder".toList, outputs := [1],
       pb_defs := [0] },
     { idx := 1, name := "model/rnn/while/lstm_cell/a".toList, op := "MatMul".toList,
       inputs := [0], outputs := [2], pb_defs := [1] },
     { idx := 2, name := "tap".toList, op := "Identity".toList, inputs := [1], outputs := [3],
       pb_defs := [2] },
     { idx := 3, name := "model/rnn/while/lstm_cell/b".toList, op := "MatMul".toList,
       inputs := [2], outputs := [4], pb_defs := [3] },
     { idx := 4, name := "out".toList, op := "Relu".toList, inputs := [3], pb_defs := [4] }]

/-- A GRU cell called in a loop at the top level: the MatMul of the cell (node
1), named under `while/`, reads the Placeholder (node 0). -/
def topLevelLoopGraph : TFGraph :=
  TFGraph.ofNodes
    [{ idx := 0, name := "x".toList, op := "Placeholder".toList, outputs := [1],
       pb_defs := [0] },
     { idx := 1, name := "while/gru_cell/MatMul".toList, op := "MatMul".toList,
       inputs := [0], pb_defs := [1] }]

/-- One node of a basic LSTM cell (node 1), reading a Placeholder. -/
def basicCellGraph : TFGraph :=
  TFGraph.ofNodes
    [{ idx := 0, name := "x".toList, op := "Placeholder".toList, outputs := [1],
       pb_defs := [0] },
     { idx := 1, name := "net/rnn/while/basic_lstm_cell/MatMul".toList, op := "MatMul".toList,
       inputs := [0], pb_defs := [1] }]

/-- A layer whose kernel constant (node 1) is named inside the scope `model/`
and read directly by the cell body (node 2). -/
def innerKernelGraph : TFGraph :=
  TFGraph.ofNodes
    [{ idx := 0, name := "input".toList, op := "Placeholder".toList, outputs := [2],
       pb_defs := [0] },
     { idx := 1, name := "model/rnn/lstm_cell/kernel".toList, op := "Const".toList,
       outputs := [2], pb_defs := [1] },
     { idx := 2, name := "model/rnn/while/lstm_cell/MatMul".toList, op := "MatMul".toList,
       inputs := [0, 1], outputs := [3], pb_defs := [2] },
     { idx := 3, name := "out".toList, op := "Relu".toList, inputs := [2], pb_defs := [3] }]

/-- A composite node (node 6) with the inputs `[x, kernel, bias]` (nodes 0, 1,
2) before `ParseLSTMGraph`; the nodes 3, 4 and 5 are the two zero states and the
forget-bias constant of its absorbed set. -/
def lstmSlotsGraph : TFGraph :=
  TFGraph.ofNodes
    [{ idx := 0, name := "input".toList, op := "Placeholder".toList, outputs := [6] },
     { idx := 1, name := "rnn/lstm_cell/kernel".toList, op := "Const".toList, outputs := [6] },
     { idx := 2, name := "rnn/lstm_cell/bias".toList, op := "Const".toList, outputs := [6] },
     { idx := 3, name := "model/rnn/LSTMCellZeroState/zeros".toList, op := "Fill".toList },
     { idx := 4, name := "model/rnn/LSTMCellZeroState/zeros_1".toList, op := "Fill".toList },
     { idx := 5, name := "model/rnn/while/lstm_cell/add/y".toList, op := "Const".toList },
     { name := "model/lstm".toList, op := "LSTM".toList, inputs := [0, 1, 2],
       lstm := some { rnn_graph := [3, 4, 5] } }]

/-- The state of the loop of `OptimizeRNN` after `n` turns: `none` when the
loop has ended before the `n`-th turn, or when a turn has no defined result. -/
def optimizeRNNTurns : Nat → TFGraph → Option TFGraph
  | 0, g => some g
  | n + 1, g =>
    if (FindRNNScope g []).2 = [] then none
    else (StripRNNScope g (FindRNNScope g []).2 (FindRNNScope g []).1).bind (optimizeRNNTurns n)

/-- The states of the loop of `OptimizeRNN` on `topLevelLoopGraph`: the sequence
holds the Placeholder (node 0) and one node `c` named under `while/gru_cell/`,
which reads it. -/
def TopLevelLoop (g : TFGraph) : Prop :=
  ∃ c, c ≠ 0 ∧ c < g.next ∧ (g.seq_nodes = [0, c] ∨ g.seq_nodes = [c, 0]) ∧
    (g.heap 0).name = "x".toList ∧ (g.heap 0).op = "Placeholder".toList ∧
    (g.heap 0).outputs = [c] ∧
    ((g.heap c).name = "while/gru_cell/MatMul".toList ∨
      (g.heap c).name = "while/gru_cell/lstm".toList) ∧
    (g.heap c).inputs = [0] ∧ (g.heap c).outputs = []

/-- A composite node (node 2) whose absorbed set holds the zero states of two
stacked cells (nodes 0 and 1). -/
def stackedStatesGraph : TFGraph :=
  TFGraph.ofNodes
    [{ idx := 0, name := "model/cell_0/LSTMCellZeroState/zeros".toList, op := "Fill".toList },
     { idx := 1, name := "model/cell_1/LSTMCellZeroState/zeros".toList, op := "Fill".toList },
     { name := "model/lstm".toList, op := "LSTM".toList, lstm := some { rnn_graph := [0, 1] } }]

/-- Two Placeholder records whose first size, `2^32 + 1`, is outside the range of
`int`: one of rank 4 and one of rank 2. -/
def wideInputNet : GraphDef :=
  [{ name := "x".toList, op := "Placeholder".toList,
     attr := [("shape".toList, { shape := [4294967297, 224, 224, 3] })] },
   { name := "y".toList, op := "Placeholder".toList,
     attr := [("shape".toList, { shape := [4294967297, 10] })] }]

/-- The second Placeholder of `wideInputNet` alone. -/
def wideVectorGraph : TFGraph :=
  TFGraph.ofNodes [{ idx := 0, name := "y".toList, op := "Placeholder".toList, pb_defs := [1] }]

/-- The value of a weight constant of the declared shape `[2^32, 1, 1, 0]`, which
has no element. -/
def wrappedKernelWeights : TensorProto :=
  { dtype := DataType.DT_FLOAT, tensor_shape := [4294967296, 1, 1, 0] }

/-- The records of `smallConvNet` with the constant `wrappedKernelWeights`. -/
def wrappedKernelNet : GraphDef :=
  [{ name := "x".toList, op := "Placeholder".toList,
     attr := [("shape".toList, { shape := [1, 4, 4, 2] })] },
   { name := "w".toList, op := "Const".toList,
     attr := [("value".toList, { tensor := some wrappedKernelWeights })] },
   { name := "conv".toList, op := "Conv2D".toList, input := ["x".toList, "w".toList],
     attr := [("padding".toList, { s := "SAME".toList }),
              ("strides".toList, { list_i := [1, 1, 1, 1] })] }]

/-- The target graph of `smallConvGraph` for the records of `wrappedKernelNet`:
the weight tensor has the empty buffer. -/
def wrappedKernelTarget : StaticGraph :=
  { node_list := [{ name := "x".toList, output_tensor_list := [0] },
                  { name := "w".toList, output_tensor_list := [1] },
                  { name := "conv".toList, output_tensor_list := [2] }]
    tensor_list := [{ name := "x".toList, dims := [1, 2, 4, 4] },
                    { name := "w".toList, const_tensor := true, dims := [0, 1, 1, 0],
                      mem_addr := some [] },
                    { name := "conv".toList }] }

/-- The value of a weight constant of the declared shape `[65536, 65536, 1, 1]`,
of `2^32` elements. -/
def giantKernelWeights : TensorProto :=
  { dtype := DataType.DT_FLOAT, tensor_shape := [65536, 65536, 1, 1] }

/-- The records of `smallConvNet` with the constant `giantKernelWeights`. -/
def giantKernelNet : GraphDef :=
  [{ name := "x".toList, op := "Placeholder".toList,
     attr := [("shape".toList, { shape := [1, 4, 4, 2] })] },
   { name := "w".toList, op := "Const".toList,
     attr := [("value".toList, { tensor := some giantKernelWeights })] },
   { name := "conv".toList, op := "Conv2D".toList, input := ["x".toList, "w".toList],
     attr := [("padding".toList, { s := "SAME".toList }),
              ("strides".toList, { list_i := [1, 1, 1, 1] })] }]

/-- The target graph of `smallConvGraph` with a weight buffer of `2^32`
elements. -/
def giantKernelTarget : StaticGraph :=
  { node_list := [{ name := "x".toList, output_tensor_list := [0] },
                  { name := "w".toList, output_tensor_list := [1] },
                  { name := "conv".toList, output_tensor_list := [2] }]
    tensor_list := [{ name := "x".toList, dims := [1, 2, 4, 4] },
                    { name := "w".toList, const_tensor := true, dims := [65536, 65536, 1, 1],
                      mem_addr := some (List.replicate 4294967296 0) },
                    { name := "conv".toList }] }

/-- Four records: two Placeholders with rank-4 shapes, the ConcatV2 that joins
them along the axis given by the fourth record, the constant `3`. -/
def concatNet : GraphDef :=
  [{ name := "x".toList, op := "Placeholder".toList,
     attr := [("shape".toList, { shape := [1, 224, 224, 3] })] },
   { name := "y".toList, op := "Placeholder".toList,
     attr := [("shape".toList, { shape := [1, 224, 224, 5] })] },
   { name := "cat".toList, op := "ConcatV2".toList,
     input := ["x".toList, "y".toList, "axis".toList] },
   { name := "axis".toList, op := "Const".toList,
     attr := [("value".toList,
       { tensor := some { dtype := DataType.DT_INT32, int_val := [3] } })] }]

/-- The graph of `concatNet` after `OptimizeGraph`, which moved the record of the
axis into the definition list of the concatenation, with the handles the first
loop of `GenerateStaticGraph` gives the nodes. -/
def concatGraph : TFGraph :=
  TFGraph.ofNodes
    [{ idx := 0, name := "x".toList, op := "Placeholder".toList, outputs := [2],
       pb_defs := [0], static_node := some 0, static_tensor := some 0 },
     { idx := 1, name := "y".toList, op := "Placeholder".toList, outputs := [2],
       pb_defs := [1], static_node := some 1, static_tensor := some 1 },
     { idx := 2, name := "cat".toList, op := "ConcatV2".toList, inputs := [0, 1],
       pb_defs := [2, 3], static_node := some 2, static_tensor := some 2 }]

/-- A target graph with the three nodes and tensors of `concatGraph`. -/
def concatTarget : StaticGraph :=
  { node_list := [{ name := "x".toList, output_tensor_list := [0] },
                  { name := "y".toList, output_tensor_list := [1] },
                  { name := "cat".toList, output_tensor_list := [2] }]
    tensor_list := [{ name := "x".toList, dims := [1, 3, 224, 224] },
                    { name := "y".toList, dims := [1, 5, 224, 224] },
                    { name := "cat".toList }] }

/-- A residual block: the Conv2D `C` (node 2) with the BiasAdd `A` (node 4),
which is read by a second Conv2D (node 6) and, as the skip connection, by the
Add (node 7) of the result of that convolution. -/
def residualBlockGraph : TFGraph :=
  TFGraph.ofNodes
    [{ idx := 0, name := "x".toList, op := "Placeholder".toList, outputs := [2], pb_defs := [0] },
     { idx := 1, name := "w".toList, op := "Const".toList, outputs := [2], pb_defs := [1] },
     { idx := 2, name := "conv".toList, op := "Conv2D".toList, inputs := [0, 1],
       outputs := [4], pb_defs := [2] },
     { idx := 3, name := "b".toList, op := "Const".toList, outputs := [4], pb_defs := [3] },
     { idx := 4, name := "bias".toList, op := "BiasAdd".toList, inputs := [2, 3],
       outputs := [6, 7], pb_defs := [4] },
     { idx := 5, name := "w2".toList, op := "Const".toList, outputs := [6], pb_defs := [5] },
     { idx := 6, name := "conv2".toList, op := "Conv2D".toList, inputs := [4, 5],
       outputs := [7], pb_defs := [6] },
     { idx := 7, name := "sum".toList, op := "Add".toList, inputs := [6, 4],
       outputs := [8], pb_defs := [7] },
     { idx := 8, name := "relu".toList, op := "Relu".toList, inputs := [7], pb_defs := [8] }]

/-- Two layers in a row: the Conv2D `C` (node 6) reads the BiasAdd (node 4) of
the Conv2D before it (node 2) and has a BiasAdd of its own (node 8). -/
def twoLayerGraph : TFGraph :=
  TFGraph.ofNodes
    [{ idx := 0, name := "x".toList, op := "Placeholder".toList, outputs := [2], pb_defs := [0] },
     { idx := 1, name := "w".toList, op := "Const".toList, outputs := [2], pb_defs := [1] },
     { idx := 2, name := "conv".toList, op := "Conv2D".toList, inputs := [0, 1],
       outputs := [4], pb_defs := [2] },
     { idx := 3, name := "b".toList, op := "Const".toList, outputs := [4], pb_defs := [3] },
     { idx := 4, name := "bias".toList, op := "BiasAdd".toList, inputs := [2, 3],
       outputs := [6], pb_defs := [4] },
     { idx := 5, name := "w2".toList, op := "Const".toList, outputs := [6], pb_defs := [5] },
     { idx := 6, name := "conv2".toList, op := "Conv2D".toList, inputs := [4, 5],
       outputs := [8], pb_defs := [6] },
     { idx := 7, name := "b2".toList, op := "Const".toList, outputs := [8], pb_defs := [7] },
     { idx := 8, name := "bias2".toList, op := "BiasAdd".toList, inputs := [6, 7],
       outputs := [9], pb_defs := [8] },
     { idx := 9, name := "relu".toList, op := "Relu".toList, inputs := [8], pb_defs := [9] }]

/-- A Conv2D `C` (node 2) whose result is added to itself by the Add `A`
(node 3). -/
def doubledConvGraph : TFGraph :=
  TFGraph.ofNodes
    [{ idx := 0, name := "x".toList, op := "Placeholder".toList, outputs := [2], pb_defs := [0] },
     { idx := 1, name := "w".toList, op := "Const".toList, outputs := [2], pb_defs := [1] },
     { idx := 2, name := "conv".toList, op := "Conv2D".toList, inputs := [0, 1],
       outputs := [3, 3], pb_defs := [2] },
     { idx := 3, name := "twice".toList, op := "Add".toList, inputs := [2, 2],
       outputs := [4], pb_defs := [3] },
     { idx := 4, name := "relu".toList, op := "Relu".toList, inputs := [3], pb_defs := [4] }]

/-- A Conv2D `C` (node 2) followed by an Add `A` (node 3) that reads itself. -/
def selfAddGraph : TFGraph :=
  TFGraph.ofNodes
    [{ idx := 0, name := "x".toList, op := "Placeholder".toList, outputs := [2], pb_defs := [0] },
     { idx := 1, name := "w".toList, op := "Const".toList, outputs := [2], pb_defs := [1] },
     { idx := 2, name := "conv".toList, op := "Conv2D".toList, inputs := [0, 1],
       outputs := [3], pb_defs := [2] },
     { idx := 3, name := "acc".toList, op := "Add".toList, inputs := [2, 3],
       outputs := [3, 4], pb_defs := [3] },
     { idx := 4, name := "relu".toList, op := "Relu".toList, inputs := [3], pb_defs := [4] }]

/-- A Conv2D `C` (node 2) that reads the Add `A` (node 3) following it. -/
def loopedConvGraph : TFGraph :=
  TFGraph.ofNodes
    [{ idx := 0, name := "b".toList, op := "Const".toList, outputs := [3], pb_defs := [0] },
     { idx := 1, name := "w".toList, op := "Const".toList, outputs := [2], pb_defs := [1] },
     { idx := 2, name := "conv".toList, op := "Conv2D".toList, inputs := [3, 1],
       outputs := [3], pb_defs := [2] },
     { idx := 3, name := "acc".toList, op := "Add".toList, inputs := [2, 0],
       outputs := [2, 4], pb_defs := [3] },
     { idx := 4, name := "relu".toList, op := "Relu".toList, inputs := [3], pb_defs := [4] }]

/-- A Conv2D (node 2) with a BiasAdd (node 4) that a Mul (node 5) reads twice,
while the BiasAdd lists the Mul once among its outputs. -/
def lopsidedBiasGraph : TFGraph :=
  TFGraph.ofNodes
    [{ idx := 0, name := "x".toList, op := "Placeholder".toList, outputs := [2], pb_defs := [0] },
     { idx := 1, name := "w".toList, op := "Const".toList, outputs := [2], pb_defs := [1] },
     { idx := 2, name := "conv".toList, op := "Conv2D".toList, inputs := [0, 1],
       outputs := [4], pb_defs := [2] },
     { idx := 3, name := "b".toList, op := "Const".toList, outputs := [4], pb_defs := [3] },
     { idx := 4, name := "bias".toList, op := "BiasAdd".toList, inputs := [2, 3],
       outputs := [5], pb_defs := [4] },
     { idx := 5, name := "square".toList, op := "Mul".toList, inputs := [4, 4],
       pb_defs := [5] }]


/-- A Conv2D `C` (node 2) whose weights are the Add `A` (node 3) following it. -/
def loopedWeightGraph : TFGraph :=
  TFGraph.ofNodes
    [{ idx := 0, name := "x".toList, op := "Placeholder".toList, outputs := [2], pb_defs := [0] },
     { idx := 1, name := "b".toList, op := "Const".toList, outputs := [3], pb_defs := [1] },
     { idx := 2, name := "conv".toList, op := "Conv2D".toList, inputs := [0, 3],
       outputs := [3], pb_defs := [2] },
     { idx := 3, name := "acc".toList, op := "Add".toList, inputs := [2, 1],
       outputs := [2, 4], pb_defs := [3] },
     { idx := 4, name := "relu".toList, op := "Relu".toList, inputs := [3], pb_defs := [4] }]

/-- The graph `biasedConvGraph` with a second Conv2D (node 7) that reads the Relu
and constant weights (node 6) and is read by a Relu (node 8). -/
def stackedConvGraph : TFGraph :=
  TFGraph.ofNodes
    [{ idx := 0, name := "input".toList, op := "Placeholder".toList, outputs := [2],
       pb_defs := [0] },
     { idx := 1, name := "weights".toList, op := "Const".toList, outputs := [2],
       pb_defs := [1] },
     { idx := 2, name := "conv".toList, op := "Conv2D".toList, inputs := [0, 1],
       outputs := [4], pb_defs := [2] },
     { idx := 3, name := "bias".toList, op := "Const".toList, outputs := [4], pb_defs := [3] },
     { idx := 4, name := "biasadd".toList, op := "BiasAdd".toList, inputs := [2, 3],
       outputs := [5], pb_defs := [4] },
     { idx := 5, name := "relu".toList, op := "Relu".toList, inputs := [4], outputs := [7],
       pb_defs := [5] },
     { idx := 6, name := "weights2".toList, op := "Const".toList, outputs := [7],
       pb_defs := [6] },
     { idx := 7, name := "conv2".toList, op := "Conv2D".toList, inputs := [5, 6],
       outputs := [8], pb_defs := [7] },
     { idx := 8, name := "relu2".toList, op := "Relu".toList, inputs := [7], pb_defs := [8] }]

/-- A Pad (node 2) of a Placeholder (node 0) with constant paddings (node 1), read
by two Conv2D nodes (4 and 6) with constant weights (nodes 3 and 5). -/
def sharedPadGraph : TFGraph :=
  TFGraph.ofNodes
    [{ idx := 0, name := "x".toList, op := "Placeholder".toList, outputs := [2],
       pb_defs := [0] },
     { idx := 1, name := "paddings".toList, op := "Const".toList, outputs := [2],
       pb_defs := [1] },
     { idx := 2, name := "pad".toList, op := "Pad".toList, inputs := [0, 1],
       outputs := [4, 6], pb_defs := [2] },
     { idx := 3, name := "w1".toList, op := "Const".toList, outputs := [4], pb_defs := [3] },
     { idx := 4, name := "conv1".toList, op := "Conv2D".toList, inputs := [2, 3],
       pb_defs := [4] },
     { idx := 5, name := "w2".toList, op := "Const".toList, outputs := [6], pb_defs := [5] },
     { idx := 6, name := "conv2".toList, op := "Conv2D".toList, inputs := [2, 5],
       pb_defs := [6] }]

/-- A Conv2D (node 3) of a Pad (node 1) whose paddings are its data input `x`
(node 0). -/
def selfPaddedInputGraph : TFGraph :=
  TFGraph.ofNodes
    [{ idx := 0, name := "x".toList, op := "Placeholder".toList, outputs := [1, 1],
       pb_defs := [0] },
     { idx := 1, name := "pad".toList, op := "Pad".toList, inputs := [0, 0], outputs := [3],
       pb_defs := [1] },
     { idx := 2, name := "w".toList, op := "Const".toList, outputs := [3], pb_defs := [2] },
     { idx := 3, name := "conv".toList, op := "Conv2D".toList, inputs := [1, 2],
       pb_defs := [3] }]

/-- A Conv2D (node 3) of a Pad (node 1) whose paddings are the Pad itself. -/
def selfPadGraph : TFGraph :=
  TFGraph.ofNodes
    [{ idx := 0, name := "x".toList, op := "Placeholder".toList, outputs := [1],
       pb_defs := [0] },
     { idx := 1, name := "pad".toList, op := "Pad".toList, inputs := [0, 1],
       outputs := [1, 3], pb_defs := [1] },
     { idx := 2, name := "w".toList, op := "Const".toList, outputs := [3], pb_defs := [2] },
     { idx := 3, name := "conv".toList, op := "Conv2D".toList, inputs := [1, 2],
       pb_defs := [3] }]

/-- A Conv2D (node 3) of a Pad (node 1) whose paddings are the Conv2D. -/
def convPaddingsGraph : TFGraph :=
  TFGraph.ofNodes
    [{ idx := 0, name := "x".toList, op := "Placeholder".toList, outputs := [1],
       pb_defs := [0] },
     { idx := 1, name := "pad".toList, op := "Pad".toList, inputs := [0, 3], outputs := [3],
       pb_defs := [1] },
     { idx := 2, name := "w".toList, op := "Const".toList, outputs := [3], pb_defs := [2] },
     { idx := 3, name := "conv".toList, op := "Conv2D".toList, inputs := [1, 2],
       outputs := [1], pb_defs := [3] }]

/-- A Conv2D (node 3) of a Pad (node 2) that reads the paddings (node 1) of the
Pad as its second input. -/
def paddingsWeightGraph : TFGraph :=
  TFGraph.ofNodes
    [{ idx := 0, name := "x".toList, op := "Placeholder".toList, outputs := [2],
       pb_defs := [0] },
     { idx := 1, name := "paddings".toList, op := "Const".toList, outputs := [2, 3],
       pb_defs := [1] },
     { idx := 2, name := "pad".toList, op := "Pad".toList, inputs := [0, 1], outputs := [3],
       pb_defs := [2] },
     { idx := 3, name := "conv".toList, op := "Conv2D".toList, inputs := [2, 1],
       pb_defs := [3] }]

/-- The graph `padConvGraph` without the edge from the paddings (node 1) to the
Pad (node 2) in the outputs of the paddings: the Pad reads a node that does not
list it. -/
def lopsidedPadGraph : TFGraph :=
  TFGraph.ofNodes
    [{ idx := 0, name := "x".toList, op := "Placeholder".toList, outputs := [2],
       pb_defs := [0] },
     { idx := 1, name := "paddings".toList, op := "Const".toList, pb_defs := [1] },
     { idx := 2, name := "pad".toList, op := "Pad".toList, inputs := [0, 1], outputs := [4],
       pb_defs := [2] },
     { idx := 3, name := "w".toList, op := "Const".toList, outputs := [4], pb_defs := [3] },
     { idx := 4, name := "conv".toList, op := "Conv2D".toList, inputs := [2, 3],
       pb_defs := [4] }]

/-- The graph `padConvGraph` with a Mean (node 5) of the Conv2D whose axis operand
is the Placeholder `x` (node 0). -/
def meanAxisGraph : TFGraph :=
  TFGraph.ofNodes
    [{ idx := 0, name := "x".toList, op := "Placeholder".toList, outputs := [2, 5],
       pb_defs := [0] },
     { idx := 1, name := "paddings".toList, op := "Const".toList, outputs := [2],
       pb_defs := [1] },
     { idx := 2, name := "pad".toList, op := "Pad".toList, inputs := [0, 1], outputs := [4],
       pb_defs := [2] },
     { idx := 3, name := "w".toList, op := "Const".toList, outputs := [4], pb_defs := [3] },
     { idx := 4, name := "conv".toList, op := "Conv2D".toList, inputs := [2, 3],
       outputs := [5], pb_defs := [4] },
     { idx := 5, name := "mean".toList, op := "Mean".toList, inputs := [4, 0],
       pb_defs := [5] }]

/-- The graph `padConvGraph` with a Relu (node 5) of the Conv2D and a second
Conv2D (node 7) of the Relu and constant weights (node 6). -/
def padTwoConvGraph : TFGraph :=
  TFGraph.ofNodes
    [{ idx := 0, name := "x".toList, op := "Placeholder".toList, outputs := [2],
       pb_defs := [0] },
     { idx := 1, name := "paddings".toList, op := "Const".toList, outputs := [2],
       pb_defs := [1] },
     { idx := 2, name := "pad".toList, op := "Pad".toList, inputs := [0, 1], outputs := [4],
       pb_defs := [2] },
     { idx := 3, name := "w".toList, op := "Const".toList, outputs := [4], pb_defs := [3] },
     { idx := 4, name := "conv".toList, op := "Conv2D".toList, inputs := [2, 3],
       outputs := [5], pb_defs := [4] },
     { idx := 5, name := "relu".toList, op := "Relu".toList, inputs := [4], outputs := [7],
       pb_defs := [5] },
     { idx := 6, name := "w2".toList, op := "Const".toList, outputs := [7], pb_defs := [6] },
     { idx := 7, name := "conv2".toList, op := "Conv2D".toList, inputs := [5, 6],
       pb_defs := [7] }]

/-! ## Basic facts about the store -/

@[simp] theorem modify_heap (g : TFGraph) (a b : Nat) (f : TFNode → TFNode) :
    (g.modify a f).heap b = if b = a then f (g.heap b) else g.heap b := rfl

@[simp] theorem modify_seq_nodes (g : TFGraph) (a : Nat) (f : TFNode → TFNode) :
    (g.modify a f).seq_nodes = g.seq_nodes := rfl

@[simp] theorem modify_next (g : TFGraph) (a : Nat) (f : TFNode → TFNode) :
    (g.modify a f).next = g.next := rfl

theorem TFGraph.ext_heap {g h : TFGraph} (hs : g.seq_nodes = h.seq_nodes)
    (hn : g.next = h.next) (hh : ∀ a, g.heap a = h.heap a) : g = h := by
  cases g; cases h
  simp only at hs hn hh
  subst hs; subst hn
  have hf := funext hh
  subst hf
  rfl

/-! ## Facts about `replaceFirst` -/

theorem replaceFirst_of_not_mem (x y : Nat) (l : List Nat) (h : x ∉ l) :
    replaceFirst x y l = l := by
  induction l with
  | nil => rfl
  | cons a l ih =>
    simp only [List.mem_cons, not_or] at h
    have ha : a ≠ x := fun e => h.1 e.symm
    simp [replaceFirst, ha, ih h.2]

theorem count_replaceFirst_old (x y : Nat) (hxy : x ≠ y) (l : List Nat) :
    (replaceFirst x y l).count x = l.count x - 1 := by
  induction l with
  | nil => rfl
  | cons a l ih =>
    by_cases ha : a = x
    · subst ha
      simp [replaceFirst, List.count_cons, hxy.symm]
    · simp [replaceFirst, ha, List.count_cons, ih]

theorem count_replaceFirst_new (x y : Nat) (hxy : x ≠ y) (l : List Nat) :
    (replaceFirst x y l).count y = l.count y + (if x ∈ l then 1 else 0) := by
  induction l with
  | nil => rfl
  | cons a l ih =>
    by_cases ha : a = x
    · subst ha
      simp [replaceFirst, List.count_cons, hxy]
    · have hax : ¬ x = a := fun e => ha e.symm
      by_cases hay : a = y
      · subst hay
        simp [replaceFirst, ha, List.count_cons, ih, hax]
        omega
      · simp [replaceFirst, ha, List.count_cons, ih, hax, hay]

theorem count_replaceFirst_other (x y z : Nat) (hx : z ≠ x) (hy : z ≠ y) (l : List Nat) :
    (replaceFirst x y l).count z = l.count z := by
  induction l with
  | nil => rfl
  | cons a l ih =>
    by_cases ha : a = x
    · subst ha
      simp [replaceFirst, List.count_cons, hx.symm, hy.symm]
    · simp [replaceFirst, ha, List.count_cons, ih]

theorem filter_replaceFirst (p : Nat → Bool) (x y : Nat) (hx : p x = false)
    (hy : p y = false) (l : List Nat) :
    (replaceFirst x y l).filter p = l.filter p := by
  induction l with
  | nil => rfl
  | cons a l ih =>
    by_cases ha : a = x
    · subst ha
      simp [replaceFirst, List.filter_cons, hx, hy]
    · simp [replaceFirst, ha, List.filter_cons, ih]

theorem iterate_replaceFirst_of_not_mem (x y k : Nat) (l : List Nat) (h : x ∉ l) :
    (replaceFirst x y)^[k] l = l := by
  induction k with
  | zero => rfl
  | succ k ih => rw [Function.iterate_succ_apply, replaceFirst_of_not_mem x y l h, ih]

theorem count_iterate_replaceFirst_old (x y : Nat) (hxy : x ≠ y) (k : Nat) (l : List Nat) :
    ((replaceFirst x y)^[k] l).count x = l.count x - k := by
  induction k generalizing l with
  | zero => rfl
  | succ k ih =>
    rw [Function.iterate_succ_apply, ih, count_replaceFirst_old x y hxy]
    omega

theorem count_iterate_replaceFirst_new (x y : Nat) (hxy : x ≠ y) (k : Nat) (l : List Nat) :
    ((replaceFirst x y)^[k] l).count y = l.count y + min k (l.count x) := by
  induction k generalizing l with
  | zero => simp
  | succ k ih =>
    rw [Function.iterate_succ_apply, ih, count_replaceFirst_new x y hxy,
      count_replaceFirst_old x y hxy]
    by_cases hx : x ∈ l
    · have := List.count_pos_iff.mpr hx
      simp only [hx, if_true]
      omega
    · have := List.count_eq_zero.mpr hx
      simp only [hx, if_false]
      omega

theorem count_iterate_replaceFirst_other (x y z : Nat) (hx : z ≠ x) (hy : z ≠ y) (k : Nat)
    (l : List Nat) : ((replaceFirst x y)^[k] l).count z = l.count z := by
  induction k generalizing l with
  | zero => rfl
  | succ k ih => rw [Function.iterate_succ_apply, ih, count_replaceFirst_other x y z hx hy]

theorem filter_iterate_replaceFirst (p : Nat → Bool) (x y : Nat) (hx : p x = false)
    (hy : p y = false) (k : Nat) (l : List Nat) :
    ((replaceFirst x y)^[k] l).filter p = l.filter p := by
  induction k generalizing l with
  | zero => rfl
  | succ k ih => rw [Function.iterate_succ_apply, ih, filter_replaceFirst p x y hx hy]

/-! ## The loops of the merges, in closed form -/

theorem foldl_relinkOutput_heap (P B : Nat) (L : List Nat) (g : TFGraph) (m : Nat) :
    (L.foldl (relinkOutput P B) g).heap m =
      { g.heap m with outputs := (replaceFirst P B)^[L.count m] (g.heap m).outputs } := by
  induction L generalizing g with
  | nil => rfl
  | cons a L ih =>
    rw [List.foldl_cons, ih]
    by_cases hm : m = a
    · subst hm
      simp [relinkOutput, List.count_cons, Function.iterate_succ_apply]
    · have hm2 : ¬ a = m := fun e => hm e.symm
      simp [relinkOutput, List.count_cons, hm, hm2]

theorem foldl_relinkInput_heap (P B : Nat) (L : List Nat) (g : TFGraph) (m : Nat) :
    (L.foldl (relinkInput P B) g).heap m =
      { g.heap m with inputs := (replaceFirst P B)^[L.count m] (g.heap m).inputs } := by
  induction L generalizing g with
  | nil => rfl
  | cons a L ih =>
    rw [List.foldl_cons, ih]
    by_cases hm : m = a
    · subst hm
      simp [relinkInput, List.count_cons, Function.iterate_succ_apply]
    · have hm2 : ¬ a = m := fun e => hm e.symm
      simp [relinkInput, List.count_cons, hm, hm2]

theorem foldl_relinkOutput_frame (P B : Nat) (L : List Nat) (g : TFGraph) :
    (L.foldl (relinkOutput P B) g).seq_nodes = g.seq_nodes ∧
      (L.foldl (relinkOutput P B) g).next = g.next := by
  induction L generalizing g with
  | nil => exact ⟨rfl, rfl⟩
  | cons a L ih => rw [List.foldl_cons]; exact ih _

theorem foldl_bridgeOutput_heap (P B : Nat) (L : List Nat) (g : TFGraph) (m : Nat) :
    (L.foldl (bridgeOutput P B) g).heap m =
      if m = B then
        { g.heap m with outputs := (g.heap m).outputs ++ L.filter fun x => x ≠ B }
      else { g.heap m with inputs := (replaceFirst P B)^[L.count m] (g.heap m).inputs } := by
  induction L generalizing g with
  | nil => simp
  | cons a L ih =>
    rw [List.foldl_cons, ih]
    by_cases ha : a = B
    · subst ha
      by_cases hm : m = a
      · simp [bridgeOutput, hm]
      · have hm2 : ¬ a = m := fun e => hm e.symm
        simp [bridgeOutput, hm, hm2, List.count_cons]
    · by_cases hm : m = B
      · subst hm
        have hm2 : ¬ m = a := fun e => ha e.symm
        simp [bridgeOutput, relinkInput, ha, hm2, List.filter_cons]
      · by_cases hma : m = a
        · subst hma
          simp [bridgeOutput, relinkInput, hm, ha, List.count_cons,
            Function.iterate_succ_apply]
        · have hm2 : ¬ a = m := fun e => hma e.symm
          simp [bridgeOutput, relinkInput, hm, hma, hm2, ha, List.count_cons]

theorem foldl_bridgeOutput_frame (P B : Nat) (L : List Nat) (g : TFGraph) :
    (L.foldl (bridgeOutput P B) g).seq_nodes = g.seq_nodes ∧
      (L.foldl (bridgeOutput P B) g).next = g.next := by
  induction L generalizing g with
  | nil => exact ⟨rfl, rfl⟩
  | cons a L ih =>
    rw [List.foldl_cons]
    have h := ih (bridgeOutput P B g a)
    by_cases ha : a = B <;> simpa [bridgeOutput, relinkInput, ha] using h

/-- The graph `MergeParentNode` leaves, node by node, for two different nodes
`B` (base) and `P` (parent) with `P` among the inputs of `B`. -/
theorem MergeParentNode_closed (g : TFGraph) (B P : Nat) (hne : B ≠ P)
    (hmem : P ∈ (g.heap B).inputs) :
    ∃ g', MergeParentNode g B P = some g' ∧ g'.seq_nodes = g.seq_nodes ∧
      g'.next = g.next ∧
      ∀ m, g'.heap m =
        if m = P then { g.heap m with inputs := [], outputs := [] }
        else if m = B then
          { g.heap m with
            inputs := (g.heap B).inputs.erase P ++ (g.heap P).inputs
            outputs :=
              (replaceFirst P B)^[(g.heap P).inputs.count B] (g.heap B).outputs ++
                ((replaceFirst P B)^[(g.heap P).inputs.count P] (g.heap P).outputs).filter
                  fun x => x ≠ B
            pb_defs := (g.heap B).pb_defs ++ (g.heap P).pb_defs }
        else
          { g.heap m with
            inputs :=
              (replaceFirst P B)^[((replaceFirst P B)^[(g.heap P).inputs.count P]
                (g.heap P).outputs).count m] (g.heap m).inputs
            outputs := (replaceFirst P B)^[(g.heap P).inputs.count m] (g.heap m).outputs } := by
  have hPB : ¬ P = B := fun e => hne e.symm
  unfold MergeParentNode
  rw [if_neg hne, if_neg (not_not.mpr hmem)]
  refine ⟨_, rfl, ?_, ?_, ?_⟩
  · simp [(foldl_bridgeOutput_frame _ _ _ _).1, (foldl_relinkOutput_frame _ _ _ _).1]
  · simp [(foldl_bridgeOutput_frame _ _ _ _).2, (foldl_relinkOutput_frame _ _ _ _).2]
  · intro m
    by_cases hmP : m = P
    · subst hmP
      simp [foldl_bridgeOutput_heap, foldl_relinkOutput_heap, hPB]
    · by_cases hmB : m = B
      · subst hmB
        simp [foldl_bridgeOutput_heap, foldl_relinkOutput_heap, hPB, hmP]
      · simp [foldl_bridgeOutput_heap, foldl_relinkOutput_heap, hPB, hmP, hmB]

theorem foldl_relinkInput_frame (P B : Nat) (L : List Nat) (g : TFGraph) :
    (L.foldl (relinkInput P B) g).seq_nodes = g.seq_nodes ∧
      (L.foldl (relinkInput P B) g).next = g.next := by
  induction L generalizing g with
  | nil => exact ⟨rfl, rfl⟩
  | cons a L ih => rw [List.foldl_cons]; exact ih _

theorem foldl_bridgeInput_heap (C B : Nat) (L : List Nat) (g : TFGraph) (m : Nat) :
    (L.foldl (bridgeInput C B) g).heap m =
      if m = B then
        { g.heap m with inputs := (g.heap m).inputs ++ L.filter fun x => x ≠ B }
      else { g.heap m with outputs := (replaceFirst C B)^[L.count m] (g.heap m).outputs } := by
  induction L generalizing g with
  | nil => simp
  | cons a L ih =>
    rw [List.foldl_cons, ih]
    by_cases ha : a = B
    · subst ha
      by_cases hm : m = a
      · simp [bridgeInput, hm]
      · have hm2 : ¬ a = m := fun e => hm e.symm
        simp [bridgeInput, hm, hm2, List.count_cons]
    · by_cases hm : m = B
      · subst hm
        have hm2 : ¬ m = a := fun e => ha e.symm
        simp [bridgeInput, relinkOutput, ha, hm2, List.filter_cons]
      · by_cases hma : m = a
        · subst hma
          simp [bridgeInput, relinkOutput, hm, ha, List.count_cons,
            Function.iterate_succ_apply]
        · have hm2 : ¬ a = m := fun e => hma e.symm
          simp [bridgeInput, relinkOutput, hm, hma, hm2, ha, List.count_cons]

theorem foldl_bridgeInput_frame (C B : Nat) (L : List Nat) (g : TFGraph) :
    (L.foldl (bridgeInput C B) g).seq_nodes = g.seq_nodes ∧
      (L.foldl (bridgeInput C B) g).next = g.next := by
  induction L generalizing g with
  | nil => exact ⟨rfl, rfl⟩
  | cons a L ih =>
    rw [List.foldl_cons]
    have h := ih (bridgeInput C B g a)
    by_cases ha : a = B <;> simpa [bridgeInput, relinkOutput, ha] using h

/-- The graph `MergeChildNode` leaves, node by node, for two different nodes
`B` (base) and `C` (child) with `C` among the outputs of `B`. -/
theorem MergeChildNode_closed (g : TFGraph) (B C : Nat) (hne : B ≠ C)
    (hmem : C ∈ (g.heap B).outputs) :
    ∃ g', MergeChildNode g B C = some g' ∧ g'.seq_nodes = g.seq_nodes ∧
      g'.next = g.next ∧
      ∀ m, g'.heap m =
        if m = C then { g.heap m with inputs := [], outputs := [] }
        else if m = B then
          { g.heap m with
            outputs := (g.heap B).outputs.erase C ++ (g.heap C).outputs
            inputs :=
              (replaceFirst C B)^[(g.heap C).outputs.count B] (g.heap B).inputs ++
                ((replaceFirst C B)^[(g.heap C).outputs.count C] (g.heap C).inputs).filter
                  fun x => x ≠ B
            pb_defs := (g.heap B).pb_defs ++ (g.heap C).pb_defs }
        else
          { g.heap m with
            outputs :=
              (replaceFirst C B)^[((replaceFirst C B)^[(g.heap C).outputs.count C]
                (g.heap C).inputs).count m] (g.heap m).outputs
            inputs := (replaceFirst C B)^[(g.heap C).outputs.count m] (g.heap m).inputs } := by
  have hCB : ¬ C = B := fun e => hne e.symm
  unfold MergeChildNode
  rw [if_neg hne, if_neg (not_not.mpr hmem)]
  refine ⟨_, rfl, ?_, ?_, ?_⟩
  · simp [(foldl_bridgeInput_frame _ _ _ _).1, (foldl_relinkInput_frame _ _ _ _).1]
  · simp [(foldl_bridgeInput_frame _ _ _ _).2, (foldl_relinkInput_frame _ _ _ _).2]
  · intro m
    by_cases hmC : m = C
    · subst hmC
      simp [foldl_bridgeInput_heap, foldl_relinkInput_heap, hCB]
    · by_cases hmB : m = B
      · subst hmB
        simp [foldl_bridgeInput_heap, foldl_relinkInput_heap, hCB, hmC]
      · simp [foldl_bridgeInput_heap, foldl_relinkInput_heap, hCB, hmC, hmB]

@[simp] theorem mirror_heap (g : TFGraph) (a : Nat) : g.mirror.heap a = (g.heap a).swap := rfl

@[simp] theorem mirror_seq_nodes (g : TFGraph) : g.mirror.seq_nodes = g.seq_nodes := rfl

@[simp] theorem mirror_next (g : TFGraph) : g.mirror.next = g.next := rfl

/-- `MergeChildNode` is `MergeParentNode` seen through edge reversal. -/
theorem MergeChildNode_eq_mirror (g : TFGraph) (B X : Nat) :
    (MergeParentNode g.mirror B X).map TFGraph.mirror = MergeChildNode g B X := by
  by_cases hne : B = X
  · simp [MergeParentNode, MergeChildNode, hne]
  · by_cases hmem : X ∈ (g.heap B).outputs
    · obtain ⟨g1, h1, hs1, hn1, hh1⟩ :=
        MergeParentNode_closed g.mirror B X hne (by simpa [TFNode.swap] using hmem)
      obtain ⟨g2, h2, hs2, hn2, hh2⟩ := MergeChildNode_closed g B X hne hmem
      rw [h1, h2, Option.map_some']
      congr 1
      apply TFGraph.ext_heap
      · simp [hs1, hs2]
      · simp [hn1, hn2]
      · intro m
        rw [mirror_heap, hh1, hh2]
        by_cases hmX : m = X
        · simp [hmX, TFNode.swap]
        · by_cases hmB : m = B
          · subst hmB
            simp [hmX, TFNode.swap]
          · simp [hmX, hmB, TFNode.swap]
    · have h1 : MergeParentNode g.mirror B X = none := by
        simp [MergeParentNode, hne, TFNode.swap, hmem]
      have h2 : MergeChildNode g B X = none := by
        simp [MergeChildNode, hne, hmem]
      rw [h1, h2]; rfl

/-! ## Symmetry is kept by the merges -/

theorem count_iterate_replaceFirst_full (x y : Nat) (hxy : x ≠ y) (l : List Nat) (k : Nat)
    (hk : l.count x ≤ k) (z : Nat) :
    ((replaceFirst x y)^[k] l).count z =
      if z = x then 0 else if z = y then l.count y + l.count x else l.count z := by
  by_cases hzx : z = x
  · subst hzx
    rw [count_iterate_replaceFirst_old z y hxy, if_pos rfl]
    omega
  · by_cases hzy : z = y
    · subst hzy
      rw [count_iterate_replaceFirst_new x z hxy, if_neg hzx, if_pos rfl, Nat.min_eq_right hk]
    · rw [count_iterate_replaceFirst_other x y z hzx hzy, if_neg hzx, if_neg hzy]

theorem count_filter_ne (B z : Nat) (l : List Nat) :
    (l.filter fun x => !decide (x = B)).count z = if z = B then 0 else l.count z := by
  by_cases hz : z = B
  · subst hz
    rw [if_pos rfl, List.count_eq_zero]
    simp [List.mem_filter]
  · rw [if_neg hz, List.count_filter]
    simp [hz]

theorem countSym_mirror (g : TFGraph) (h : CountSym g) : CountSym g.mirror := by
  intro a b
  simpa [TFNode.swap] using (h b a).symm

theorem edgeSym_of_countSym (g : TFGraph) (h : CountSym g) : EdgeSym g := by
  intro a b
  rw [← List.count_pos_iff, ← List.count_pos_iff, h a b]

theorem MergeParentNode_countSym (g : TFGraph) (B P : Nat) (hsym : CountSym g)
    (hone : (g.heap B).inputs.count P = 1) (hself : P ∉ (g.heap P).inputs) :
    ∃ g', MergeParentNode g B P = some g' ∧ CountSym g' := by
  have hmem : P ∈ (g.heap B).inputs := List.count_pos_iff.mp (by omega)
  have hne : B ≠ P := by
    rintro rfl
    exact hself hmem
  have hPB : P ≠ B := fun e => hne e.symm
  obtain ⟨g', h, -, -, hh⟩ := MergeParentNode_closed g B P hne hmem
  refine ⟨g', h, ?_⟩
  have hPP : (g.heap P).inputs.count P = 0 := List.count_eq_zero.mpr hself
  have hPPo : (g.heap P).outputs.count P = 0 := by rw [hsym]; exact hPP
  have key_out : ∀ m z,
      ((replaceFirst P B)^[(g.heap P).inputs.count m] (g.heap m).outputs).count z =
        if z = P then 0
        else if z = B then (g.heap m).outputs.count B + (g.heap m).outputs.count P
        else (g.heap m).outputs.count z := fun m z =>
    count_iterate_replaceFirst_full P B hPB _ _ (by rw [hsym m P]) z
  have key_in : ∀ m z,
      ((replaceFirst P B)^[(g.heap P).outputs.count m] (g.heap m).inputs).count z =
        if z = P then 0
        else if z = B then (g.heap m).inputs.count B + (g.heap m).inputs.count P
        else (g.heap m).inputs.count z := fun m z =>
    count_iterate_replaceFirst_full P B hPB _ _ (by rw [hsym P m]) z
  intro a b
  rw [hh a, hh b]
  simp only [hPP, Function.iterate_zero, id]
  by_cases haP : a = P
  · subst haP
    by_cases hbB : b = B
    · subst hbB
      simp [hPB, hne, hone, hPP, count_filter_ne, hPPo]
    · by_cases hbP : b = a
      · simp [hbP]
      · simp [hbP, hbB, key_in]
  · by_cases haB : a = B
    · subst haB
      by_cases hbP : b = P
      · subst hbP
        simp [haP, key_out, hPPo, count_filter_ne]
      · by_cases hbB : b = a
        · subst hbB
          have e1 := hsym b b
          have e2 := hsym b P
          simp [haP, key_out, hPB, count_filter_ne]
          omega
        · have e1 := hsym a b
          have e2 := hsym P b
          simp [haP, hbP, hbB, key_out, key_in, hne, count_filter_ne]
          omega
    · by_cases hbP : b = P
      · subst hbP
        simp [haP, haB, key_out]
      · by_cases hbB : b = B
        · subst hbB
          have e1 := hsym a b
          have e2 := hsym a P
          simp [haP, haB, hbP, key_out, hPB, Ne.symm haP]
          omega
        · have e1 := hsym a b
          simp [haP, haB, hbP, hbB, key_out, key_in, e1]

theorem MergeChildNode_countSym (g : TFGraph) (B C : Nat) (hsym : CountSym g)
    (hone : (g.heap B).outputs.count C = 1) (hself : C ∉ (g.heap C).outputs) :
    ∃ g', MergeChildNode g B C = some g' ∧ CountSym g' := by
  obtain ⟨g1, h1, hs1⟩ := MergeParentNode_countSym g.mirror B C (countSym_mirror g hsym)
    (by simpa [TFNode.swap] using hone) (by simpa [TFNode.swap] using hself)
  refine ⟨g1.mirror, ?_, countSym_mirror g1 hs1⟩
  rw [← MergeChildNode_eq_mirror, h1]
  rfl

/-! ## `DisconnectNode` in closed form -/

theorem iterate_erase_cons_ne (x a : Nat) (h : a ≠ x) (k : Nat) (l : List Nat) :
    (fun l : List Nat => l.erase x)^[k] (a :: l) =
      a :: (fun l : List Nat => l.erase x)^[k] l := by
  induction k generalizing l with
  | zero => rfl
  | succ k ih =>
    rw [Function.iterate_succ_apply, Function.iterate_succ_apply]
    have : (a :: l).erase x = a :: l.erase x := by
      rw [List.erase_cons]
      simp [h]
    rw [this, ih]

theorem iterate_erase_nil (x k : Nat) : (fun l : List Nat => l.erase x)^[k] [] = [] := by
  induction k with
  | zero => rfl
  | succ k ih => rw [Function.iterate_succ_apply]; exact ih

theorem iterate_erase_full (x : Nat) (l : List Nat) (k : Nat) (hk : l.count x ≤ k) :
    (fun l : List Nat => l.erase x)^[k] l = l.filter fun y => y ≠ x := by
  induction l generalizing k with
  | nil => simp [iterate_erase_nil]
  | cons a l ih =>
    by_cases ha : a = x
    · subst ha
      rw [List.count_cons_self] at hk
      obtain ⟨k, rfl⟩ : ∃ j, k = j + 1 := ⟨k - 1, by omega⟩
      rw [Function.iterate_succ_apply]
      have : (a :: l).erase a = l := by simp
      rw [this, ih k (by omega)]
      simp
    · rw [List.count_cons_of_ne (fun e => ha e.symm)] at hk
      rw [iterate_erase_cons_ne x a ha, ih k hk]
      simp [ha]

theorem foldlM_disconnectInput (cur : Nat) (L : List Nat) (g : TFGraph)
    (h : ∀ m, L.count m ≤ (g.heap m).outputs.count cur) :
    ∃ g', L.foldlM (disconnectInput cur) g = some g' ∧ g'.seq_nodes = g.seq_nodes ∧
      g'.next = g.next ∧
      ∀ m, g'.heap m =
        { g.heap m with
          outputs := (fun l : List Nat => l.erase cur)^[L.count m] (g.heap m).outputs } := by
  induction L generalizing g with
  | nil => exact ⟨g, rfl, rfl, rfl, fun m => rfl⟩
  | cons a L ih =>
    have ha : cur ∈ (g.heap a).outputs := by
      have := h a
      rw [List.count_cons_self] at this
      exact List.count_pos_iff.mp (by omega)
    have hstep : disconnectInput cur g a =
        some (g.modify a fun n => { n with outputs := n.outputs.erase cur }) := by
      simp [disconnectInput, ha]
    obtain ⟨g', h1, h2, h3, h4⟩ :=
      ih (g.modify a fun n => { n with outputs := n.outputs.erase cur }) (by
        intro m
        have hm := h m
        by_cases hma : m = a
        · subst hma
          rw [List.count_cons_self] at hm
          simp only [modify_heap, if_true, List.count_erase_self]
          omega
        · rw [List.count_cons_of_ne hma] at hm
          simpa [hma] using hm)
    refine ⟨g', ?_, by simpa using h2, by simpa using h3, ?_⟩
    · rw [List.foldlM_cons, hstep]
      exact h1
    · intro m
      rw [h4 m]
      by_cases hma : m = a
      · subst hma
        simp [Function.iterate_succ_apply]
      · simp [hma, List.count_cons_of_ne hma]

theorem foldlM_disconnectOutput (cur : Nat) (L : List Nat) (g : TFGraph)
    (h : ∀ m, L.count m ≤ (g.heap m).inputs.count cur) :
    ∃ g', L.foldlM (disconnectOutput cur) g = some g' ∧ g'.seq_nodes = g.seq_nodes ∧
      g'.next = g.next ∧
      ∀ m, g'.heap m =
        { g.heap m with
          inputs := (fun l : List Nat => l.erase cur)^[L.count m] (g.heap m).inputs } := by
  induction L generalizing g with
  | nil => exact ⟨g, rfl, rfl, rfl, fun m => rfl⟩
  | cons a L ih =>
    have ha : cur ∈ (g.heap a).inputs := by
      have := h a
      rw [List.count_cons_self] at this
      exact List.count_pos_iff.mp (by omega)
    have hstep : disconnectOutput cur g a =
        some (g.modify a fun n => { n with inputs := n.inputs.erase cur }) := by
      simp [disconnectOutput, ha]
    obtain ⟨g', h1, h2, h3, h4⟩ :=
      ih (g.modify a fun n => { n with inputs := n.inputs.erase cur }) (by
        intro m
        have hm := h m
        by_cases hma : m = a
        · subst hma
          rw [List.count_cons_self] at hm
          simp only [modify_heap, if_true, List.count_erase_self]
          omega
        · rw [List.count_cons_of_ne hma] at hm
          simpa [hma] using hm)
    refine ⟨g', ?_, by simpa using h2, by simpa using h3, ?_⟩
    · rw [List.foldlM_cons, hstep]
      exact h1
    · intro m
      rw [h4 m]
      by_cases hma : m = a
      · subst hma
        simp [Function.iterate_succ_apply]
      · simp [hma, List.count_cons_of_ne hma]

/-- The graph `DisconnectNode` leaves on a graph that is symmetric with
multiplicities: the node is emptied and struck from every other list. -/
theorem DisconnectNode_closed (g : TFGraph) (n : Nat) (hsym : CountSym g) :
    ∃ g', DisconnectNode g n = some g' ∧ g'.seq_nodes = g.seq_nodes ∧ g'.next = g.next ∧
      ∀ m, g'.heap m =
        if m = n then { g.heap m with inputs := [], outputs := [] }
        else
          { g.heap m with
            inputs := (g.heap m).inputs.filter fun y => y ≠ n
            outputs := (g.heap m).outputs.filter fun y => y ≠ n } := by
  obtain ⟨g1, e1, s1, n1, h1⟩ := foldlM_disconnectInput n (g.heap n).inputs g
    (fun m => by rw [hsym m n])
  have h1' : ∀ m, g1.heap m =
      { g.heap m with outputs := (g.heap m).outputs.filter fun y => y ≠ n } := by
    intro m
    rw [h1 m, iterate_erase_full n _ _ (by rw [hsym m n])]
  obtain ⟨g3, e3, s3, n3, h3⟩ := foldlM_disconnectOutput n
    ((g1.modify n fun x => { x with inputs := [] }).heap n).outputs
    (g1.modify n fun x => { x with inputs := [] }) (by
      intro m
      by_cases hm : m = n
      · subst hm
        simp [h1', count_filter_ne]
      · have := hsym n m
        simp [h1', hm, count_filter_ne, this])
  refine ⟨g3.modify n fun x => { x with outputs := [] }, ?_, ?_, ?_, ?_⟩
  · simp only [DisconnectNode, e1, e3, Option.bind_eq_bind, Option.some_bind]
    rfl
  · simp [s3, s1]
  · simp [n3, n1]
  · intro m
    by_cases hm : m = n
    · subst hm
      simp [h3, h1', iterate_erase_nil]
    · have := hsym n m
      simp only [modify_heap, hm, if_false, h3, h1']
      rw [iterate_erase_full n _ _ (by simp [count_filter_ne, hm, this])]

/-! ## Graph construction -/

theorem setupNodes_spec (recs : List NodeDef) (i : Nat) (g : TFGraph) (nm : NodeMap) :
    (setupNodes recs i g nm).1.seq_nodes = g.seq_nodes ++ List.range' g.next recs.length ∧
      (setupNodes recs i g nm).1.next = g.next + recs.length ∧
      (∀ j (hj : j < recs.length), (setupNodes recs i g nm).1.heap (g.next + j) =
        { idx := i + j, name := recs[j].name, op := recs[j].op, pb_defs := [i + j] }) ∧
      ∀ b, b < g.next ∨ g.next + recs.length ≤ b →
        (setupNodes recs i g nm).1.heap b = g.heap b := by
  induction recs generalizing i g nm with
  | nil => simp [setupNodes]
  | cons r rest ih =>
    obtain ⟨h1, h2, h3, h4⟩ := ih (i + 1)
      { seq_nodes := g.seq_nodes ++ [g.next]
        heap := fun b =>
          if b = g.next then { idx := i, name := r.name, op := r.op, pb_defs := [i] }
          else g.heap b
        next := g.next + 1 } (nm.insert r.name g.next)
    have e : setupNodes (r :: rest) i g nm = setupNodes rest (i + 1)
      { seq_nodes := g.seq_nodes ++ [g.next]
        heap := fun b =>
          if b = g.next then { idx := i, name := r.name, op := r.op, pb_defs := [i] }
          else g.heap b
        next := g.next + 1 } (nm.insert r.name g.next) := rfl
    rw [e]
    refine ⟨?_, ?_, ?_, ?_⟩
    · rw [h1]
      simp [List.range'_succ]
    · rw [h2]
      simp only [List.length_cons]
      omega
    · intro j hj
      cases j with
      | zero =>
        have h4z := h4 g.next (Or.inl (Nat.lt_succ_self _))
        simp only [Nat.add_zero]
        rw [h4z]
        simp
      | succ j =>
        have hj2 : j < rest.length := by simpa using hj
        have := h3 j hj2
        simp only at this
        rw [show g.next + (j + 1) = g.next + 1 + j by omega, this]
        simp only [List.getElem_cons_succ]
        rw [show i + 1 + j = i + (j + 1) by omega]
    · intro b hb
      simp only [List.length_cons] at hb
      rw [h4 b (by simp only; omega)]
      have : b ≠ g.next := by omega
      simp [this]

theorem modify_keeps_outputs (g : TFGraph) (c a : Nat) (f : TFNode → TFNode)
    (hf : ∀ n, (f n).outputs = n.outputs) :
    ((g.modify c f).heap a).outputs = (g.heap a).outputs := by
  simp only [modify_heap]
  split
  · exact hf _
  · rfl

theorem modify_keeps_inputs (g : TFGraph) (c a : Nat) (f : TFNode → TFNode)
    (hf : ∀ n, (f n).inputs = n.inputs) :
    ((g.modify c f).heap a).inputs = (g.heap a).inputs := by
  simp only [modify_heap]
  split
  · exact hf _
  · rfl

theorem modify_keeps_unlinked (g : TFGraph) (c a : Nat) (f : TFNode → TFNode)
    (hf : ∀ n, (f n).unlinked = n.unlinked) :
    ((g.modify c f).heap a).unlinked = (g.heap a).unlinked := by
  simp only [modify_heap]
  split
  · exact hf _
  · rfl

theorem connectInputs_frame (nm : NodeMap) (cur : Option Nat) (refs : List (List Char))
    (g : TFGraph) (r : Bool × TFGraph) (h : connectInputs nm cur refs g = some r) :
    r.2.seq_nodes = g.seq_nodes ∧ r.2.next = g.next ∧
      ∀ a, (r.2.heap a).unlinked = (g.heap a).unlinked := by
  induction refs generalizing g with
  | nil =>
    simp only [connectInputs, Option.some.injEq] at h
    subst h
    exact ⟨rfl, rfl, fun _ => rfl⟩
  | cons x rest ih =>
    simp only [connectInputs] at h
    cases hx : nm (cleanupName x) with
    | none =>
      simp only [hx, Option.some.injEq] at h
      subst h
      exact ⟨rfl, rfl, fun _ => rfl⟩
    | some inp =>
      cases cur with
      | none => simp [hx] at h
      | some c =>
        simp only [hx] at h
        obtain ⟨h1, h2, h3⟩ := ih _ h
        refine ⟨by simpa using h1, by simpa using h2, fun a => ?_⟩
        rw [h3 a,
          modify_keeps_unlinked _ inp a (fun n => { n with outputs := n.outputs ++ [c] })
            (fun _ => rfl),
          modify_keeps_unlinked _ c a (fun n => { n with inputs := n.inputs ++ [inp] })
            (fun _ => rfl)]

theorem connectInputs_countSym (nm : NodeMap) (cur : Option Nat) (refs : List (List Char))
    (g : TFGraph) (r : Bool × TFGraph) (h : connectInputs nm cur refs g = some r)
    (hs : CountSym g) : CountSym r.2 := by
  induction refs generalizing g with
  | nil =>
    simp only [connectInputs, Option.some.injEq] at h
    subst h
    exact hs
  | cons x rest ih =>
    simp only [connectInputs] at h
    cases hx : nm (cleanupName x) with
    | none =>
      simp only [hx, Option.some.injEq] at h
      subst h
      exact hs
    | some inp =>
      cases cur with
      | none => simp [hx] at h
      | some c =>
        simp only [hx] at h
        refine ih _ h ?_
        intro a b
        have ho : ∀ g1 : TFGraph,
            ((g1.modify inp fun n => { n with outputs := n.outputs ++ [c] }).heap a).outputs =
              if a = inp then (g1.heap a).outputs ++ [c] else (g1.heap a).outputs := by
          intro g1
          simp only [modify_heap]
          split <;> rfl
        have hi : ((g.modify c fun n => { n with inputs := n.inputs ++ [inp] }).heap b).inputs =
            if b = c then (g.heap b).inputs ++ [inp] else (g.heap b).inputs := by
          simp only [modify_heap]
          split <;> rfl
        rw [ho,
          modify_keeps_outputs _ c a (fun n => { n with inputs := n.inputs ++ [inp] })
            (fun _ => rfl),
          modify_keeps_inputs _ inp b (fun n => { n with outputs := n.outputs ++ [c] })
            (fun _ => rfl), hi]
        have hs2 : ∀ a b, (g.heap a).outputs.count b = (g.heap b).inputs.count a := hs
        by_cases ha : a = inp <;> by_cases hb : b = c <;>
          simp [ha, hb, List.count_cons, hs2, eq_comm]

theorem setupConnections_frame (nm : NodeMap) (recs : List NodeDef) (g : TFGraph)
    (r : Bool × TFGraph) (h : setupConnections nm recs g = some r) :
    r.2.seq_nodes = g.seq_nodes ∧ r.2.next = g.next ∧
      ∀ a, (r.2.heap a).unlinked = (g.heap a).unlinked := by
  induction recs generalizing g with
  | nil =>
    simp only [setupConnections, Option.some.injEq] at h
    subst h
    exact ⟨rfl, rfl, fun _ => rfl⟩
  | cons x rest ih =>
    simp only [setupConnections] at h
    cases hx : connectInputs nm (nm x.name) x.input g with
    | none => simp [hx] at h
    | some r1 =>
      obtain ⟨b1, g1⟩ := r1
      obtain ⟨f1, f2, f3⟩ := connectInputs_frame nm _ _ g _ hx
      cases b1 with
      | false =>
        simp only [hx, Option.some.injEq] at h
        subst h
        exact ⟨f1, f2, f3⟩
      | true =>
        simp only [hx] at h
        obtain ⟨e1, e2, e3⟩ := ih g1 h
        exact ⟨e1.trans f1, e2.trans f2, fun a => (e3 a).trans (f3 a)⟩

theorem setupConnections_countSym (nm : NodeMap) (recs : List NodeDef) (g : TFGraph)
    (r : Bool × TFGraph) (h : setupConnections nm recs g = some r) (hs : CountSym g) :
    CountSym r.2 := by
  induction recs generalizing g with
  | nil =>
    simp only [setupConnections, Option.some.injEq] at h
    subst h
    exact hs
  | cons x rest ih =>
    simp only [setupConnections] at h
    cases hx : connectInputs nm (nm x.name) x.input g with
    | none => simp [hx] at h
    | some r1 =>
      obtain ⟨b1, g1⟩ := r1
      have hs1 := connectInputs_countSym nm _ _ g _ hx hs
      cases b1 with
      | false =>
        simp only [hx, Option.some.injEq] at h
        subst h
        exact hs1
      | true =>
        simp only [hx] at h
        exact ih g1 h hs1

theorem setupNodes_nodeMap_mono (recs : List NodeDef) (i : Nat) (g : TFGraph) (nm : NodeMap)
    (k : List Char) (h : (nm k).isSome = true) :
    ((setupNodes recs i g nm).2 k).isSome = true := by
  induction recs generalizing i g nm with
  | nil => exact h
  | cons r rest ih =>
    refine ih (i + 1) _ (nm.insert r.name g.next) ?_
    by_cases hk : k = r.name
    · simp [NodeMap.insert, hk]
    · simpa [NodeMap.insert, hk] using h

theorem setupNodes_nodeMap_mem (recs : List NodeDef) (i : Nat) (g : TFGraph) (nm : NodeMap)
    (r : NodeDef) (hr : r ∈ recs) : ((setupNodes recs i g nm).2 r.name).isSome = true := by
  induction recs generalizing i g nm with
  | nil => exact absurd hr (List.not_mem_nil r)
  | cons x rest ih =>
    rcases List.mem_cons.mp hr with rfl | hr2
    · exact setupNodes_nodeMap_mono rest (i + 1) _ (nm.insert r.name g.next) r.name
        (by simp [NodeMap.insert])
    · exact ih (i + 1) _ (nm.insert x.name g.next) hr2

theorem connectInputs_defined (nm : NodeMap) (c : Nat) (refs : List (List Char))
    (g : TFGraph) : ∃ r, connectInputs nm (some c) refs g = some r := by
  induction refs generalizing g with
  | nil => exact ⟨_, rfl⟩
  | cons x rest ih =>
    simp only [connectInputs]
    cases nm (cleanupName x) with
    | none => exact ⟨_, rfl⟩
    | some inp => exact ih _

theorem setupConnections_defined (nm : NodeMap) (recs : List NodeDef) (g : TFGraph)
    (h : ∀ r ∈ recs, (nm r.name).isSome = true) :
    ∃ r, setupConnections nm recs g = some r := by
  induction recs generalizing g with
  | nil => exact ⟨_, rfl⟩
  | cons x rest ih =>
    obtain ⟨c, hc⟩ := Option.isSome_iff_exists.mp (h x (List.mem_cons_self x rest))
    obtain ⟨r1, hr1⟩ := connectInputs_defined nm c x.input g
    obtain ⟨b1, g1⟩ := r1
    simp only [setupConnections, hc, hr1]
    cases b1 with
    | false => exact ⟨_, rfl⟩
    | true => exact ih g1 (fun r hr => h r (List.mem_cons_of_mem x hr))

/-- The model of `ConstructGraph` never takes an undefined path: every record's
name is in `node_map` when the second scan reads it. -/
theorem ConstructGraph_defined (tf_net : GraphDef) (tf_graph : TFGraph) :
    ∃ r, ConstructGraph tf_net tf_graph = some r :=
  setupConnections_defined _ tf_net _
    (fun r hr => setupNodes_nodeMap_mem tf_net 0 tf_graph (fun _ => none) r hr)

/-! ## Graphs given by a list of nodes -/

theorem ofNodes_heap_of_lt (l : List TFNode) (a : Nat) (h : a < l.length) :
    (TFGraph.ofNodes l).heap a = l[a] := by
  show l.getD a {} = l[a]
  exact List.getD_eq_getElem _ _ h

theorem ofNodes_heap_of_le (l : List TFNode) (a : Nat) (h : l.length ≤ a) :
    (TFGraph.ofNodes l).heap a = {} := by
  show l.getD a {} = {}
  exact List.getD_eq_default _ _ h

theorem edgeSym_ofNodes (l : List TFNode) (hc : closedNodes l)
    (h : ∀ a < l.length, ∀ b < l.length,
      (b ∈ (l.getD a {}).outputs ↔ a ∈ (l.getD b {}).inputs)) :
    EdgeSym (TFGraph.ofNodes l) := by
  intro a b
  by_cases ha : a < l.length
  · by_cases hb : b < l.length
    · exact h a ha b hb
    · rw [ofNodes_heap_of_le l b (by omega), ofNodes_heap_of_lt l a ha]
      constructor
      · intro hm
        have := hc l[a] (List.getElem_mem ha) b (List.mem_append_right _ hm)
        omega
      · intro hm
        simp at hm
  · rw [ofNodes_heap_of_le l a (by omega)]
    by_cases hb : b < l.length
    · rw [ofNodes_heap_of_lt l b hb]
      constructor
      · intro hm
        simp at hm
      · intro hm
        have := hc l[b] (List.getElem_mem hb) a (List.mem_append_left _ hm)
        omega
    · rw [ofNodes_heap_of_le l b (by omega)]
      simp

theorem countSym_ofNodes (l : List TFNode) (hc : closedNodes l)
    (h : ∀ a < l.length, ∀ b < l.length,
      (l.getD a {}).outputs.count b = (l.getD b {}).inputs.count a) :
    CountSym (TFGraph.ofNodes l) := by
  intro a b
  by_cases ha : a < l.length
  · by_cases hb : b < l.length
    · exact h a ha b hb
    · rw [ofNodes_heap_of_le l b (by omega), ofNodes_heap_of_lt l a ha]
      have hm : b ∉ l[a].outputs := fun hm => by
        have := hc l[a] (List.getElem_mem ha) b (List.mem_append_right _ hm)
        omega
      simp [List.count_eq_zero.mpr hm]
  · rw [ofNodes_heap_of_le l a (by omega)]
    by_cases hb : b < l.length
    · rw [ofNodes_heap_of_lt l b hb]
      have hm : a ∉ l[b].inputs := fun hm => by
        have := hc l[b] (List.getElem_mem hb) a (List.mem_append_left _ hm)
        omega
      simp [List.count_eq_zero.mpr hm]
    · rw [ofNodes_heap_of_le l b (by omega)]
      simp

theorem countSym_chainGraph : CountSym chainGraph :=
  countSym_ofNodes _ (by decide) (by decide)

/-! ## Claims on the surgery primitives -/

/-- C1, as stated, fails: on the double edge `b = f(a, a)` (edge-symmetric, and
`a` is an input of `b`) `MergeParentNode(b, a)` removes one of the two entries
of `a` from `b.inputs` and empties `a`, so `a` stays an input of `b` while `b`
is no output of `a`. Symmetry is lost in the same way when `parent` carries a
self-loop, and when a child lists `parent` more often than `parent` lists the
child. -/
theorem C1_counterexample :
    (EdgeSym doubleEdgeGraph ∧ 1 ∈ (doubleEdgeGraph.heap 0).inputs ∧
      ∃ g', MergeParentNode doubleEdgeGraph 0 1 = some g' ∧ ¬ EdgeSym g') ∧
    (EdgeSym selfLoopParentGraph ∧ 1 ∈ (selfLoopParentGraph.heap 0).inputs ∧
      ∃ g', MergeParentNode selfLoopParentGraph 0 1 = some g' ∧ ¬ EdgeSym g') ∧
    (EdgeSym unevenGraph ∧ 1 ∈ (unevenGraph.heap 0).inputs ∧
      ∃ g', MergeParentNode unevenGraph 0 1 = some g' ∧ ¬ EdgeSym g') := by
  refine ⟨⟨edgeSym_ofNodes _ (by decide) (by decide), by decide, ?_⟩,
    ⟨edgeSym_ofNodes _ (by decide) (by decide), by decide, ?_⟩,
    ⟨edgeSym_ofNodes _ (by decide) (by decide), by decide, ?_⟩⟩
  · have e : (MergeParentNode doubleEdgeGraph 0 1).map
        (fun g' => ((g'.heap 0).inputs, (g'.heap 1).outputs)) = some ([1], []) := by decide
    cases hm : MergeParentNode doubleEdgeGraph 0 1 with
    | none => rw [hm] at e; exact Option.noConfusion e
    | some g' =>
      rw [hm, Option.map_some', Option.some.injEq, Prod.mk.injEq] at e
      refine ⟨g', rfl, fun hs => ?_⟩
      have h1 : 1 ∈ (g'.heap 0).inputs := by rw [e.1]; decide
      have h2 : 0 ∉ (g'.heap 1).outputs := by rw [e.2]; decide
      exact h2 ((hs 1 0).mpr h1)
  · have e : (MergeParentNode selfLoopParentGraph 0 1).map
        (fun g' => ((g'.heap 0).inputs, (g'.heap 1).outputs)) = some ([1], []) := by decide
    cases hm : MergeParentNode selfLoopParentGraph 0 1 with
    | none => rw [hm] at e; exact Option.noConfusion e
    | some g' =>
      rw [hm, Option.map_some', Option.some.injEq, Prod.mk.injEq] at e
      refine ⟨g', rfl, fun hs => ?_⟩
      have h1 : 1 ∈ (g'.heap 0).inputs := by rw [e.1]; decide
      have h2 : 0 ∉ (g'.heap 1).outputs := by rw [e.2]; decide
      exact h2 ((hs 1 0).mpr h1)
  · have e : (MergeParentNode unevenGraph 0 1).map
        (fun g' => ((g'.heap 2).inputs, (g'.heap 1).outputs)) = some ([0, 1], []) := by decide
    cases hm : MergeParentNode unevenGraph 0 1 with
    | none => rw [hm] at e; exact Option.noConfusion e
    | some g' =>
      rw [hm, Option.map_some', Option.some.injEq, Prod.mk.injEq] at e
      refine ⟨g', rfl, fun hs => ?_⟩
      have h1 : 1 ∈ (g'.heap 2).inputs := by rw [e.1]; decide
      have h2 : 2 ∉ (g'.heap 1).outputs := by rw [e.2]; decide
      exact h2 ((hs 1 2).mpr h1)

/-- C1, amended: in a graph that is edge-symmetric with multiplicities, when
`parent` occurs exactly once in `base.inputs` and is not its own input,
`MergeParentNode(base, parent)` returns a graph that is again symmetric with
multiplicities, hence edge-symmetric; likewise `MergeChildNode(base, child)`
when `child` occurs exactly once in `base.outputs` and is not its own output. -/
theorem C1_merges_preserve_symmetry (g : TFGraph) (base : Nat) (hsym : CountSym g) :
    (∀ parent, (g.heap base).inputs.count parent = 1 → parent ∉ (g.heap parent).inputs →
      ∃ g', MergeParentNode g base parent = some g' ∧ CountSym g' ∧ EdgeSym g') ∧
    (∀ child, (g.heap base).outputs.count child = 1 → child ∉ (g.heap child).outputs →
      ∃ g', MergeChildNode g base child = some g' ∧ CountSym g' ∧ EdgeSym g') := by
  constructor
  · intro parent h1 h2
    obtain ⟨g', e, hs⟩ := MergeParentNode_countSym g base parent hsym h1 h2
    exact ⟨g', e, hs, edgeSym_of_countSym g' hs⟩
  · intro child h1 h2
    obtain ⟨g', e, hs⟩ := MergeChildNode_countSym g base child hsym h1 h2
    exact ⟨g', e, hs, edgeSym_of_countSym g' hs⟩

/-- Witness of C1 on the chain `0 → 1 → 2`: node 1 absorbs its parent 0 and its
child 2. -/
theorem C1_merges_preserve_symmetry_witness :
    CountSym chainGraph ∧
      (∃ g', MergeParentNode chainGraph 1 0 = some g' ∧ CountSym g' ∧ EdgeSym g') ∧
      (∃ g', MergeChildNode chainGraph 1 2 = some g' ∧ CountSym g' ∧ EdgeSym g') :=
  ⟨countSym_chainGraph,
    (C1_merges_preserve_symmetry chainGraph 1 countSym_chainGraph).1 0
      (by decide) (by decide),
    (C1_merges_preserve_symmetry chainGraph 1 countSym_chainGraph).2 2
      (by decide) (by decide)⟩

/-- C2, as stated, fails on a two-node cycle: `base` is itself an input of
`parent`, so the loop over `parent`'s inputs rewrites `base.outputs` and the
entry `parent` in it becomes `base`. It also fails when `parent` carries a
self-loop: the same loop turns the entry `parent` of `parent.outputs` into
`base`, and the bridge loop then skips it. -/
theorem C2_counterexample :
    (1 ∈ (twoCycleGraph.heap 0).inputs ∧
      ∃ g', MergeParentNode twoCycleGraph 0 1 = some g' ∧
        (g'.heap 0).outputs ≠
          (twoCycleGraph.heap 0).outputs ++
            (twoCycleGraph.heap 1).outputs.filter fun x => x ≠ 0) ∧
    (1 ∈ (selfLoopParentGraph.heap 0).inputs ∧
      ∃ g', MergeParentNode selfLoopParentGraph 0 1 = some g' ∧
        (g'.heap 0).outputs ≠
          (selfLoopParentGraph.heap 0).outputs ++
            (selfLoopParentGraph.heap 1).outputs.filter fun x => x ≠ 0) := by
  refine ⟨⟨by decide, ?_⟩, ⟨by decide, ?_⟩⟩
  · have e : (MergeParentNode twoCycleGraph 0 1).map (fun g' => (g'.heap 0).outputs) =
        some [0] := by decide
    cases hm : MergeParentNode twoCycleGraph 0 1 with
    | none => rw [hm] at e; exact Option.noConfusion e
    | some g' =>
      rw [hm, Option.map_some', Option.some.injEq] at e
      refine ⟨g', rfl, ?_⟩
      rw [e]
      decide
  · have e : (MergeParentNode selfLoopParentGraph 0 1).map (fun g' => (g'.heap 0).outputs) =
        some [] := by decide
    cases hm : MergeParentNode selfLoopParentGraph 0 1 with
    | none => rw [hm] at e; exact Option.noConfusion e
    | some g' =>
      rw [hm, Option.map_some', Option.some.injEq] at e
      refine ⟨g', rfl, ?_⟩
      rw [e]
      decide

/-- C2, amended: when `parent` occurs in `base.inputs`, is not its own input and
does not have `base` among its inputs, `MergeParentNode(base, parent)` leaves
`base.inputs` as the old list with the first `parent` removed followed by the
old `parent.inputs`, `base.outputs` as the old list followed by the old
`parent.outputs` other than `base`, `base.pb_defs` as the old list followed by
`parent.pb_defs`, and `parent` with empty input and output lists. -/
theorem C2_MergeParentNode_lists (g : TFGraph) (base parent : Nat)
    (hmem : parent ∈ (g.heap base).inputs) (hself : parent ∉ (g.heap parent).inputs)
    (hcyc : base ∉ (g.heap parent).inputs) :
    ∃ g', MergeParentNode g base parent = some g' ∧
      (g'.heap base).inputs = (g.heap base).inputs.erase parent ++ (g.heap parent).inputs ∧
      (g'.heap base).outputs =
        (g.heap base).outputs ++ (g.heap parent).outputs.filter (fun x => x ≠ base) ∧
      (g'.heap base).pb_defs = (g.heap base).pb_defs ++ (g.heap parent).pb_defs ∧
      (g'.heap parent).inputs = [] ∧ (g'.heap parent).outputs = [] := by
  have hne : base ≠ parent := by
    rintro rfl
    exact hself hmem
  obtain ⟨g', e, -, -, hh⟩ := MergeParentNode_closed g base parent hne hmem
  refine ⟨g', e, ?_, ?_, ?_, ?_, ?_⟩ <;>
    simp [hh, hne, List.count_eq_zero.mpr hself, List.count_eq_zero.mpr hcyc]

/-- Witness of C2 on the chain graph, node 1 absorbing its parent 0. -/
theorem C2_MergeParentNode_lists_witness :
    ∃ g', MergeParentNode chainGraph 1 0 = some g' ∧
      (g'.heap 1).inputs = (chainGraph.heap 1).inputs.erase 0 ++ (chainGraph.heap 0).inputs ∧
      (g'.heap 1).outputs =
        (chainGraph.heap 1).outputs ++ (chainGraph.heap 0).outputs.filter (fun x => x ≠ 1) ∧
      (g'.heap 1).pb_defs = (chainGraph.heap 1).pb_defs ++ (chainGraph.heap 0).pb_defs ∧
      (g'.heap 0).inputs = [] ∧ (g'.heap 0).outputs = [] :=
  C2_MergeParentNode_lists chainGraph 1 0 (by decide) (by decide) (by decide)

/-- C3, as stated, fails when `parent` is `base` itself: node 0 with a self-loop
is edge-symmetric and is an input of itself, with node 1 as external input
neighbour, but `MergeParentNode(0, 0)` has no defined result (the source inserts
the input vector of the node into itself and, at the end, clears the lists of
the one node, so that the external input is lost). -/
theorem C3_counterexample :
    EdgeSym selfLoopGraph ∧ 0 ∈ (selfLoopGraph.heap 0).inputs ∧
      externalNeighbours 0 0 (selfLoopGraph.heap 0).inputs = [1] ∧
      MergeParentNode selfLoopGraph 0 0 = none :=
  ⟨edgeSym_ofNodes _ (by decide) (by decide), by decide, by decide, rfl⟩

/-- C3, amended: for every graph, edge-symmetric or not, and every `parent`
different from `base` that is an input of `base`, `MergeParentNode(base, parent)`
returns a graph in which the external input neighbours of `base` are, as a
multiset, those of `base` and `parent` together before the call, and the same
for the external output neighbours; `base.inputs` has lost exactly the first
entry `parent`, and `parent` ends with empty input and output lists. -/
theorem C3_merge_conservation (g : TFGraph) (base parent : Nat) (hne : base ≠ parent)
    (hmem : parent ∈ (g.heap base).inputs) :
    ∃ g', MergeParentNode g base parent = some g' ∧
      (↑(externalNeighbours base parent (g'.heap base).inputs) : Multiset Nat) =
        ↑(externalNeighbours base parent ((g.heap base).inputs ++ (g.heap parent).inputs)) ∧
      (↑(externalNeighbours base parent (g'.heap base).outputs) : Multiset Nat) =
        ↑(externalNeighbours base parent ((g.heap base).outputs ++ (g.heap parent).outputs)) ∧
      (g'.heap base).inputs = (g.heap base).inputs.erase parent ++ (g.heap parent).inputs ∧
      (g'.heap parent).inputs = [] ∧ (g'.heap parent).outputs = [] := by
  obtain ⟨g', e, -, -, hh⟩ := MergeParentNode_closed g base parent hne hmem
  have hf1 : ∀ l : List Nat,
      externalNeighbours base parent (l.erase parent) = externalNeighbours base parent l := by
    intro l
    induction l with
    | nil => rfl
    | cons a l ih =>
      by_cases ha : a = parent
      · subst ha
        simp [externalNeighbours, List.filter_cons]
      · have : (a :: l).erase parent = a :: l.erase parent := by
          rw [List.erase_cons]
          simp [ha]
        rw [this]
        simp only [externalNeighbours, List.filter_cons] at ih ⊢
        rw [ih]
  have hf2 : ∀ (k : Nat) (l : List Nat),
      externalNeighbours base parent ((replaceFirst parent base)^[k] l) =
        externalNeighbours base parent l := fun k l =>
    filter_iterate_replaceFirst _ parent base (by simp) (by simp) k l
  have hf3 : ∀ l : List Nat,
      externalNeighbours base parent (l.filter fun x => x ≠ base) =
        externalNeighbours base parent l := by
    intro l
    simp only [externalNeighbours, List.filter_filter]
    congr 1
    funext x
    by_cases hx : x = base <;> simp [hx]
  have hP : ¬ parent = base := fun e => hne e.symm
  refine ⟨g', e, ?_, ?_, ?_, ?_, ?_⟩
  · congr 1
    rw [hh base]
    simp only [hne, if_false, if_true]
    show externalNeighbours base parent (_ ++ _) = externalNeighbours base parent (_ ++ _)
    simp only [externalNeighbours, List.filter_append] at hf1 ⊢
    rw [hf1]
  · congr 1
    rw [hh base]
    simp only [hne, if_false, if_true]
    show externalNeighbours base parent (_ ++ _) = externalNeighbours base parent (_ ++ _)
    have a1 := hf2 ((g.heap parent).inputs.count base) (g.heap base).outputs
    have a2 := hf3 ((replaceFirst parent base)^[(g.heap parent).inputs.count parent]
      (g.heap parent).outputs)
    have a3 := hf2 ((g.heap parent).inputs.count parent) (g.heap parent).outputs
    simp only [externalNeighbours, List.filter_append] at a1 a2 a3 ⊢
    rw [a1, a2, a3]
  · simp [hh, hne]
  · simp [hh]
  · simp [hh]

/-- Witness of C3 on the chain graph, node 1 absorbing its parent 0. -/
theorem C3_merge_conservation_witness :
    ∃ g', MergeParentNode chainGraph 1 0 = some g' ∧
      (↑(externalNeighbours 1 0 (g'.heap 1).inputs) : Multiset Nat) =
        ↑(externalNeighbours 1 0 ((chainGraph.heap 1).inputs ++ (chainGraph.heap 0).inputs)) ∧
      (↑(externalNeighbours 1 0 (g'.heap 1).outputs) : Multiset Nat) =
        ↑(externalNeighbours 1 0 ((chainGraph.heap 1).outputs ++ (chainGraph.heap 0).outputs)) ∧
      (g'.heap 1).inputs = (chainGraph.heap 1).inputs.erase 0 ++ (chainGraph.heap 0).inputs ∧
      (g'.heap 0).inputs = [] ∧ (g'.heap 0).outputs = [] :=
  C3_merge_conservation chainGraph 1 0 (by decide) (by decide)

/-- C4: for every graph and nodes `base`, `x`, reversing every edge, applying
`MergeParentNode(base, x)` and reversing the edges back gives exactly what
`MergeChildNode(base, x)` gives: the same graph when the call is defined, and
no result for either when it is not. -/
theorem C4_MergeChildNode_mirrors_MergeParentNode (g : TFGraph) (base x : Nat) :
    (MergeParentNode g.mirror base x).map TFGraph.mirror = MergeChildNode g base x :=
  MergeChildNode_eq_mirror g base x

/-- C5, as stated, fails on an edge-symmetric graph whose lists disagree in
multiplicity: node 1 lists node 0 twice among its outputs and node 0 lists node
1 once among its inputs; `DisconnectNode(0)` erases one entry per input of
node 0, so node 0 still occurs in the outputs of node 1. -/
theorem C5_counterexample :
    EdgeSym doubledOutputGraph ∧
      ∃ g', DisconnectNode doubledOutputGraph 0 = some g' ∧ 0 ∈ (g'.heap 1).outputs := by
  refine ⟨edgeSym_ofNodes _ (by decide) (by decide), ?_⟩
  have e : (DisconnectNode doubledOutputGraph 0).map (fun g' => (g'.heap 1).outputs) =
      some [0] := by decide
  cases hm : DisconnectNode doubledOutputGraph 0 with
  | none => rw [hm] at e; exact Option.noConfusion e
  | some g' =>
    rw [hm, Option.map_some', Option.some.injEq] at e
    refine ⟨g', rfl, ?_⟩
    rw [e]
    decide

/-- C5, amended: in a graph that is edge-symmetric with multiplicities,
`DisconnectNode(n)` returns a graph in which `n` has empty input and output
lists and occurs in no input or output list; every other node keeps its lists
with the entries `n` struck out and the remaining entries in their order, every
node keeps its other fields, and the node sequence is unchanged. -/
theorem C5_DisconnectNode_isolates (g : TFGraph) (n : Nat) (hsym : CountSym g) :
    ∃ g', DisconnectNode g n = some g' ∧
      (g'.heap n).inputs = [] ∧ (g'.heap n).outputs = [] ∧
      (∀ m, n ∉ (g'.heap m).inputs ∧ n ∉ (g'.heap m).outputs) ∧
      (∀ m, m ≠ n →
        (g'.heap m).inputs = (g.heap m).inputs.filter (fun y => y ≠ n) ∧
        (g'.heap m).outputs = (g.heap m).outputs.filter (fun y => y ≠ n)) ∧
      (∀ m, (g'.heap m).unlinked = (g.heap m).unlinked) ∧
      g'.seq_nodes = g.seq_nodes := by
  obtain ⟨g', e, hs, -, hh⟩ := DisconnectNode_closed g n hsym
  refine ⟨g', e, by simp [hh], by simp [hh], ?_, ?_, ?_, hs⟩
  · intro m
    by_cases hm : m = n
    · subst hm
      simp [hh]
    · simp [hh, hm, List.mem_filter]
  · intro m hm
    simp [hh, hm]
  · intro m
    by_cases hm : m = n
    · subst hm
      simp [hh, TFNode.unlinked]
    · simp [hh, hm, TFNode.unlinked]

/-- Witness of C5: node 1 of the chain graph is disconnected. -/
theorem C5_DisconnectNode_isolates_witness :
    ∃ g', DisconnectNode chainGraph 1 = some g' ∧
      (g'.heap 1).inputs = [] ∧ (g'.heap 1).outputs = [] ∧
      (∀ m, 1 ∉ (g'.heap m).inputs ∧ 1 ∉ (g'.heap m).outputs) ∧
      (∀ m, m ≠ 1 →
        (g'.heap m).inputs = (chainGraph.heap m).inputs.filter (fun y => y ≠ 1) ∧
        (g'.heap m).outputs = (chainGraph.heap m).outputs.filter (fun y => y ≠ 1)) ∧
      (∀ m, (g'.heap m).unlinked = (chainGraph.heap m).unlinked) ∧
      g'.seq_nodes = chainGraph.seq_nodes :=
  C5_DisconnectNode_isolates chainGraph 1 countSym_chainGraph

/-- C6, as stated, fails: with node 1 listing node 0 twice among its inputs and
node 0 listing node 1 once among its outputs the graph is edge-symmetric, and
after `DisconnectNode(0)` node 0 is still an input of node 1 while node 0 has no
output. -/
theorem C6_counterexample :
    EdgeSym doubledInputGraph ∧
      ∃ g', DisconnectNode doubledInputGraph 0 = some g' ∧ ¬ EdgeSym g' := by
  refine ⟨edgeSym_ofNodes _ (by decide) (by decide), ?_⟩
  have e : (DisconnectNode doubledInputGraph 0).map
      (fun g' => ((g'.heap 1).inputs, (g'.heap 0).outputs)) = some ([0], []) := by decide
  cases hm : DisconnectNode doubledInputGraph 0 with
  | none => rw [hm] at e; exact Option.noConfusion e
  | some g' =>
    rw [hm, Option.map_some', Option.some.injEq, Prod.mk.injEq] at e
    refine ⟨g', rfl, fun hs => ?_⟩
    have h1 : 0 ∈ (g'.heap 1).inputs := by rw [e.1]; decide
    have h2 : 1 ∉ (g'.heap 0).outputs := by rw [e.2]; decide
    exact h2 ((hs 0 1).mpr h1)

/-- C6, amended: in every graph in which each `B` occurs in `A.outputs` exactly
as many times as `A` occurs in `B.inputs`, `DisconnectNode(n)` returns a graph
with the same property, so that afterwards `B` is in `A.outputs` if and only if
`A` is in `B.inputs`. -/
theorem C6_DisconnectNode_preserves_symmetry (g : TFGraph) (n : Nat) (hsym : CountSym g) :
    ∃ g', DisconnectNode g n = some g' ∧ CountSym g' ∧ EdgeSym g' := by
  obtain ⟨g', e, -, -, hh⟩ := DisconnectNode_closed g n hsym
  have hs : CountSym g' := by
    intro a b
    have hab := hsym a b
    rw [hh a, hh b]
    by_cases ha : a = n
    · by_cases hb : b = n
      · simp [ha, hb]
      · subst ha
        simp [hb, count_filter_ne]
    · by_cases hb : b = n
      · subst hb
        simp [ha, count_filter_ne]
      · simp [ha, hb, count_filter_ne, hab]
  exact ⟨g', e, hs, edgeSym_of_countSym g' hs⟩

/-- Witness of C6: node 1 of the chain graph is disconnected. -/
theorem C6_DisconnectNode_preserves_symmetry_witness :
    CountSym chainGraph ∧
      ∃ g', DisconnectNode chainGraph 1 = some g' ∧ CountSym g' ∧ EdgeSym g' :=
  ⟨countSym_chainGraph, C6_DisconnectNode_preserves_symmetry chainGraph 1 countSym_chainGraph⟩

/-! ## Claims on graph construction -/

theorem ConstructGraph_of_success (tf_net : GraphDef)
    (h : (ConstructGraph tf_net TFGraph.init).map Prod.fst = some true) :
    ∃ g, ConstructGraph tf_net TFGraph.init = some (true, g) := by
  cases hc : ConstructGraph tf_net TFGraph.init with
  | none => rw [hc] at h; exact Option.noConfusion h
  | some r =>
    obtain ⟨b, g⟩ := r
    rw [hc, Option.map_some', Option.some.injEq] at h
    simp only at h
    subst h
    exact ⟨g, rfl⟩

/-- C7 fails on the form `^name:<k>`: the clean-up takes `pos` characters after
the marker instead of `pos - 1`, so `"^a:0"` is looked up as `"a:"` (the three
other forms give `"a"`); with the records `a` and `b` (input `"^a:0"`), whose
names are unique, `ConstructGraph` returns `false` and node `b` has no input,
where the claim has the input list `[a]`. -/
theorem C7_marked_selector_reference_fails :
    UniqueNames markedSelectorNet ∧
      specReferencedName "^a:0".toList = "a".toList ∧
      cleanupName "^a:0".toList = "a:".toList ∧
      cleanupName "a".toList = "a".toList ∧ cleanupName "a:0".toList = "a".toList ∧
      cleanupName "^a".toList = "a".toList ∧
      (ConstructGraph markedSelectorNet TFGraph.init).map
        (fun r => (r.1, r.2.seq_nodes, (r.2.heap 1).inputs)) = some (false, [0, 1], []) := by
  decide

/-- C8: when `ConstructGraph` succeeds on a record list of length `N`, the
sequence of the graph holds `N` different nodes and, for each `i < N`, the node
at position `i` has `idx = i`, the name and the op of record `i`, and a
`pb_defs` list holding exactly record `i`. -/
theorem C8_ConstructGraph_nodes (tf_net : GraphDef)
    (h : (ConstructGraph tf_net TFGraph.init).map Prod.fst = some true) :
    ∃ g, ConstructGraph tf_net TFGraph.init = some (true, g) ∧
      g.seq_nodes.length = tf_net.length ∧ g.seq_nodes.Nodup ∧
      ∀ i (hi : i < tf_net.length), ∃ a, g.seq_nodes[i]? = some a ∧
        (g.heap a).idx = i ∧ (g.heap a).name = tf_net[i].name ∧
        (g.heap a).op = tf_net[i].op ∧ (g.heap a).pb_defs = [i] := by
  obtain ⟨g, hg⟩ := ConstructGraph_of_success tf_net h
  refine ⟨g, hg, ?_⟩
  obtain ⟨s1, -, s3, -⟩ := setupNodes_spec tf_net 0 TFGraph.init (fun _ => none)
  obtain ⟨f1, -, f3⟩ := setupConnections_frame _ _ _ _ hg
  have hseq : g.seq_nodes = List.range' 0 tf_net.length := by
    rw [show g.seq_nodes = (true, g).2.seq_nodes from rfl, f1, s1]
    rfl
  refine ⟨by rw [hseq, List.length_range'], by rw [hseq]; exact List.nodup_range' _ _, ?_⟩
  intro i hi
  refine ⟨i, ?_, ?_⟩
  · rw [hseq, List.getElem?_eq_getElem (by rw [List.length_range']; exact hi)]
    simp
  · have hnode := s3 i hi
    have hfr := f3 i
    rw [show TFGraph.init.next + i = i from Nat.zero_add i] at hnode
    rw [hnode] at hfr
    simp only [Nat.zero_add] at hfr
    have e1 := congrArg TFNode.idx hfr
    have e2 := congrArg TFNode.name hfr
    have e3 := congrArg TFNode.op hfr
    have e4 := congrArg TFNode.pb_defs hfr
    exact ⟨e1, e2, e3, e4⟩

/-- Witness of C8 on three records. -/
theorem C8_ConstructGraph_nodes_witness :
    (ConstructGraph smallNet TFGraph.init).map Prod.fst = some true ∧
      ∃ g, ConstructGraph smallNet TFGraph.init = some (true, g) ∧
        g.seq_nodes.length = smallNet.length ∧ g.seq_nodes.Nodup ∧
        ∀ i (hi : i < smallNet.length), ∃ a, g.seq_nodes[i]? = some a ∧
          (g.heap a).idx = i ∧ (g.heap a).name = smallNet[i].name ∧
          (g.heap a).op = smallNet[i].op ∧ (g.heap a).pb_defs = [i] :=
  ⟨by decide, C8_ConstructGraph_nodes smallNet (by decide)⟩

/-- C9 fails on a reference that carries both decorations: the two records
`x` and `y` (inputs `"x:0"` and `"^x:1"`) have no dangling reference and two
references in all, yet `ConstructGraph` returns `false` and leaves two nodes
with a single edge. -/
theorem C9_marked_selector_reference_loses_edge :
    NoDanglingRefs twoReferenceNet ∧ refCount twoReferenceNet = 2 ∧
      (ConstructGraph twoReferenceNet TFGraph.init).map
        (fun r => (r.1, r.2.seq_nodes.length, inputEdgeCount r.2, outputEdgeCount r.2)) =
        some (false, 2, 1, 1) := by
  decide

/-- C10: every graph a successful `ConstructGraph` produces is edge-symmetric
with multiplicities: `X` occurs in `Y.inputs` exactly as many times as `Y`
occurs in `X.outputs`. -/
theorem C10_ConstructGraph_symmetric (tf_net : GraphDef)
    (h : (ConstructGraph tf_net TFGraph.init).map Prod.fst = some true) :
    ∃ g, ConstructGraph tf_net TFGraph.init = some (true, g) ∧
      ∀ X Y, (g.heap Y).inputs.count X = (g.heap X).outputs.count Y := by
  obtain ⟨g, hg⟩ := ConstructGraph_of_success tf_net h
  refine ⟨g, hg, ?_⟩
  obtain ⟨-, -, s3, s4⟩ := setupNodes_spec tf_net 0 TFGraph.init (fun _ => none)
  have h0 : CountSym (setupNodes tf_net 0 TFGraph.init (fun _ => none)).1 := by
    have hempty : ∀ b, ((setupNodes tf_net 0 TFGraph.init (fun _ => none)).1.heap b).inputs = []
        ∧ ((setupNodes tf_net 0 TFGraph.init (fun _ => none)).1.heap b).outputs = [] := by
      intro b
      by_cases hb : b < tf_net.length
      · have := s3 b hb
        rw [show TFGraph.init.next + b = b from Nat.zero_add b] at this
        rw [this]
        exact ⟨rfl, rfl⟩
      · have := s4 b (Or.inr (by
          show 0 + tf_net.length ≤ b
          omega))
        rw [this]
        exact ⟨rfl, rfl⟩
    intro a b
    rw [(hempty a).2, (hempty b).1]
    rfl
  have hs := setupConnections_countSym _ _ _ _ hg h0
  intro X Y
  exact (hs X Y).symm

/-- Witness of C10 on three records. -/
theorem C10_ConstructGraph_symmetric_witness :
    (ConstructGraph smallNet TFGraph.init).map Prod.fst = some true ∧
      ∃ g, ConstructGraph smallNet TFGraph.init = some (true, g) ∧
        ∀ X Y, (g.heap Y).inputs.count X = (g.heap X).outputs.count Y :=
  ⟨by decide, C10_ConstructGraph_symmetric smallNet (by decide)⟩

/-! ## Failure of graph construction -/

theorem setupNodes_nodeMap_iff (recs : List NodeDef) (i : Nat) (g : TFGraph) (nm : NodeMap)
    (k : List Char) :
    ((setupNodes recs i g nm).2 k).isSome = true ↔
      (nm k).isSome = true ∨ k ∈ recs.map fun r => r.name := by
  induction recs generalizing i g nm with
  | nil => simp [setupNodes]
  | cons r rest ih =>
    have e : setupNodes (r :: rest) i g nm = setupNodes rest (i + 1)
      { seq_nodes := g.seq_nodes ++ [g.next]
        heap := fun b =>
          if b = g.next then { idx := i, name := r.name, op := r.op, pb_defs := [i] }
          else g.heap b
        next := g.next + 1 } (nm.insert r.name g.next) := rfl
    rw [e, ih]
    by_cases hk : k = r.name
    · simp [NodeMap.insert, hk]
    · simp [NodeMap.insert, hk]

theorem setupNodes_nodeMap_range (recs : List NodeDef) (i : Nat) (g : TFGraph) (nm : NodeMap)
    (k : List Char) (a : Nat) (h : (setupNodes recs i g nm).2 k = some a) :
    nm k = some a ∨ (g.next ≤ a ∧ a < g.next + recs.length) := by
  induction recs generalizing i g nm with
  | nil => exact Or.inl h
  | cons r rest ih =>
    have e : setupNodes (r :: rest) i g nm = setupNodes rest (i + 1)
      { seq_nodes := g.seq_nodes ++ [g.next]
        heap := fun b =>
          if b = g.next then { idx := i, name := r.name, op := r.op, pb_defs := [i] }
          else g.heap b
        next := g.next + 1 } (nm.insert r.name g.next) := rfl
    rw [e] at h
    rcases ih (i + 1) _ _ h with h1 | h1
    · by_cases hk : k = r.name
      · simp only [NodeMap.insert, hk, if_true, Option.some.injEq] at h1
        right
        simp only [List.length_cons]
        omega
      · simp only [NodeMap.insert, hk, if_false] at h1
        exact Or.inl h1
    · right
      simp only [List.length_cons] at h1 ⊢
      omega

theorem sum_map_succ_at (l : List Nat) (hl : l.Nodup) (c : Nat) (hc : c ∈ l) (f f2 : Nat → Nat)
    (h1 : f2 c = f c + 1) (h2 : ∀ a, a ≠ c → f2 a = f a) :
    (l.map f2).sum = (l.map f).sum + 1 := by
  induction l with
  | nil => exact absurd hc (List.not_mem_nil c)
  | cons x xs ih =>
    rw [List.nodup_cons] at hl
    simp only [List.map_cons, List.sum_cons]
    by_cases hx : x = c
    · subst hx
      have : xs.map f2 = xs.map f := by
        apply List.map_congr_left
        intro a ha
        exact h2 a (fun e => hl.1 (e ▸ ha))
      rw [this, h1]
      omega
    · have hc2 : c ∈ xs := by
        rcases List.mem_cons.mp hc with e | e
        · exact absurd e.symm hx
        · exact e
      rw [ih hl.2 hc2, h2 x hx]
      omega

theorem sum_map_same (l : List Nat) (f f2 : Nat → Nat) (h : ∀ a, f2 a = f a) :
    (l.map f2).sum = (l.map f).sum := by
  have : f2 = f := funext h
  rw [this]

theorem connectInputs_count (nm : NodeMap) (names : List (List Char))
    (hres : ∀ k, (nm k).isSome = true ↔ k ∈ names) (c : Nat) (refs : List (List Char))
    (g : TFGraph) (hseq : g.seq_nodes.Nodup) (hnm : ∀ k a, nm k = some a → a ∈ g.seq_nodes)
    (hc : c ∈ g.seq_nodes) :
    ∃ g', connectInputs nm (some c) refs g =
        some (refs.all (fun ref => decide (cleanupName ref ∈ names)), g') ∧
      g'.seq_nodes = g.seq_nodes ∧
      inputEdgeCount g' = inputEdgeCount g +
        (refs.takeWhile fun ref => decide (cleanupName ref ∈ names)).length ∧
      outputEdgeCount g' = outputEdgeCount g +
        (refs.takeWhile fun ref => decide (cleanupName ref ∈ names)).length := by
  induction refs generalizing g with
  | nil => exact ⟨g, rfl, rfl, rfl, rfl⟩
  | cons x rest ih =>
    cases hx : nm (cleanupName x) with
    | none =>
      have hn : cleanupName x ∉ names := fun hm => by
        have := (hres _).mpr hm
        rw [hx] at this
        exact Bool.noConfusion this
      refine ⟨g, ?_, rfl, ?_, ?_⟩
      · simp [connectInputs, hx, hn]
      · simp [hn]
      · simp [hn]
    | some inp =>
      have hy : cleanupName x ∈ names := (hres _).mp (by rw [hx]; rfl)
      have hinp : inp ∈ g.seq_nodes := hnm _ _ hx
      obtain ⟨g', e, hs, hi, ho⟩ := ih
        ((g.modify c fun n => { n with inputs := n.inputs ++ [inp] }).modify inp
          fun n => { n with outputs := n.outputs ++ [c] })
        (by simpa using hseq) (by simpa using hnm) (by simpa using hc)
      refine ⟨g', ?_, by simpa using hs, ?_, ?_⟩
      · simp only [connectInputs, hx, List.all_cons, hy, decide_True, Bool.true_and]
        exact e
      · rw [hi, List.takeWhile_cons_of_pos (by simpa using hy), List.length_cons]
        have : inputEdgeCount ((g.modify c fun n => { n with inputs := n.inputs ++ [inp] }).modify
            inp fun n => { n with outputs := n.outputs ++ [c] }) = inputEdgeCount g + 1 := by
          unfold inputEdgeCount
          simp only [modify_seq_nodes]
          apply sum_map_succ_at _ hseq c hc
          · rw [modify_keeps_inputs _ inp c (fun n => { n with outputs := n.outputs ++ [c] })
              (fun _ => rfl)]
            simp
          · intro a ha
            rw [modify_keeps_inputs _ inp a (fun n => { n with outputs := n.outputs ++ [c] })
              (fun _ => rfl)]
            simp [ha]
        omega
      · rw [ho, List.takeWhile_cons_of_pos (by simpa using hy), List.length_cons]
        have : outputEdgeCount ((g.modify c fun n => { n with inputs := n.inputs ++ [inp] }).modify
            inp fun n => { n with outputs := n.outputs ++ [c] }) = outputEdgeCount g + 1 := by
          unfold outputEdgeCount
          simp only [modify_seq_nodes]
          apply sum_map_succ_at _ hseq inp hinp
          · have hk := modify_keeps_outputs g c inp
              (fun n => { n with inputs := n.inputs ++ [inp] }) (fun _ => rfl)
            simp only [modify_heap] at hk
            simp only [modify_heap, if_true, List.length_append, List.length_singleton, hk]
          · intro a ha
            rw [modify_heap, if_neg ha, modify_keeps_outputs _ c a
              (fun n => { n with inputs := n.inputs ++ [inp] }) (fun _ => rfl)]
        omega

theorem takeWhile_append_of_not_all {α : Type} (p : α → Bool) (xs ys : List α)
    (h : xs.all p = false) : (xs ++ ys).takeWhile p = xs.takeWhile p := by
  induction xs with
  | nil => simp at h
  | cons x xs ih =>
    by_cases hx : p x = true
    · simp only [List.all_cons, hx, Bool.true_and] at h
      simp [List.takeWhile_cons, hx, ih h]
    · simp [List.takeWhile_cons, hx]

theorem setupConnections_count (nm : NodeMap) (names : List (List Char))
    (hres : ∀ k, (nm k).isSome = true ↔ k ∈ names) (recs : List NodeDef) (g : TFGraph)
    (hseq : g.seq_nodes.Nodup) (hnm : ∀ k a, nm k = some a → a ∈ g.seq_nodes)
    (hrec : ∀ r ∈ recs, r.name ∈ names) :
    ∃ g', setupConnections nm recs g =
        some ((allReferences recs).all (fun ref => decide (cleanupName ref ∈ names)), g') ∧
      g'.seq_nodes = g.seq_nodes ∧
      inputEdgeCount g' = inputEdgeCount g +
        ((allReferences recs).takeWhile fun ref => decide (cleanupName ref ∈ names)).length ∧
      outputEdgeCount g' = outputEdgeCount g +
        ((allReferences recs).takeWhile fun ref => decide (cleanupName ref ∈ names)).length := by
  induction recs generalizing g with
  | nil => exact ⟨g, rfl, rfl, rfl, rfl⟩
  | cons r rest ih =>
    obtain ⟨c, hc⟩ := Option.isSome_iff_exists.mp
      ((hres r.name).mpr (hrec r (List.mem_cons_self r rest)))
    obtain ⟨g1, e1, s1, i1, o1⟩ := connectInputs_count nm names hres c r.input g hseq hnm
      (hnm _ _ hc)
    have hflat : allReferences (r :: rest) = r.input ++ allReferences rest := by
      simp [allReferences]
    rw [hflat, List.all_append]
    cases hall : r.input.all (fun ref => decide (cleanupName ref ∈ names)) with
    | false =>
      rw [hall] at e1
      refine ⟨g1, ?_, s1, ?_, ?_⟩
      · simp only [setupConnections, hc, e1, Bool.false_and]
      · rw [takeWhile_append_of_not_all _ _ _ hall]; exact i1
      · rw [takeWhile_append_of_not_all _ _ _ hall]; exact o1
    | true =>
      rw [hall] at e1
      obtain ⟨g2, e2, s2, i2, o2⟩ := ih g1 (by rw [s1]; exact hseq)
        (by rw [s1]; exact hnm) (fun x hx => hrec x (List.mem_cons_of_mem r hx))
      have hpos : ∀ a ∈ r.input, (fun ref => decide (cleanupName ref ∈ names)) a = true :=
        List.all_eq_true.mp hall
      refine ⟨g2, ?_, s2.trans s1, ?_, ?_⟩
      · simp only [setupConnections, hc, e1, Bool.true_and]
        exact e2
      · rw [List.takeWhile_append_of_pos hpos, List.length_append, i2, i1,
          List.takeWhile_eq_self_iff.mpr hpos]
        omega
      · rw [List.takeWhile_append_of_pos hpos, List.length_append, o2, o1,
          List.takeWhile_eq_self_iff.mpr hpos]
        omega

theorem setupNodes_init_unlinked (tf_net : GraphDef) (b : Nat) :
    ((setupNodes tf_net 0 TFGraph.init (fun _ => none)).1.heap b).inputs = [] ∧
      ((setupNodes tf_net 0 TFGraph.init (fun _ => none)).1.heap b).outputs = [] := by
  obtain ⟨-, -, s3, s4⟩ := setupNodes_spec tf_net 0 TFGraph.init (fun _ => none)
  by_cases hb : b < tf_net.length
  · have := s3 b hb
    rw [show TFGraph.init.next + b = b from Nat.zero_add b] at this
    rw [this]
    exact ⟨rfl, rfl⟩
  · have := s4 b (Or.inr (by
      show 0 + tf_net.length ≤ b
      omega))
    rw [this]
    exact ⟨rfl, rfl⟩

theorem length_allReferences (tf_net : GraphDef) :
    (allReferences tf_net).length = refCount tf_net := by
  induction tf_net with
  | nil => rfl
  | cons r rest ih =>
    have : allReferences (r :: rest) = r.input ++ allReferences rest := by
      simp [allReferences]
    rw [this, List.length_append, ih]
    simp [refCount]

/-- What `ConstructGraph` returns on the fresh graph: the flag tells whether every
reference, cleaned up the way the code does it, is the name of a record; the
graph holds one node per record and one edge per reference reached before the
first that is not. -/
theorem ConstructGraph_count (tf_net : GraphDef) :
    ∃ g, ConstructGraph tf_net TFGraph.init =
        some ((allReferences tf_net).all
          (fun ref => decide (cleanupName ref ∈ tf_net.map fun r => r.name)), g) ∧
      g.seq_nodes = List.range' 0 tf_net.length ∧
      inputEdgeCount g = resolvedBefore tf_net ∧ outputEdgeCount g = resolvedBefore tf_net := by
  obtain ⟨s1, -, -, -⟩ := setupNodes_spec tf_net 0 TFGraph.init (fun _ => none)
  have hseq : (setupNodes tf_net 0 TFGraph.init (fun _ => none)).1.seq_nodes =
      List.range' 0 tf_net.length := by
    rw [s1]
    rfl
  have hres : ∀ k, ((setupNodes tf_net 0 TFGraph.init (fun _ => none)).2 k).isSome = true ↔
      k ∈ tf_net.map fun r => r.name := by
    intro k
    rw [setupNodes_nodeMap_iff]
    simp
  have hnm : ∀ k a, (setupNodes tf_net 0 TFGraph.init (fun _ => none)).2 k = some a →
      a ∈ (setupNodes tf_net 0 TFGraph.init (fun _ => none)).1.seq_nodes := by
    intro k a h
    rw [hseq]
    rcases setupNodes_nodeMap_range tf_net 0 TFGraph.init _ k a h with h1 | h1
    · exact Option.noConfusion h1
    · have h2 : a < tf_net.length := by
        have := h1.2
        simp only [TFGraph.init] at this
        omega
      simp [List.mem_range', h2]
  obtain ⟨g, e, hs, hi, ho⟩ := setupConnections_count _ _ hres tf_net _
    (by rw [hseq]; exact List.nodup_range' _ _) hnm
    (fun r hr => List.mem_map_of_mem (fun r => r.name) hr)
  have hzero : inputEdgeCount (setupNodes tf_net 0 TFGraph.init (fun _ => none)).1 = 0 ∧
      outputEdgeCount (setupNodes tf_net 0 TFGraph.init (fun _ => none)).1 = 0 := by
    constructor
    · unfold inputEdgeCount
      rw [sum_map_same _ (fun _ => 0) _ (fun a => by rw [(setupNodes_init_unlinked tf_net a).1]; rfl)]
      simp
    · unfold outputEdgeCount
      rw [sum_map_same _ (fun _ => 0) _ (fun a => by rw [(setupNodes_init_unlinked tf_net a).2]; rfl)]
      simp
  refine ⟨g, e, hs.trans hseq, ?_, ?_⟩
  · rw [hi, hzero.1, Nat.zero_add]; rfl
  · rw [ho, hzero.2, Nat.zero_add]; rfl

/-- C11 fails in both directions on a reference that carries the control marker
and a selector: `"^p:0"` names the record `p`, so no reference is dangling, yet
`ConstructGraph` looks up `"p:"` and fails; and with a record called `"a:"` the
reference `"^a:0"`, which names the missing node `a`, is resolved to `"a:"` and
`ConstructGraph` succeeds. -/
theorem C11_failure_differs_from_dangling :
    (NoDanglingRefs resolvableButFailingNet ∧
      (ConstructGraph resolvableButFailingNet TFGraph.init).map Prod.fst = some false) ∧
    (¬ NoDanglingRefs danglingButAcceptedNet ∧
      (ConstructGraph danglingButAcceptedNet TFGraph.init).map Prod.fst = some true) := by
  decide

/-- C12, as stated, fails: on three records whose last reference names no node
`ConstructGraph` returns `false` and leaves in the graph handed to it the three
nodes of the first scan and the two edges made before the failing reference. -/
theorem C12_counterexample :
    (ConstructGraph danglingNet TFGraph.init).map
      (fun r => (r.1, r.2.seq_nodes, inputEdgeCount r.2, (r.2.heap 1).inputs,
        (r.2.heap 2).inputs)) = some (false, [0, 1, 2], 2, [0], [1]) := by
  decide

/-- C12, amended: whenever `ConstructGraph` fails, the graph handed to it is left
partial: it holds one node per record (at least one) and exactly the edges of
the references reached before the first unresolved one, fewer than there are
references; nothing made before the failure is removed. -/
theorem C12_failure_leaves_partial_graph (tf_net : GraphDef)
    (h : (ConstructGraph tf_net TFGraph.init).map Prod.fst = some false) :
    ∃ g, ConstructGraph tf_net TFGraph.init = some (false, g) ∧
      g.seq_nodes.length = tf_net.length ∧ 0 < tf_net.length ∧
      inputEdgeCount g = resolvedBefore tf_net ∧ outputEdgeCount g = resolvedBefore tf_net ∧
      resolvedBefore tf_net < refCount tf_net := by
  obtain ⟨g, e, hs, hi, ho⟩ := ConstructGraph_count tf_net
  rw [e, Option.map_some', Option.some.injEq] at h
  simp only at h
  rw [h] at e
  have hlt : resolvedBefore tf_net < refCount tf_net := by
    rw [← length_allReferences]
    unfold resolvedBefore
    rcases Nat.lt_or_ge ((List.takeWhile
      (fun ref => decide (cleanupName ref ∈ tf_net.map fun r => r.name))
      (allReferences tf_net)).length) (allReferences tf_net).length with h1 | h1
    · exact h1
    · exfalso
      have heq := List.takeWhile_eq_self_iff.mp
        ((List.takeWhile_sublist _).eq_of_length_le h1)
      have := List.all_eq_true.mpr heq
      rw [this] at h
      exact Bool.noConfusion h
  refine ⟨g, e, by rw [hs, List.length_range'], ?_, hi, ho, hlt⟩
  cases tf_net with
  | nil => exact absurd hlt (Nat.not_lt_zero _)
  | cons r rest => exact Nat.succ_pos _

/-- Witness of C12 on three records with one unresolved reference. -/
theorem C12_failure_leaves_partial_graph_witness :
    ∃ g, ConstructGraph danglingNet TFGraph.init = some (false, g) ∧
      g.seq_nodes.length = danglingNet.length ∧ 0 < danglingNet.length ∧
      inputEdgeCount g = resolvedBefore danglingNet ∧
      outputEdgeCount g = resolvedBefore danglingNet ∧
      resolvedBefore danglingNet < refCount danglingNet :=
  C12_failure_leaves_partial_graph danglingNet (by decide)

/-! ## Passes that find nothing to rewrite -/

theorem withSeq_self (g : TFGraph) : TFGraph.withSeq (g.seq_nodes, g) = g := rfl

theorem cleanupPredictions_noop (l : List Nat) (g : TFGraph)
    (h : ∀ a ∈ l, (g.heap a).op ≠ "Reshape".toList) :
    cleanupPredictions l g = some (l, g) := by
  induction l with
  | nil => rfl
  | cons a l ih =>
    have ha := h a (List.mem_cons_self a l)
    rw [cleanupPredictions, if_neg ha, ih (fun b hb => h b (List.mem_cons_of_mem a hb))]
    rfl

theorem removeSqueezeIdentity_noop (l : List Nat) (g : TFGraph)
    (h1 : ∀ a ∈ l, (g.heap a).op ≠ "Squeeze".toList)
    (h2 : ∀ a ∈ l, (g.heap a).op ≠ "Identity".toList)
    (h3 : ∀ a ∈ l, (g.heap a).op ≠ "ConcatV2".toList) :
    removeSqueezeIdentity l g = some (l, g) := by
  induction l with
  | nil => rfl
  | cons a l ih =>
    have ha1 := h1 a (List.mem_cons_self a l)
    have ha2 := h2 a (List.mem_cons_self a l)
    have ha3 := h3 a (List.mem_cons_self a l)
    rw [removeSqueezeIdentity, if_neg ha1, if_neg ha2, if_neg ha3,
      ih (fun b hb => h1 b (List.mem_cons_of_mem a hb))
        (fun b hb => h2 b (List.mem_cons_of_mem a hb))
        (fun b hb => h3 b (List.mem_cons_of_mem a hb))]
    rfl

theorem mergeQueue_noop (l : List Nat) (g : TFGraph)
    (h : ∀ a ∈ l, (g.heap a).op ≠ "FIFOQueueV2".toList) : mergeQueue l g = some g := by
  induction l with
  | nil => rfl
  | cons a l ih =>
    have ha := h a (List.mem_cons_self a l)
    rw [mergeQueue, if_neg ha, ih (fun b hb => h b (List.mem_cons_of_mem a hb))]

theorem removeExpandDims_noop (l : List Nat) (g : TFGraph)
    (h : ∀ a ∈ l, (g.heap a).op ≠ "ExpandDims".toList) :
    removeExpandDims l g = some (l, g) := by
  induction l with
  | nil => rfl
  | cons a l ih =>
    have ha := h a (List.mem_cons_self a l)
    rw [removeExpandDims, if_neg ha, ih (fun b hb => h b (List.mem_cons_of_mem a hb))]
    rfl

theorem mergeBiasAdd_noop (l : List Nat) (g : TFGraph)
    (h1 : ∀ a ∈ l, (g.heap a).op ≠ "Conv2D".toList)
    (h2 : ∀ a ∈ l, (g.heap a).op ≠ "DepthwiseConv2dNative".toList)
    (h3 : ∀ a ∈ l, (g.heap a).op ≠ "MatMul".toList) : mergeBiasAdd l g = some g := by
  induction l with
  | nil => rfl
  | cons a l ih =>
    have ha : ¬ ((g.heap a).op = "Conv2D".toList ∨
        (g.heap a).op = "DepthwiseConv2dNative".toList ∨ (g.heap a).op = "MatMul".toList) := by
      rintro (e | e | e)
      · exact h1 a (List.mem_cons_self a l) e
      · exact h2 a (List.mem_cons_self a l) e
      · exact h3 a (List.mem_cons_self a l) e
    rw [mergeBiasAdd, if_neg ha,
      ih (fun b hb => h1 b (List.mem_cons_of_mem a hb))
        (fun b hb => h2 b (List.mem_cons_of_mem a hb))
        (fun b hb => h3 b (List.mem_cons_of_mem a hb))]

theorem fuseBatchNorm_noop (fuel : Nat) (l : List Nat) (g : TFGraph)
    (h : ∀ a ∈ l, (g.heap a).op ≠ "Add".toList) : fuseBatchNorm fuel l g = some g := by
  induction l with
  | nil => rfl
  | cons a l ih =>
    have ha := h a (List.mem_cons_self a l)
    have hc : CheckComposedBNAdd g a = some (false, g) := by
      rw [CheckComposedBNAdd, if_pos ha]
    rw [fuseBatchNorm, hc]
    exact ih (fun b hb => h b (List.mem_cons_of_mem a hb))

theorem CleanupResizeNearestNeighbor_noop (l : List Nat) (g : TFGraph)
    (h : ∀ a ∈ l, (g.heap a).op ≠ "ResizeNearestNeighbor".toList) :
    CleanupResizeNearestNeighbor l g = some g := by
  induction l with
  | nil => rfl
  | cons a l ih =>
    have ha := h a (List.mem_cons_self a l)
    rw [CleanupResizeNearestNeighbor, if_neg ha,
      ih (fun b hb => h b (List.mem_cons_of_mem a hb))]

theorem MergeReluMinimum_noop (l : List Nat) (g : TFGraph)
    (h : ∀ a ∈ l, (g.heap a).op ≠ "Minimum".toList) : MergeReluMinimum l g = some g := by
  induction l with
  | nil => rfl
  | cons a l ih =>
    have ha := h a (List.mem_cons_self a l)
    have ih2 := ih (fun b hb => h b (List.mem_cons_of_mem a hb))
    rw [MergeReluMinimum]
    cases (g.heap a).inputs[0]? with
    | none => exact ih2
    | some input0 =>
      have hn : ¬ ((g.heap a).op = "Minimum".toList ∧ (g.heap input0).op = "Relu".toList) :=
        fun e => ha e.1
      show (if _ then _ else _) = _
      rw [if_neg hn]
      exact ih2

theorem mergeInputReshape_noop (l : List Nat) (g : TFGraph)
    (h : ∀ a ∈ l, (g.heap a).op ≠ "Reshape".toList) :
    mergeInputReshape l g = some (l, g) := by
  induction l with
  | nil => rfl
  | cons a l ih =>
    have ha := h a (List.mem_cons_self a l)
    rw [mergeInputReshape, if_neg ha, ih (fun b hb => h b (List.mem_cons_of_mem a hb))]
    rfl

theorem removeShapeSlice_noop (l : List Nat) (g : TFGraph)
    (h : ∀ a ∈ l, (g.heap a).op ≠ "StridedSlice".toList) : removeShapeSlice l g = some g := by
  induction l with
  | nil => rfl
  | cons a l ih =>
    have ha := h a (List.mem_cons_self a l)
    rw [removeShapeSlice, if_neg ha, ih (fun b hb => h b (List.mem_cons_of_mem a hb))]

theorem mergePadConv_noop (l : List Nat) (g : TFGraph)
    (h1 : ∀ a ∈ l, (g.heap a).op ≠ "Conv2D".toList)
    (h2 : ∀ a ∈ l, (g.heap a).op ≠ "DepthwiseConv2dNative".toList)
    (h3 : ∀ a ∈ l, (g.heap a).op ≠ "Mean".toList) : mergePadConv l g = some g := by
  induction l with
  | nil => rfl
  | cons a l ih =>
    have ha : ¬ ((g.heap a).op = "Conv2D".toList ∨
        (g.heap a).op = "DepthwiseConv2dNative".toList) := by
      rintro (e | e)
      · exact h1 a (List.mem_cons_self a l) e
      · exact h2 a (List.mem_cons_self a l) e
    rw [mergePadConv, if_neg ha, if_neg (h3 a (List.mem_cons_self a l)),
      ih (fun b hb => h1 b (List.mem_cons_of_mem a hb))
        (fun b hb => h2 b (List.mem_cons_of_mem a hb))
        (fun b hb => h3 b (List.mem_cons_of_mem a hb))]

theorem removeArgMax_noop (l : List Nat) (g : TFGraph)
    (h : ∀ a ∈ l, (g.heap a).op ≠ "ArgMax".toList) : removeArgMax l g = some (l, g) := by
  induction l with
  | nil => rfl
  | cons a l ih =>
    have ha := h a (List.mem_cons_self a l)
    rw [removeArgMax, if_neg ha, ih (fun b hb => h b (List.mem_cons_of_mem a hb))]
    rfl

theorem removeLastSqueeze_noop (l : List Nat) (g : TFGraph)
    (h : ∀ a ∈ l, (g.heap a).op ≠ "Squeeze".toList) : removeLastSqueeze l g = some g := by
  induction l with
  | nil => rfl
  | cons a l ih =>
    have ha : ¬ ((g.heap a).op = "Squeeze".toList ∧ (g.heap a).outputs = []) :=
      fun e => h a (List.mem_cons_self a l) e.1
    rw [removeLastSqueeze, if_neg ha, ih (fun b hb => h b (List.mem_cons_of_mem a hb))]

theorem removeIsolated_noop (g : TFGraph)
    (h : ∀ a ∈ g.seq_nodes, ¬ ((g.heap a).inputs = [] ∧ (g.heap a).outputs = [])) :
    removeIsolated g = g := by
  have hf : (g.seq_nodes.filter fun cur_node =>
      !(decide ((g.heap cur_node).inputs.length = 0 ∧ (g.heap cur_node).outputs.length = 0)))
      = g.seq_nodes := by
    rw [List.filter_eq_self]
    intro a ha
    have := h a ha
    have h2 : ¬ ((g.heap a).inputs.length = 0 ∧ (g.heap a).outputs.length = 0) := by
      rw [List.length_eq_zero, List.length_eq_zero]
      exact this
    simp only [h2, decide_False, Bool.not_false]
  unfold removeIsolated
  rw [hf]

theorem removeOrphans_noop (fuel : Nat) (g : TFGraph)
    (h : ∀ a ∈ g.seq_nodes, isOrphan g a = false) : removeOrphans fuel g = some g := by
  cases fuel with
  | zero =>
    have : g.seq_nodes.any (isOrphan g) = false := by
      rw [List.any_eq_false]
      intro a ha
      simp [h a ha]
    simp [removeOrphans, this]
  | succ fuel =>
    have : g.seq_nodes.find? (isOrphan g) = none := by
      rw [List.find?_eq_none]
      intro a ha
      simp [h a ha]
    simp [removeOrphans, this]

/-- `OptimizeGraph` on a graph in which no pass finds its pattern and the two
pruning scans find nothing to prune. -/
theorem OptimizeGraph_noop (g : TFGraph)
    (hop : ∀ a ∈ g.seq_nodes, (g.heap a).op ∉ patternOps)
    (hiso : ∀ a ∈ g.seq_nodes, ¬ ((g.heap a).inputs = [] ∧ (g.heap a).outputs = []))
    (hsrc : ∀ a ∈ g.seq_nodes, (g.heap a).inputs = [] →
      (g.heap a).op = "Const".toList ∨ (g.heap a).op = "Placeholder".toList) :
    OptimizeGraph g = some (true, g) := by
  have hne : ∀ s, s ∈ patternOps → ∀ a ∈ g.seq_nodes, (g.heap a).op ≠ s :=
    fun s hs a ha e => hop a ha (e ▸ hs)
  have e1 : optimizeFusions g = some g := by
    simp only [optimizeFusions,
      cleanupPredictions_noop _ g (hne _ (by decide)),
      removeSqueezeIdentity_noop _ g (hne _ (by decide)) (hne _ (by decide)) (hne _ (by decide)),
      mergeQueue_noop _ g (hne _ (by decide)),
      removeExpandDims_noop _ g (hne _ (by decide)),
      mergeBiasAdd_noop _ g (hne _ (by decide)) (hne _ (by decide)) (hne _ (by decide)),
      Option.map_some', withSeq_self, Option.bind_eq_bind, Option.some_bind]
  have e2 : optimizeHelpers g = some g := by
    simp only [optimizeHelpers,
      fuseBatchNorm_noop _ _ g (hne _ (by decide)),
      CleanupResizeNearestNeighbor_noop _ g (hne _ (by decide)),
      MergeReluMinimum_noop _ g (hne _ (by decide)),
      mergeInputReshape_noop _ g (hne _ (by decide)),
      removeShapeSlice_noop _ g (hne _ (by decide)),
      Option.map_some', withSeq_self, Option.bind_eq_bind, Option.some_bind]
  have e3 : optimizeTrims g = some g := by
    have horph : ∀ a ∈ g.seq_nodes, isOrphan g a = false := by
      intro a ha
      unfold isOrphan
      rw [decide_eq_false_iff_not]
      rintro ⟨h1, h2, h3, -⟩
      rcases hsrc a ha (List.length_eq_zero.mp h1) with e | e
      · exact h2 e
      · exact h3 e
    simp only [optimizeTrims,
      mergePadConv_noop _ g (hne _ (by decide)) (hne _ (by decide)) (hne _ (by decide)),
      removeArgMax_noop _ g (hne _ (by decide)),
      removeLastSqueeze_noop _ g (hne _ (by decide)),
      removeIsolated_noop g hiso, removeOrphans_noop _ g horph,
      Option.map_some', withSeq_self, Option.bind_eq_bind, Option.some_bind]
  simp only [OptimizeGraph, e1, e2, e3, Option.bind_eq_bind, Option.some_bind]
  rfl

/-- C13: on every graph in which no node of the sequence has one of the operator
types a pass looks for, no node is isolated and every node without inputs is a
Const or a Placeholder, `OptimizeGraph` succeeds and returns the graph as it
was: the node sequence and every field of every node are unchanged (edge
symmetry is not needed). -/
theorem C13_OptimizeGraph_leaves_unchanged (g : TFGraph)
    (hop : ∀ a ∈ g.seq_nodes, (g.heap a).op ∉ patternOps)
    (hiso : ∀ a ∈ g.seq_nodes, ¬ ((g.heap a).inputs = [] ∧ (g.heap a).outputs = []))
    (hsrc : ∀ a ∈ g.seq_nodes, (g.heap a).inputs = [] →
      (g.heap a).op = "Const".toList ∨ (g.heap a).op = "Placeholder".toList) :
    ∃ g', OptimizeGraph g = some (true, g') ∧ g'.seq_nodes = g.seq_nodes ∧
      ∀ a, g'.heap a = g.heap a :=
  ⟨g, OptimizeGraph_noop g hop hiso hsrc, rfl, fun _ => rfl⟩

/-- Witness of C13 on a Placeholder feeding a Relu. -/
theorem C13_OptimizeGraph_leaves_unchanged_witness :
    ∃ g', OptimizeGraph plainGraph = some (true, g') ∧ g'.seq_nodes = plainGraph.seq_nodes ∧
      ∀ a, g'.heap a = plainGraph.heap a :=
  C13_OptimizeGraph_leaves_unchanged plainGraph (by decide) (by decide) (by decide)

/-! ## Claims on the rewrite pipeline -/

theorem OptimizeGraph_never_false (g : TFGraph) :
    (OptimizeGraph g).map Prod.fst ≠ some false := by
  unfold OptimizeGraph
  cases optimizeFusions g with
  | none => exact fun h => Option.noConfusion h
  | some g5 =>
    cases h2 : optimizeHelpers g5 with
    | none =>
      simp only [Option.bind_eq_bind, Option.some_bind, h2]
      exact fun h => Option.noConfusion h
    | some g10 =>
      cases h3 : optimizeTrims g10 with
      | none =>
        simp only [Option.bind_eq_bind, Option.some_bind, h2, h3]
        exact fun h => Option.noConfusion h
      | some g15 =>
        simp only [Option.bind_eq_bind, Option.some_bind, h2, h3]
        intro h
        exact Bool.noConfusion (Option.some.inj h)

theorem cleanupPredictions_short_reshape (pre : List Nat) (a : Nat) (post : List Nat)
    (g : TFGraph) (hpre : ∀ b ∈ pre, (g.heap b).op ≠ "Reshape".toList)
    (hop : (g.heap a).op = "Reshape".toList) (hlen : (g.heap a).inputs.length < 2) :
    cleanupPredictions (pre ++ a :: post) g = none := by
  induction pre with
  | nil =>
    rw [List.nil_append, cleanupPredictions, if_pos hop]
    cases h0 : (g.heap a).inputs with
    | nil => rfl
    | cons x xs =>
      cases xs with
      | nil => rfl
      | cons y ys =>
        rw [h0] at hlen
        simp only [List.length_cons] at hlen
        omega
  | cons b pre ih =>
    rw [List.cons_append, cleanupPredictions, if_neg (hpre b (List.mem_cons_self b pre)),
      ih (fun c hc => hpre c (List.mem_cons_of_mem b hc))]
    rfl

/-- C14, as stated, fails: `OptimizeGraph` has no failure report. On the claim's
own examples (a Reshape or an ExpandDims with one input, a Conv2D without
consumer) the pass reads past the end of an adjacency list and the call has no
defined result; on a Squeeze with two consumers, which lacks the single consumer
the pass expects, the node is skipped, the pipeline goes on and the call returns
`true` with the Squeeze still in the sequence. -/
theorem C14_counterexample :
    OptimizeGraph shortReshapeGraph = none ∧ OptimizeGraph shortExpandDimsGraph = none ∧
      OptimizeGraph lastConvGraph = none ∧
      (OptimizeGraph forkedSqueezeGraph).map (fun r => (r.1, r.2.seq_nodes)) =
        some (true, [0, 1, 2, 3]) := by
  refine ⟨rfl, rfl, rfl, ?_⟩
  decide

/-- C14, amended: `OptimizeGraph` never reports failure (it returns `true`
whenever it returns); a candidate that lacks the expected shape is not detected:
a Reshape node with fewer than two inputs that the first pass reaches makes it
read past the end of the input list, so that the call has no defined result. -/
theorem C14_OptimizeGraph_has_no_failure_report (g : TFGraph) :
    (OptimizeGraph g).map Prod.fst ≠ some false ∧
      ∀ pre a post, g.seq_nodes = pre ++ a :: post →
        (∀ b ∈ pre, (g.heap b).op ≠ "Reshape".toList) →
        (g.heap a).op = "Reshape".toList → (g.heap a).inputs.length < 2 →
        OptimizeGraph g = none := by
  refine ⟨OptimizeGraph_never_false g, ?_⟩
  intro pre a post hseq hpre hop hlen
  have h1 : optimizeFusions g = none := by
    unfold optimizeFusions
    rw [hseq, cleanupPredictions_short_reshape pre a post g hpre hop hlen]
    rfl
  unfold OptimizeGraph
  rw [h1]
  rfl

/-- Witness of C14: the Reshape with one input behind a Placeholder. -/
theorem C14_OptimizeGraph_has_no_failure_report_witness :
    (OptimizeGraph shortReshapeGraph).map Prod.fst ≠ some false ∧
      OptimizeGraph shortReshapeGraph = none :=
  ⟨(C14_OptimizeGraph_has_no_failure_report shortReshapeGraph).1,
    (C14_OptimizeGraph_has_no_failure_report shortReshapeGraph).2 [0] 1 [2] rfl
      (by decide) (by decide) (by decide)⟩

/-- C16, as stated, fails: in the graph of the three nodes the fused Relu has
neither input nor consumer, so the pruning removes it with the Const and the
Minimum, and no node remains. -/
theorem C16_counterexample :
    (OptimizeGraph reluMinimumGraph).map (fun r => (r.1, r.2.seq_nodes.length)) =
      some (true, 0) := by
  decide

/-- C16, amended: in the graph of a Relu, a scalar Const and a Minimum with
inputs `[Relu, Const]` the fusion pass retypes the Relu to Relu6, hands it the
definition of the Minimum and leaves all three nodes without any edge. When a
Placeholder feeds the Relu, the pipeline leaves exactly two nodes in the
sequence, the Placeholder and the Relu retyped to Relu6, linked to each other;
the Const and the Minimum have been pruned. -/
theorem C16_relu_minimum_fusion :
    (MergeReluMinimum reluMinimumGraph.seq_nodes reluMinimumGraph).map
        (fun g => ((g.heap 0).op, (g.heap 0).pb_defs,
          [(g.heap 0).inputs, (g.heap 0).outputs, (g.heap 1).inputs, (g.heap 1).outputs,
            (g.heap 2).inputs, (g.heap 2).outputs])) =
      some ("Relu6".toList, [0, 2], [[], [], [], [], [], []]) ∧
    (OptimizeGraph fedReluMinimumGraph).map
        (fun r => (r.1, r.2.seq_nodes, [(r.2.heap 0).op, (r.2.heap 1).op],
          [(r.2.heap 0).outputs, (r.2.heap 1).inputs, (r.2.heap 1).outputs,
            (r.2.heap 1).pb_defs])) =
      some (true, [0, 1], ["Placeholder".toList, "Relu6".toList],
        [[1], [0], [], [1, 3]]) := by
  constructor
  · decide
  · decide

/-! ## The conversion to `int` -/

/-- A value within the range of `int` is not altered when it is stored. -/
theorem toInt_of_inInt (x : Int) (h : InInt x) : toInt x = x := by
  unfold toInt
  obtain ⟨h1, h2⟩ := h
  omega

theorem inInt_toInt (x : Int) : InInt (toInt x) := by
  unfold toInt
  constructor <;> omega

theorem toInt_natCast (n : Nat) (h : n ≤ 2147483647) : toInt (n : Int) = n :=
  toInt_of_inInt _ ⟨by omega, by omega⟩

/-- The conversion differs from the value by a multiple of `2^32`. -/
theorem toInt_eq_add (x : Int) : ∃ k : Int, toInt x = x + 4294967296 * k := by
  refine ⟨-((x + 2147483648) / 4294967296), ?_⟩
  unfold toInt
  omega

theorem toInt_add_mul (x k : Int) : toInt (x + 4294967296 * k) = toInt x := by
  unfold toInt
  omega

/-- A product of `int`s taken modulo `2^32` is the product of the values taken
modulo `2^32`. -/
theorem toInt_mul_left (a b : Int) : toInt (toInt a * b) = toInt (a * b) := by
  obtain ⟨k, hk⟩ := toInt_eq_add a
  rw [hk, Int.add_mul, Int.mul_assoc, toInt_add_mul]

/-- The loop `elem_num *= size`, each product converted to `int`, leaves the
product of the sizes modulo `2^32`. -/
theorem foldl_toInt_mul (shape : List Int) :
    ∀ e : Int, InInt e →
      shape.foldl (fun e d => toInt (e * d)) e = toInt (e * shape.prod) := by
  induction shape with
  | nil =>
    intro e he
    rw [List.foldl_nil, List.prod_nil, Int.mul_one, toInt_of_inInt e he]
  | cons d rest ih =>
    intro e _
    rw [List.foldl_cons, ih _ (inInt_toInt _), toInt_mul_left, List.prod_cons, Int.mul_assoc]

theorem map_toInt_of_inInt (shape : List Int) (h : ∀ d ∈ shape, InInt d) :
    shape.map toInt = shape := by
  induction shape with
  | nil => rfl
  | cons d rest ih =>
    rw [List.map_cons, toInt_of_inInt d (h d (List.mem_cons_self d rest)),
      ih (fun x hx => h x (List.mem_cons_of_mem d hx))]

/-! ## Decoding constants -/

theorem copyValues_closed (val : List Int) :
    ∀ (count i : Nat) (mem : List Int), i + count ≤ val.length →
      copyValues val count i mem = some (mem ++ (val.drop i).take count) := by
  intro count
  induction count with
  | zero => intro i mem _; simp [copyValues]
  | succ count ih =>
    intro i mem h
    have hi : i < val.length := by omega
    rw [copyValues, List.getElem?_eq_getElem hi]
    simp only
    rw [ih (i + 1) (mem ++ [val[i]]) (by omega), List.append_assoc]
    conv_rhs => rw [List.drop_eq_getElem_cons hi, List.take_succ_cons]
    rfl

theorem fillValues_closed (data_num : Int) (x : Int) :
    ∀ (count : Nat) (mem : List Int), readAt (some mem) (data_num - 1) = some x →
      fillValues data_num count mem = some (mem ++ List.replicate count x) := by
  intro count
  induction count with
  | zero => intro mem _; simp [fillValues]
  | succ count ih =>
    intro mem h
    have h2 : readAt (some (mem ++ [x])) (data_num - 1) = some x := by
      unfold readAt at h ⊢
      by_cases h0 : 0 ≤ data_num - 1
      · rw [if_pos h0] at h ⊢
        simp only [Option.some_bind] at h ⊢
        have hlt : (data_num - 1).toNat < mem.length := by
          by_contra hc
          rw [List.getElem?_eq_none (by omega)] at h
          cases h
        rw [List.getElem?_append_left hlt]
        exact h
      · rw [if_neg h0] at h
        cases h
    rw [fillValues, h]
    simp only
    rw [ih (mem ++ [x]) h2, List.replicate_succ]
    simp

theorem packedBuffer_closed (val : List Int) (E : Nat) (x : Int)
    (hx : val[val.length - 1]? = some x) :
    packedBuffer val (E : Int) = some (val.take E ++ List.replicate (E - val.length) x) := by
  have hn : 1 ≤ val.length := by
    by_contra hc
    rw [List.getElem?_eq_none (by omega)] at hx
    cases hx
  unfold packedBuffer
  simp only [ge_iff_le, Nat.cast_le, Int.toNat_ofNat]
  by_cases h : E ≤ val.length
  · rw [if_pos h, copyValues_closed val E 0 [] (by omega)]
    have h0 : E - val.length = 0 := by omega
    simp [h0]
  · rw [if_neg h, copyValues_closed val val.length 0 [] (by omega)]
    simp only [List.drop_zero, List.take_length, List.nil_append]
    have hE : ((E : Int) - (val.length : Int)).toNat = E - val.length := by omega
    rw [hE, fillValues_closed (val.length : Int) x (E - val.length) val]
    · rw [List.take_of_length_le (by omega)]
    · unfold readAt
      rw [if_pos (by omega)]
      have h1 : ((val.length : Int) - 1).toNat = val.length - 1 := by omega
      simp only [Option.some_bind, h1]
      exact hx

/-- C20, counterexample: for the float tensor of the declared shape
`[65536, 65536]`, of `2^32` elements, with the packed value `7`, the product
`elem_num` is `0` as an `int` and `GetTensorContentAndDim` returns a buffer
without elements; for the declared shape `[4294967297]` it returns the dims `[1]`
and a buffer of one element; for the declared shape `[4294967296, 0]`, without
elements, it returns the dims `[0, 0]`. -/
theorem C20_counterexample :
    GetTensorContentAndDim
      { dtype := DataType.DT_FLOAT, tensor_shape := [65536, 65536], float_val := [7] } []
      = some ([65536, 65536], some [], "HW".toList) ∧
    ([65536, 65536] : List Int).prod = 4294967296 ∧
    GetTensorContentAndDim
      { dtype := DataType.DT_FLOAT, tensor_shape := [4294967297], float_val := [7] } []
      = some ([1], some [7], "W".toList) ∧
    GetTensorContentAndDim
      { dtype := DataType.DT_FLOAT, tensor_shape := [4294967296, 0], float_val := [7] } []
      = some ([0, 0], some [], "HW".toList) := by
  refine ⟨by decide, by decide, by decide, by decide⟩

/-- C20, amended: for a tensor without raw content whose element type is float or
int32, with a declared shape whose sizes are within the range of `int` and whose
element count `E` is at most `2^31 - 1`, and a packed value list `v` of length
`n ≥ 1`, `GetTensorContentAndDim` returns the declared shape as dims and a buffer
of exactly `E` elements; element `i` is `v[i]` for `i < min n E` and the last
value `v[n-1]` for `n ≤ i < E`. -/
theorem C20_packed_values_fill_buffer (tf_tensor : TensorProto) (layout : List Char)
    (v : List Int) (E : Nat)
    (hraw : tf_tensor.tensor_content = [])
    (hty : (tf_tensor.dtype = DataType.DT_FLOAT ∧ tf_tensor.float_val = v) ∨
      (tf_tensor.dtype = DataType.DT_INT32 ∧ tf_tensor.int_val = v))
    (hsize : ∀ d ∈ tf_tensor.tensor_shape, InInt d)
    (hE : tf_tensor.tensor_shape.prod = (E : Int))
    (hfit : E ≤ 2147483647)
    (hn : 1 ≤ v.length) :
    ∃ buf out, GetTensorContentAndDim tf_tensor layout
        = some (tf_tensor.tensor_shape, some buf, out) ∧
      buf.length = E ∧
      (∀ i, i < min v.length E → buf[i]? = v[i]?) ∧
      (∀ i, v.length ≤ i → i < E → buf[i]? = v[v.length - 1]?) := by
  obtain ⟨x, hlast⟩ : ∃ x, v[v.length - 1]? = some x :=
    ⟨_, List.getElem?_eq_getElem (by omega)⟩
  have hfold : List.foldl (fun e d => toInt (e * d)) 1 tf_tensor.tensor_shape = (E : Int) := by
    rw [foldl_toInt_mul _ 1 (by decide), Int.one_mul, hE, toInt_natCast E hfit]
  have hdim := map_toInt_of_inInt _ hsize
  have hbuf := packedBuffer_closed v E x hlast
  refine ⟨v.take E ++ List.replicate (E - v.length) x,
    layoutOfRank tf_tensor.tensor_shape.length layout, ?_, ?_, ?_, ?_⟩
  · unfold GetTensorContentAndDim
    simp only [hraw, List.length_nil, ne_eq, not_true_eq_false, if_false, hfold, hdim]
    rcases hty with ⟨hd, hv⟩ | ⟨hd, hv⟩
    · rw [if_pos hd, hv, hbuf]; rfl
    · rw [if_neg (by rw [hd]; decide), if_pos hd, hv, hbuf]; rfl
  · simp only [List.length_append, List.length_take, List.length_replicate]
    omega
  · intro i hi
    have hi1 : i < v.length := by omega
    have hi2 : i < E := by omega
    rw [List.getElem?_append_left (by simp only [List.length_take]; omega),
      List.getElem?_take_of_lt hi2]
  · intro i h1 h2
    have hlen : (v.take E).length = v.length := by
      simp only [List.length_take]; omega
    rw [List.getElem?_append_right (by omega), hlen, hlast,
      List.getElem?_replicate]
    rw [if_pos (by omega)]

/-- C20 on a tensor of shape `[2, 3]` with the packed floats `7, 9`. -/
theorem C20_packed_values_fill_buffer_witness :
    ∃ buf out, GetTensorContentAndDim
        { dtype := DataType.DT_FLOAT, tensor_shape := [2, 3], float_val := [7, 9] } []
        = some ([2, 3], some buf, out) ∧
      buf.length = 6 ∧
      (∀ i, i < min [(7 : Int), 9].length 6 → buf[i]? = [(7 : Int), 9][i]?) ∧
      (∀ i, [(7 : Int), 9].length ≤ i → i < 6 →
        buf[i]? = [(7 : Int), 9][[(7 : Int), 9].length - 1]?) :=
  C20_packed_values_fill_buffer
    { dtype := DataType.DT_FLOAT, tensor_shape := [2, 3], float_val := [7, 9] } [] [7, 9] 6
    rfl (Or.inl ⟨rfl, rfl⟩) (by decide) (by decide) (by decide) (by decide)

/-! ## Input nodes -/

theorem dimsOf_SetTensorDim (graph : StaticGraph) (tensor : Nat) (dims : List Int)
    (h : tensor < graph.tensor_list.length) :
    (SetTensorDim graph tensor dims).dimsOf tensor = some dims := by
  unfold SetTensorDim StaticGraph.setTensor StaticGraph.dimsOf
  simp only [List.getElem?_modify, List.getElem?_eq_getElem h, if_true, Option.map_eq_map,
    Option.map_some']

theorem CreateInputNode_of_dims (tf_net : GraphDef) (g : TFGraph) (a : Nat) (sg : StaticGraph)
    (dims : List Int)
    (h : ∀ s1 : StaticGraph, inputTensorDims tf_net (g.heap a) s1 (sg.tensor_list.length)
      = some (SetTensorDim s1 (sg.tensor_list.length) dims)) :
    ∃ g1 sg1 t, CreateInputNode tf_net g a sg = some (g1, sg1) ∧
      (g1.heap a).static_tensor = some t ∧ sg1.dimsOf t = some dims := by
  unfold CreateInputNode
  simp only [CreateStaticNode, CreateStaticTensor]
  rw [h]
  simp only [Option.map_some']
  refine ⟨_, _, sg.tensor_list.length, rfl, ?_, ?_⟩
  · simp [TFGraph.modify]
  · have := dimsOf_SetTensorDim
      (SetTensorDataType (SetTensorDataLayout
        (CreateStaticTensor (CreateStaticNode sg (g.heap a).name).2 (g.heap a).name).2
        sg.tensor_list.length "NCHW".toList) sg.tensor_list.length "float32".toList)
      sg.tensor_list.length dims
      (by simp [SetTensorDataType, SetTensorDataLayout, StaticGraph.setTensor,
        CreateStaticTensor, CreateStaticNode])
    exact this

theorem inputDimsOfShape_short (shape : List Int)
    (h : shape.length = 1 ∨ shape.length = 2) (hr : ∀ d ∈ shape, InInt d) :
    inputDimsOfShape shape = shape := by
  match shape, h, hr with
  | [d0], _, hr =>
    show [toInt d0] = [d0]
    rw [toInt_of_inInt d0 (hr d0 (by simp))]
  | [d0, d1], _, hr =>
    show [toInt d0, toInt d1] = [d0, d1]
    rw [toInt_of_inInt d0 (hr d0 (by simp)), toInt_of_inInt d1 (hr d1 (by simp))]
  | [], h, _ => simp at h
  | _ :: _ :: _ :: _, h, _ => simp at h

/-- The dims `CreateInputNode` sets for a Placeholder that stands for one record
with a `shape` attribute. -/
theorem CreateInputNode_shape_dims (tf_net : GraphDef) (g : TFGraph) (a : Nat)
    (sg : StaticGraph) (k : Nat) (node_def : NodeDef) (shape : AttrValue)
    (hp : (g.heap a).pb_defs = [k]) (hk : tf_net[k]? = some node_def)
    (hs : GetAttrValue node_def "shape".toList = some shape) :
    ∃ g1 sg1 t, CreateInputNode tf_net g a sg = some (g1, sg1) ∧
      (g1.heap a).static_tensor = some t ∧
      sg1.dimsOf t = some (inputDimsOfShape shape.shape) := by
  have hd : ∀ s1 : StaticGraph,
      inputTensorDims tf_net (g.heap a) s1 (sg.tensor_list.length)
        = some (SetTensorDim s1 (sg.tensor_list.length) (inputDimsOfShape shape.shape)) := by
    intro s1
    unfold inputTensorDims pbDef
    simp only [hp, List.length_singleton, if_true, List.getElem?_cons_zero, Option.some_bind,
      hk, hs]
  exact CreateInputNode_of_dims tf_net g a sg _ hd

/-- C19, counterexample: for the Placeholder with the shape attribute
`[2^32 + 1, 224, 224, 3]` `CreateInputNode` sets the dims `[1, 3, 224, 224]`, and
for the one with the shape attribute `[2^32 + 1, 10]` the dims `[1, 10]`: the
first size is stored into an `int`. -/
theorem C19_counterexample :
    (CreateInputNode wideInputNet shapedInputGraph 0 {}).map
      (fun r => ((r.1.heap 0).static_tensor, r.2.dimsOf 0)) =
      some (some 0, some [1, 3, 224, 224]) ∧
    (CreateInputNode wideInputNet wideVectorGraph 0 {}).map
      (fun r => ((r.1.heap 0).static_tensor, r.2.dimsOf 0)) =
      some (some 0, some [1, 10]) := by
  refine ⟨by decide, by decide⟩

/-- C19, amended: for a Placeholder that stands for one record with a `shape`
attribute, `CreateInputNode` sets the dims of the input tensor to
`[d0, d3, d1, d2]` when the shape is `[d0, d1, d2, d3]` with sizes within the
range of `int` (in general each size is stored as `toInt` gives it), and to the
shape itself when its rank is 1 or 2 and its sizes are within the range of `int`;
for a Placeholder that absorbed a constant whose value has shape `[4]` and the
entries `[r0, r1, r2, r3]` (raw, or packed int32) the dims are `[r0, r3, r1, r2]`
with every `-1` replaced by `1`. -/
theorem C19_CreateInputNode_dims (tf_net : GraphDef) (g : TFGraph) (a : Nat)
    (sg : StaticGraph) :
    (∀ k node_def shape, (g.heap a).pb_defs = [k] → tf_net[k]? = some node_def →
      GetAttrValue node_def "shape".toList = some shape →
      ∃ g1 sg1 t, CreateInputNode tf_net g a sg = some (g1, sg1) ∧
        (g1.heap a).static_tensor = some t ∧
        (∀ d0 d1 d2 d3, shape.shape = [d0, d1, d2, d3] →
          sg1.dimsOf t = some [toInt d0, toInt d3, toInt d1, toInt d2] ∧
          (InInt d0 → InInt d1 → InInt d2 → InInt d3 →
            sg1.dimsOf t = some [d0, d3, d1, d2])) ∧
        (shape.shape.length = 1 ∨ shape.shape.length = 2 →
          (∀ d ∈ shape.shape, InInt d) → sg1.dimsOf t = some shape.shape)) ∧
    (∀ k node_def value tf_tensor r0 r1 r2 r3, (g.heap a).pb_defs.length ≠ 1 →
      (g.heap a).pb_defs.getLast? = some k → tf_net[k]? = some node_def →
      GetAttrValue node_def "value".toList = some value →
      value.tensor = some tf_tensor → tf_tensor.tensor_shape = [4] →
      (tf_tensor.tensor_content = [r0, r1, r2, r3] ∨
        (tf_tensor.tensor_content = [] ∧ tf_tensor.dtype = DataType.DT_INT32 ∧
          tf_tensor.int_val = [r0, r1, r2, r3])) →
      ∃ g1 sg1 t, CreateInputNode tf_net g a sg = some (g1, sg1) ∧
        (g1.heap a).static_tensor = some t ∧
        sg1.dimsOf t = some ([r0, r3, r1, r2].map fun d => if d = -1 then 1 else d)) := by
  constructor
  · intro k node_def shape hp hk hs
    obtain ⟨g1, sg1, t, h1, h2, h3⟩ :=
      CreateInputNode_shape_dims tf_net g a sg k node_def shape hp hk hs
    refine ⟨g1, sg1, t, h1, h2, ?_, ?_⟩
    · intro d0 d1 d2 d3 h4
      have h5 : sg1.dimsOf t = some [toInt d0, toInt d3, toInt d1, toInt d2] := by
        rw [h3, h4]
        rfl
      refine ⟨h5, fun r0 r1 r2 r3 => ?_⟩
      rw [h5, toInt_of_inInt d0 r0, toInt_of_inInt d1 r1, toInt_of_inInt d2 r2,
        toInt_of_inInt d3 r3]
    · intro h4 hr
      rw [h3, inputDimsOfShape_short _ h4 hr]
  · intro k node_def value tf_tensor r0 r1 r2 r3 hl hk hn hv ht hsh hc
    have hcont : GetTensorContentAndDim tf_tensor []
        = some ([4], some [r0, r1, r2, r3], "W".toList) := by
      unfold GetTensorContentAndDim
      rcases hc with hc | ⟨hc, hty, hiv⟩
      · simp only [hc, hsh]
        rfl
      · simp only [hc, hsh, hty, hiv]
        rfl
    have hd : ∀ s1 : StaticGraph,
        inputTensorDims tf_net (g.heap a) s1 (sg.tensor_list.length)
          = some (SetTensorDim s1 (sg.tensor_list.length)
              ([r0, r3, r1, r2].map fun d => if d = -1 then 1 else d)) := by
      intro s1
      have h0 : (g.heap a).pb_defs.length ≠ 0 := by
        intro h0
        rw [List.length_eq_zero] at h0
        rw [h0] at hk
        cases hk
      have hget : (g.heap a).pb_defs[(g.heap a).pb_defs.length - 1]? = some k := by
        rw [← List.getLast?_eq_getElem?]
        exact hk
      unfold inputTensorDims pbDef
      simp only [if_neg hl, if_neg h0, hget, Option.some_bind, hn, hv, ht, Option.getD_some,
        hcont]
      rfl
    exact CreateInputNode_of_dims tf_net g a sg _ hd

/-- C19 on a Placeholder of shape `[1, 224, 224, 3]` and on one that absorbed the
reshape target `[-1, 28, 28, 3]`. -/
theorem C19_CreateInputNode_dims_witness :
    (∃ g1 sg1 t, CreateInputNode shapedInputNet shapedInputGraph 0 {} = some (g1, sg1) ∧
      (g1.heap 0).static_tensor = some t ∧ sg1.dimsOf t = some [1, 3, 224, 224]) ∧
    (∃ g1 sg1 t, CreateInputNode shapedInputNet reshapedInputGraph 0 {} = some (g1, sg1) ∧
      (g1.heap 0).static_tensor = some t ∧ sg1.dimsOf t = some [1, 3, 28, 28]) :=
  ⟨by
    obtain ⟨g1, sg1, t, h1, h2, h3, _⟩ :=
      (C19_CreateInputNode_dims shapedInputNet shapedInputGraph 0 {}).1 0 _ _ rfl rfl rfl
    exact ⟨g1, sg1, t, h1, h2, (h3 1 224 224 3 rfl).2 (by decide) (by decide) (by decide)
      (by decide)⟩,
   (C19_CreateInputNode_dims shapedInputNet reshapedInputGraph 0 {}).2 1 _
     { tensor := some reshapeTarget } reshapeTarget (-1) 28 28 3
     (by decide) rfl rfl rfl rfl rfl (Or.inl rfl)⟩

/-! ## The transposition of the convolution weights -/

theorem length_flatMap_range {α : Type} (n : Nat) (F : Nat → List α) :
    ∀ m : Nat, (∀ a, a < m → (F a).length = n) →
      ((List.range m).flatMap F).length = m * n := by
  intro m
  induction m with
  | zero => intro _; simp
  | succ m ih =>
    intro h
    rw [List.range_succ, List.flatMap_append, List.length_append,
      ih (fun a ha => h a (by omega))]
    simp only [List.flatMap_cons, List.flatMap_nil, List.append_nil, h m (by omega)]
    ring

theorem getElem?_flatMap_range {α : Type} (n : Nat) (F : Nat → List α) :
    ∀ m : Nat, (∀ a, a < m → (F a).length = n) →
      ∀ a b, a < m → b < n → ((List.range m).flatMap F)[a * n + b]? = (F a)[b]? := by
  intro m
  induction m with
  | zero => intro _ a b ha; omega
  | succ m ih =>
    intro h a b ha hb
    have hlen := length_flatMap_range n F m (fun a ha => h a (by omega))
    rw [List.range_succ, List.flatMap_append]
    simp only [List.flatMap_cons, List.flatMap_nil, List.append_nil]
    by_cases hm : a < m
    · have hlt : a * n + b < m * n := by
        have : (a + 1) * n ≤ m * n := Nat.mul_le_mul_right n hm
        rw [Nat.add_mul] at this
        omega
      rw [List.getElem?_append_left (by rw [hlen]; exact hlt)]
      exact ih (fun a ha => h a (by omega)) a b hm hb
    · have ham : a = m := by omega
      subst ham
      rw [List.getElem?_append_right (by rw [hlen]; omega), hlen]
      congr 1
      omega

theorem nodup_flatMap_range (F : Nat → List Nat) (key : Nat → Nat) (m : Nat)
    (h1 : ∀ a, a < m → (F a).Nodup) (h2 : ∀ a, a < m → ∀ x ∈ F a, key x = a) :
    ((List.range m).flatMap F).Nodup := by
  rw [List.nodup_flatMap]
  refine ⟨fun a ha => h1 a (List.mem_range.1 ha), ?_⟩
  refine List.Pairwise.imp_of_mem ?_ (List.nodup_range m)
  intro a b ha hb hab
  simp only [Function.onFun]
  rw [List.disjoint_left]
  intro x hxa hxb
  apply hab
  rw [← h2 a (List.mem_range.1 ha) x hxa, ← h2 b (List.mem_range.1 hb) x hxb]

theorem digit_div (q n r : Nat) (hr : r < n) : (q * n + r) / n = q := by
  rw [Nat.add_comm, Nat.add_mul_div_right _ _ (by omega : 0 < n), Nat.div_eq_of_lt hr,
    Nat.zero_add]

theorem digit_mod (q n r : Nat) (hr : r < n) : (q * n + r) % n = r := by
  rw [Nat.add_comm, Nat.add_mul_mod_self_right, Nat.mod_eq_of_lt hr]

theorem digit_lt (a m b n : Nat) (ha : a < m) (hb : b < n) : a * n + b < m * n := by
  have : (a + 1) * n ≤ m * n := Nat.mul_le_mul_right n ha
  rw [Nat.add_mul] at this
  omega

theorem hwioIndex_decode (W I O o i h w : Nat) (ho : o < O) (hi : i < I) (hw : w < W) :
    hwioIndex W I O o i h w % O = o ∧ hwioIndex W I O o i h w / O % I = i ∧
      hwioIndex W I O o i h w / O / I % W = w ∧ hwioIndex W I O o i h w / O / I / W = h := by
  unfold hwioIndex
  rw [digit_mod _ _ _ ho, digit_div _ _ _ ho, digit_mod _ _ _ hi, digit_div _ _ _ hi,
    digit_mod _ _ _ hw, digit_div _ _ _ hw]
  exact ⟨rfl, rfl, rfl, rfl⟩

theorem hwioIndex_lt (H W I O o i h w : Nat) (ho : o < O) (hi : i < I) (hh : h < H)
    (hw : w < W) : hwioIndex W I O o i h w < H * W * I * O := by
  unfold hwioIndex
  exact digit_lt _ _ _ _ (digit_lt _ _ _ _ (digit_lt _ _ _ _ hh hw) hi) ho

theorem mem_transposedPositions (O I H W x : Nat) (hx : x ∈ transposedPositions O I H W) :
    ∃ o i h w, o < O ∧ i < I ∧ h < H ∧ w < W ∧ x = hwioIndex W I O o i h w := by
  unfold transposedPositions at hx
  simp only [List.mem_flatMap, List.mem_map, List.mem_range] at hx
  obtain ⟨o, ho, i, hi, h, hh, w, hw, rfl⟩ := hx
  exact ⟨o, i, h, w, ho, hi, hh, hw, rfl⟩

theorem length_transposedPositions (O I H W : Nat) :
    (transposedPositions O I H W).length = H * W * I * O := by
  unfold transposedPositions
  rw [length_flatMap_range (I * (H * W))]
  · ring
  · intro o _
    rw [length_flatMap_range (H * W)]
    intro i _
    rw [length_flatMap_range W]
    intro h _
    simp

theorem getElem?_transposedPositions (O I H W o i h w : Nat) (ho : o < O) (hi : i < I)
    (hh : h < H) (hw : w < W) :
    (transposedPositions O I H W)[oihwIndex I H W o i h w]?
      = some (hwioIndex W I O o i h w) := by
  have hl3 : ∀ o i h, h < H →
      ((List.range W).map fun w => hwioIndex W I O o i h w).length = W := by
    intro o i h _; simp
  have hl2 : ∀ o i, i < I → ((List.range H).flatMap fun h =>
      (List.range W).map fun w => hwioIndex W I O o i h w).length = H * W := by
    intro o i _
    exact length_flatMap_range W _ H (hl3 o i)
  have hl1 : ∀ o, o < O → ((List.range I).flatMap fun i => (List.range H).flatMap fun h =>
      (List.range W).map fun w => hwioIndex W I O o i h w).length = I * (H * W) := by
    intro o _
    exact length_flatMap_range (H * W) _ I (hl2 o)
  have hpos : oihwIndex I H W o i h w = o * (I * (H * W)) + (i * (H * W) + (h * W + w)) := by
    unfold oihwIndex; ring
  have hb2 : h * W + w < H * W := digit_lt _ _ _ _ hh hw
  have hb1 : i * (H * W) + (h * W + w) < I * (H * W) := digit_lt _ _ _ _ hi hb2
  unfold transposedPositions
  rw [hpos, getElem?_flatMap_range (I * (H * W)) _ O hl1 o _ ho hb1,
    getElem?_flatMap_range (H * W) _ I (hl2 o) i _ hi hb2,
    getElem?_flatMap_range W _ H (hl3 o i) h w hh hw,
    List.getElem?_map, List.getElem?_range hw]
  rfl

theorem nodup_transposedPositions (O I H W : Nat) : (transposedPositions O I H W).Nodup := by
  unfold transposedPositions
  refine nodup_flatMap_range _ (fun x => x % O) O ?_ ?_
  · intro o ho
    refine nodup_flatMap_range _ (fun x => x / O % I) I ?_ ?_
    · intro i hi
      refine nodup_flatMap_range _ (fun x => x / O / I / W) H ?_ ?_
      · intro h _
        refine List.Nodup.map_on ?_ (List.nodup_range W)
        intro w1 hw1 w2 hw2 heq
        have e1 := (hwioIndex_decode W I O o i h w1 ho hi (List.mem_range.1 hw1)).2.2.1
        have e2 := (hwioIndex_decode W I O o i h w2 ho hi (List.mem_range.1 hw2)).2.2.1
        rw [← e1, ← e2, heq]
      · intro h _ x hx
        simp only [List.mem_map, List.mem_range] at hx
        obtain ⟨w, hw, rfl⟩ := hx
        exact (hwioIndex_decode W I O o i h w ho hi hw).2.2.2
    · intro i hi x hx
      simp only [List.mem_flatMap, List.mem_map, List.mem_range] at hx
      obtain ⟨h, _, w, hw, rfl⟩ := hx
      exact (hwioIndex_decode W I O o i h w ho hi hw).2.1
  · intro o ho x hx
    simp only [List.mem_flatMap, List.mem_map, List.mem_range] at hx
    obtain ⟨i, hi, h, _, w, hw, rfl⟩ := hx
    exact (hwioIndex_decode W I O o i h w ho hi hw).1

theorem perm_transposedPositions (O I H W : Nat) :
    (transposedPositions O I H W).Perm (List.range (H * W * I * O)) := by
  refine List.Subperm.perm_of_length_le
    (List.Nodup.subperm (nodup_transposedPositions O I H W) ?_) ?_
  · intro x hx
    obtain ⟨o, i, h, w, ho, hi, hh, hw, rfl⟩ := mem_transposedPositions O I H W x hx
    exact List.mem_range.2 (hwioIndex_lt H W I O o i h w ho hi hh hw)
  · rw [length_transposedPositions, List.length_range]

theorem weightIndices_eq (O I H W : Nat) :
    weightIndices O I H W = (transposedPositions O I H W).map fun (k : Nat) => (k : Int) := by
  unfold weightIndices transposedPositions
  simp only [Int.toNat_ofNat, List.map_flatMap, List.map_map]
  refine congrArg _ (funext fun o => congrArg _ (funext fun i => congrArg _ (funext fun h => ?_)))
  apply List.map_congr_left
  intro w _
  simp only [hwioIndex, Function.comp_apply]
  push_cast
  ring

theorem readValues_positions (old : List Int) :
    ∀ l : List Nat, (∀ k ∈ l, k < old.length) →
      readValues (some old) (l.map fun (k : Nat) => (k : Int))
        = some (l.map fun k => old.getD k 0) := by
  intro l
  induction l with
  | nil => intro _; rfl
  | cons k l ih =>
    intro h
    have hk : k < old.length := h k (List.mem_cons_self _ _)
    have hr : readAt (some old) (k : Int) = some (old.getD k 0) := by
      unfold readAt
      rw [if_pos (by omega)]
      simp only [Option.some_bind, Int.toNat_ofNat, List.getElem?_eq_getElem hk,
        List.getD_eq_getElem?_getD, Option.getD_some]
    rw [List.map_cons, List.map_cons, readValues.eq_def]
    simp only [hr, ih (fun k hk => h k (List.mem_cons_of_mem _ hk))]

theorem transposed_buffer (O I H W : Nat) (old : List Int) (hlen : old.length = H * W * I * O) :
    ∃ new, readValues (some old) (weightIndices O I H W) = some new ∧
      (∀ o i h w, o < O → i < I → h < H → w < W →
        new[oihwIndex I H W o i h w]? = old[hwioIndex W I O o i h w]?) ∧
      new.Perm old := by
  have hmem : ∀ k ∈ transposedPositions O I H W, k < old.length := by
    intro k hk
    obtain ⟨o, i, h, w, ho, hi, hh, hw, rfl⟩ := mem_transposedPositions O I H W k hk
    rw [hlen]
    exact hwioIndex_lt H W I O o i h w ho hi hh hw
  refine ⟨(transposedPositions O I H W).map fun k => old.getD k 0, ?_, ?_, ?_⟩
  · rw [weightIndices_eq, readValues_positions old _ hmem]
  · intro o i h w ho hi hh hw
    have hlt : hwioIndex W I O o i h w < old.length := by
      rw [hlen]
      exact hwioIndex_lt H W I O o i h w ho hi hh hw
    rw [List.getElem?_map, getElem?_transposedPositions O I H W o i h w ho hi hh hw,
      List.getElem?_eq_getElem hlt]
    simp only [Option.map_some', List.getD_eq_getElem?_getD, List.getElem?_eq_getElem hlt,
      Option.getD_some]
  · have hp := List.Perm.map (fun k => old.getD k 0) (perm_transposedPositions O I H W)
    refine hp.trans ?_
    rw [← hlen]
    have : (List.range old.length).map (fun k => old.getD k 0) = old := by
      apply List.ext_getElem?
      intro k
      by_cases hk : k < old.length
      · rw [List.getElem?_map, List.getElem?_range hk]
        simp only [Option.map_some', List.getD_eq_getElem?_getD, List.getElem?_eq_getElem hk,
          Option.getD_some]
      · rw [List.getElem?_eq_none (by simpa using hk), List.getElem?_eq_none (by omega)]
    rw [this]

theorem convInputs_defined (g : TFGraph) (n : TFNode) (sg : StaticGraph)
    (input0 input1 : Nat) (rest : List Nat) (node t0 wt : Nat)
    (hin : n.inputs = input0 :: input1 :: rest)
    (hrest : rest = [] ∨
      ∃ input2 t2, rest.head? = some input2 ∧ (g.heap input2).static_tensor = some t2)
    (hnode : n.static_node = some node)
    (ht0 : (g.heap input0).static_tensor = some t0)
    (ht1 : (g.heap input1).static_tensor = some wt) :
    ∃ s1, convInputs g n sg = some (node, wt, s1) ∧ s1.tensor_list = sg.tensor_list ∧
      s1.op_list = sg.op_list := by
  unfold convInputs
  simp only [hin, List.getElem?_cons_zero, List.getElem?_cons_succ, hnode, ht0, ht1,
    List.length_cons]
  rcases hrest with hr | ⟨input2, t2, hr, ht2⟩
  · subst hr
    exact ⟨_, rfl, rfl, rfl⟩
  · cases rest with
    | nil => cases hr
    | cons x xs =>
      simp only [List.head?_cons, Option.some.injEq] at hr
      subst hr
      simp only [List.length_cons, List.getElem?_cons_zero, Option.some_bind, ht2]
      rw [if_pos (by omega)]
      exact ⟨_, rfl, rfl, rfl⟩

theorem weightDims_hwio (weight_def : NodeDef) (value : AttrValue) (op : List Char)
    (d0 d1 d2 d3 : Int)
    (hop : op ≠ "DepthwiseConv2dNative".toList)
    (hval : GetAttrValue weight_def "value".toList = some value)
    (hshape : (value.tensor.getD {}).tensor_shape = [d0, d1, d2, d3]) :
    weightDims weight_def op
      = { kernel_h := toInt d0, kernel_w := toInt d1, in_channel := toInt d2,
          out_channel := toInt d3 } := by
  unfold weightDims
  simp only [hval, hshape]
  rw [if_neg hop]

/-- The writes of the loops of `LoadConv2D` fit the buffer allocated when the
element count is within the range of `int`. -/
theorem weightWrites_fit (O I H W : Nat) (group : Int)
    (hfit : O * I * H * W ≤ 2147483647) :
    weightWrites { in_channel := I, out_channel := O, kernel_h := H, kernel_w := W,
                   group := group } ≤
      weightElemSize { in_channel := I, out_channel := O, kernel_h := H, kernel_w := W,
                       group := group } := by
  have e : (O : Int) * I * H * W = ((O * I * H * W : Nat) : Int) := by push_cast; ring
  have key : toInt (toInt (toInt ((O : Int) * I) * H) * W) = ((O * I * H * W : Nat) : Int) := by
    rw [toInt_mul_left, Int.mul_assoc (toInt ((O : Int) * I)), toInt_mul_left,
      ← Int.mul_assoc, e, toInt_natCast _ hfit]
  unfold weightWrites weightElemSize
  simp only
  rw [key]
  split
  · exact Int.le_of_eq e
  · exact Int.ofNat_nonneg _

theorem loopDims_plain (O I H W : Nat) (group : Int) (op : List Char)
    (hop : op ≠ "DepthwiseConv2dNative".toList)
    (hfit : O * I * H * W ≤ 2147483647) :
    loopDims { in_channel := I, out_channel := O, kernel_h := H, kernel_w := W,
               group := group } op =
      some { in_channel := I, out_channel := O, kernel_h := H, kernel_w := W,
             group := group } := by
  unfold loopDims
  simp only [if_neg hop, Option.some_bind]
  rw [if_pos (Or.inr (weightWrites_fit O I H W group hfit))]

/-- C18, counterexample: for the weights of the declared shape `[2^32, 1, 1, 0]`,
which have `2^32 * 1 * 1 * 0 = 0` elements, `LoadConv2D` sets the dims of the
weight tensor to `[0, 1, 0, 1]`, not to `[0, 1, 2^32, 1]`: `kernel_h` is an `int`.
For the weights of the declared shape `[65536, 65536, 1, 1]` with a buffer of
`2^32` elements the loops write `2^32` elements to a buffer allocated for
`elem_size = 0` of them, and the call has no defined result. -/
theorem C18_counterexample :
    (LoadConv2D wrappedKernelNet {} 2 smallConvGraph wrappedKernelTarget).map
      (fun r => (r.1, r.2.dimsOf 1, GetConstTensorBuffer r.2 1)) =
      some (true, some [0, 1, 0, 1], some []) ∧
    (GetConstTensorBuffer giantKernelTarget 1).map List.length =
      some (65536 * 65536 * 1 * 1) ∧
    LoadConv2D giantKernelNet {} 2 smallConvGraph giantKernelTarget = none := by
  refine ⟨by decide, ?_, by decide⟩
  show some (List.replicate 4294967296 (0 : Int)).length = _
  rw [List.length_replicate]

/-- C18, amended: for a Conv2D node whose weight tensor has the shape
`[H, W, I, O]`, with the sizes and the element count `H*W*I*O` at most
`2^31 - 1`, and a buffer `old` of `H*W*I*O` elements, `LoadConv2D` succeeds, sets
the dims of the weight tensor to `[O, I, H, W]` and replaces the buffer by `new` with
`new[((o*I+i)*H+h)*W+w] = old[((h*W+w)*I+i)*O+o]` for all `o < O`, `i < I`,
`h < H`, `w < W`; `new` is a permutation of `old`. The other hypotheses say that
the node has its handles and that its attribute lists can be read. -/
theorem C18_LoadConv2D_transposes_weights (tf_net : GraphDef) (def_param : ConvParam)
    (g : TFGraph) (sg : StaticGraph) (a input0 input1 : Nat) (rest : List Nat)
    (node t0 wt : Nat) (node_def weight_def : NodeDef) (attrs : ConvParam)
    (pads : Option (List Int)) (value : AttrValue) (H W I O : Nat) (old : List Int)
    (hop : (g.heap a).op = "Conv2D".toList)
    (hin : (g.heap a).inputs = input0 :: input1 :: rest)
    (hrest : rest = [] ∨
      ∃ input2 t2, rest.head? = some input2 ∧ (g.heap input2).static_tensor = some t2)
    (hnode : (g.heap a).static_node = some node)
    (ht0 : (g.heap input0).static_tensor = some t0)
    (ht1 : (g.heap input1).static_tensor = some wt)
    (hdef : pbDef tf_net (g.heap a) 0 = some node_def)
    (hattr : convAttributes node_def def_param = some attrs)
    (hpads : mergedPads tf_net (g.heap a) = some pads)
    (hwd : pbDef tf_net (g.heap input1) 0 = some weight_def)
    (hval : GetAttrValue weight_def "value".toList = some value)
    (hshape : (value.tensor.getD {}).tensor_shape = [(H : Int), W, I, O])
    (hsize : H ≤ 2147483647 ∧ W ≤ 2147483647 ∧ I ≤ 2147483647 ∧ O ≤ 2147483647)
    (hfit : H * W * I * O ≤ 2147483647)
    (hbuf : GetConstTensorBuffer sg wt = some old)
    (hlen : old.length = H * W * I * O) :
    ∃ sg1 new, LoadConv2D tf_net def_param a g sg = some (true, sg1) ∧
      sg1.dimsOf wt = some [(O : Int), I, H, W] ∧
      GetConstTensorBuffer sg1 wt = some new ∧
      (∀ o i h w, o < O → i < I → h < H → w < W →
        new[oihwIndex I H W o i h w]? = old[hwioIndex W I O o i h w]?) ∧
      new.Perm old := by
  obtain ⟨s1, hs1, hts, _⟩ :=
    convInputs_defined g (g.heap a) sg input0 input1 rest node t0 wt hin hrest hnode ht0 ht1
  obtain ⟨new, hnew, hidx, hperm⟩ := transposed_buffer O I H W old hlen
  have hne : (g.heap a).op ≠ "DepthwiseConv2dNative".toList := by
    rw [hop]; decide
  have hdims := weightDims_hwio weight_def value (g.heap a).op H W I O hne hval hshape
  rw [toInt_natCast H hsize.1, toInt_natCast W hsize.2.1, toInt_natCast I hsize.2.2.1,
    toInt_natCast O hsize.2.2.2] at hdims
  have hloop := loopDims_plain O I H W 1 (g.heap a).op hne
    (by rw [show O * I * H * W = H * W * I * O by ring]; exact hfit)
  obtain ⟨T, hT, hTm⟩ : ∃ T, s1.tensor_list[wt]? = some T ∧ T.mem_addr = some old := by
    unfold GetConstTensorBuffer at hbuf
    rw [hts]
    cases hq : sg.tensor_list[wt]? with
    | none => rw [hq] at hbuf; cases hbuf
    | some T => rw [hq] at hbuf; exact ⟨T, rfl, hbuf⟩
  have hsrc : ∀ (p : OpParam) (l : List Char) (d : List Int),
      GetConstTensorBuffer (SetNodeOp (SetOperatorParam
        (CreateStaticOp (SetTensorDataLayout (SetTensorDim s1 wt d) wt l)
          "Convolution".toList).2 s1.op_list.length p) node s1.op_list.length) wt
        = some old := by
    intro p l d
    simp [GetConstTensorBuffer, SetNodeOp, SetOperatorParam, CreateStaticOp,
      SetTensorDataLayout, SetTensorDim, StaticGraph.setNode, StaticGraph.setTensor,
      List.getElem?_modify, hT, hTm]
  unfold LoadConv2D
  simp only [hs1, hdef, Option.some_bind, hattr, hin, List.getElem?_cons_succ,
    List.getElem?_cons_zero, hwd, hdims, hloop]
  have hops : (CreateStaticOp (SetTensorDataLayout
      (SetTensorDim s1 wt [(O : Int), I, H, W]) wt "NCHW".toList) "Convolution".toList).1
      = s1.op_list.length := rfl
  simp only [hops, hsrc, hnew, hpads]
  cases pads with
  | none =>
    refine ⟨_, new, rfl, ?_, ?_, hidx, hperm⟩
    · simp [StaticGraph.dimsOf, SetConstTensorBuffer, SetNodeOp, SetOperatorParam,
        CreateStaticOp, SetTensorDataLayout, SetTensorDim, StaticGraph.setNode,
        StaticGraph.setTensor, List.getElem?_modify, hT]
    · simp [GetConstTensorBuffer, SetConstTensorBuffer, SetNodeOp, SetOperatorParam,
        CreateStaticOp, SetTensorDataLayout, SetTensorDim, StaticGraph.setNode,
        StaticGraph.setTensor, List.getElem?_modify, hT]
  | some p =>
    refine ⟨_, new, rfl, ?_, ?_, hidx, hperm⟩
    · simp [StaticGraph.dimsOf, SetConstTensorBuffer, SetNodeOp, SetOperatorParam,
        CreateStaticOp, SetTensorDataLayout, SetTensorDim, StaticGraph.setNode,
        StaticGraph.setTensor, List.getElem?_modify, hT]
    · simp [GetConstTensorBuffer, SetConstTensorBuffer, SetNodeOp, SetOperatorParam,
        CreateStaticOp, SetTensorDataLayout, SetTensorDim, StaticGraph.setNode,
        StaticGraph.setTensor, List.getElem?_modify, hT]

/-- C18 on a Conv2D whose weights have the shape `[1, 2, 2, 2]`. -/
theorem C18_LoadConv2D_transposes_weights_witness :
    ∃ sg1 new, LoadConv2D smallConvNet {} 2 smallConvGraph smallConvTarget = some (true, sg1) ∧
      sg1.dimsOf 1 = some [2, 2, 1, 2] ∧
      GetConstTensorBuffer sg1 1 = some new ∧
      (∀ o i h w, o < 2 → i < 2 → h < 1 → w < 2 →
        new[oihwIndex 2 1 2 o i h w]?
          = [(10 : Int), 11, 12, 13, 14, 15, 16, 17][hwioIndex 2 2 2 o i h w]?) ∧
      new.Perm [10, 11, 12, 13, 14, 15, 16, 17] :=
  C18_LoadConv2D_transposes_weights smallConvNet {} smallConvGraph smallConvTarget 2 0 1 []
    2 0 1 { name := "conv".toList, op := "Conv2D".toList, input := ["x".toList, "w".toList],
            attr := [("padding".toList, { s := "SAME".toList }),
                     ("strides".toList, { list_i := [1, 1, 1, 1] })] }
    { name := "w".toList, op := "Const".toList,
      attr := [("value".toList, { tensor := some smallWeights })] }
    { pad_h := -1, pad_w := -1, stride_h := 1, stride_w := 1 } none
    { tensor := some smallWeights } 1 2 2 2 [10, 11, 12, 13, 14, 15, 16, 17]
    rfl rfl (Or.inl rfl) rfl rfl rfl rfl rfl rfl rfl rfl rfl (by decide) (by decide) rfl rfl

/-! ## The two loops of `GenerateStaticGraph` -/

theorem CreateInputNode_heap (tf_net : GraphDef) (g g1 : TFGraph) (a : Nat)
    (sg s1 : StaticGraph) (h : CreateInputNode tf_net g a sg = some (g1, s1)) :
    g1.seq_nodes = g.seq_nodes ∧ ∀ b, (g1.heap b).op = (g.heap b).op := by
  unfold CreateInputNode at h
  simp only [Option.map_eq_some'] at h
  obtain ⟨s2, _, h2⟩ := h
  simp only [Prod.mk.injEq] at h2
  rw [← h2.1]
  refine ⟨rfl, fun b => ?_⟩
  simp only [TFGraph.modify]
  split <;> rfl

theorem LoadConstTensor_heap (tf_net : GraphDef) (g g1 : TFGraph) (a : Nat)
    (sg s1 : StaticGraph) (h : LoadConstTensor tf_net g a sg = some (g1, s1)) :
    g1.seq_nodes = g.seq_nodes ∧ ∀ b, (g1.heap b).op = (g.heap b).op := by
  unfold LoadConstTensor at h
  cases hp : pbDef tf_net (g.heap a) 0 with
  | none => simp only [hp] at h; cases h
  | some node_def =>
    simp only [hp, Option.map_eq_some'] at h
    obtain ⟨s2, _, h2⟩ := h
    simp only [Prod.mk.injEq] at h2
    rw [← h2.1]
    refine ⟨rfl, fun b => ?_⟩
    simp only [TFGraph.modify]
    split <;> rfl

theorem createTensorNodes_heap (tf_net : GraphDef) :
    ∀ (l : List Nat) (g g1 : TFGraph) (sg s1 : StaticGraph),
      createTensorNodes tf_net l g sg = some (g1, s1) →
      g1.seq_nodes = g.seq_nodes ∧ ∀ b, (g1.heap b).op = (g.heap b).op := by
  intro l
  induction l with
  | nil =>
    intro g g1 sg s1 h
    simp only [createTensorNodes, Option.some.injEq, Prod.mk.injEq] at h
    rw [← h.1]
    exact ⟨rfl, fun _ => rfl⟩
  | cons a l ih =>
    intro g g1 sg s1 h
    rw [createTensorNodes] at h
    simp only at h
    split at h
    · exact ih _ _ _ _ h
    · split at h
      · cases hc : LoadConstTensor tf_net g a sg with
        | none => simp only [hc] at h; cases h
        | some r =>
          obtain ⟨g2, s2⟩ := r
          simp only [hc] at h
          have h1 := LoadConstTensor_heap tf_net g g2 a sg s2 hc
          have h2 := ih _ _ _ _ h
          exact ⟨h2.1.trans h1.1, fun b => (h2.2 b).trans (h1.2 b)⟩
      · split at h
        · cases hc : CreateInputNode tf_net g a sg with
          | none => simp only [hc] at h; cases h
          | some r =>
            obtain ⟨g2, s2⟩ := r
            simp only [hc] at h
            have h1 := CreateInputNode_heap tf_net g g2 a sg s2 hc
            have h2 := ih _ _ _ _ h
            exact ⟨h2.1.trans h1.1, fun b => (h2.2 b).trans (h1.2 b)⟩
        · have h2 := ih _ _ _ _ h
          refine ⟨h2.1, fun b => (h2.2 b).trans ?_⟩
          simp only [TFGraph.modify]
          split <;> rfl

theorem loadNodes_skip (registry : List Char → Option op_load_t) (g : TFGraph) (a : Nat)
    (l : List Nat) (s : StaticGraph)
    (h : (g.heap a).op = "Placeholder".toList ∨ (g.heap a).op = "Const".toList) :
    loadNodes registry g (a :: l) s = loadNodes registry g l s := by
  rw [loadNodes, if_pos h]

theorem loadNodes_translate (registry : List Char → Option op_load_t) (g : TFGraph) (a : Nat)
    (l : List Nat) (s : StaticGraph)
    (h : ¬ ((g.heap a).op = "Placeholder".toList ∨ (g.heap a).op = "Const".toList)) :
    loadNodes registry g (a :: l) s =
      match registry (g.heap a).op with
      | none => some (false, s)
      | some op_func =>
        match op_func a g s with
        | none => none
        | some (false, s1) => some (false, s1)
        | some (true, s1) => loadNodes registry g l s1 := by
  rw [loadNodes, if_neg h]

theorem loadNodes_prefix (registry : List Char → Option op_load_t) (g : TFGraph) :
    ∀ (pre : List Nat) (s s1 : StaticGraph), loadNodes registry g pre s = some (true, s1) →
      ∀ rest, loadNodes registry g (pre ++ rest) s = loadNodes registry g rest s1 := by
  intro pre
  induction pre with
  | nil =>
    intro s s1 h rest
    simp only [loadNodes, Option.some.injEq, Prod.mk.injEq, true_and] at h
    rw [h]; rfl
  | cons x pre ih =>
    intro s s1 h rest
    by_cases hs : (g.heap x).op = "Placeholder".toList ∨ (g.heap x).op = "Const".toList
    · rw [loadNodes_skip registry g x pre s hs] at h
      rw [List.cons_append, loadNodes_skip registry g x _ s hs]
      exact ih s s1 h rest
    · rw [loadNodes_translate registry g x pre s hs] at h
      rw [List.cons_append, loadNodes_translate registry g x _ s hs]
      cases hr : registry (g.heap x).op with
      | none => rw [hr] at h; cases h
      | some op_func =>
        rw [hr] at h
        simp only at h ⊢
        cases hf : op_func x g s with
        | none => rw [hf] at h; cases h
        | some r =>
          obtain ⟨b, s2⟩ := r
          rw [hf] at h
          cases b with
          | false => cases h
          | true => exact ih s2 s1 h rest

theorem loadNodes_failure (registry : List Char → Option op_load_t) (g : TFGraph) :
    ∀ (l : List Nat) (s s2 : StaticGraph), loadNodes registry g l s = some (false, s2) →
      ∃ pre a post s1, l = pre ++ a :: post ∧ loadNodes registry g pre s = some (true, s1) ∧
        ¬ ((g.heap a).op = "Placeholder".toList ∨ (g.heap a).op = "Const".toList) ∧
        ((registry (g.heap a).op = none ∧ s2 = s1) ∨
          ∃ op_func, registry (g.heap a).op = some op_func ∧
            op_func a g s1 = some (false, s2)) := by
  intro l
  induction l with
  | nil => intro s s2 h; simp [loadNodes] at h
  | cons x l ih =>
    intro s s2 h
    by_cases hs : (g.heap x).op = "Placeholder".toList ∨ (g.heap x).op = "Const".toList
    · rw [loadNodes_skip registry g x l s hs] at h
      obtain ⟨pre, a, post, s1, hl, hp, ha, hf⟩ := ih s s2 h
      refine ⟨x :: pre, a, post, s1, by rw [hl]; rfl, ?_, ha, hf⟩
      rw [loadNodes_skip registry g x pre s hs]
      exact hp
    · rw [loadNodes_translate registry g x l s hs] at h
      cases hr : registry (g.heap x).op with
      | none =>
        rw [hr] at h
        simp only [Option.some.injEq, Prod.mk.injEq, true_and] at h
        exact ⟨[], x, l, s, rfl, rfl, hs, Or.inl ⟨hr, h.symm⟩⟩
      | some op_func =>
        rw [hr] at h
        simp only at h
        cases hf : op_func x g s with
        | none => rw [hf] at h; cases h
        | some r =>
          obtain ⟨b, s3⟩ := r
          rw [hf] at h
          cases b with
          | false =>
            simp only [Option.some.injEq, Prod.mk.injEq, true_and] at h
            subst h
            exact ⟨[], x, l, s, rfl, rfl, hs, Or.inr ⟨op_func, hr, hf⟩⟩
          | true =>
            simp only at h
            obtain ⟨pre, a, post, s1, hl, hp, ha, hq⟩ := ih s3 s2 h
            refine ⟨x :: pre, a, post, s1, by rw [hl]; rfl, ?_, ha, hq⟩
            rw [loadNodes_translate registry g x pre s hs, hr]
            simp only [hf]
            exact hp

theorem loadNodes_at_failure (registry : List Char → Option op_load_t) (g : TFGraph)
    (a : Nat) (post : List Nat) (s1 s2 : StaticGraph)
    (ha : ¬ ((g.heap a).op = "Placeholder".toList ∨ (g.heap a).op = "Const".toList))
    (hf : (registry (g.heap a).op = none ∧ s2 = s1) ∨
      ∃ op_func, registry (g.heap a).op = some op_func ∧ op_func a g s1 = some (false, s2)) :
    loadNodes registry g (a :: post) s1 = some (false, s2) := by
  rw [loadNodes_translate registry g a post s1 ha]
  rcases hf with ⟨hr, hs⟩ | ⟨op_func, hr, hf⟩
  · rw [hr, hs]
  · rw [hr]
    simp only [hf]

theorem loadNodes_success (registry : List Char → Option op_load_t) (g : TFGraph) :
    ∀ (l : List Nat) (s s2 : StaticGraph), loadNodes registry g l s = some (true, s2) →
      ∀ a ∈ l, ¬ ((g.heap a).op = "Placeholder".toList ∨ (g.heap a).op = "Const".toList) →
        registry (g.heap a).op ≠ none := by
  intro l
  induction l with
  | nil => intro s s2 _ a ha; cases ha
  | cons x l ih =>
    intro s s2 h a ha hna
    by_cases hs : (g.heap x).op = "Placeholder".toList ∨ (g.heap x).op = "Const".toList
    · rw [loadNodes_skip registry g x l s hs] at h
      rcases List.mem_cons.1 ha with rfl | hm
      · exact absurd hs hna
      · exact ih s s2 h a hm hna
    · rw [loadNodes_translate registry g x l s hs] at h
      cases hr : registry (g.heap x).op with
      | none => rw [hr] at h; cases h
      | some op_func =>
        rw [hr] at h
        simp only at h
        cases hf : op_func x g s with
        | none => rw [hf] at h; cases h
        | some r =>
          obtain ⟨b, s3⟩ := r
          rw [hf] at h
          cases b with
          | false => cases h
          | true =>
            rcases List.mem_cons.1 ha with rfl | hm
            · rw [hr]; exact Option.some_ne_none _
            · exact ih s3 s2 h a hm hna

/-- C17: `GenerateStaticGraph` returns `false` exactly when the sequence splits as
`pre ++ a :: post` where the translators of the nodes of `pre` were called in
order and all returned `true`, `a` is neither a Placeholder nor a Const, and `a`
has no registered translator or its translator, called on the target graph
the nodes of `pre` left, returns `false`; the target graph is then the one at
that point, whatever `post` is, so no translator is called after `a`. A node
without a registered translator anywhere in the sequence excludes the result
`true`. -/
theorem C17_GenerateStaticGraph_failure (tf_net : GraphDef)
    (registry : List Char → Option op_load_t) (g : TFGraph) (sg : StaticGraph) :
    (∀ g1 s2, GenerateStaticGraph tf_net registry g sg = some (false, g1, s2) ↔
      ∃ s0 pre a post s1, createTensorNodes tf_net g.seq_nodes g sg = some (g1, s0) ∧
        g.seq_nodes = pre ++ a :: post ∧
        loadNodes registry g1 pre s0 = some (true, s1) ∧
        (g.heap a).op ≠ "Placeholder".toList ∧ (g.heap a).op ≠ "Const".toList ∧
        ((registry (g.heap a).op = none ∧ s2 = s1) ∨
          ∃ op_func, registry (g.heap a).op = some op_func ∧
            op_func a g1 s1 = some (false, s2))) ∧
    ((∃ a ∈ g.seq_nodes, (g.heap a).op ≠ "Placeholder".toList ∧
        (g.heap a).op ≠ "Const".toList ∧ registry (g.heap a).op = none) →
      ∀ g1 s2, GenerateStaticGraph tf_net registry g sg ≠ some (true, g1, s2)) := by
  constructor
  · intro g1 s2
    constructor
    · intro h
      unfold GenerateStaticGraph at h
      cases hc : createTensorNodes tf_net g.seq_nodes g sg with
      | none => simp only [hc] at h; cases h
      | some r =>
        obtain ⟨g2, s0⟩ := r
        simp only [hc, Option.map_eq_some', Prod.mk.injEq] at h
        obtain ⟨r2, hl, hb, hg, hs⟩ := h
        subst hg
        obtain ⟨b, s3⟩ := r2
        simp only at hb hs
        subst hb hs
        have hfr := createTensorNodes_heap tf_net g.seq_nodes g g2 sg s0 hc
        obtain ⟨pre, a, post, s1, hseq, hpre, ha, hf⟩ :=
          loadNodes_failure registry g2 g2.seq_nodes s0 s3 hl
        rw [hfr.2 a] at ha hf
        rw [hfr.1] at hseq
        exact ⟨s0, pre, a, post, s1, rfl, hseq, hpre, (not_or.1 ha).1, (not_or.1 ha).2, hf⟩
    · rintro ⟨s0, pre, a, post, s1, hc, hseq, hpre, ha1, ha2, hf⟩
      have hfr := createTensorNodes_heap tf_net g.seq_nodes g g1 sg s0 hc
      unfold GenerateStaticGraph
      simp only [hc]
      rw [hfr.1, hseq, loadNodes_prefix registry g1 pre s0 s1 hpre,
        loadNodes_at_failure registry g1 a post s1 s2
          (by rw [hfr.2 a]; exact not_or.2 ⟨ha1, ha2⟩) (by rw [hfr.2 a]; exact hf)]
      rfl
  · rintro ⟨a, hmem, ha1, ha2, hr⟩ g1 s2 h
    unfold GenerateStaticGraph at h
    cases hc : createTensorNodes tf_net g.seq_nodes g sg with
    | none => simp only [hc] at h; cases h
    | some r =>
      obtain ⟨g2, s0⟩ := r
      simp only [hc, Option.map_eq_some', Prod.mk.injEq] at h
      obtain ⟨r2, hl, hb, hg, hs⟩ := h
      obtain ⟨b, s3⟩ := r2
      simp only at hb
      subst hb
      have hfr := createTensorNodes_heap tf_net g.seq_nodes g g2 sg s0 hc
      refine loadNodes_success registry g2 g2.seq_nodes s0 s3 hl a (by rw [hfr.1]; exact hmem)
        (by rw [hfr.2 a]; exact not_or.2 ⟨ha1, ha2⟩) (by rw [hfr.2 a]; exact hr)

/-- C17 on a Placeholder feeding a Relu, with an empty registry: the lowering
does not succeed, and it returns `false`. -/
theorem C17_GenerateStaticGraph_failure_witness :
    (∀ g1 s2, GenerateStaticGraph smallNet (fun _ => none) plainGraph {}
      ≠ some (true, g1, s2)) ∧
    (GenerateStaticGraph smallNet (fun _ => none) plainGraph {}).map (fun r => r.1)
      = some false :=
  ⟨(C17_GenerateStaticGraph_failure smallNet (fun _ => none) plainGraph {}).2
    ⟨1, by decide, by decide, by decide, rfl⟩, by decide⟩

/-! ## The scenario Placeholder, Conv2D, BiasAdd, Relu -/

set_option maxRecDepth 100000 in
/-- C15, counterexample: on the scenario graph (Placeholder of shape
`[1, 224, 224, 3]`, Conv2D with weights of shape `[3, 3, 3, 8]`, strides
`[1, 1, 1, 1]` and padding `SAME`, BiasAdd with a bias constant, Relu) the rewrite
pipeline followed by the lowering succeeds and creates 5 target nodes, not 3:
each of the two constants gets a node of its own. -/
theorem C15_counterexample :
    (LoadGraph scenarioNet (registeredLoaders scenarioNet {} (fun _ => none))).map (fun r =>
      (r.1, r.2.2.node_list.length, r.2.2.node_list.map fun n => n.name))
    = some (true, 5, ["input".toList, "weights".toList, "conv".toList, "bias".toList,
        "relu".toList]) := by
  decide

set_option maxRecDepth 100000 in
/-- C15, amended: on the scenario graph, whatever the default `ConvParam` and the
translators registered under other op names, the rewrite pipeline followed by
the lowering succeeds and creates exactly 5 target nodes: the input, the weight
constant, the convolution (whose inputs are the tensors of the input, the
weights and the fused bias), the bias constant and the relu; the dims of the
weight tensor are `[8, 3, 3, 3]` and `pad_h` and `pad_w` of the convolution are
`-1`. -/
theorem C15_scenario_lowering (def_param : ConvParam)
    (others : List Char → Option op_load_t) :
    (LoadGraph scenarioNet (registeredLoaders scenarioNet def_param others)).map (fun r =>
      (r.1, r.2.2.node_list.map (fun n => n.name), r.2.2.nodeOps,
        r.2.2.node_list.map (fun n => n.input_tensor_list),
        r.2.2.tensor_list.map (fun t => t.name), r.2.2.dimsOf 1,
        (r.2.2.convParamOf 3).map (fun p => (p.pad_h, p.pad_w))))
    = some (true,
        ["input".toList, "weights".toList, "conv".toList, "bias".toList, "relu".toList],
        [some "InputOp".toList, some "Const".toList, some "Convolution".toList,
          some "Const".toList, some "ReLu".toList],
        [[], [], [0, 1, 3], [], [2]],
        ["input".toList, "weights".toList, "conv".toList, "bias".toList, "relu".toList],
        some [8, 3, 3, 3], some (-1, -1)) := by
  rfl

/-! ## The merged pad table of a convolution -/

theorem shapeData_eight (n0 n1 h0 h1 w0 w1 c0 c1 : Int) :
    shapeData [n0, n1, h0, h1, w0, w1, c0, c1] = some [n0, n1, h0, h1, w0, w1, c0, c1] := rfl

theorem mergedPads_table (tf_net : GraphDef) (n : TFNode) (node_def : NodeDef)
    (value : AttrValue) (tf_tensor : TensorProto) (n0 n1 h0 h1 w0 w1 c0 c1 : Int)
    (hlen : n.pb_defs.length > 1)
    (hdef : pbDef tf_net n (n.pb_defs.length - 1) = some node_def)
    (hop : node_def.op = "Const".toList)
    (hval : GetAttrValue node_def "value".toList = some value)
    (hten : value.tensor = some tf_tensor)
    (hshape : tf_tensor.tensor_shape = [4, 2])
    (htab : tf_tensor.tensor_content = [n0, n1, h0, h1, w0, w1, c0, c1] ∨
      (tf_tensor.tensor_content = [] ∧ tf_tensor.int_val = [n0, n1, h0, h1, w0, w1, c0, c1])) :
    mergedPads tf_net n = some (some [h0, w0, h1, w1]) := by
  unfold mergedPads
  simp only [if_pos hlen, hdef, if_pos hop, hval, Option.some_bind, hten, hshape, if_true]
  rcases htab with hc | ⟨hc, hi⟩
  · simp only [hc, List.length_cons, List.length_nil, ne_eq, shapeData_eight]
    rfl
  · simp only [hc, hi, List.length_nil, ne_eq, not_true_eq_false, if_false, shapeData_eight]

theorem buffer_after_dims (s1 : StaticGraph) (wt : Nat) (d : List Int) (l name : List Char)
    (p : OpParam) (node op : Nat) :
    GetConstTensorBuffer (SetNodeOp (SetOperatorParam
      (CreateStaticOp (SetTensorDataLayout (SetTensorDim s1 wt d) wt l) name).2 op p) node op) wt
      = GetConstTensorBuffer s1 wt := by
  simp only [GetConstTensorBuffer, SetNodeOp, SetOperatorParam, CreateStaticOp,
    SetTensorDataLayout, SetTensorDim, StaticGraph.setNode, StaticGraph.setTensor,
    List.getElem?_modify]
  cases s1.tensor_list[wt]? with
  | none => rfl
  | some T => simp

/-- C29: when the last definition of a convolution node is a Const whose value
has the shape `[4, 2]` and holds the table `[[n0,n1],[h0,h1],[w0,w1],[c0,c1]]`, as
raw content or as a packed list, `LoadConv2D` succeeds and the `Convolution`
operator it creates carries the pads `[h0, w0, h1, w1]`. The other hypotheses say
that the node has its handles and that its attributes and weights can be
read. -/
theorem C29_LoadConv2D_merged_pads (tf_net : GraphDef) (def_param : ConvParam)
    (g : TFGraph) (sg : StaticGraph) (a input0 input1 : Nat) (rest : List Nat)
    (node t0 wt : Nat) (node_def weight_def pad_def : NodeDef) (attrs : ConvParam)
    (l : ConvDims) (new : List Int) (value : AttrValue) (tf_tensor : TensorProto)
    (n0 n1 h0 h1 w0 w1 c0 c1 : Int)
    (hin : (g.heap a).inputs = input0 :: input1 :: rest)
    (hrest : rest = [] ∨
      ∃ input2 t2, rest.head? = some input2 ∧ (g.heap input2).static_tensor = some t2)
    (hnode : (g.heap a).static_node = some node)
    (ht0 : (g.heap input0).static_tensor = some t0)
    (ht1 : (g.heap input1).static_tensor = some wt)
    (hdef : pbDef tf_net (g.heap a) 0 = some node_def)
    (hattr : convAttributes node_def def_param = some attrs)
    (hwd : pbDef tf_net (g.heap input1) 0 = some weight_def)
    (hl : loopDims (weightDims weight_def (g.heap a).op) (g.heap a).op = some l)
    (hnew : readValues (GetConstTensorBuffer sg wt)
      (weightIndices l.out_channel l.in_channel l.kernel_h l.kernel_w) = some new)
    (hlen : (g.heap a).pb_defs.length > 1)
    (hpdef : pbDef tf_net (g.heap a) ((g.heap a).pb_defs.length - 1) = some pad_def)
    (hpop : pad_def.op = "Const".toList)
    (hval : GetAttrValue pad_def "value".toList = some value)
    (hten : value.tensor = some tf_tensor)
    (hshape : tf_tensor.tensor_shape = [4, 2])
    (htab : tf_tensor.tensor_content = [n0, n1, h0, h1, w0, w1, c0, c1] ∨
      (tf_tensor.tensor_content = [] ∧ tf_tensor.int_val = [n0, n1, h0, h1, w0, w1, c0, c1])) :
    ∃ sg1 p, LoadConv2D tf_net def_param a g sg = some (true, sg1) ∧
      sg1.op_list[sg.op_list.length]?
        = some { name := "Convolution".toList, param := OpParam.conv p } ∧
      p.pads = [h0, w0, h1, w1] := by
  obtain ⟨s1, hs1, hts, hos⟩ :=
    convInputs_defined g (g.heap a) sg input0 input1 rest node t0 wt hin hrest hnode ht0 ht1
  have hpads := mergedPads_table tf_net (g.heap a) pad_def value tf_tensor
    n0 n1 h0 h1 w0 w1 c0 c1 hlen hpdef hpop hval hten hshape htab
  have hb : GetConstTensorBuffer s1 wt = GetConstTensorBuffer sg wt := by
    unfold GetConstTensorBuffer
    rw [hts]
  unfold LoadConv2D
  simp only [hs1, hdef, Option.some_bind, hattr, hin, List.getElem?_cons_succ,
    List.getElem?_cons_zero, hwd, hl, buffer_after_dims, hb, hnew, hpads]
  refine ⟨_, { attrs with
      kernel_h := (weightDims weight_def (g.heap a).op).kernel_h
      kernel_w := (weightDims weight_def (g.heap a).op).kernel_w
      output_channel := (weightDims weight_def (g.heap a).op).out_channel
      group := (weightDims weight_def (g.heap a).op).group
      pads := [h0, w0, h1, w1] }, rfl, ?_, rfl⟩
  simp [SetOperatorParam, SetConstTensorBuffer, SetNodeOp, CreateStaticOp,
    SetTensorDataLayout, SetTensorDim, StaticGraph.setNode, StaticGraph.setTensor,
    List.getElem?_modify, hos]

/-- C29 on a Conv2D that absorbed the pad table `[[0, 0], [1, 2], [3, 4], [0, 0]]`,
stored raw and stored packed: the pads are `[1, 3, 2, 4]`. -/
theorem C29_LoadConv2D_merged_pads_witness :
    (∃ sg1 p, LoadConv2D (paddedConvNet padTableRaw) {} 2 paddedConvGraph smallConvTarget
        = some (true, sg1) ∧
      sg1.op_list[smallConvTarget.op_list.length]?
        = some { name := "Convolution".toList, param := OpParam.conv p } ∧
      p.pads = [1, 3, 2, 4]) ∧
    (∃ sg1 p, LoadConv2D (paddedConvNet padTablePacked) {} 2 paddedConvGraph smallConvTarget
        = some (true, sg1) ∧
      sg1.op_list[smallConvTarget.op_list.length]?
        = some { name := "Convolution".toList, param := OpParam.conv p } ∧
      p.pads = [1, 3, 2, 4]) :=
  ⟨C29_LoadConv2D_merged_pads (paddedConvNet padTableRaw) {} paddedConvGraph smallConvTarget
      2 0 1 [] 2 0 1 _ _ _ { pad_h := 0, pad_w := 0, stride_h := 1, stride_w := 1 }
      { kernel_h := 1, kernel_w := 2, in_channel := 2, out_channel := 2 }
      [10, 14, 12, 16, 11, 15, 13, 17] { tensor := some padTableRaw } padTableRaw
      0 0 1 2 3 4 0 0
      rfl (Or.inl rfl) rfl rfl rfl rfl rfl rfl rfl rfl (by decide) rfl rfl rfl rfl rfl
      (Or.inl rfl),
   C29_LoadConv2D_merged_pads (paddedConvNet padTablePacked) {} paddedConvGraph
      smallConvTarget 2 0 1 [] 2 0 1 _ _ _
      { pad_h := 0, pad_w := 0, stride_h := 1, stride_w := 1 }
      { kernel_h := 1, kernel_w := 2, in_channel := 2, out_channel := 2 }
      [10, 14, 12, 16, 11, 15, 13, 17] { tensor := some padTablePacked } padTablePacked
      0 0 1 2 3 4 0 0
      rfl (Or.inl rfl) rfl rfl rfl rfl rfl rfl rfl rfl (by decide) rfl rfl rfl rfl rfl
      (Or.inr ⟨rfl, rfl⟩)⟩

/-! ## The pruning scan -/

theorem DisconnectNode_keeps_countSym (g g1 : TFGraph) (n : Nat) (hsym : CountSym g)
    (h : DisconnectNode g n = some g1) : CountSym g1 := by
  obtain ⟨g2, e, -, -, hh⟩ := DisconnectNode_closed g n hsym
  rw [h] at e
  cases e
  intro a b
  have hab := hsym a b
  rw [hh a, hh b]
  by_cases ha : a = n
  · by_cases hb : b = n
    · simp [ha, hb]
    · subst ha
      simp [hb, count_filter_ne]
  · by_cases hb : b = n
    · subst hb
      simp [ha, count_filter_ne]
    · simp [ha, hb, count_filter_ne, hab]

theorem removeOrphans_no_orphan :
    ∀ (fuel : Nat) (g g1 : TFGraph), removeOrphans fuel g = some g1 →
      ∀ a ∈ g1.seq_nodes, isOrphan g1 a = false := by
  intro fuel
  induction fuel with
  | zero =>
    intro g g1 h a ha
    rw [removeOrphans] at h
    by_cases hany : g.seq_nodes.any (isOrphan g) = true
    · rw [if_pos hany] at h; cases h
    · rw [if_neg hany] at h
      cases h
      by_contra hc
      exact hany (List.any_eq_true.2 ⟨a, ha, by simpa using hc⟩)
  | succ fuel ih =>
    intro g g1 h a ha
    rw [removeOrphans] at h
    cases hf : g.seq_nodes.find? (isOrphan g) with
    | none =>
      rw [hf] at h
      cases h
      have := List.find?_eq_none.1 hf a ha
      simpa using this
    | some cur_node =>
      rw [hf] at h
      simp only [Option.bind_eq_bind] at h
      cases hd : DisconnectNode g cur_node with
      | none => rw [hd] at h; cases h
      | some g2 =>
        rw [hd] at h
        exact ih _ g1 h a ha

theorem removeOrphans_fuel_succ :
    ∀ (n : Nat) (g : TFGraph), g.seq_nodes.length ≤ n →
      removeOrphans (n + 1) g = removeOrphans n g := by
  intro n
  induction n with
  | zero =>
    intro g hg
    have hnil : g.seq_nodes = [] := List.length_eq_zero.1 (by omega)
    rw [removeOrphans, removeOrphans, hnil]
    rfl
  | succ n ih =>
    intro g hg
    rw [removeOrphans, removeOrphans.eq_def (n + 1)]
    simp only
    cases hf : g.seq_nodes.find? (isOrphan g) with
    | none => rfl
    | some cur_node =>
      simp only [Option.bind_eq_bind]
      cases hd : DisconnectNode g cur_node with
      | none => rfl
      | some g2 =>
        simp only [Option.some_bind]
        apply ih
        have hmem : cur_node ∈ g.seq_nodes := List.mem_of_find?_eq_some hf
        have hp : isOrphan g cur_node = true := List.find?_some hf
        have hlen := List.length_eraseP_of_mem hmem hp
        simp only [hlen]
        omega

theorem removeOrphans_fuel (g : TFGraph) :
    ∀ extra, removeOrphans (g.seq_nodes.length + extra) g
      = removeOrphans g.seq_nodes.length g := by
  intro extra
  induction extra with
  | zero => rfl
  | succ extra ih =>
    rw [← ih, ← Nat.add_assoc]
    exact removeOrphans_fuel_succ _ g (by omega)

theorem removeOrphans_defined :
    ∀ (n : Nat) (g : TFGraph), g.seq_nodes.length ≤ n → CountSym g →
      ∃ g1, removeOrphans n g = some g1 := by
  intro n
  induction n with
  | zero =>
    intro g hg _
    have hnil : g.seq_nodes = [] := List.length_eq_zero.1 (by omega)
    rw [removeOrphans, hnil]
    exact ⟨g, rfl⟩
  | succ n ih =>
    intro g hg hsym
    rw [removeOrphans]
    cases hf : g.seq_nodes.find? (isOrphan g) with
    | none => exact ⟨g, rfl⟩
    | some cur_node =>
      obtain ⟨g2, hd, -, -, -⟩ := DisconnectNode_closed g cur_node hsym
      simp only [Option.bind_eq_bind, hd, Option.some_bind]
      apply ih
      · have hmem : cur_node ∈ g.seq_nodes := List.mem_of_find?_eq_some hf
        have hp : isOrphan g cur_node = true := List.find?_some hf
        have hlen := List.length_eraseP_of_mem hmem hp
        simp only [hlen]
        omega
      · exact DisconnectNode_keeps_countSym g g2 cur_node hsym hd

theorem OptimizeGraph_last_scan (g : TFGraph) (r : Bool × TFGraph)
    (h : OptimizeGraph g = some r) :
    ∃ g14, removeOrphans g14.seq_nodes.length g14 = some r.2 := by
  unfold OptimizeGraph at h
  simp only [Option.bind_eq_bind, Option.bind_eq_some, Option.pure_def, Option.some.injEq] at h
  obtain ⟨g5, -, g10, -, g15, h15, hr⟩ := h
  unfold optimizeTrims at h15
  simp only [Option.bind_eq_bind, Option.bind_eq_some] at h15
  obtain ⟨g11, -, g12, -, g13, -, hlast⟩ := h15
  subst hr
  exact ⟨removeIsolated g13, hlast⟩

/-- C27: the last scan of `OptimizeGraph` ends: the bound on its restarts, the
length of the sequence, is never used up (more restarts allowed give the same
result), and on a graph that is edge-symmetric with multiplicities it returns a
graph. When `OptimizeGraph` returns, every node left in the sequence that has no
input has the op Const, Placeholder or FIFOQueueV2. -/
theorem C27_pruning_scan (g : TFGraph) :
    (∀ extra, removeOrphans (g.seq_nodes.length + extra) g
      = removeOrphans g.seq_nodes.length g) ∧
    (CountSym g → ∃ g1, removeOrphans g.seq_nodes.length g = some g1) ∧
    (∀ r, OptimizeGraph g = some r → ∀ a ∈ r.2.seq_nodes, (r.2.heap a).inputs = [] →
      (r.2.heap a).op = "Const".toList ∨ (r.2.heap a).op = "Placeholder".toList ∨
        (r.2.heap a).op = "FIFOQueueV2".toList) := by
  refine ⟨removeOrphans_fuel g, removeOrphans_defined _ g (Nat.le_refl _), ?_⟩
  intro r hr a ha hin
  obtain ⟨g14, hscan⟩ := OptimizeGraph_last_scan g r hr
  have hno := removeOrphans_no_orphan _ g14 r.2 hscan a ha
  unfold isOrphan at hno
  rw [decide_eq_false_iff_not] at hno
  by_contra hc
  simp only [not_or] at hc
  exact hno ⟨by rw [hin]; rfl, hc.1, hc.2.1, hc.2.2⟩

/-- C27 on a Tanh fed by a Sigmoid without input and by a Placeholder: the scan
returns, and in the graph `OptimizeGraph` returns the Sigmoid is gone. -/
theorem C27_pruning_scan_witness :
    CountSym orphanGraph ∧
    (∃ g1, removeOrphans orphanGraph.seq_nodes.length orphanGraph = some g1) ∧
    (∃ r, OptimizeGraph orphanGraph = some r ∧ r.2.seq_nodes = [1, 2] ∧
      ∀ a ∈ r.2.seq_nodes, (r.2.heap a).inputs = [] →
        (r.2.heap a).op = "Const".toList ∨ (r.2.heap a).op = "Placeholder".toList ∨
          (r.2.heap a).op = "FIFOQueueV2".toList) := by
  have hsym : CountSym orphanGraph := countSym_ofNodes _ (by decide) (by decide)
  refine ⟨hsym, (C27_pruning_scan orphanGraph).2.1 hsym, ?_⟩
  have hseq : (OptimizeGraph orphanGraph).map (fun r => r.2.seq_nodes) = some [1, 2] := by
    decide
  cases h : OptimizeGraph orphanGraph with
  | none => rw [h] at hseq; cases hseq
  | some r =>
    rw [h] at hseq
    exact ⟨r, rfl, Option.some.inj hseq, (C27_pruning_scan orphanGraph).2.2 r h⟩

/-! ## The clean-up around a nearest-neighbour resize -/

theorem findDataShapeNode_no_shape (g : TFGraph) :
    ∀ outputs : List Nat, (∀ a ∈ outputs, (g.heap a).op ≠ "Shape".toList) →
      findDataShapeNode g outputs = outputs.getLast? := by
  intro outputs
  induction outputs with
  | nil => intro _; rfl
  | cons a rest ih =>
    intro h
    cases rest with
    | nil =>
      rw [findDataShapeNode.eq_def]
      simp only [if_neg (h a (List.mem_cons_self a []))]
      rfl
    | cons b rest2 =>
      rw [findDataShapeNode.eq_def]
      simp only [if_neg (h a (List.mem_cons_self a (b :: rest2)))]
      rw [ih (fun x hx => h x (List.mem_cons_of_mem a hx))]
      rfl

/-- C28, divergence: when the data input of a ResizeNearestNeighbor has no Shape
consumer, the node `CleanupResizeNearestNeighbor` disconnects on the data side
is the last consumer of the data input, whatever its op. In `resizeGraph` the
Relu loses its input and the data input loses the edge to it; in
`loneResizeGraph` the node disconnected is the resize node itself, and the read
of its second input that follows is outside the emptied list. -/
theorem C28_last_consumer_is_disconnected :
    findDataShapeNode resizeGraph (resizeGraph.heap 0).outputs = some 5 ∧
    (CleanupResizeNearestNeighbor resizeGraph.seq_nodes resizeGraph).map
        (fun g => ((g.heap 0).outputs, (g.heap 5).inputs, (g.heap 5).op)) =
      some ([4], [], "Relu".toList) ∧
    findDataShapeNode loneResizeGraph (loneResizeGraph.heap 0).outputs = some 4 ∧
    CleanupResizeNearestNeighbor loneResizeGraph.seq_nodes loneResizeGraph = none := by
  refine ⟨by decide, by decide, by decide, rfl⟩

/-! ## The axis operand of a concatenation -/

theorem find?_append_last (p : Nat → Bool) (vs : List Nat) (x : Nat)
    (hvs : ∀ v ∈ vs, p v = false) (hx : p x = true) : (vs ++ [x]).find? p = some x := by
  induction vs with
  | nil => simp [List.find?, hx]
  | cons v vs ih =>
    rw [List.cons_append, List.find?_cons, hvs v (List.mem_cons_self v vs)]
    exact ih (fun u hu => hvs u (List.mem_cons_of_mem v hu))

theorem modify_pb_defs_countSym (g : TFGraph) (a : Nat) (f : List Nat → List Nat)
    (hsym : CountSym g) :
    CountSym (g.modify a fun n => { n with pb_defs := f n.pb_defs }) := by
  intro x y
  have h := hsym x y
  simp only [TFGraph.modify]
  by_cases hx : x = a <;> by_cases hy : y = a <;> simp [hx, hy] <;> simpa [hx, hy] using h

theorem removeSqueezeIdentity_concat (g : TFGraph) (cur axis d : Nat) (vs rest : List Nat)
    (hsym : CountSym g)
    (hop : (g.heap cur).op = "ConcatV2".toList)
    (hin : (g.heap cur).inputs = vs ++ [axis])
    (hax : (g.heap axis).op = "Const".toList)
    (hvs : ∀ v ∈ vs, (g.heap v).op ≠ "Const".toList)
    (hd : (g.heap axis).pb_defs[0]? = some d) :
    ∃ g1, removeSqueezeIdentity (cur :: rest) g = keepNode cur (removeSqueezeIdentity rest g1) ∧
      (g1.heap cur).inputs = vs ∧ (g1.heap cur).pb_defs = (g.heap cur).pb_defs ++ [d] ∧
      (g1.heap axis).inputs = [] ∧ (g1.heap axis).outputs = [] := by
  have hne : cur ≠ axis := by
    intro e
    rw [e, hax] at hop
    exact absurd hop (by decide)
  have hnotin : axis ∉ vs := fun hm => hvs axis hm hax
  have hfind : (g.heap cur).inputs.find? (fun check_node =>
      decide ((g.heap check_node).op = "Const".toList)) = some axis := by
    rw [hin]
    exact find?_append_last _ vs axis (fun v hv => by simpa using hvs v hv) (by simpa using hax)
  have hsym1 := modify_pb_defs_countSym g cur (fun l => l ++ [d]) hsym
  obtain ⟨g2, hdis, -, -, hh⟩ := DisconnectNode_closed _ axis hsym1
  refine ⟨g2, ?_, ?_, ?_, ?_, ?_⟩
  · rw [removeSqueezeIdentity]
    rw [if_neg (by rw [hop]; decide), if_neg (by rw [hop]; decide), if_pos hop, hfind]
    simp only [hd, Option.bind_eq_bind, Option.some_bind, hdis]
  · rw [hh cur, if_neg hne]
    simp only [TFGraph.modify, if_true, hin, List.filter_append]
    rw [List.filter_eq_self.2 (fun v hv => by
      simp only [ne_eq, decide_not, Bool.not_eq_true', decide_eq_false_iff_not]
      intro e; exact hnotin (e ▸ hv))]
    simp
  · rw [hh cur, if_neg hne]
    simp only [TFGraph.modify, if_true]
  · rw [hh axis, if_pos rfl]
  · rw [hh axis, if_pos rfl]

/-- C26, divergence: the pass takes the first Const among the inputs of a
ConcatV2 for the axis. In `constConcatGraph`, where the inputs are a constant,
a Placeholder and the axis, the constant data operand is detached and its
definition recorded, and the axis stays an input. -/
theorem C26_first_constant_is_detached :
    (removeSqueezeIdentity constConcatGraph.seq_nodes constConcatGraph).map
        (fun r => (r.1, (r.2.heap 3).inputs, (r.2.heap 3).pb_defs, (r.2.heap 0).outputs,
          (r.2.heap 2).outputs)) =
      some ([0, 1, 2, 3], [1, 2], [3, 0], [], [3]) := by
  decide

/-! ## The fusion of a bias add into its producer -/

theorem iterate_replaceFirst_cons_ne (a b x : Nat) (hx : x ≠ a) (k : Nat) (l : List Nat) :
    (replaceFirst a b)^[k] (x :: l) = x :: (replaceFirst a b)^[k] l := by
  induction k generalizing l with
  | zero => rfl
  | succ k ih =>
    rw [Function.iterate_succ_apply, Function.iterate_succ_apply, replaceFirst, if_neg hx, ih]

theorem iterate_replaceFirst_all (a b : Nat) (hab : a ≠ b) :
    ∀ (l : List Nat) (k : Nat), l.count a ≤ k →
      (replaceFirst a b)^[k] l = l.map fun y => if y = a then b else y := by
  intro l
  induction l with
  | nil =>
    intro k _
    exact iterate_replaceFirst_of_not_mem a b k [] (List.not_mem_nil a)
  | cons x l ih =>
    intro k hk
    by_cases hx : x = a
    · subst hx
      rw [List.count_cons_self] at hk
      obtain ⟨k1, rfl⟩ : ∃ k1, k = k1 + 1 := ⟨k - 1, by omega⟩
      rw [Function.iterate_succ_apply, replaceFirst, if_pos rfl,
        iterate_replaceFirst_cons_ne x b b (fun e => hab e.symm), ih k1 (by omega)]
      simp
    · rw [List.count_cons_of_ne (fun e => hx e.symm)] at hk
      rw [iterate_replaceFirst_cons_ne a b x hx, ih k hk]
      simp [hx]

theorem mergeBiasAdd_skip (l : List Nat) (g : TFGraph) :
    ∀ rest, (∀ a ∈ l, (g.heap a).op ≠ "Conv2D".toList) →
      (∀ a ∈ l, (g.heap a).op ≠ "DepthwiseConv2dNative".toList) →
      (∀ a ∈ l, (g.heap a).op ≠ "MatMul".toList) →
      mergeBiasAdd (l ++ rest) g = mergeBiasAdd rest g := by
  intro rest h1 h2 h3
  induction l with
  | nil => rfl
  | cons a l ih =>
    have ha : ¬ ((g.heap a).op = "Conv2D".toList ∨
        (g.heap a).op = "DepthwiseConv2dNative".toList ∨ (g.heap a).op = "MatMul".toList) := by
      rintro (e | e | e)
      · exact h1 a (List.mem_cons_self a l) e
      · exact h2 a (List.mem_cons_self a l) e
      · exact h3 a (List.mem_cons_self a l) e
    rw [List.cons_append, mergeBiasAdd, if_neg ha]
    exact ih (fun b hb => h1 b (List.mem_cons_of_mem a hb))
      (fun b hb => h2 b (List.mem_cons_of_mem a hb))
      (fun b hb => h3 b (List.mem_cons_of_mem a hb))

/-- The pass "merge biasadd and conv" goes past the nodes at which it has nothing
to fuse: those that are no Conv2D, DepthwiseConv2dNative or MatMul, and those
whose first consumer is neither a BiasAdd nor an Add. -/
theorem mergeBiasAdd_idle (l : List Nat) (g : TFGraph) :
    ∀ rest, (∀ a ∈ l, ((g.heap a).op = "Conv2D".toList ∨
        (g.heap a).op = "DepthwiseConv2dNative".toList ∨ (g.heap a).op = "MatMul".toList) →
        ∃ o, (g.heap a).outputs[0]? = some o ∧ (g.heap o).op ≠ "BiasAdd".toList ∧
          (g.heap o).op ≠ "Add".toList) →
      mergeBiasAdd (l ++ rest) g = mergeBiasAdd rest g := by
  intro rest h
  induction l with
  | nil => rfl
  | cons a l ih =>
    rw [List.cons_append, mergeBiasAdd]
    have ih2 := ih (fun b hb => h b (List.mem_cons_of_mem a hb))
    by_cases hc : (g.heap a).op = "Conv2D".toList ∨
        (g.heap a).op = "DepthwiseConv2dNative".toList ∨ (g.heap a).op = "MatMul".toList
    · obtain ⟨o, ho, h1, h2⟩ := h a (List.mem_cons_self a l) hc
      rw [if_pos hc]
      simp only [ho, Option.bind_eq_bind, Option.some_bind]
      rw [if_neg (by
        rintro (e | e)
        · exact h1 e
        · exact h2 e)]
      exact ih2
    · rw [if_neg hc]
      exact ih2

/-- C23 fails as stated. In the residual block the pass fuses the BiasAdd (node 4)
into the first Conv2D (node 2) and then the Add (node 7) into the second Conv2D
(node 6): the outputs of node 2 end as `[6, 6]`, not as the former outputs
`[6, 7]` of the BiasAdd, and the Add, a former consumer of the BiasAdd, reads
nothing. With two layers in a row the second Conv2D (node 6) ends with the first
Conv2D as its input 0, not with its former input `x` (node 4). When the Add is
`C + C`, when it reads itself, or when `C` reads the Add as input or as weights,
the inputs of `C` are not `[x, w, b]`. In a graph in which a Mul reads the
BiasAdd twice and the BiasAdd lists it once, the Mul still reads the BiasAdd at
its second position after the pass. -/
theorem C23_counterexample :
    (CountSym residualBlockGraph ∧
      (mergeBiasAdd residualBlockGraph.seq_nodes residualBlockGraph).map
        (fun g => ((g.heap 2).inputs, (g.heap 2).outputs, (g.heap 7).inputs)) =
        some ([0, 1, 3], [6, 6], [])) ∧
    (CountSym twoLayerGraph ∧
      (mergeBiasAdd twoLayerGraph.seq_nodes twoLayerGraph).map
        (fun g => (g.heap 6).inputs) = some [2, 5, 7]) ∧
    (CountSym doubledConvGraph ∧
      (mergeBiasAdd doubledConvGraph.seq_nodes doubledConvGraph).map
        (fun g => (g.heap 2).inputs) = some [0, 1]) ∧
    (CountSym selfAddGraph ∧
      (mergeBiasAdd selfAddGraph.seq_nodes selfAddGraph).map
        (fun g => (g.heap 2).inputs) = some [0, 1]) ∧
    (CountSym loopedConvGraph ∧
      (mergeBiasAdd loopedConvGraph.seq_nodes loopedConvGraph).map
        (fun g => (g.heap 2).inputs) = some [2, 1, 0]) ∧
    (CountSym loopedWeightGraph ∧
      (mergeBiasAdd loopedWeightGraph.seq_nodes loopedWeightGraph).map
        (fun g => (g.heap 2).inputs) = some [0, 2, 1]) ∧
    (¬ CountSym lopsidedBiasGraph ∧
      (mergeBiasAdd lopsidedBiasGraph.seq_nodes lopsidedBiasGraph).map
        (fun g => ((g.heap 2).inputs, (g.heap 5).inputs)) = some ([0, 1, 3], [2, 4])) := by
  refine ⟨⟨countSym_ofNodes _ (by decide) (by decide), by decide⟩,
    ⟨countSym_ofNodes _ (by decide) (by decide), by decide⟩,
    ⟨countSym_ofNodes _ (by decide) (by decide), by decide⟩,
    ⟨countSym_ofNodes _ (by decide) (by decide), by decide⟩,
    ⟨countSym_ofNodes _ (by decide) (by decide), by decide⟩,
    ⟨countSym_ofNodes _ (by decide) (by decide), by decide⟩,
    ⟨fun h => absurd (h 4 5) (by decide), by decide⟩⟩

/-- C23, amended: let `C` be a Conv2D, DepthwiseConv2dNative or MatMul node with
inputs `[x, w]` whose first consumer `A` is a BiasAdd or Add with the inputs `C`
and `b`, in a graph that is edge-symmetric with multiplicities and in which `A`
is not an input of `C` or of itself and `b` is not `C`. When the bias-add fusion
pass reaches `C` it goes on with a graph in which the inputs of `C` are
`[x, w, b]`, its outputs are its other former outputs followed by the former
outputs of `A`, its definition list ends with the definitions of `A`, every other
node reads `C` wherever it read `A`, and `A` has neither input nor output. When
every other Conv2D, DepthwiseConv2dNative or MatMul node of the sequence has a
first consumer that is neither a BiasAdd nor an Add, this is the graph the pass
returns. -/
theorem C23_bias_add_fusion (g : TFGraph) (C A x w b : Nat) (others : List Nat)
    (hsym : CountSym g)
    (hop : (g.heap C).op = "Conv2D".toList ∨ (g.heap C).op = "DepthwiseConv2dNative".toList ∨
      (g.heap C).op = "MatMul".toList)
    (hin : (g.heap C).inputs = [x, w])
    (hout : (g.heap C).outputs = A :: others)
    (hA : (g.heap A).op = "BiasAdd".toList ∨ (g.heap A).op = "Add".toList)
    (hAin : (g.heap A).inputs = [C, b] ∨ (g.heap A).inputs = [b, C])
    (hbC : b ≠ C) (hbA : b ≠ A) (hxA : x ≠ A) (hwA : w ≠ A) :
    ∃ g1, (g1.heap C).inputs = [x, w, b] ∧
      (g1.heap C).outputs = others ++ (g.heap A).outputs ∧
      (g1.heap C).pb_defs = (g.heap C).pb_defs ++ (g.heap A).pb_defs ∧
      (∀ D, D ≠ C → D ≠ A →
        (g1.heap D).inputs = (g.heap D).inputs.map fun y => if y = A then C else y) ∧
      (g1.heap A).inputs = [] ∧ (g1.heap A).outputs = [] ∧
      (∀ rest, mergeBiasAdd (C :: rest) g = mergeBiasAdd rest g1) ∧
      (∀ pre post, g.seq_nodes = pre ++ C :: post →
        (∀ a ∈ pre ++ post, ((g.heap a).op = "Conv2D".toList ∨
            (g.heap a).op = "DepthwiseConv2dNative".toList ∨
            (g.heap a).op = "MatMul".toList) →
          ∃ o, (g.heap a).outputs[0]? = some o ∧ (g.heap o).op ≠ "BiasAdd".toList ∧
            (g.heap o).op ≠ "Add".toList) →
        mergeBiasAdd g.seq_nodes g = some g1) := by
  have hCA : C ≠ A := by
    intro e
    rw [e] at hop
    rcases hop with h | h | h <;> rcases hA with h2 | h2 <;> rw [h] at h2 <;>
      exact absurd h2 (by decide)
  have hmem : A ∈ (g.heap C).outputs := by rw [hout]; exact List.mem_cons_self A others
  obtain ⟨g1, hmerge, -, -, hh⟩ := MergeChildNode_closed g C A hCA hmem
  have hAA : (g.heap A).outputs.count A = 0 := by
    rw [hsym A A]
    rcases hAin with h | h <;> rw [h] <;>
      simp [List.count_cons, hCA, hbA]
  have hAC : (g.heap A).outputs.count C = 0 := by
    rw [hsym A C, hin]
    simp [List.count_cons, hxA, hwA]
  have hstep : ∀ rest, mergeBiasAdd (C :: rest) g = mergeBiasAdd rest g1 := by
    intro rest
    rw [mergeBiasAdd, if_pos hop]
    simp only [hout, List.getElem?_cons_zero, Option.bind_eq_bind, Option.some_bind,
      if_pos hA, hmerge]
  have hops : ∀ m, (g1.heap m).op = (g.heap m).op := by
    intro m
    rw [hh m]
    split
    · rfl
    · split <;> rfl
  refine ⟨g1, ?_, ?_, ?_, ?_, ?_, ?_, hstep, ?_⟩
  · rw [hh C, if_neg hCA, if_pos rfl]
    simp only [hAC, hAA, Function.iterate_zero, id_eq, hin]
    rcases hAin with h | h <;> rw [h] <;> simp [hbC]
  · rw [hh C, if_neg hCA, if_pos rfl]
    simp only [hout, List.erase_cons_head]
  · rw [hh C, if_neg hCA, if_pos rfl]
  · intro D hDC hDA
    rw [hh D, if_neg hDA, if_neg hDC]
    simp only
    exact iterate_replaceFirst_all A C (fun e => hCA e.symm) _ _ (by rw [hsym A D])
  · rw [hh A, if_pos rfl]
  · rw [hh A, if_pos rfl]
  · intro pre post hseq hno
    have hpost : ∀ a ∈ post, ((g1.heap a).op = "Conv2D".toList ∨
        (g1.heap a).op = "DepthwiseConv2dNative".toList ∨
        (g1.heap a).op = "MatMul".toList) →
        ∃ o, (g1.heap a).outputs[0]? = some o ∧ (g1.heap o).op ≠ "BiasAdd".toList ∧
          (g1.heap o).op ≠ "Add".toList := by
      intro a ha hc
      rw [hops a] at hc
      obtain ⟨o, ho, h1, h2⟩ := hno a (List.mem_append_right pre ha) hc
      have hoA : o ≠ A := by
        intro e
        rw [e] at h1 h2
        rcases hA with h | h
        · exact h1 h
        · exact h2 h
      have haC : a ≠ C := by
        intro e
        rw [e, hout, List.getElem?_cons_zero] at ho
        exact hoA (Option.some.inj ho).symm
      have haA : a ≠ A := by
        intro e
        rw [e] at hc
        rcases hc with h | h | h <;> rcases hA with h2 | h2 <;> rw [h] at h2 <;>
          exact absurd h2 (by decide)
      obtain ⟨t, ht⟩ : ∃ t, (g.heap a).outputs = o :: t := by
        cases hl : (g.heap a).outputs with
        | nil => rw [hl] at ho; cases ho
        | cons y t =>
          rw [hl, List.getElem?_cons_zero] at ho
          exact ⟨t, by rw [Option.some.inj ho]⟩
      refine ⟨o, ?_, by rw [hops o]; exact h1, by rw [hops o]; exact h2⟩
      rw [hh a, if_neg haA, if_neg haC]
      simp only
      rw [ht, iterate_replaceFirst_cons_ne A C o hoA]
      exact List.getElem?_cons_zero
    have hrest := mergeBiasAdd_idle post g1 [] hpost
    rw [List.append_nil] at hrest
    rw [hseq, mergeBiasAdd_idle pre g (C :: post)
      (fun a ha => hno a (List.mem_append_left post ha)), hstep post, hrest]
    rfl

/-- C23 on a Conv2D followed by a BiasAdd that a Relu reads, in a graph with a
second Conv2D that a Relu reads. -/
theorem C23_bias_add_fusion_witness :
    CountSym stackedConvGraph ∧
    ∃ g1, mergeBiasAdd stackedConvGraph.seq_nodes stackedConvGraph = some g1 ∧
      (g1.heap 2).inputs = [0, 1, 3] ∧ (g1.heap 2).outputs = [5] ∧
      (g1.heap 2).pb_defs = [2, 4] ∧ (g1.heap 5).inputs = [2] ∧
      (g1.heap 4).inputs = [] ∧ (g1.heap 4).outputs = [] := by
  have hsym : CountSym stackedConvGraph := countSym_ofNodes _ (by decide) (by decide)
  obtain ⟨g1, h1, h2, h3, h4, h5, h6, -, h8⟩ :=
    C23_bias_add_fusion stackedConvGraph 2 4 0 1 3 [] hsym (Or.inl rfl) rfl rfl (Or.inl rfl)
      (Or.inl rfl) (by decide) (by decide) (by decide) (by decide)
  refine ⟨hsym, g1, h8 [0, 1] [3, 4, 5, 6, 7, 8] rfl ?_, h1, h2, h3,
    h4 5 (by decide) (by decide), h5, h6⟩
  intro a ha hc
  simp only [List.mem_append, List.mem_cons, List.mem_singleton, List.not_mem_nil,
    or_false] at ha
  rcases ha with (rfl | rfl) | rfl | rfl | rfl | rfl | rfl | rfl
  all_goals first
    | exact absurd hc (by decide)
    | exact ⟨8, by decide, by decide, by decide⟩

/-! ## The fusion of a pad into a convolution -/

theorem mergePadConv_skip (l : List Nat) (g : TFGraph) :
    ∀ rest, (∀ a ∈ l, (g.heap a).op ≠ "Conv2D".toList) →
      (∀ a ∈ l, (g.heap a).op ≠ "DepthwiseConv2dNative".toList) →
      (∀ a ∈ l, (g.heap a).op ≠ "Mean".toList) →
      mergePadConv (l ++ rest) g = mergePadConv rest g := by
  intro rest h1 h2 h3
  induction l with
  | nil => rfl
  | cons a l ih =>
    have ha : ¬ ((g.heap a).op = "Conv2D".toList ∨
        (g.heap a).op = "DepthwiseConv2dNative".toList) := by
      rintro (e | e)
      · exact h1 a (List.mem_cons_self a l) e
      · exact h2 a (List.mem_cons_self a l) e
    rw [List.cons_append, mergePadConv, if_neg ha, if_neg (h3 a (List.mem_cons_self a l))]
    exact ih (fun b hb => h1 b (List.mem_cons_of_mem a hb))
      (fun b hb => h2 b (List.mem_cons_of_mem a hb))
      (fun b hb => h3 b (List.mem_cons_of_mem a hb))

theorem filter_ne_of_not_mem (q : Nat) (l : List Nat) (h : q ∉ l) :
    (l.filter fun y => decide (y ≠ q)) = l := by
  rw [List.filter_eq_self]
  intro a ha
  simp only [ne_eq, decide_not, Bool.not_eq_true', decide_eq_false_iff_not]
  intro e
  exact h (e ▸ ha)

/-- The pass "merge pad and conv" goes past the nodes at which it has nothing to
do: those that are no Mean and, when they are a Conv2D or a
DepthwiseConv2dNative, have a first input that is no Pad. -/
theorem mergePadConv_idle (l : List Nat) (g : TFGraph) :
    ∀ rest, (∀ a ∈ l, (g.heap a).op ≠ "Mean".toList ∧
        (((g.heap a).op = "Conv2D".toList ∨
            (g.heap a).op = "DepthwiseConv2dNative".toList) →
          ∃ o, (g.heap a).inputs[0]? = some o ∧ (g.heap o).op ≠ "Pad".toList)) →
      mergePadConv (l ++ rest) g = mergePadConv rest g := by
  intro rest h
  induction l with
  | nil => rfl
  | cons a l ih =>
    obtain ⟨hm, hc⟩ := h a (List.mem_cons_self a l)
    rw [List.cons_append, mergePadConv]
    by_cases hca : (g.heap a).op = "Conv2D".toList ∨
        (g.heap a).op = "DepthwiseConv2dNative".toList
    · obtain ⟨o, ho, hoP⟩ := hc hca
      rw [if_pos hca]
      simp only [ho, Option.bind_eq_bind, Option.some_bind, if_neg hoP]
      exact ih (fun b hb => h b (List.mem_cons_of_mem a hb))
    · rw [if_neg hca, if_neg hm]
      exact ih (fun b hb => h b (List.mem_cons_of_mem a hb))

/-- C22 fails as stated. With a Pad read by two Conv2D nodes the pass fuses the
Pad into the first of them (node 4), which replaces the Pad in the inputs of the
second (node 6): that one ends with the inputs `[4, 5]`, not with `x` as input 0,
and without the definition of the paddings. With the paddings equal to `x` the
Conv2D ends without `x`; with the paddings equal to the Pad or to the Conv2D the
merge has no parent to erase and the pass has no defined result; with the
paddings also read by the Conv2D that input is lost; with paddings that do not
list the Pad as a consumer the Conv2D ends with the paddings as input 0; with a
Mean whose axis operand is `x` the Conv2D ends without `x`. -/
theorem C22_counterexample :
    (CountSym sharedPadGraph ∧
      (mergePadConv sharedPadGraph.seq_nodes sharedPadGraph).map
        (fun g => ((g.heap 4).inputs, (g.heap 6).inputs, (g.heap 6).pb_defs)) =
        some ([0, 3], [4, 5], [6])) ∧
    (CountSym selfPaddedInputGraph ∧
      (mergePadConv selfPaddedInputGraph.seq_nodes selfPaddedInputGraph).map
        (fun g => (g.heap 3).inputs) = some [2]) ∧
    (CountSym selfPadGraph ∧
      (mergePadConv selfPadGraph.seq_nodes selfPadGraph).isNone = true) ∧
    (CountSym convPaddingsGraph ∧
      (mergePadConv convPaddingsGraph.seq_nodes convPaddingsGraph).isNone = true) ∧
    (CountSym paddingsWeightGraph ∧
      (mergePadConv paddingsWeightGraph.seq_nodes paddingsWeightGraph).map
        (fun g => (g.heap 3).inputs) = some [0]) ∧
    (¬ CountSym lopsidedPadGraph ∧
      (mergePadConv lopsidedPadGraph.seq_nodes lopsidedPadGraph).map
        (fun g => (g.heap 4).inputs) = some [1, 3, 0]) ∧
    (CountSym meanAxisGraph ∧
      (mergePadConv meanAxisGraph.seq_nodes meanAxisGraph).map
        (fun g => (g.heap 4).inputs) = some [3]) := by
  refine ⟨⟨countSym_ofNodes _ (by decide) (by decide), by decide⟩,
    ⟨countSym_ofNodes _ (by decide) (by decide), by decide⟩,
    ⟨countSym_ofNodes _ (by decide) (by decide), by decide⟩,
    ⟨countSym_ofNodes _ (by decide) (by decide), by decide⟩,
    ⟨countSym_ofNodes _ (by decide) (by decide), by decide⟩,
    ⟨fun h => absurd (h 1 2) (by decide), by decide⟩,
    ⟨countSym_ofNodes _ (by decide) (by decide), by decide⟩⟩

/-- C22, amended: let `C` be a Conv2D or DepthwiseConv2dNative node whose inputs
are the Pad node `P` followed by `cs`, where `P` has the inputs `[x, q]` and `q`
(the paddings) has the first definition `d`, in a graph that is edge-symmetric
with multiplicities, with `q` different from `x`, `P` and `C` and not in `cs`.
When the pad-fusion pass reaches `C` it goes on with a graph in which the inputs
of `C` are `x` followed by `cs`, the definition list of `C` is its own followed
by that of `P` and by `d`, and `P` and `q` have no edge. When the sequence has no
Mean node and no other Conv2D or DepthwiseConv2dNative node of it is `q` or has
`q` or a Pad as its first input, this is the graph the pass returns. -/
theorem C22_pad_fusion (g : TFGraph) (C P x q d : Nat) (cs : List Nat)
    (hsym : CountSym g)
    (hop : (g.heap C).op = "Conv2D".toList ∨ (g.heap C).op = "DepthwiseConv2dNative".toList)
    (hin : (g.heap C).inputs = P :: cs)
    (hP : (g.heap P).op = "Pad".toList)
    (hPin : (g.heap P).inputs = [x, q])
    (hd : (g.heap q).pb_defs[0]? = some d)
    (hxq : x ≠ q) (hqP : q ≠ P) (hqC : q ≠ C) (hqcs : q ∉ cs) :
    ∃ g4, (g4.heap C).inputs = x :: cs ∧
      (g4.heap C).pb_defs = (g.heap C).pb_defs ++ (g.heap P).pb_defs ++ [d] ∧
      (g4.heap P).inputs = [] ∧ (g4.heap P).outputs = [] ∧
      (g4.heap q).inputs = [] ∧ (g4.heap q).outputs = [] ∧
      (∀ rest, mergePadConv (C :: rest) g = mergePadConv rest g4) ∧
      (∀ pre post, g.seq_nodes = pre ++ C :: post →
        (∀ a ∈ pre ++ post, (g.heap a).op ≠ "Mean".toList ∧
          (((g.heap a).op = "Conv2D".toList ∨
              (g.heap a).op = "DepthwiseConv2dNative".toList) →
            a ≠ q ∧ ∃ o, (g.heap a).inputs[0]? = some o ∧ o ≠ q ∧
              (g.heap o).op ≠ "Pad".toList)) →
        mergePadConv g.seq_nodes g = some g4) := by
  have hCP : C ≠ P := by
    intro e
    rw [e, hP] at hop
    rcases hop with h | h <;> exact absurd h (by decide)
  have hPC : P ≠ C := fun e => hCP e.symm
  have hsym1 := modify_pb_defs_countSym g P (fun l => l ++ [d]) hsym
  obtain ⟨g2, hdis, -, -, hh2⟩ := DisconnectNode_closed _ q hsym1
  have hdis1 : DisconnectNode (g.modify P fun n => { n with pb_defs := n.pb_defs ++ [d] }) q
      = some g2 := hdis
  have h2Ci : (g2.heap C).inputs = P :: cs := by
    rw [hh2 C, if_neg (fun e => hqC e.symm)]
    simp only [TFGraph.modify, if_neg hCP, hin]
    exact filter_ne_of_not_mem q _ (by
      simp only [List.mem_cons, not_or]
      exact ⟨hqP, hqcs⟩)
  have h2Cp : (g2.heap C).pb_defs = (g.heap C).pb_defs := by
    rw [hh2 C, if_neg (fun e => hqC e.symm)]
    simp only [TFGraph.modify, if_neg hCP]
  have h2Pi : (g2.heap P).inputs = [x] := by
    rw [hh2 P, if_neg (fun e => hqP e.symm)]
    simp only [TFGraph.modify, if_true, hPin]
    simp [hxq]
  have h2Pp : (g2.heap P).pb_defs = (g.heap P).pb_defs ++ [d] := by
    rw [hh2 P, if_neg (fun e => hqP e.symm)]
    simp only [TFGraph.modify, if_true]
  have h2q : (g2.heap q).inputs = [] ∧ (g2.heap q).outputs = [] := by
    rw [hh2 q, if_pos rfl]
    exact ⟨rfl, rfl⟩
  have h2op : ∀ m, (g2.heap m).op = (g.heap m).op := by
    intro m
    rw [hh2 m]
    by_cases hm : m = P
    · split <;> simp [TFGraph.modify, hm]
    · split <;> simp [TFGraph.modify, hm]
  obtain ⟨g3, hmerge, -, -, hh3⟩ := MergeParentNode_closed g2 C P hCP
    (by rw [h2Ci]; exact List.mem_cons_self P cs)
  have h3Ci : (g3.heap C).inputs = cs ++ [x] := by
    rw [hh3 C, if_neg hCP, if_pos rfl]
    simp only [h2Ci, h2Pi, List.erase_cons_head]
  have h3op : ∀ m, (g3.heap m).op = (g.heap m).op := by
    intro m
    rw [hh3 m, ← h2op m]
    split
    · rfl
    · split <;> rfl
  have hstep : ∀ rest, mergePadConv (C :: rest) g = mergePadConv rest
      (g3.modify C fun n => { n with inputs := x :: n.inputs.dropLast }) := by
    intro rest
    rw [mergePadConv, if_pos hop]
    simp only [hin, List.getElem?_cons_zero, Option.bind_eq_bind, Option.some_bind,
      if_pos hP, hPin, List.getElem?_cons_succ, hd, hdis1, hmerge, h3Ci,
      List.getLast?_concat]
  refine ⟨g3.modify C fun n => { n with inputs := x :: n.inputs.dropLast },
    ?_, ?_, ?_, ?_, ?_, ?_, hstep, ?_⟩
  · simp only [TFGraph.modify, if_true, h3Ci, List.dropLast_concat]
  · simp only [TFGraph.modify, if_true]
    rw [hh3 C, if_neg hCP, if_pos rfl]
    simp only [h2Cp, h2Pp, List.append_assoc]
  · simp only [TFGraph.modify, if_neg hPC]
    rw [hh3 P, if_pos rfl]
  · simp only [TFGraph.modify, if_neg hPC]
    rw [hh3 P, if_pos rfl]
  · simp only [TFGraph.modify, if_neg hqC]
    rw [hh3 q, if_neg hqP, if_neg hqC]
    simp only [h2q.1]
    exact iterate_replaceFirst_of_not_mem P C _ [] (List.not_mem_nil P)
  · simp only [TFGraph.modify, if_neg hqC]
    rw [hh3 q, if_neg hqP, if_neg hqC]
    simp only [h2q.2]
    exact iterate_replaceFirst_of_not_mem P C _ [] (List.not_mem_nil P)
  · intro pre post hseq hno
    have hops : ∀ m, ((g3.modify C fun n =>
        { n with inputs := x :: n.inputs.dropLast }).heap m).op = (g.heap m).op := by
      intro m
      rw [← h3op m]
      simp only [TFGraph.modify]
      split <;> rfl
    have hpost : ∀ a ∈ post, ((g3.modify C fun n =>
        { n with inputs := x :: n.inputs.dropLast }).heap a).op ≠ "Mean".toList ∧
        ((((g3.modify C fun n =>
              { n with inputs := x :: n.inputs.dropLast }).heap a).op = "Conv2D".toList ∨
            ((g3.modify C fun n =>
              { n with inputs := x :: n.inputs.dropLast }).heap a).op =
              "DepthwiseConv2dNative".toList) →
          ∃ o, ((g3.modify C fun n =>
              { n with inputs := x :: n.inputs.dropLast }).heap a).inputs[0]? = some o ∧
            ((g3.modify C fun n =>
              { n with inputs := x :: n.inputs.dropLast }).heap o).op ≠ "Pad".toList) := by
      intro a ha
      obtain ⟨hm, hc⟩ := hno a (List.mem_append_right pre ha)
      refine ⟨by rw [hops a]; exact hm, ?_⟩
      intro hca
      rw [hops a] at hca
      obtain ⟨haq, o, ho, hoq, hoP⟩ := hc hca
      have hoP2 : o ≠ P := by
        intro e
        rw [e] at hoP
        exact hoP hP
      have haC : a ≠ C := by
        intro e
        rw [e, hin, List.getElem?_cons_zero] at ho
        exact hoP2 (Option.some.inj ho).symm
      have haP : a ≠ P := by
        intro e
        rw [e, hP] at hca
        rcases hca with h | h <;> exact absurd h (by decide)
      obtain ⟨t, ht⟩ : ∃ t, (g.heap a).inputs = o :: t := by
        cases hl : (g.heap a).inputs with
        | nil => rw [hl] at ho; cases ho
        | cons y t =>
          rw [hl, List.getElem?_cons_zero] at ho
          exact ⟨t, by rw [Option.some.inj ho]⟩
      refine ⟨o, ?_, by rw [hops o]; exact hoP⟩
      simp only [TFGraph.modify, if_neg haC]
      rw [hh3 a, if_neg haP, if_neg haC]
      simp only
      rw [hh2 a, if_neg haq]
      simp only [TFGraph.modify, if_neg haP, ht]
      rw [List.filter_cons_of_pos (by simpa using hoq),
        iterate_replaceFirst_cons_ne P C o hoP2]
      exact List.getElem?_cons_zero
    have hrest := mergePadConv_idle post _ [] hpost
    rw [List.append_nil] at hrest
    rw [hseq, mergePadConv_idle pre g (C :: post)
      (fun a ha => ⟨(hno a (List.mem_append_left post ha)).1, fun hc => by
        obtain ⟨-, o, ho, -, hoP⟩ := (hno a (List.mem_append_left post ha)).2 hc
        exact ⟨o, ho, hoP⟩⟩), hstep post, hrest]
    rfl

/-- C22 on a Conv2D of a Pad and constant weights, in a graph with a second
Conv2D that reads a Relu. -/
theorem C22_pad_fusion_witness :
    CountSym padTwoConvGraph ∧
    ∃ g4, mergePadConv padTwoConvGraph.seq_nodes padTwoConvGraph = some g4 ∧
      (g4.heap 4).inputs = [0, 3] ∧ (g4.heap 4).pb_defs = [4, 2, 1] ∧
      (g4.heap 2).inputs = [] ∧ (g4.heap 2).outputs = [] ∧
      (g4.heap 1).inputs = [] ∧ (g4.heap 1).outputs = [] := by
  have hsym : CountSym padTwoConvGraph := countSym_ofNodes _ (by decide) (by decide)
  obtain ⟨g4, h1, h2, h3, h4, h5, h6, -, h8⟩ :=
    C22_pad_fusion padTwoConvGraph 4 2 0 1 1 [3] hsym (Or.inl rfl) rfl rfl rfl rfl
      (by decide) (by decide) (by decide) (by decide)
  refine ⟨hsym, g4, h8 [0, 1, 2, 3] [5, 6, 7] rfl ?_, h1, h2, h3, h4, h5, h6⟩
  intro a ha
  simp only [List.mem_append, List.mem_cons, List.mem_singleton, List.not_mem_nil,
    or_false] at ha
  rcases ha with (rfl | rfl | rfl | rfl) | rfl | rfl | rfl
  all_goals first
    | exact ⟨by decide, fun hc => absurd hc (by decide)⟩
    | exact ⟨by decide, fun _ => ⟨by decide, 5, by decide, by decide, by decide⟩⟩

/-! ## The nodes taken into a recurrent scope -/

theorem stripScopeNodes_closed (g : TFGraph) (rnn_scope : List Char) :
    ∀ (seq rnn_graph : List Nat),
      (stripScopeNodes g rnn_scope seq rnn_graph).1
        = seq.filter (fun node => (strFind rnn_scope (g.heap node).name).isNone) ∧
      ∀ a, a ∈ (stripScopeNodes g rnn_scope seq rnn_graph).2 ↔
        a ∈ rnn_graph ∨ (a ∈ seq ∧ (strFind rnn_scope (g.heap a).name).isSome) := by
  intro seq
  induction seq with
  | nil => intro rnn_graph; simp [stripScopeNodes]
  | cons node rest ih =>
    intro rnn_graph
    by_cases h : (strFind rnn_scope (g.heap node).name).isNone = true
    · rw [stripScopeNodes, if_pos h]
      refine ⟨?_, fun a => ?_⟩
      · simp only [List.filter_cons, h, if_true, (ih rnn_graph).1]
      · rw [(ih rnn_graph).2 a]
        constructor
        · rintro (h1 | ⟨h1, h2⟩)
          · exact Or.inl h1
          · exact Or.inr ⟨List.mem_cons_of_mem node h1, h2⟩
        · rintro (h1 | ⟨h1, h2⟩)
          · exact Or.inl h1
          · rcases List.mem_cons.1 h1 with rfl | h3
            · rw [Option.isNone_iff_eq_none] at h
              rw [h] at h2
              cases h2
            · exact Or.inr ⟨h3, h2⟩
    · rw [stripScopeNodes, if_neg h]
      refine ⟨?_, fun a => ?_⟩
      · simp only [List.filter_cons, h, (ih (rnn_graph.insert node)).1]
        rfl
      · rw [(ih (rnn_graph.insert node)).2 a, List.mem_insert_iff]
        have hs : (strFind rnn_scope (g.heap node).name).isSome = true := by
          cases hq : strFind rnn_scope (g.heap node).name with
          | none => rw [hq] at h; exact absurd rfl h
          | some k => rfl
        constructor
        · rintro ((rfl | h1) | ⟨h1, h2⟩)
          · exact Or.inr ⟨List.mem_cons_self _ _, hs⟩
          · exact Or.inl h1
          · exact Or.inr ⟨List.mem_cons_of_mem node h1, h2⟩
        · rintro (h1 | ⟨h1, h2⟩)
          · exact Or.inl (Or.inr h1)
          · rcases List.mem_cons.1 h1 with rfl | h3
            · exact Or.inl (Or.inl rfl)
            · exact Or.inr ⟨h3, h2⟩

/-- C30, divergence: the loop of `StripRNNScope` takes a node into the scope as
soon as its name contains the scope string at any position. With the scope
`rnn/`, the node named `pre/rnn/out`, whose name does not start with `rnn/`, is
erased from the sequence and put into the absorbed set with `rnn/cell`; only
`dense` stays. -/
theorem C30_scope_found_anywhere :
    "rnn/".toList.isPrefixOf (scopedGraph.heap 1).name = false ∧
    stripScopeNodes scopedGraph "rnn/".toList scopedGraph.seq_nodes [] = ([2], [1, 0]) := by
  decide

/-! ## The transposition of a matrix-multiplication weight -/

theorem gemmIndices_eq (k n : Nat) :
    gemmIndices k n = (gemmPositions k n).map fun (p : Nat) => (p : Int) := by
  unfold gemmIndices gemmPositions
  simp only [Int.toNat_ofNat, List.map_flatMap, List.map_map]
  refine congrArg _ (funext fun i => ?_)
  apply List.map_congr_left
  intro j _
  simp only [Function.comp_apply]
  push_cast
  ring

theorem mem_gemmPositions (k n x : Nat) (hx : x ∈ gemmPositions k n) : x < k * n := by
  unfold gemmPositions at hx
  simp only [List.mem_flatMap, List.mem_map, List.mem_range] at hx
  obtain ⟨i, hi, j, hj, rfl⟩ := hx
  exact digit_lt j k i n hj hi

theorem length_gemmPositions (k n : Nat) : (gemmPositions k n).length = k * n := by
  unfold gemmPositions
  rw [length_flatMap_range k _ n (fun i _ => by simp)]
  ring

theorem getElem?_gemmPositions (k n i j : Nat) (hi : i < n) (hj : j < k) :
    (gemmPositions k n)[i * k + j]? = some (j * n + i) := by
  unfold gemmPositions
  rw [getElem?_flatMap_range k _ n (fun i _ => by simp) i j hi hj, List.getElem?_map,
    List.getElem?_range hj]
  rfl

theorem gemm_buffer (k n : Nat) (old : List Int) (hlen : old.length = k * n) :
    ∃ tmp, readValues (some old) (gemmIndices k n) = some tmp ∧ tmp.length = old.length ∧
      ∀ i j, i < n → j < k → tmp[i * k + j]? = old[j * n + i]? := by
  have hmem : ∀ p ∈ gemmPositions k n, p < old.length := by
    intro p hp
    rw [hlen]
    exact mem_gemmPositions k n p hp
  refine ⟨(gemmPositions k n).map fun p => old.getD p 0, ?_, ?_, ?_⟩
  · rw [gemmIndices_eq, readValues_positions old _ hmem]
  · rw [List.length_map, length_gemmPositions, hlen]
  · intro i j hi hj
    have hlt : j * n + i < old.length := by
      rw [hlen]
      exact digit_lt j k i n hj hi
    rw [List.getElem?_map, getElem?_gemmPositions k n i j hi hj, List.getElem?_eq_getElem hlt]
    simp only [Option.map_some', List.getD_eq_getElem?_getD, List.getElem?_eq_getElem hlt,
      Option.getD_some]

theorem findIdx_modify {α : Type} (p : α → Bool) (f : α → α) (hf : ∀ t, p (f t) = p t) :
    ∀ (l : List α) (k : Nat), (l.modify f k).findIdx p = l.findIdx p := by
  intro l
  induction l with
  | nil => intro k; rw [List.modify_nil]
  | cons a l ih =>
    intro k
    cases k with
    | zero => rw [List.modify_zero_cons, List.findIdx_cons, List.findIdx_cons, hf]
    | succ k => rw [List.modify_succ_cons, List.findIdx_cons, List.findIdx_cons, ih]

theorem FindTensor_setTensor (graph : StaticGraph) (k : Nat) (f : StaticTensor → StaticTensor)
    (name : List Char) (hf : ∀ t, (f t).name = t.name) :
    FindTensor (graph.setTensor k f) name = FindTensor graph name := by
  unfold FindTensor StaticGraph.setTensor
  simp only [List.length_modify]
  rw [findIdx_modify _ f (fun t => by rw [hf]) graph.tensor_list k]

theorem gemmTranspose_closed (graph : StaticGraph) (wt : Nat) (T : StaticTensor) (k n : Nat)
    (old : List Int) (hT : graph.tensor_list[wt]? = some T) (hd : T.dims = [(k : Int), n])
    (hm : T.mem_addr = some old) (hlen : old.length = k * n) :
    ∃ s tmp, gemmTranspose graph wt = some s ∧ s.op_list = graph.op_list ∧
      s.dimsOf wt = some [(n : Int), k] ∧ GetConstTensorBuffer s wt = some tmp ∧
      ∀ i j, i < n → j < k → tmp[i * k + j]? = old[j * n + i]? := by
  obtain ⟨tmp, hread, htl, hidx⟩ := gemm_buffer k n old hlen
  have hdims : graph.dimsOf wt = some ((k : Int) :: (n : Int) :: []) := by
    unfold StaticGraph.dimsOf
    rw [hT]
    simp only [Option.map_some', hd]
  have hneg : ¬ ((k : Int) < 0 ∨ (n : Int) < 0) := by omega
  have hbuf : GetConstTensorBuffer
      (graph.setTensor wt fun t => { t with dims := [(n : Int), (k : Int)] }) wt = some old := by
    simp [GetConstTensorBuffer, StaticGraph.setTensor, List.getElem?_modify, hT, hm]
  have hg : gemmTranspose graph wt = some
      ((graph.setTensor wt fun t => { t with dims := [(n : Int), (k : Int)] }).setTensor wt
        fun t => { t with mem_addr := t.mem_addr.map fun data => tmp ++ data.drop tmp.length }) := by
    unfold gemmTranspose
    simp only [hdims, if_neg hneg, hbuf, hread]
  refine ⟨_, tmp, hg, rfl, ?_, ?_, hidx⟩
  · simp [StaticGraph.dimsOf, StaticGraph.setTensor, List.getElem?_modify, hT]
  · simp [GetConstTensorBuffer, StaticGraph.setTensor, List.getElem?_modify, hT, hm, htl]

theorem gemmBias_prepared (g : TFGraph) (n : TFNode) (sg s1 : StaticGraph) (node wt : Nat)
    (i0 i1 : Nat) (rest : List Nat) (T : StaticTensor)
    (hin : n.inputs = i0 :: i1 :: rest)
    (hbias : rest = [] ∨ ∃ bias t2 bt, rest.head? = some bias ∧
      (g.heap bias).static_tensor = some t2 ∧ FindTensor sg (g.heap bias).name = some bt)
    (hs1t : s1.tensor_list = sg.tensor_list) (hs1o : s1.op_list = sg.op_list)
    (hT : sg.tensor_list[wt]? = some T) :
    ∃ s3 T3, gemmBias g n node (SetTensorDataLayout s1 wt "HW".toList) = some s3 ∧
      s3.op_list = sg.op_list ∧ s3.tensor_list[wt]? = some T3 ∧ T3.dims = T.dims ∧
      T3.mem_addr = T.mem_addr := by
  unfold gemmBias
  rcases hbias with hr | ⟨bias, t2, bt, hr, ht2, hbt⟩
  · subst hr
    rw [if_neg (by rw [hin]; simp)]
    refine ⟨_, { T with data_layout := "HW".toList }, rfl, hs1o, ?_, rfl, rfl⟩
    simp [SetTensorDataLayout, StaticGraph.setTensor, List.getElem?_modify, hs1t, hT]
  · cases rest with
    | nil => cases hr
    | cons x xs =>
      simp only [List.head?_cons, Option.some.injEq] at hr
      subst hr
      have hf : FindTensor (AddNodeInputTensor (SetTensorDataLayout s1 wt "HW".toList) node t2)
          (g.heap x).name = some bt := by
        have h1 : FindTensor (AddNodeInputTensor (SetTensorDataLayout s1 wt "HW".toList) node t2)
            (g.heap x).name = FindTensor (SetTensorDataLayout s1 wt "HW".toList)
              (g.heap x).name := rfl
        rw [h1, SetTensorDataLayout,
          FindTensor_setTensor s1 wt (fun t => { t with data_layout := "HW".toList })
            (g.heap x).name (fun _ => rfl)]
        unfold FindTensor at hbt ⊢
        rw [hs1t]
        exact hbt
      rw [if_pos (by rw [hin]; simp)]
      simp only [hin, List.getElem?_cons_succ, List.getElem?_cons_zero, ht2, hf]
      by_cases hbw : bt = wt
      · refine ⟨_, { T with data_layout := "W".toList }, rfl, hs1o, ?_, rfl, rfl⟩
        simp [SetTensorDataLayout, AddNodeInputTensor, StaticGraph.setNode,
          StaticGraph.setTensor, List.getElem?_modify, hs1t, hT, hbw]
      · refine ⟨_, { T with data_layout := "HW".toList }, rfl, hs1o, ?_, rfl, rfl⟩
        simp [SetTensorDataLayout, AddNodeInputTensor, StaticGraph.setNode,
          StaticGraph.setTensor, List.getElem?_modify, hs1t, hT, hbw]

/-- C21: for a MatMul node whose `transA` is false after the attributes have been
read, and whose weight tensor (found by the name of the constant operand) has
the dims `[k, n]` and a buffer `old` of `k * n` elements, `LoadGemm` succeeds. With
`transB` false the weight gets the dims `[n, k]` and the buffer `new` with
`new[i*k + j] = old[j*n + i]` for `i < n`, `j < k`; with `transB` true dims and buffer
are as before. In both cases the `FullyConnected` operator created carries as
`num_output` the first of the resulting dims. The other hypotheses say that the
node and its operands have their handles. -/
theorem C21_LoadGemm_weight (tf_net : GraphDef) (def_gemm : GemmParam) (def_fc : FCParam)
    (g : TFGraph) (sg : StaticGraph) (a i0 i1 d w : Nat) (rest : List Nat)
    (node t0 t1 wt : Nat) (node_def : NodeDef) (k n : Nat) (old : List Int)
    (hin : (g.heap a).inputs = i0 :: i1 :: rest)
    (hd : d = if (g.heap i0).op = "Const".toList then i1 else i0)
    (hw : w = if (g.heap i0).op = "Const".toList then i0 else i1)
    (hnode : (g.heap a).static_node = some node)
    (hdef : pbDef tf_net (g.heap a) 0 = some node_def)
    (ht0 : (g.heap d).static_tensor = some t0)
    (ht1 : (g.heap w).static_tensor = some t1)
    (hfind : FindTensor sg (g.heap w).name = some wt)
    (hbias : rest = [] ∨ ∃ bias t2 bt, rest.head? = some bias ∧
      (g.heap bias).static_tensor = some t2 ∧ FindTensor sg (g.heap bias).name = some bt)
    (hA : (gemmAttributes node_def def_gemm).transA = false)
    (hdims : sg.dimsOf wt = some [(k : Int), n])
    (hbuf : GetConstTensorBuffer sg wt = some old)
    (hlen : old.length = k * n) :
    ∃ sg1, LoadGemm tf_net def_gemm def_fc a g sg = some (true, sg1) ∧
      ((gemmAttributes node_def def_gemm).transB = false →
        sg1.dimsOf wt = some [(n : Int), k] ∧
        ∃ new, GetConstTensorBuffer sg1 wt = some new ∧
          ∀ i j, i < n → j < k → new[i * k + j]? = old[j * n + i]?) ∧
      ((gemmAttributes node_def def_gemm).transB = true →
        sg1.dimsOf wt = some [(k : Int), n] ∧ GetConstTensorBuffer sg1 wt = some old) ∧
      ∃ d0, (sg1.dimsOf wt).bind (fun dims => dims[0]?) = some d0 ∧
        sg1.op_list[sg.op_list.length]? = some
          { name := "FullyConnected".toList,
            param := OpParam.fc { def_fc with num_output := d0 } } := by
  obtain ⟨T, hT, hTd, hTm⟩ : ∃ T, sg.tensor_list[wt]? = some T ∧ T.dims = [(k : Int), n] ∧
      T.mem_addr = some old := by
    unfold StaticGraph.dimsOf at hdims
    unfold GetConstTensorBuffer at hbuf
    cases hq : sg.tensor_list[wt]? with
    | none => rw [hq] at hdims; cases hdims
    | some T =>
      rw [hq] at hdims hbuf
      exact ⟨T, rfl, Option.some.inj hdims, hbuf⟩
  obtain ⟨s3, T3, hs3, hs3o, hT3, hT3d, hT3m⟩ :=
    gemmBias_prepared g (g.heap a) sg
      (AddNodeInputTensor (AddNodeInputTensor sg node t0) node t1) node wt i0 i1 rest T
      hin hbias rfl rfl hT
  have hf1 : FindTensor (AddNodeInputTensor (AddNodeInputTensor sg node t0) node t1)
      (g.heap w).name = some wt := hfind
  have hload : LoadGemm tf_net def_gemm def_fc a g sg
      = gemmAsFC def_fc (gemmAttributes node_def def_gemm).transB node wt s3 := by
    unfold LoadGemm
    simp only [hin, List.getElem?_cons_zero, List.getElem?_cons_succ, hnode, hdef, ← hd, ← hw,
      ht0, ht1, hf1, hs3, hA]
    rfl
  rw [hload]
  cases hB : (gemmAttributes node_def def_gemm).transB with
  | true =>
    have hd3 : s3.dimsOf wt = some [(k : Int), n] := by
      unfold StaticGraph.dimsOf
      rw [hT3]
      simp only [Option.map_some', hT3d, hTd]
    have hres : gemmAsFC def_fc true node wt s3 = some (true, SetNodeOp
        (SetOperatorParam (CreateStaticOp s3 "FullyConnected".toList).2
          (CreateStaticOp s3 "FullyConnected".toList).1
          (OpParam.fc { def_fc with num_output := (k : Int) })) node
        (CreateStaticOp s3 "FullyConnected".toList).1) := by
      unfold gemmAsFC
      simp only [if_true, hd3, Option.some_bind, List.getElem?_cons_zero]
    refine ⟨_, hres, fun h => absurd h (by decide), fun _ => ⟨?_, ?_⟩, (k : Int), ?_, ?_⟩
    · simp [StaticGraph.dimsOf, SetNodeOp, SetOperatorParam, CreateStaticOp,
        StaticGraph.setNode, hT3, hT3d, hTd]
    · simp [GetConstTensorBuffer, SetNodeOp, SetOperatorParam, CreateStaticOp,
        StaticGraph.setNode, hT3, hT3m, hTm]
    · simp [StaticGraph.dimsOf, SetNodeOp, SetOperatorParam, CreateStaticOp,
        StaticGraph.setNode, hT3, hT3d, hTd]
    · simp [SetNodeOp, SetOperatorParam, CreateStaticOp, StaticGraph.setNode,
        List.getElem?_modify, hs3o]
  | false =>
    obtain ⟨s4, tmp, hs4, hs4o, hs4d, hs4b, hidx⟩ :=
      gemmTranspose_closed s3 wt T3 k n old hT3 (by rw [hT3d, hTd]) (by rw [hT3m, hTm]) hlen
    have hres : gemmAsFC def_fc false node wt s3 = some (true, SetNodeOp
        (SetOperatorParam (CreateStaticOp s4 "FullyConnected".toList).2
          (CreateStaticOp s4 "FullyConnected".toList).1
          (OpParam.fc { def_fc with num_output := (n : Int) })) node
        (CreateStaticOp s4 "FullyConnected".toList).1) := by
      unfold gemmAsFC
      simp only [Bool.false_eq_true, if_false, hs4, hs4d, Option.some_bind,
        List.getElem?_cons_zero]
    have hd4 : ∀ (p : OpParam), (SetNodeOp
        (SetOperatorParam (CreateStaticOp s4 "FullyConnected".toList).2
          (CreateStaticOp s4 "FullyConnected".toList).1 p) node
        (CreateStaticOp s4 "FullyConnected".toList).1).dimsOf wt = s4.dimsOf wt :=
      fun _ => rfl
    have hb4 : ∀ (p : OpParam), GetConstTensorBuffer (SetNodeOp
        (SetOperatorParam (CreateStaticOp s4 "FullyConnected".toList).2
          (CreateStaticOp s4 "FullyConnected".toList).1 p) node
        (CreateStaticOp s4 "FullyConnected".toList).1) wt = GetConstTensorBuffer s4 wt :=
      fun _ => rfl
    refine ⟨_, hres, fun _ => ⟨?_, tmp, ?_, hidx⟩, fun h => absurd h (by decide),
      (n : Int), ?_, ?_⟩
    · rw [hd4, hs4d]
    · rw [hb4, hs4b]
    · rw [hd4, hs4d]
      rfl
    · simp [SetNodeOp, SetOperatorParam, CreateStaticOp, StaticGraph.setNode,
        List.getElem?_modify, hs4o, hs3o]

/-- C21 on a MatMul whose weight has the dims `[2, 3]`, without and with
`transpose_b`. -/
theorem C21_LoadGemm_weight_witness :
    (∃ sg1, LoadGemm (gemmNet false) {} {} 2 gemmGraph gemmTarget = some (true, sg1) ∧
      sg1.dimsOf 1 = some [3, 2] ∧
      (∃ new, GetConstTensorBuffer sg1 1 = some new ∧
        ∀ i j, i < 3 → j < 2 → new[i * 2 + j]? = [(1 : Int), 2, 3, 4, 5, 6][j * 3 + i]?) ∧
      ∃ d0, (sg1.dimsOf 1).bind (fun dims => dims[0]?) = some d0 ∧
        sg1.op_list[gemmTarget.op_list.length]? = some
          { name := "FullyConnected".toList, param := OpParam.fc { num_output := d0 } }) ∧
    (∃ sg1, LoadGemm (gemmNet true) {} {} 2 gemmGraph gemmTarget = some (true, sg1) ∧
      sg1.dimsOf 1 = some [2, 3] ∧ GetConstTensorBuffer sg1 1 = some [1, 2, 3, 4, 5, 6] ∧
      ∃ d0, (sg1.dimsOf 1).bind (fun dims => dims[0]?) = some d0 ∧
        sg1.op_list[gemmTarget.op_list.length]? = some
          { name := "FullyConnected".toList, param := OpParam.fc { num_output := d0 } }) := by
  constructor
  · obtain ⟨sg1, h1, h2, -, h4⟩ :=
      C21_LoadGemm_weight (gemmNet false) {} {} gemmGraph gemmTarget 2 0 1 0 1 [] 2 0 1 1
        { name := "matmul".toList, op := "MatMul".toList, input := ["x".toList, "w".toList],
          attr := [("transpose_a".toList, { b := false }),
                   ("transpose_b".toList, { b := false })] }
        2 3 [1, 2, 3, 4, 5, 6] rfl rfl rfl rfl rfl rfl rfl rfl (Or.inl rfl) rfl rfl rfl rfl
    exact ⟨sg1, h1, (h2 rfl).1, (h2 rfl).2, h4⟩
  · obtain ⟨sg1, h1, -, h3, h4⟩ :=
      C21_LoadGemm_weight (gemmNet true) {} {} gemmGraph gemmTarget 2 0 1 0 1 [] 2 0 1 1
        { name := "matmul".toList, op := "MatMul".toList, input := ["x".toList, "w".toList],
          attr := [("transpose_a".toList, { b := false }),
                   ("transpose_b".toList, { b := true })] }
        2 3 [1, 2, 3, 4, 5, 6] rfl rfl rfl rfl rfl rfl rfl rfl (Or.inl rfl) rfl rfl rfl rfl
    exact ⟨sg1, h1, (h3 rfl).1, (h3 rfl).2, h4⟩

/-! ## The fusion of a composed batch-norm -/

set_option maxRecDepth 100000 in
/-- On the expansion named under the prefix `bn`, `CheckComposedBNAdd` accepts
`add_1` with variant tag 1, and `FuseComposedBN` leaves it with op ComposedBN,
the name `bnbn.fused`, the inputs `[x, gamma, variance, eps, beta, mean]`, eps
flagged, and the six absorbed nodes without edges. -/
theorem FuseComposedBN_composedBNGraph :
    ∃ g1 g2, CheckComposedBNAdd (composedBNGraph "bn".toList) 12 = some (true, g1) ∧
      (g1.heap 12).BNAddType = 1 ∧
      FuseComposedBN g1.next g1 12 = some g2 ∧
      (g2.heap 12).op = "ComposedBN".toList ∧
      (g2.heap 12).name = "bnbn.fused".toList ∧
      (g2.heap 12).inputs = [0, 3, 1, 2, 5, 4] ∧
      (g2.heap 2).no_static_node = true ∧
      ∀ a ∈ [6, 7, 8, 9, 10, 11], (g2.heap a).inputs = [] ∧ (g2.heap a).outputs = [] := by
  refine ⟨_, _, rfl, rfl, rfl, ?_⟩
  decide

set_option maxRecDepth 100000 in
/-- C24, divergence: the markers are looked for anywhere in a name. Under the
prefix `net/multi/bn`, which contains `/mul`, `CheckComposedBNAdd` accepts
`add_1` with variant tag 1, and `BNRecursiveInputMerge` takes `add_1` for the
node `mul`: it looks for `mul_2` among the consumers of `add_1` and reads past
their end, so that `FuseComposedBN` has no defined result. -/
theorem C24_marker_inside_prefix :
    ∃ g1, CheckComposedBNAdd (composedBNGraph "net/multi/bn".toList) 12 = some (true, g1) ∧
      (g1.heap 12).BNAddType = 1 ∧
      (strFind "/mul".toList (g1.heap 12).name).isSome = true ∧
      skipUnlessNamed g1 "/mul2".toList (g1.heap 12).outputs = some 1 ∧
      (g1.heap 12).outputs[1]? = none ∧
      ∀ fuel, FuseComposedBN fuel g1 12 = none := by
  refine ⟨_, rfl, by decide, by decide, by decide, by decide, ?_⟩
  intro fuel
  cases fuel with
  | zero => rfl
  | succ n => rfl

/-! ## No pass brings an Identity back -/

theorem IdentityFrame.refl (g : TFGraph) : IdentityFrame g g :=
  ⟨rfl, fun _ h => h⟩

theorem IdentityFrame.trans {g1 g2 g3 : TFGraph} (h12 : IdentityFrame g1 g2)
    (h23 : IdentityFrame g2 g3) : IdentityFrame g1 g3 :=
  ⟨h23.1.trans h12.1, fun a h => h12.2 a (h23.2 a h)⟩

theorem IdentityFrame.modify (g : TFGraph) (a : Nat) (f : TFNode → TFNode)
    (hf : (f (g.heap a)).op = "Identity".toList → (g.heap a).op = "Identity".toList) :
    IdentityFrame g (g.modify a f) := by
  refine ⟨rfl, fun b hb => ?_⟩
  by_cases hba : b = a
  · subst hba
    simp only [TFGraph.modify, if_true] at hb
    exact hf hb
  · simpa only [TFGraph.modify, if_neg hba] using hb

theorem IdentityFrame.foldl {α : Type} (f : TFGraph → α → TFGraph)
    (hf : ∀ h x, IdentityFrame h (f h x)) (l : List α) (g : TFGraph) :
    IdentityFrame g (l.foldl f g) := by
  induction l generalizing g with
  | nil => exact IdentityFrame.refl g
  | cons x l ih => exact (hf g x).trans (ih (f g x))

theorem IdentityFrame.foldlM {α : Type} (f : TFGraph → α → Option TFGraph)
    (hf : ∀ h x h2, f h x = some h2 → IdentityFrame h h2) (l : List α) (g g2 : TFGraph)
    (h : l.foldlM f g = some g2) : IdentityFrame g g2 := by
  induction l generalizing g with
  | nil =>
    simp only [List.foldlM_nil, Option.pure_def, Option.some.injEq] at h
    subst h
    exact IdentityFrame.refl g
  | cons x l ih =>
    simp only [List.foldlM_cons, Option.bind_eq_bind, Option.bind_eq_some] at h
    obtain ⟨g1, h1, h2⟩ := h
    exact (hf g x g1 h1).trans (ih g1 h2)

theorem DisconnectNode_identityFrame (g g2 : TFGraph) (n : Nat)
    (h : DisconnectNode g n = some g2) : IdentityFrame g g2 := by
  unfold DisconnectNode at h
  simp only [Option.bind_eq_bind, Option.bind_eq_some, Option.pure_def,
    Option.some.injEq] at h
  obtain ⟨g1, h1, g3, h3, rfl⟩ := h
  have e1 : IdentityFrame g g1 := by
    refine IdentityFrame.foldlM _ ?_ _ g g1 h1
    intro h x h2 hx
    unfold disconnectInput at hx
    split at hx
    · cases hx
      exact IdentityFrame.modify _ _ _ (fun e => e)
    · cases hx
  have e3 : IdentityFrame (g1.modify n fun m => { m with inputs := [] }) g3 := by
    refine IdentityFrame.foldlM _ ?_ _ _ g3 h3
    intro h x h2 hx
    unfold disconnectOutput at hx
    split at hx
    · cases hx
      exact IdentityFrame.modify _ _ _ (fun e => e)
    · cases hx
  exact (e1.trans ((IdentityFrame.modify _ _ _ (fun e => e)).trans e3)).trans
    (IdentityFrame.modify _ _ _ (fun e => e))

theorem relinkOutput_identityFrame (P B : Nat) (g : TFGraph) (x : Nat) :
    IdentityFrame g (relinkOutput P B g x) :=
  IdentityFrame.modify _ _ _ (fun e => e)

theorem relinkInput_identityFrame (P B : Nat) (g : TFGraph) (x : Nat) :
    IdentityFrame g (relinkInput P B g x) :=
  IdentityFrame.modify _ _ _ (fun e => e)

theorem bridgeOutput_identityFrame (P B : Nat) (g : TFGraph) (x : Nat) :
    IdentityFrame g (bridgeOutput P B g x) := by
  unfold bridgeOutput
  split
  · exact (IdentityFrame.modify _ _ _ (fun e => e)).trans (relinkInput_identityFrame _ _ _ _)
  · exact IdentityFrame.refl g

theorem bridgeInput_identityFrame (C B : Nat) (g : TFGraph) (x : Nat) :
    IdentityFrame g (bridgeInput C B g x) := by
  unfold bridgeInput
  split
  · exact (IdentityFrame.modify _ _ _ (fun e => e)).trans (relinkOutput_identityFrame _ _ _ _)
  · exact IdentityFrame.refl g

theorem MergeParentNode_identityFrame (g g2 : TFGraph) (B P : Nat)
    (h : MergeParentNode g B P = some g2) : IdentityFrame g g2 := by
  unfold MergeParentNode at h
  split at h
  · cases h
  · split at h
    · cases h
    · cases h
      exact ((((((IdentityFrame.modify _ _ _ (fun e => e)).trans
        (IdentityFrame.modify _ _ _ (fun e => e))).trans
        (IdentityFrame.foldl _ (relinkOutput_identityFrame P B) _ _)).trans
        (IdentityFrame.foldl _ (bridgeOutput_identityFrame P B) _ _)).trans
        (IdentityFrame.modify _ _ _ (fun e => e))).trans
        (IdentityFrame.modify _ _ _ (fun e => e)))

theorem MergeChildNode_identityFrame (g g2 : TFGraph) (B C : Nat)
    (h : MergeChildNode g B C = some g2) : IdentityFrame g g2 := by
  unfold MergeChildNode at h
  split at h
  · cases h
  · split at h
    · cases h
    · cases h
      exact ((((((IdentityFrame.modify _ _ _ (fun e => e)).trans
        (IdentityFrame.modify _ _ _ (fun e => e))).trans
        (IdentityFrame.foldl _ (relinkInput_identityFrame C B) _ _)).trans
        (IdentityFrame.foldl _ (bridgeInput_identityFrame C B) _ _)).trans
        (IdentityFrame.modify _ _ _ (fun e => e))).trans
        (IdentityFrame.modify _ _ _ (fun e => e)))

theorem keepNode_eq_some (c : Nat) (r : Option (List Nat × TFGraph)) (l2 : List Nat)
    (g2 : TFGraph) (h : keepNode c r = some (l2, g2)) :
    ∃ l1, r = some (l1, g2) ∧ l2 = c :: l1 := by
  cases r with
  | none => cases h
  | some p =>
    obtain ⟨l1, g1⟩ := p
    simp only [keepNode, Option.map_some', Option.some.injEq, Prod.mk.injEq] at h
    obtain ⟨rfl, rfl⟩ := h
    exact ⟨l1, rfl, rfl⟩

theorem keepNode_identityFrame (c : Nat) (rest : List Nat) (g g0 : TFGraph)
    (r : Option (List Nat × TFGraph)) (l2 : List Nat) (g2 : TFGraph)
    (ih : ∀ l1, r = some (l1, g2) → (∀ a ∈ l1, a ∈ rest) ∧ IdentityFrame g g2)
    (h0 : IdentityFrame g0 g) (h : keepNode c r = some (l2, g2)) :
    (∀ a ∈ l2, a ∈ c :: rest) ∧ IdentityFrame g0 g2 := by
  obtain ⟨l1, h1, rfl⟩ := keepNode_eq_some _ _ _ _ h
  obtain ⟨hs, hf⟩ := ih l1 h1
  refine ⟨fun a ha => ?_, h0.trans hf⟩
  rcases List.mem_cons.mp ha with e | e
  · exact List.mem_cons.mpr (Or.inl e)
  · exact List.mem_cons_of_mem _ (hs a e)

theorem cleanupPredictions_identityFrame (l : List Nat) :
    ∀ (g : TFGraph) (l2 : List Nat) (g2 : TFGraph),
      cleanupPredictions l g = some (l2, g2) → (∀ a ∈ l2, a ∈ l) ∧ IdentityFrame g g2 := by
  induction l with
  | nil =>
    intro g l2 g2 h
    simp only [cleanupPredictions, Option.some.injEq, Prod.mk.injEq] at h
    obtain ⟨rfl, rfl⟩ := h
    exact ⟨fun a ha => ha, IdentityFrame.refl g⟩
  | cons c rest ih =>
    intro g l2 g2 h
    have keep := keepNode_identityFrame c rest g g (cleanupPredictions rest g) l2 g2
      (fun l1 => ih g l1 g2) (IdentityFrame.refl g)
    have skip : ∀ g1, IdentityFrame g g1 → cleanupPredictions rest g1 = some (l2, g2) →
        (∀ a ∈ l2, a ∈ c :: rest) ∧ IdentityFrame g g2 := by
      intro g1 e1 h1
      obtain ⟨hs, hf⟩ := ih g1 l2 g2 h1
      exact ⟨fun a ha => List.mem_cons_of_mem _ (hs a ha), e1.trans hf⟩
    rw [cleanupPredictions] at h
    split at h
    · simp only [Option.bind_eq_bind] at h
      obtain ⟨i0, -, h⟩ := Option.bind_eq_some.mp h
      obtain ⟨i1, -, h⟩ := Option.bind_eq_some.mp h
      split at h
      · obtain ⟨g1, h1, h⟩ := Option.bind_eq_some.mp h
        exact skip g1 (DisconnectNode_identityFrame _ _ _ h1) h
      · obtain ⟨o, -, h⟩ := Option.bind_eq_some.mp h
        split at h
        · split at h
          · obtain ⟨g1, h1, h⟩ := Option.bind_eq_some.mp h
            obtain ⟨g3, h3, h⟩ := Option.bind_eq_some.mp h
            exact skip g3 ((DisconnectNode_identityFrame _ _ _ h1).trans
              (MergeChildNode_identityFrame _ _ _ _ h3)) h
          · obtain ⟨g1, h1, h⟩ := Option.bind_eq_some.mp h
            obtain ⟨g3, h3, h⟩ := Option.bind_eq_some.mp h
            exact skip g3 ((DisconnectNode_identityFrame _ _ _ h1).trans
              (MergeChildNode_identityFrame _ _ _ _ h3)) h
        · exact keep h
    · exact keep h

theorem removeSqueezeIdentity_identityFrame (l : List Nat) :
    ∀ (g : TFGraph) (l2 : List Nat) (g2 : TFGraph),
      removeSqueezeIdentity l g = some (l2, g2) →
        (∀ a ∈ l2, a ∈ l) ∧ IdentityFrame g g2 ∧
          ∀ a ∈ l2, (g2.heap a).op ≠ "Identity".toList := by
  induction l with
  | nil =>
    intro g l2 g2 h
    simp only [removeSqueezeIdentity, Option.some.injEq, Prod.mk.injEq] at h
    obtain ⟨rfl, rfl⟩ := h
    exact ⟨fun a ha => ha, IdentityFrame.refl g, fun a ha => absurd ha (List.not_mem_nil a)⟩
  | cons c rest ih =>
    intro g l2 g2 h
    have keep : ∀ g1, IdentityFrame g g1 → (g.heap c).op ≠ "Identity".toList →
        keepNode c (removeSqueezeIdentity rest g1) = some (l2, g2) →
        (∀ a ∈ l2, a ∈ c :: rest) ∧ IdentityFrame g g2 ∧
          ∀ a ∈ l2, (g2.heap a).op ≠ "Identity".toList := by
      intro g1 e1 hop hk
      obtain ⟨l1, h1, rfl⟩ := keepNode_eq_some _ _ _ _ hk
      obtain ⟨hs, hf, hn⟩ := ih g1 l1 g2 h1
      refine ⟨fun a ha => ?_, e1.trans hf, fun a ha => ?_⟩
      · rcases List.mem_cons.mp ha with e | e
        · exact List.mem_cons.mpr (Or.inl e)
        · exact List.mem_cons_of_mem _ (hs a e)
      · rcases List.mem_cons.mp ha with e | e
        · subst e
          exact fun hid => hop ((e1.trans hf).2 a hid)
        · exact hn a e
    have skip : ∀ g1, IdentityFrame g g1 → removeSqueezeIdentity rest g1 = some (l2, g2) →
        (∀ a ∈ l2, a ∈ c :: rest) ∧ IdentityFrame g g2 ∧
          ∀ a ∈ l2, (g2.heap a).op ≠ "Identity".toList := by
      intro g1 e1 h1
      obtain ⟨hs, hf, hn⟩ := ih g1 l2 g2 h1
      exact ⟨fun a ha => List.mem_cons_of_mem _ (hs a ha), e1.trans hf, hn⟩
    rw [removeSqueezeIdentity] at h
    split at h
    · rename_i hsq
      have hop : (g.heap c).op ≠ "Identity".toList := by rw [hsq]; decide
      split at h
      · simp only [Option.bind_eq_bind] at h
        split at h
        · obtain ⟨g1, h1, h⟩ := Option.bind_eq_some.mp h
          obtain ⟨i0, -, h⟩ := Option.bind_eq_some.mp h
          obtain ⟨g3, h3, h⟩ := Option.bind_eq_some.mp h
          exact skip g3 ((DisconnectNode_identityFrame _ _ _ h1).trans
            (MergeChildNode_identityFrame _ _ _ _ h3)) h
        · obtain ⟨g1, h1, h⟩ := Option.bind_eq_some.mp h
          cases h1
          obtain ⟨i0, -, h⟩ := Option.bind_eq_some.mp h
          obtain ⟨g3, h3, h⟩ := Option.bind_eq_some.mp h
          exact skip g3 (MergeChildNode_identityFrame _ _ _ _ h3) h
      · split at h
        · simp only [Option.bind_eq_bind] at h
          obtain ⟨ch, -, h⟩ := Option.bind_eq_some.mp h
          obtain ⟨g1, h1, h⟩ := Option.bind_eq_some.mp h
          exact skip g1 (MergeParentNode_identityFrame _ _ _ _ h1) h
        · exact keep g (IdentityFrame.refl g) hop h
    · split at h
      · simp only [Option.bind_eq_bind] at h
        obtain ⟨i0, -, h⟩ := Option.bind_eq_some.mp h
        obtain ⟨g1, h1, h⟩ := Option.bind_eq_some.mp h
        exact skip g1 (MergeChildNode_identityFrame _ _ _ _ h1) h
      · rename_i hid
        split at h
        · split at h
          · simp only [Option.bind_eq_bind] at h
            obtain ⟨d, -, h⟩ := Option.bind_eq_some.mp h
            obtain ⟨g1, h1, h⟩ := Option.bind_eq_some.mp h
            exact keep g1 ((IdentityFrame.modify _ _ _ (fun e => e)).trans
              (DisconnectNode_identityFrame _ _ _ h1)) hid h
          · exact keep g (IdentityFrame.refl g) hid h
        · exact keep g (IdentityFrame.refl g) hid h

theorem mergeQueue_identityFrame (l : List Nat) :
    ∀ (g g2 : TFGraph), mergeQueue l g = some g2 → IdentityFrame g g2 := by
  induction l with
  | nil =>
    intro g g2 h
    simp only [mergeQueue, Option.some.injEq] at h
    subst h
    exact IdentityFrame.refl g
  | cons c rest ih =>
    intro g g2 h
    rw [mergeQueue] at h
    split at h
    · simp only [Option.bind_eq_bind] at h
      obtain ⟨q, -, h⟩ := Option.bind_eq_some.mp h
      split at h
      · obtain ⟨p, -, h⟩ := Option.bind_eq_some.mp h
        obtain ⟨g1, h1, h⟩ := Option.bind_eq_some.mp h
        exact (MergeParentNode_identityFrame _ _ _ _ h1).trans
          (MergeChildNode_identityFrame _ _ _ _ h)
      · obtain ⟨g1, h1, h⟩ := Option.bind_eq_some.mp h
        cases h1
        exact MergeChildNode_identityFrame _ _ _ _ h
    · exact ih g g2 h

theorem removeExpandDims_identityFrame (l : List Nat) :
    ∀ (g : TFGraph) (l2 : List Nat) (g2 : TFGraph),
      removeExpandDims l g = some (l2, g2) → (∀ a ∈ l2, a ∈ l) ∧ IdentityFrame g g2 := by
  induction l with
  | nil =>
    intro g l2 g2 h
    simp only [removeExpandDims, Option.some.injEq, Prod.mk.injEq] at h
    obtain ⟨rfl, rfl⟩ := h
    exact ⟨fun a ha => ha, IdentityFrame.refl g⟩
  | cons c rest ih =>
    intro g l2 g2 h
    have keep := keepNode_identityFrame c rest g g (removeExpandDims rest g) l2 g2
      (fun l1 => ih g l1 g2) (IdentityFrame.refl g)
    have skip : ∀ g1, IdentityFrame g g1 → removeExpandDims rest g1 = some (l2, g2) →
        (∀ a ∈ l2, a ∈ c :: rest) ∧ IdentityFrame g g2 := by
      intro g1 e1 h1
      obtain ⟨hs, hf⟩ := ih g1 l2 g2 h1
      exact ⟨fun a ha => List.mem_cons_of_mem _ (hs a ha), e1.trans hf⟩
    rw [removeExpandDims] at h
    split at h
    · simp only [Option.bind_eq_bind] at h
      obtain ⟨i0, -, h⟩ := Option.bind_eq_some.mp h
      obtain ⟨i1, -, h⟩ := Option.bind_eq_some.mp h
      split at h
      · obtain ⟨ch, -, h⟩ := Option.bind_eq_some.mp h
        obtain ⟨g1, h1, h⟩ := Option.bind_eq_some.mp h
        obtain ⟨g3, h3, h⟩ := Option.bind_eq_some.mp h
        exact skip _ ((((DisconnectNode_identityFrame _ _ _ h1).trans
          (DisconnectNode_identityFrame _ _ _ h3)).trans
          (IdentityFrame.modify _ _ _ (fun e => e))).trans
          (IdentityFrame.modify _ _ _ (fun e => e))) h
      · split at h
        · obtain ⟨g1, h1, h⟩ := Option.bind_eq_some.mp h
          obtain ⟨ch, -, h⟩ := Option.bind_eq_some.mp h
          obtain ⟨g3, h3, h⟩ := Option.bind_eq_some.mp h
          exact skip g3 ((DisconnectNode_identityFrame _ _ _ h1).trans
            (MergeParentNode_identityFrame _ _ _ _ h3)) h
        · obtain ⟨g1, h1, h⟩ := Option.bind_eq_some.mp h
          obtain ⟨ch, -, h⟩ := Option.bind_eq_some.mp h
          obtain ⟨g3, h3, h⟩ := Option.bind_eq_some.mp h
          exact skip g3 ((DisconnectNode_identityFrame _ _ _ h1).trans
            (MergeParentNode_identityFrame _ _ _ _ h3)) h
    · exact keep h

theorem mergeBiasAdd_identityFrame (l : List Nat) :
    ∀ (g g2 : TFGraph), mergeBiasAdd l g = some g2 → IdentityFrame g g2 := by
  induction l with
  | nil =>
    intro g g2 h
    simp only [mergeBiasAdd, Option.some.injEq] at h
    subst h
    exact IdentityFrame.refl g
  | cons c rest ih =>
    intro g g2 h
    rw [mergeBiasAdd] at h
    split at h
    · simp only [Option.bind_eq_bind] at h
      obtain ⟨o, -, h⟩ := Option.bind_eq_some.mp h
      split at h
      · obtain ⟨g1, h1, h⟩ := Option.bind_eq_some.mp h
        exact (MergeChildNode_identityFrame _ _ _ _ h1).trans (ih g1 g2 h)
      · obtain ⟨g1, h1, h⟩ := Option.bind_eq_some.mp h
        cases h1
        exact ih g g2 h
    · exact ih g g2 h

theorem BNRecursiveInputMerge_identityFrame (fuel : Nat) :
    ∀ (g : TFGraph) (node : Nat) (g2 : TFGraph),
      BNRecursiveInputMerge fuel g node = some g2 → IdentityFrame g g2 := by
  induction fuel with
  | zero =>
    intro g node g2 h
    simp only [BNRecursiveInputMerge] at h
    cases h
  | succ fuel ih =>
    intro g node g2 h
    have loop : ∀ (g1 : TFGraph) (todo : List Nat), IdentityFrame g g1 →
        todo.foldlM (fun h input_node =>
          let h1 := h.modify input_node fun n =>
            { n with BNAddType := (h.heap node).BNAddType }
          if (h1.heap input_node).op = "Const".toList then some h1
          else do
            let h2 ← BNRecursiveInputMerge fuel h1 input_node
            MergeParentNode h2 node input_node) g1 = some g2 → IdentityFrame g g2 := by
      intro g1 todo e1 hl
      refine e1.trans (IdentityFrame.foldlM _ ?_ todo g1 g2 hl)
      intro h x h2 hx
      simp only [] at hx
      split at hx
      · cases hx
        exact IdentityFrame.modify _ _ _ (fun e => e)
      · simp only [Option.bind_eq_bind] at hx
        obtain ⟨h3, hh3, hx⟩ := Option.bind_eq_some.mp hx
        exact ((IdentityFrame.modify _ _ _ (fun e => e)).trans (ih _ _ _ hh3)).trans
          (MergeParentNode_identityFrame _ _ _ _ hx)
    rw [BNRecursiveInputMerge] at h
    simp only [Option.bind_eq_bind] at h
    have fin : ∀ (g1 : TFGraph) (b : Bool), IdentityFrame g g1 →
        ((some (g1, b)).bind fun y =>
          List.foldlM (fun h input_node =>
            let h1 := h.modify input_node fun n =>
              { n with BNAddType := (h.heap node).BNAddType }
            if (h1.heap input_node).op = "Const".toList then some h1
            else do
              let h2 ← BNRecursiveInputMerge fuel h1 input_node
              MergeParentNode h2 node input_node) y.1
            (if y.2 = true then List.drop 1 (y.1.heap node).inputs
              else (y.1.heap node).inputs)) = some g2 → IdentityFrame g g2 := by
      intro g1 b e1 hb
      obtain ⟨y, hy, hb⟩ := Option.bind_eq_some.mp hb
      cases hy
      exact loop _ _ e1 hb
    by_cases c1 : (strFind "/mul".toList (g.heap node).name).isSome = true
    · rw [if_pos c1] at h
      by_cases c2 : (g.heap node).BNAddType = 1
      · rw [if_pos c2] at h
        by_cases c3 : (strFind "/mul_1".toList (g.heap node).name).isSome = true
        · rw [if_pos c3] at h
          exact fin _ _ (IdentityFrame.refl g) h
        · rw [if_neg c3] at h
          by_cases c4 : (strFind "/mul_2".toList (g.heap node).name).isNone = true
          · rw [if_pos c4] at h
            obtain ⟨k, -, h⟩ := Option.bind_eq_some.mp h
            obtain ⟨m2, -, h⟩ := Option.bind_eq_some.mp h
            obtain ⟨k2, -, h⟩ := Option.bind_eq_some.mp h
            split at h
            · exact fin _ _ ((IdentityFrame.modify _ _ _ (fun e => e)).trans
                (IdentityFrame.modify _ _ _ (fun e => e))) h
            · cases h
          · rw [if_neg c4] at h
            exact fin _ _ (IdentityFrame.refl g) h
      · rw [if_neg c2] at h
        by_cases c3 : (strFind "/mul_1".toList (g.heap node).name).isSome = true
        · rw [if_pos c3] at h
          obtain ⟨k, -, h⟩ := Option.bind_eq_some.mp h
          obtain ⟨rs, -, h⟩ := Option.bind_eq_some.mp h
          by_cases c5 : (strFind "/add_1".toList (g.heap rs).name).isSome = true
          · rw [if_pos c5] at h
            obtain ⟨k2, -, h⟩ := Option.bind_eq_some.mp h
            split at h
            · exact fin _ _ ((IdentityFrame.modify _ _ _ (fun e => e)).trans
                (IdentityFrame.modify _ _ _ (fun e => e))) h
            · cases h
          · rw [if_neg c5] at h
            exact fin _ _ (IdentityFrame.refl g) h
        · rw [if_neg c3] at h
          exact fin _ _ (IdentityFrame.refl g) h
    · rw [if_neg c1] at h
      exact fin _ _ (IdentityFrame.refl g) h

theorem IdentityFrame.setOp (g : TFGraph) (a : Nat) (f : TFNode → TFNode)
    (hf : ∀ n, (f n).op ≠ "Identity".toList) : IdentityFrame g (g.modify a f) :=
  IdentityFrame.modify g a f (fun e => absurd e (hf _))

theorem CheckComposedBNAdd_identityFrame (g : TFGraph) (c : Nat) (r : Bool × TFGraph)
    (h : CheckComposedBNAdd g c = some r) : IdentityFrame g r.2 := by
  unfold CheckComposedBNAdd at h
  split at h
  · cases h
    exact IdentityFrame.refl g
  · simp only [Option.bind_eq_bind] at h
    obtain ⟨i0, -, h⟩ := Option.bind_eq_some.mp h
    obtain ⟨i1, -, h⟩ := Option.bind_eq_some.mp h
    split at h
    · cases h
      exact IdentityFrame.refl g
    · split at h
      · split at h
        · cases h
          exact IdentityFrame.modify _ _ _ (fun e => e)
        · cases h
          exact IdentityFrame.modify _ _ _ (fun e => e)
      · cases h
        exact IdentityFrame.refl g

theorem FuseComposedBN_identityFrame (fuel : Nat) (g g2 : TFGraph) (c : Nat)
    (h : FuseComposedBN fuel g c = some g2) : IdentityFrame g g2 := by
  unfold FuseComposedBN at h
  simp only [Option.bind_eq_bind, Option.pure_def] at h
  obtain ⟨g1, h1, h⟩ := Option.bind_eq_some.mp h
  obtain ⟨pos, -, h⟩ := Option.bind_eq_some.mp h
  cases h
  refine (BNRecursiveInputMerge_identityFrame _ _ _ _ h1).trans ?_
  refine IdentityFrame.trans ?_ (IdentityFrame.foldl _ ?_ _ _)
  · exact (IdentityFrame.setOp g1 c _
      (fun _ => (by decide : "ComposedBN".toList ≠ "Identity".toList))).trans
      (IdentityFrame.modify _ _ _ (fun e => e))
  · intro h x
    split
    · exact IdentityFrame.modify _ _ _ (fun e => e)
    · exact IdentityFrame.refl h

theorem fuseBatchNorm_identityFrame (fuel : Nat) (l : List Nat) :
    ∀ (g g2 : TFGraph), fuseBatchNorm fuel l g = some g2 → IdentityFrame g g2 := by
  induction l with
  | nil =>
    intro g g2 h
    simp only [fuseBatchNorm, Option.some.injEq] at h
    subst h
    exact IdentityFrame.refl g
  | cons c rest ih =>
    intro g g2 h
    rw [fuseBatchNorm] at h
    simp only [Option.bind_eq_bind] at h
    obtain ⟨r, hr, h⟩ := Option.bind_eq_some.mp h
    have er := CheckComposedBNAdd_identityFrame g c r hr
    split at h
    · obtain ⟨g1, h1, h⟩ := Option.bind_eq_some.mp h
      exact (er.trans (FuseComposedBN_identityFrame _ _ _ _ h1)).trans (ih g1 g2 h)
    · obtain ⟨g1, h1, h⟩ := Option.bind_eq_some.mp h
      cases h1
      exact er.trans (ih _ g2 h)

theorem CleanupResizeNearestNeighbor_identityFrame (l : List Nat) :
    ∀ (g g2 : TFGraph), CleanupResizeNearestNeighbor l g = some g2 → IdentityFrame g g2 := by
  induction l with
  | nil =>
    intro g g2 h
    simp only [CleanupResizeNearestNeighbor, Option.some.injEq] at h
    subst h
    exact IdentityFrame.refl g
  | cons c rest ih =>
    intro g g2 h
    rw [CleanupResizeNearestNeighbor] at h
    split at h
    · simp only [Option.bind_eq_bind] at h
      obtain ⟨d, -, h⟩ := Option.bind_eq_some.mp h
      obtain ⟨ds, -, h⟩ := Option.bind_eq_some.mp h
      obtain ⟨g1, h1, h⟩ := Option.bind_eq_some.mp h
      obtain ⟨m, -, h⟩ := Option.bind_eq_some.mp h
      obtain ⟨ss, -, h⟩ := Option.bind_eq_some.mp h
      obtain ⟨g3, h3, h⟩ := Option.bind_eq_some.mp h
      obtain ⟨g4, h4, h⟩ := Option.bind_eq_some.mp h
      exact (((DisconnectNode_identityFrame _ _ _ h1).trans
        (DisconnectNode_identityFrame _ _ _ h3)).trans
        (DisconnectNode_identityFrame _ _ _ h4)).trans (ih g4 g2 h)
    · exact ih g g2 h

theorem MergeReluMinimum_identityFrame (l : List Nat) :
    ∀ (g g2 : TFGraph), MergeReluMinimum l g = some g2 → IdentityFrame g g2 := by
  induction l with
  | nil =>
    intro g g2 h
    simp only [MergeReluMinimum, Option.some.injEq] at h
    subst h
    exact IdentityFrame.refl g
  | cons c rest ih =>
    intro g g2 h
    rw [MergeReluMinimum] at h
    split at h
    · exact ih g g2 h
    · split at h
      · simp only [Option.bind_eq_bind] at h
        obtain ⟨cn, -, h⟩ := Option.bind_eq_some.mp h
        obtain ⟨g1, h1, h⟩ := Option.bind_eq_some.mp h
        obtain ⟨g3, h3, h⟩ := Option.bind_eq_some.mp h
        exact (((DisconnectNode_identityFrame _ _ _ h1).trans
          (MergeChildNode_identityFrame _ _ _ _ h3)).trans
          (IdentityFrame.setOp g3 _ _
            (fun _ => (by decide : "Relu6".toList ≠ "Identity".toList)))).trans (ih _ g2 h)
      · exact ih g g2 h

theorem mergeInputReshape_identityFrame (l : List Nat) :
    ∀ (g : TFGraph) (l2 : List Nat) (g2 : TFGraph),
      mergeInputReshape l g = some (l2, g2) → (∀ a ∈ l2, a ∈ l) ∧ IdentityFrame g g2 := by
  induction l with
  | nil =>
    intro g l2 g2 h
    simp only [mergeInputReshape, Option.some.injEq, Prod.mk.injEq] at h
    obtain ⟨rfl, rfl⟩ := h
    exact ⟨fun a ha => ha, IdentityFrame.refl g⟩
  | cons c rest ih =>
    intro g l2 g2 h
    have keep := keepNode_identityFrame c rest g g (mergeInputReshape rest g) l2 g2
      (fun l1 => ih g l1 g2) (IdentityFrame.refl g)
    rw [mergeInputReshape] at h
    split at h
    · simp only [Option.bind_eq_bind] at h
      obtain ⟨i0, -, h⟩ := Option.bind_eq_some.mp h
      obtain ⟨i1, -, h⟩ := Option.bind_eq_some.mp h
      split at h
      · obtain ⟨g1, h1, h⟩ := Option.bind_eq_some.mp h
        obtain ⟨g3, h3, h⟩ := Option.bind_eq_some.mp h
        obtain ⟨d, -, h⟩ := Option.bind_eq_some.mp h
        simp only [Option.some.injEq, Prod.mk.injEq] at h
        obtain ⟨rfl, rfl⟩ := h
        exact ⟨fun a ha => List.mem_cons_of_mem _ ha,
          ((DisconnectNode_identityFrame _ _ _ h1).trans
            (MergeChildNode_identityFrame _ _ _ _ h3)).trans
            (IdentityFrame.modify _ _ _ (fun e => e))⟩
      · exact keep h
    · exact keep h

theorem removeShapeSlice_identityFrame (l : List Nat) :
    ∀ (g g2 : TFGraph), removeShapeSlice l g = some g2 → IdentityFrame g g2 := by
  induction l with
  | nil =>
    intro g g2 h
    simp only [removeShapeSlice, Option.some.injEq] at h
    subst h
    exact IdentityFrame.refl g
  | cons c rest ih =>
    intro g g2 h
    rw [removeShapeSlice] at h
    split at h
    · simp only [Option.bind_eq_bind] at h
      obtain ⟨i0, -, h⟩ := Option.bind_eq_some.mp h
      split at h
      · obtain ⟨g1, h1, h⟩ := Option.bind_eq_some.mp h
        exact (DisconnectNode_identityFrame _ _ _ h1).trans
          (DisconnectNode_identityFrame _ _ _ h)
      · exact ih g g2 h
    · exact ih g g2 h

theorem mergePadConv_identityFrame (l : List Nat) :
    ∀ (g g2 : TFGraph), mergePadConv l g = some g2 → IdentityFrame g g2 := by
  induction l with
  | nil =>
    intro g g2 h
    simp only [mergePadConv, Option.some.injEq] at h
    subst h
    exact IdentityFrame.refl g
  | cons c rest ih =>
    intro g g2 h
    rw [mergePadConv] at h
    split at h
    · simp only [Option.bind_eq_bind] at h
      obtain ⟨i0, -, h⟩ := Option.bind_eq_some.mp h
      split at h
      · obtain ⟨pa, -, h⟩ := Option.bind_eq_some.mp h
        obtain ⟨d, -, h⟩ := Option.bind_eq_some.mp h
        obtain ⟨g1, h1, h⟩ := Option.bind_eq_some.mp h
        obtain ⟨g3, h3, h⟩ := Option.bind_eq_some.mp h
        obtain ⟨ni, -, h⟩ := Option.bind_eq_some.mp h
        exact ((((IdentityFrame.modify _ _ _ (fun e => e)).trans
          (DisconnectNode_identityFrame _ _ _ h1)).trans
          (MergeParentNode_identityFrame _ _ _ _ h3)).trans
          (IdentityFrame.modify _ _ _ (fun e => e))).trans (ih _ g2 h)
      · exact ih g g2 h
    · split at h
      · simp only [Option.bind_eq_bind] at h
        obtain ⟨ix, -, h⟩ := Option.bind_eq_some.mp h
        obtain ⟨g1, h1, h⟩ := Option.bind_eq_some.mp h
        obtain ⟨d, -, h⟩ := Option.bind_eq_some.mp h
        exact ((DisconnectNode_identityFrame _ _ _ h1).trans
          (IdentityFrame.modify _ _ _ (fun e => e))).trans (ih _ g2 h)
      · exact ih g g2 h

theorem removeArgMax_identityFrame (l : List Nat) :
    ∀ (g : TFGraph) (l2 : List Nat) (g2 : TFGraph),
      removeArgMax l g = some (l2, g2) → (∀ a ∈ l2, a ∈ l) ∧ IdentityFrame g g2 := by
  induction l with
  | nil =>
    intro g l2 g2 h
    simp only [removeArgMax, Option.some.injEq, Prod.mk.injEq] at h
    obtain ⟨rfl, rfl⟩ := h
    exact ⟨fun a ha => ha, IdentityFrame.refl g⟩
  | cons c rest ih =>
    intro g l2 g2 h
    have keep := keepNode_identityFrame c rest g g (removeArgMax rest g) l2 g2
      (fun l1 => ih g l1 g2) (IdentityFrame.refl g)
    rw [removeArgMax] at h
    split at h
    · obtain ⟨g1, h1, h⟩ := Option.map_eq_some'.mp h
      simp only [Prod.mk.injEq] at h
      obtain ⟨rfl, rfl⟩ := h
      exact ⟨fun a ha => List.mem_cons_of_mem _ ha, DisconnectNode_identityFrame _ _ _ h1⟩
    · exact keep h

theorem removeLastSqueeze_identityFrame (l : List Nat) :
    ∀ (g g2 : TFGraph), removeLastSqueeze l g = some g2 → IdentityFrame g g2 := by
  induction l with
  | nil =>
    intro g g2 h
    simp only [removeLastSqueeze, Option.some.injEq] at h
    subst h
    exact IdentityFrame.refl g
  | cons c rest ih =>
    intro g g2 h
    rw [removeLastSqueeze] at h
    split at h
    · exact DisconnectNode_identityFrame _ _ _ h
    · exact ih g g2 h

theorem IdentityFree.frame {g g2 : TFGraph} (h : IdentityFree g) (hf : IdentityFrame g g2) :
    IdentityFree g2 :=
  fun a ha hid => h a (hf.1 ▸ ha) (hf.2 a hid)

theorem IdentityFree.withSeq {g g2 : TFGraph} {l2 : List Nat} (h : IdentityFree g)
    (hs : ∀ a ∈ l2, a ∈ g.seq_nodes) (hf : IdentityFrame g g2) :
    IdentityFree (TFGraph.withSeq (l2, g2)) :=
  fun a ha hid => h a (hs a ha) (hf.2 a hid)

theorem removeIsolated_identityFree (g : TFGraph) (h : IdentityFree g) :
    IdentityFree (removeIsolated g) :=
  fun a ha hid => h a (List.mem_filter.mp ha).1 hid

theorem removeOrphans_identityFree (fuel : Nat) :
    ∀ (g g2 : TFGraph), IdentityFree g → removeOrphans fuel g = some g2 → IdentityFree g2 := by
  induction fuel with
  | zero =>
    intro g g2 hg h
    rw [removeOrphans] at h
    split at h
    · cases h
    · cases h
      exact hg
  | succ fuel ih =>
    intro g g2 hg h
    rw [removeOrphans] at h
    split at h
    · cases h
      exact hg
    · simp only [Option.bind_eq_bind] at h
      obtain ⟨g1, h1, h⟩ := Option.bind_eq_some.mp h
      refine ih _ g2 ?_ h
      have e1 := DisconnectNode_identityFrame _ _ _ h1
      intro a ha hid
      exact hg a (List.mem_of_mem_eraseP ha) (e1.2 a hid)

theorem optimizeFusions_identityFree (g g5 : TFGraph) (h : optimizeFusions g = some g5) :
    IdentityFree g5 := by
  unfold optimizeFusions at h
  simp only [Option.bind_eq_bind] at h
  obtain ⟨g1, h1, h⟩ := Option.bind_eq_some.mp h
  obtain ⟨g2, h2, h⟩ := Option.bind_eq_some.mp h
  obtain ⟨g3, h3, h⟩ := Option.bind_eq_some.mp h
  obtain ⟨g4, h4, h⟩ := Option.bind_eq_some.mp h
  obtain ⟨⟨l2, k2⟩, hk2, rfl⟩ := Option.map_eq_some'.mp h2
  obtain ⟨⟨l4, k4⟩, hk4, rfl⟩ := Option.map_eq_some'.mp h4
  have f2 : IdentityFree (TFGraph.withSeq (l2, k2)) :=
    fun a ha => (removeSqueezeIdentity_identityFrame _ _ _ _ hk2).2.2 a ha
  have f3 : IdentityFree g3 := f2.frame (mergeQueue_identityFrame _ _ _ h3)
  obtain ⟨hs4, hf4⟩ := removeExpandDims_identityFrame _ _ _ _ hk4
  have f4 : IdentityFree (TFGraph.withSeq (l4, k4)) := f3.withSeq hs4 hf4
  exact f4.frame (mergeBiasAdd_identityFrame _ _ _ h)

theorem optimizeHelpers_identityFree (g5 g10 : TFGraph) (h5 : IdentityFree g5)
    (h : optimizeHelpers g5 = some g10) : IdentityFree g10 := by
  unfold optimizeHelpers at h
  simp only [Option.bind_eq_bind] at h
  obtain ⟨g6, h6, h⟩ := Option.bind_eq_some.mp h
  obtain ⟨g7, h7, h⟩ := Option.bind_eq_some.mp h
  obtain ⟨g8, h8, h⟩ := Option.bind_eq_some.mp h
  obtain ⟨g9, h9, h⟩ := Option.bind_eq_some.mp h
  obtain ⟨⟨l9, k9⟩, hk9, rfl⟩ := Option.map_eq_some'.mp h9
  have f8 : IdentityFree g8 :=
    ((h5.frame (fuseBatchNorm_identityFrame _ _ _ _ h6)).frame
      (CleanupResizeNearestNeighbor_identityFrame _ _ _ h7)).frame
      (MergeReluMinimum_identityFrame _ _ _ h8)
  obtain ⟨hs9, hf9⟩ := mergeInputReshape_identityFrame _ _ _ _ hk9
  exact (f8.withSeq hs9 hf9).frame (removeShapeSlice_identityFrame _ _ _ h)

theorem optimizeTrims_identityFree (g10 g15 : TFGraph) (h10 : IdentityFree g10)
    (h : optimizeTrims g10 = some g15) : IdentityFree g15 := by
  unfold optimizeTrims at h
  simp only [Option.bind_eq_bind] at h
  obtain ⟨g11, h11, h⟩ := Option.bind_eq_some.mp h
  obtain ⟨g12, h12, h⟩ := Option.bind_eq_some.mp h
  obtain ⟨g13, h13, hlast⟩ := Option.bind_eq_some.mp h
  obtain ⟨⟨l12, k12⟩, hk12, rfl⟩ := Option.map_eq_some'.mp h12
  have f11 : IdentityFree g11 := h10.frame (mergePadConv_identityFrame _ _ _ h11)
  obtain ⟨hs12, hf12⟩ := removeArgMax_identityFrame _ _ _ _ hk12
  have f13 : IdentityFree g13 :=
    (f11.withSeq hs12 hf12).frame (removeLastSqueeze_identityFrame _ _ _ h13)
  exact removeOrphans_identityFree _ _ _ (removeIsolated_identityFree _ f13) hlast

/-- When `OptimizeGraph` returns, no node of the sequence has the op Identity. -/
theorem OptimizeGraph_identityFree (g : TFGraph) (r : Bool × TFGraph)
    (h : OptimizeGraph g = some r) : IdentityFree r.2 := by
  unfold OptimizeGraph at h
  simp only [Option.bind_eq_bind, Option.pure_def] at h
  obtain ⟨g5, h5, h⟩ := Option.bind_eq_some.mp h
  obtain ⟨g10, h10, h⟩ := Option.bind_eq_some.mp h
  obtain ⟨g15, h15, h⟩ := Option.bind_eq_some.mp h
  cases h
  exact optimizeTrims_identityFree _ _
    (optimizeHelpers_identityFree _ _ (optimizeFusions_identityFree _ _ h5) h10) h15

/-! ## The removal of Identity nodes -/

/-- C25, as stated, fails: both graphs are edge-symmetric, each Identity has an
input and `OptimizeGraph` returns. In `identityChainGraph` the Relu consumed the
Identity node 2, whose first input is the Identity node 1, and ends with the
Placeholder 0 in that position. In `identityPadGraph` the Conv2D consumed the
Identity node 3, whose first input is the Pad node 2, and ends with the inputs
`[x, w]`: the pad fusion has replaced the Pad by the Placeholder. -/
theorem C25_counterexample :
    (CountSym identityChainGraph ∧
      (∀ a ∈ identityChainGraph.seq_nodes, (identityChainGraph.heap a).op = "Identity".toList →
        (identityChainGraph.heap a).inputs ≠ []) ∧
      (identityChainGraph.heap 3).inputs = [2] ∧
      (identityChainGraph.heap 2).op = "Identity".toList ∧
      (identityChainGraph.heap 2).inputs[0]? = some 1 ∧
      (OptimizeGraph identityChainGraph).map (fun r => (r.2.seq_nodes, (r.2.heap 3).inputs)) =
        some ([0, 3], [0])) ∧
    (CountSym identityPadGraph ∧
      (∀ a ∈ identityPadGraph.seq_nodes, (identityPadGraph.heap a).op = "Identity".toList →
        (identityPadGraph.heap a).inputs ≠ []) ∧
      (identityPadGraph.heap 5).inputs = [3, 4] ∧
      (identityPadGraph.heap 3).op = "Identity".toList ∧
      (identityPadGraph.heap 3).inputs[0]? = some 2 ∧
      (OptimizeGraph identityPadGraph).map (fun r => (r.2.seq_nodes, (r.2.heap 5).inputs)) =
        some ([0, 4, 5, 6], [0, 4])) :=
  ⟨⟨countSym_ofNodes _ (by decide) (by decide), by decide, by decide, by decide, by decide,
      by decide⟩,
    ⟨countSym_ofNodes _ (by decide) (by decide), by decide, by decide, by decide, by decide,
      by decide⟩⟩

/-- The step of the second loop of `OptimizeGraph` at an Identity `I` whose first
input `P` is another node, in a graph that is edge-symmetric with
multiplicities: `I` is erased from the sequence, and the pass goes on with a
graph in which every node other than `P` and `I` reads `P` wherever it read `I`,
`I` has neither input nor output, and every op is as before. -/
theorem removeSqueezeIdentity_identity (g : TFGraph) (I P : Nat) (hsym : CountSym g)
    (hop : (g.heap I).op = "Identity".toList) (hin : (g.heap I).inputs[0]? = some P)
    (hPI : P ≠ I) :
    ∃ g1, (∀ rest, removeSqueezeIdentity (I :: rest) g = removeSqueezeIdentity rest g1) ∧
      (∀ D, D ≠ P → D ≠ I →
        (g1.heap D).inputs = (g.heap D).inputs.map fun y => if y = I then P else y) ∧
      (g1.heap I).inputs = [] ∧ (g1.heap I).outputs = [] ∧
      ∀ m, (g1.heap m).op = (g.heap m).op := by
  have hmemI : P ∈ (g.heap I).inputs := List.getElem?_mem hin
  have hmem : I ∈ (g.heap P).outputs := by
    rw [← List.count_pos_iff, hsym P I]
    exact List.count_pos_iff.mpr hmemI
  obtain ⟨g1, hmerge, -, -, hh⟩ := MergeChildNode_closed g P I hPI hmem
  refine ⟨g1, ?_, ?_, ?_, ?_, ?_⟩
  · intro rest
    rw [removeSqueezeIdentity, if_neg (by rw [hop]; decide), if_pos hop]
    simp only [hin, Option.bind_eq_bind, Option.some_bind, hmerge]
  · intro D hDP hDI
    rw [hh D, if_neg hDI, if_neg hDP]
    simp only
    exact iterate_replaceFirst_all I P (fun e => hPI e.symm) _ _ (by rw [hsym I D])
  · rw [hh I, if_pos rfl]
  · rw [hh I, if_pos rfl]
  · intro m
    rw [hh m]
    split
    · rfl
    · split <;> rfl

/-- C25, amended: when `OptimizeGraph` returns, no node of the sequence has the
op Identity. In a graph that is edge-symmetric with multiplicities, when the
second loop reaches an Identity `I` whose first input `P` is another node, it
erases `I` from the sequence and goes on with a graph in which every node other
than `P` and `I` has `P` at each position of its input list where it had `I`,
and `I` has neither input nor output. -/
theorem C25_identity_removal (g : TFGraph) :
    (∀ r, OptimizeGraph g = some r →
      ∀ a ∈ r.2.seq_nodes, (r.2.heap a).op ≠ "Identity".toList) ∧
    (∀ I P, CountSym g → (g.heap I).op = "Identity".toList →
      (g.heap I).inputs[0]? = some P → P ≠ I →
      ∃ g1, (∀ rest, removeSqueezeIdentity (I :: rest) g = removeSqueezeIdentity rest g1) ∧
        (∀ D, D ≠ P → D ≠ I →
          (g1.heap D).inputs = (g.heap D).inputs.map fun y => if y = I then P else y) ∧
        (g1.heap I).inputs = [] ∧ (g1.heap I).outputs = []) := by
  refine ⟨fun r hr => OptimizeGraph_identityFree g r hr, ?_⟩
  intro I P hsym hop hin hPI
  obtain ⟨g1, h1, h2, h3, h4, -⟩ := removeSqueezeIdentity_identity g I P hsym hop hin hPI
  exact ⟨g1, h1, h2, h3, h4⟩

/-- C25 on the chain of two Identity nodes: `OptimizeGraph` returns a graph whose
sequence is the Placeholder and the Relu, and the step at the Identity node 2,
whose first input is node 1, leaves the Relu with the input list `[1]`. -/
theorem C25_identity_removal_witness :
    (∃ r, OptimizeGraph identityChainGraph = some r ∧ r.2.seq_nodes = [0, 3] ∧
      ∀ a ∈ r.2.seq_nodes, (r.2.heap a).op ≠ "Identity".toList) ∧
    CountSym identityChainGraph ∧ (identityChainGraph.heap 2).op = "Identity".toList ∧
    (identityChainGraph.heap 2).inputs[0]? = some 1 ∧
    ∃ g1, (∀ rest, removeSqueezeIdentity (2 :: rest) identityChainGraph =
        removeSqueezeIdentity rest g1) ∧
      (g1.heap 3).inputs = [1] ∧ (g1.heap 2).inputs = [] ∧ (g1.heap 2).outputs = [] := by
  have hsym : CountSym identityChainGraph := countSym_ofNodes _ (by decide) (by decide)
  have hseq : (OptimizeGraph identityChainGraph).map (fun r => r.2.seq_nodes) = some [0, 3] := by
    decide
  refine ⟨?_, hsym, by decide, by decide, ?_⟩
  · cases h : OptimizeGraph identityChainGraph with
    | none => rw [h] at hseq; cases hseq
    | some r =>
      rw [h] at hseq
      exact ⟨r, rfl, Option.some.inj hseq, (C25_identity_removal identityChainGraph).1 r h⟩
  · obtain ⟨g1, h1, h2, h3, h4⟩ := (C25_identity_removal identityChainGraph).2 2 1 hsym
      (by decide) (by decide) (by decide)
    refine ⟨g1, h1, ?_, h3, h4⟩
    rw [h2 3 (by decide) (by decide)]
    decide

/-! ## The fusion of a composed batch-norm reads the names through the markers -/

theorem BNRecursiveInputMerge_succ (fuel : Nat) (g : TFGraph) (node : Nat) :
    BNRecursiveInputMerge (fuel + 1) g node =
      (bnPrepare g node).bind fun p =>
        (if p.2 = true then (p.1.heap node).inputs.drop 1 else (p.1.heap node).inputs).foldlM
          (bnStep (BNRecursiveInputMerge fuel) node) p.1 := by
  rw [BNRecursiveInputMerge]
  unfold bnPrepare
  simp only [Option.bind_eq_bind]
  by_cases c1 : (strFind "/mul".toList (g.heap node).name).isSome = true
  · rw [if_pos c1, if_pos c1]
    by_cases c2 : (g.heap node).BNAddType = 1
    · rw [if_pos c2, if_pos c2]
      by_cases c3 : (strFind "/mul_1".toList (g.heap node).name).isSome = true
      · rw [if_pos c3, if_pos c3]
        rfl
      · rw [if_neg c3, if_neg c3]
        by_cases c4 : (strFind "/mul_2".toList (g.heap node).name).isNone = true
        · rw [if_pos c4, if_pos c4]
          cases skipUnlessNamed g "/mul2".toList (g.heap node).outputs with
          | none => rfl
          | some k =>
            simp only [Option.some_bind]
            cases (g.heap node).outputs[k]? with
            | none => rfl
            | some m2 =>
              simp only [Option.some_bind]
              cases skipUnlessNamed
                (g.modify node fun n => { n with outputs := n.outputs.eraseIdx k })
                "/mul".toList
                ((g.modify node fun n =>
                  { n with outputs := n.outputs.eraseIdx k }).heap m2).inputs with
              | none => rfl
              | some k2 =>
                simp only [Option.some_bind]
                split <;> rfl
        · rw [if_neg c4, if_neg c4]
          rfl
    · rw [if_neg c2, if_neg c2]
      by_cases c3 : (strFind "/mul_1".toList (g.heap node).name).isSome = true
      · rw [if_pos c3, if_pos c3]
        cases skipUnlessNamed g "/add_1".toList (g.heap node).inputs with
        | none => rfl
        | some k =>
          simp only [Option.some_bind]
          cases (g.heap node).inputs[k]? with
          | none => rfl
          | some rs =>
            simp only [Option.some_bind]
            by_cases c5 : (strFind "/add_1".toList (g.heap rs).name).isSome = true
            · rw [if_pos c5, if_pos c5]
              cases skipUnlessNamed
                (g.modify node fun n => { n with inputs := n.inputs.eraseIdx k })
                "/mul_1".toList
                ((g.modify node fun n =>
                  { n with inputs := n.inputs.eraseIdx k }).heap rs).outputs with
              | none => rfl
              | some k2 =>
                simp only [Option.some_bind]
                split <;> rfl
            · rw [if_neg c5, if_neg c5]
              rfl
      · rw [if_neg c3, if_neg c3]
        rfl
  · rw [if_neg c1, if_neg c1]
    rfl

theorem rename_heap (g : TFGraph) (r : Nat → List Char) (a : Nat) :
    (g.rename r).heap a = { g.heap a with name := r a } := rfl

theorem modify_rename (g : TFGraph) (r : Nat → List Char) (a : Nat) (f : TFNode → TFNode)
    (hf : ∀ n s, f { n with name := s } = { f n with name := s }) :
    (g.rename r).modify a f = (g.modify a f).rename r := by
  refine TFGraph.ext_heap rfl rfl (fun b => ?_)
  by_cases hb : b = a
  · simp only [TFGraph.modify, TFGraph.rename, if_pos hb]
    exact hf _ _
  · simp only [TFGraph.modify, TFGraph.rename, if_neg hb]

theorem SameMarks.of_names {r : Nat → List Char} {g g2 : TFGraph} (h : SameMarks r g)
    (hn : ∀ a, (g2.heap a).name = (g.heap a).name) : SameMarks r g2 := by
  intro a pat hp
  rw [hn a]
  exact h a pat hp

theorem MergeParentNode_of_some (g g2 : TFGraph) (B P : Nat)
    (h : MergeParentNode g B P = some g2) : B ≠ P ∧ P ∈ (g.heap B).inputs := by
  unfold MergeParentNode at h
  split at h
  · cases h
  · split at h
    · cases h
    · rename_i h1 h2
      exact ⟨h1, not_not.mp h2⟩

theorem MergeParentNode_name (g g2 : TFGraph) (B P : Nat)
    (h : MergeParentNode g B P = some g2) (a : Nat) : (g2.heap a).name = (g.heap a).name := by
  obtain ⟨hne, hmem⟩ := MergeParentNode_of_some g g2 B P h
  obtain ⟨g3, e, -, -, hh⟩ := MergeParentNode_closed g B P hne hmem
  rw [e] at h
  cases h
  rw [hh a]
  split
  · rfl
  · split <;> rfl

theorem MergeParentNode_rename (g : TFGraph) (r : Nat → List Char) (B P : Nat) :
    MergeParentNode (g.rename r) B P = (MergeParentNode g B P).map fun h => h.rename r := by
  by_cases hne : B = P
  · unfold MergeParentNode
    rw [if_pos hne, if_pos hne]
    rfl
  · by_cases hmem : P ∈ (g.heap B).inputs
    · obtain ⟨g3, e, hs, hnx, hh⟩ := MergeParentNode_closed g B P hne hmem
      obtain ⟨g4, e4, hs4, hnx4, hh4⟩ := MergeParentNode_closed (g.rename r) B P hne hmem
      rw [e, e4, Option.map_some']
      congr 1
      refine TFGraph.ext_heap (hs4.trans hs.symm) (hnx4.trans hnx.symm) (fun a => ?_)
      show g4.heap a = { g3.heap a with name := r a }
      rw [hh4 a, hh a]
      split
      · rfl
      · split <;> rfl
    · unfold MergeParentNode
      rw [if_neg hne, if_neg hne, if_pos hmem, if_pos (show P ∉ ((g.rename r).heap B).inputs from hmem)]
      rfl

theorem skipUnlessNamed_rename (g : TFGraph) (r : Nat → List Char) (pat : List Char)
    (v : List Nat) (hp : pat ∈ bnMarkers) (hm : SameMarks r g) :
    skipUnlessNamed (g.rename r) pat v = skipUnlessNamed g pat v := by
  unfold skipUnlessNamed
  cases v[0]? with
  | none => rfl
  | some first =>
    simp only [Option.bind_eq_bind, Option.some_bind, rename_heap, Option.pure_def]
    have e : (strFind pat (r first)).isNone = (strFind pat (g.heap first).name).isNone := by
      have e0 := hm first pat hp
      cases h1 : strFind pat (r first) <;> cases h2 : strFind pat (g.heap first).name <;>
        rw [h1, h2] at e0 <;> first | rfl | cases e0
    simp only [e]

theorem bnPrepare_name (g : TFGraph) (node : Nat) (p : TFGraph × Bool)
    (h : bnPrepare g node = some p) (a : Nat) : (p.1.heap a).name = (g.heap a).name := by
  have two : ∀ (x y : Nat) (f1 f2 : TFNode → TFNode), (∀ n, (f1 n).name = n.name) →
      (∀ n, (f2 n).name = n.name) →
      (((g.modify x f1).modify y f2).heap a).name = (g.heap a).name := by
    intro x y f1 f2 h1 h2
    simp only [TFGraph.modify]
    split <;> split <;> simp only [h1, h2]
  unfold bnPrepare at h
  simp only [Option.bind_eq_bind] at h
  split at h
  · split at h
    · split at h
      · cases h; rfl
      · split at h
        · obtain ⟨k, -, h⟩ := Option.bind_eq_some.mp h
          obtain ⟨m2, -, h⟩ := Option.bind_eq_some.mp h
          obtain ⟨k2, -, h⟩ := Option.bind_eq_some.mp h
          split at h
          · cases h
            dsimp only
            refine two _ _ _ _ ?_ ?_ <;> intro n <;> rfl
          · cases h
        · cases h; rfl
    · split at h
      · obtain ⟨k, -, h⟩ := Option.bind_eq_some.mp h
        obtain ⟨rs, -, h⟩ := Option.bind_eq_some.mp h
        split at h
        · obtain ⟨k2, -, h⟩ := Option.bind_eq_some.mp h
          split at h
          · cases h
            dsimp only
            refine two _ _ _ _ ?_ ?_ <;> intro n <;> rfl
          · cases h
        · cases h; rfl
      · cases h; rfl
  · cases h; rfl

theorem sameMarks_modify {r : Nat → List Char} {g : TFGraph} (h : SameMarks r g) (x : Nat)
    (f : TFNode → TFNode) (hf : ∀ n, (f n).name = n.name) : SameMarks r (g.modify x f) := by
  refine h.of_names (fun a => ?_)
  simp only [TFGraph.modify]
  split
  · exact hf _
  · rfl

theorem bnPrepare_rename (g : TFGraph) (r : Nat → List Char) (node : Nat)
    (hm : SameMarks r g) :
    bnPrepare (g.rename r) node = (bnPrepare g node).map fun p => (p.1.rename r, p.2) := by
  have m1 := hm node "/mul".toList (by decide)
  have m2 := hm node "/mul_1".toList (by decide)
  have m3 : (strFind "/mul_2".toList (r node)).isNone =
      (strFind "/mul_2".toList (g.heap node).name).isNone := by
    have e0 := hm node "/mul_2".toList (by decide)
    cases h1 : strFind "/mul_2".toList (r node) <;>
      cases h2 : strFind "/mul_2".toList (g.heap node).name <;>
      rw [h1, h2] at e0 <;> first | rfl | cases e0
  unfold bnPrepare
  simp only [Option.bind_eq_bind, rename_heap, m1, m2, m3]
  by_cases c1 : (strFind "/mul".toList (g.heap node).name).isSome = true
  · rw [if_pos c1, if_pos c1]
    by_cases c2 : (g.heap node).BNAddType = 1
    · rw [if_pos c2, if_pos c2]
      by_cases c3 : (strFind "/mul_1".toList (g.heap node).name).isSome = true
      · rw [if_pos c3, if_pos c3]
        rfl
      · rw [if_neg c3, if_neg c3]
        by_cases c4 : (strFind "/mul_2".toList (g.heap node).name).isNone = true
        · rw [if_pos c4, if_pos c4]
          rw [skipUnlessNamed_rename g r _ _ (by decide) hm]
          cases skipUnlessNamed g "/mul2".toList (g.heap node).outputs with
          | none => rfl
          | some k =>
            simp only [Option.some_bind]
            cases (g.heap node).outputs[k]? with
            | none => rfl
            | some mul2 =>
              simp only [Option.some_bind]
              rw [modify_rename g r node _ (fun _ _ => rfl)]
              have hm1 : SameMarks r
                  (g.modify node fun n => { n with outputs := n.outputs.eraseIdx k }) :=
                sameMarks_modify hm node _ (fun _ => rfl)
              rw [skipUnlessNamed_rename _ r _ _ (by decide) hm1]
              simp only [rename_heap]
              cases skipUnlessNamed
                (g.modify node fun n => { n with outputs := n.outputs.eraseIdx k })
                "/mul".toList
                ((g.modify node fun n =>
                  { n with outputs := n.outputs.eraseIdx k }).heap mul2).inputs with
              | none => rfl
              | some k2 =>
                simp only [Option.some_bind]
                rw [modify_rename _ r mul2 _ (fun _ _ => rfl)]
                split <;> rfl
        · rw [if_neg c4, if_neg c4]
          rfl
    · rw [if_neg c2, if_neg c2]
      by_cases c3 : (strFind "/mul_1".toList (g.heap node).name).isSome = true
      · rw [if_pos c3, if_pos c3]
        rw [skipUnlessNamed_rename g r _ _ (by decide) hm]
        cases skipUnlessNamed g "/add_1".toList (g.heap node).inputs with
        | none => rfl
        | some k =>
          simp only [Option.some_bind]
          cases (g.heap node).inputs[k]? with
          | none => rfl
          | some rs =>
            simp only [Option.some_bind]
            rw [hm rs "/add_1".toList (by decide)]
            by_cases c5 : (strFind "/add_1".toList (g.heap rs).name).isSome = true
            · rw [if_pos c5, if_pos c5]
              rw [modify_rename g r node _ (fun _ _ => rfl)]
              have hm1 : SameMarks r
                  (g.modify node fun n => { n with inputs := n.inputs.eraseIdx k }) :=
                sameMarks_modify hm node _ (fun _ => rfl)
              rw [skipUnlessNamed_rename _ r _ _ (by decide) hm1]
              simp only [rename_heap]
              cases skipUnlessNamed
                (g.modify node fun n => { n with inputs := n.inputs.eraseIdx k })
                "/mul_1".toList
                ((g.modify node fun n =>
                  { n with inputs := n.inputs.eraseIdx k }).heap rs).outputs with
              | none => rfl
              | some k2 =>
                simp only [Option.some_bind]
                rw [modify_rename _ r rs _ (fun _ _ => rfl)]
                split <;> rfl
            · rw [if_neg c5, if_neg c5]
              rfl
      · rw [if_neg c3, if_neg c3]
        rfl
  · rw [if_neg c1, if_neg c1]
    rfl

theorem bnStep_rename (r : Nat → List Char) (merge : TFGraph → Nat → Option TFGraph)
    (node : Nat)
    (hmerge : ∀ h x, SameMarks r h →
      merge (h.rename r) x = (merge h x).map (fun h2 => h2.rename r) ∧
        ∀ h2, merge h x = some h2 → ∀ a, (h2.heap a).name = (h.heap a).name)
    (h : TFGraph) (x : Nat) (hm : SameMarks r h) :
    bnStep merge node (h.rename r) x = (bnStep merge node h x).map (fun h2 => h2.rename r) ∧
      ∀ h2, bnStep merge node h x = some h2 → ∀ a, (h2.heap a).name = (h.heap a).name := by
  have hm1 : SameMarks r
      (h.modify x fun n => { n with BNAddType := (h.heap node).BNAddType }) :=
    sameMarks_modify hm x _ (fun _ => rfl)
  have hn1 : ∀ a, ((h.modify x fun n =>
      { n with BNAddType := (h.heap node).BNAddType }).heap a).name = (h.heap a).name := by
    intro a
    simp only [TFGraph.modify]
    split <;> rfl
  obtain ⟨e1, e2⟩ := hmerge _ x hm1
  unfold bnStep
  simp only [Option.bind_eq_bind]
  have e0 : (h.rename r).modify x (fun n =>
        { n with BNAddType := ((h.rename r).heap node).BNAddType }) =
      (h.modify x fun n => { n with BNAddType := (h.heap node).BNAddType }).rename r :=
    modify_rename h r x _ (fun _ _ => rfl)
  rw [e0]
  by_cases c : ((h.modify x fun n =>
      { n with BNAddType := (h.heap node).BNAddType }).heap x).op = "Const".toList
  · rw [if_pos c, if_pos (show (((h.modify x fun n =>
      { n with BNAddType := (h.heap node).BNAddType }).rename r).heap x).op = "Const".toList
        from c)]
    refine ⟨rfl, ?_⟩
    intro h2 hh a
    cases hh
    exact hn1 a
  · rw [if_neg c, if_neg (show ¬ (((h.modify x fun n =>
      { n with BNAddType := (h.heap node).BNAddType }).rename r).heap x).op = "Const".toList
        from c), e1]
    cases hmg : merge (h.modify x fun n =>
        { n with BNAddType := (h.heap node).BNAddType }) x with
    | none => exact ⟨rfl, fun h2 hh => by cases hh⟩
    | some h3 =>
      simp only [Option.map_some', Option.some_bind]
      refine ⟨MergeParentNode_rename h3 r node x, ?_⟩
      intro h2 hh a
      rw [MergeParentNode_name h3 h2 node x hh a, e2 h3 hmg a, hn1 a]

theorem foldlM_bnStep_rename (r : Nat → List Char) (merge : TFGraph → Nat → Option TFGraph)
    (node : Nat)
    (hmerge : ∀ h x, SameMarks r h →
      merge (h.rename r) x = (merge h x).map (fun h2 => h2.rename r) ∧
        ∀ h2, merge h x = some h2 → ∀ a, (h2.heap a).name = (h.heap a).name)
    (todo : List Nat) :
    ∀ h, SameMarks r h →
      todo.foldlM (bnStep merge node) (h.rename r) =
          (todo.foldlM (bnStep merge node) h).map (fun h2 => h2.rename r) ∧
        ∀ h2, todo.foldlM (bnStep merge node) h = some h2 →
          ∀ a, (h2.heap a).name = (h.heap a).name := by
  induction todo with
  | nil =>
    intro h _
    refine ⟨rfl, ?_⟩
    intro h2 hh a
    simp only [List.foldlM_nil, Option.pure_def, Option.some.injEq] at hh
    rw [hh]
  | cons x rest ih =>
    intro h hm
    obtain ⟨e1, e2⟩ := bnStep_rename r merge node hmerge h x hm
    simp only [List.foldlM_cons, Option.bind_eq_bind]
    rw [e1]
    cases hs : bnStep merge node h x with
    | none => exact ⟨rfl, fun h2 hh => by cases hh⟩
    | some h3 =>
      simp only [Option.map_some', Option.some_bind]
      obtain ⟨i1, i2⟩ := ih h3 (hm.of_names (e2 h3 hs))
      refine ⟨i1, ?_⟩
      intro h2 hh a
      rw [i2 h2 hh a, e2 h3 hs a]

theorem BNRecursiveInputMerge_rename (r : Nat → List Char) (fuel : Nat) :
    ∀ g node, SameMarks r g →
      BNRecursiveInputMerge fuel (g.rename r) node =
          (BNRecursiveInputMerge fuel g node).map (fun h2 => h2.rename r) ∧
        ∀ g2, BNRecursiveInputMerge fuel g node = some g2 →
          ∀ a, (g2.heap a).name = (g.heap a).name := by
  induction fuel with
  | zero =>
    intro g node _
    exact ⟨rfl, fun g2 hh => by simp only [BNRecursiveInputMerge] at hh; cases hh⟩
  | succ fuel ih =>
    intro g node hm
    rw [BNRecursiveInputMerge_succ, BNRecursiveInputMerge_succ, bnPrepare_rename g r node hm]
    cases hp : bnPrepare g node with
    | none => exact ⟨rfl, fun g2 hh => by cases hh⟩
    | some p =>
      simp only [Option.map_some', Option.some_bind]
      have hn := bnPrepare_name g node p hp
      obtain ⟨i1, i2⟩ := foldlM_bnStep_rename r (BNRecursiveInputMerge fuel) node ih
        (if p.2 = true then (p.1.heap node).inputs.drop 1 else (p.1.heap node).inputs) p.1
        (hm.of_names hn)
      refine ⟨i1, ?_⟩
      intro g2 hh a
      rw [i2 g2 hh a, hn a]

theorem foldl_flag_heap (l : List Nat) :
    ∀ (h : TFGraph) (a : Nat),
      (l.foldl (fun h node =>
        if (strFind "/add/y".toList (h.heap node).name).isSome then
          h.modify node fun n => { n with no_static_node := true }
        else h) h).heap a =
      if a ∈ l ∧ (strFind "/add/y".toList (h.heap a).name).isSome = true then
        { h.heap a with no_static_node := true }
      else h.heap a := by
  induction l with
  | nil =>
    intro h a
    simp only [List.foldl_nil, List.not_mem_nil, false_and, if_false]
  | cons x l ih =>
    intro h a
    rw [List.foldl_cons, ih]
    by_cases cx : (strFind "/add/y".toList (h.heap x).name).isSome = true
    · rw [if_pos cx]
      by_cases hax : a = x
      · subst hax
        simp only [TFGraph.modify, if_true, cx, and_true, List.mem_cons, true_or]
        split <;> rfl
      · simp only [TFGraph.modify, if_neg hax, List.mem_cons, hax, false_or, if_false]
    · rw [if_neg cx]
      by_cases hax : a = x
      · subst hax
        rw [if_neg (fun hc => cx hc.2), if_neg (fun hc => cx hc.2)]
      · simp only [List.mem_cons, hax, false_or]

theorem CheckComposedBNAdd_rename (g : TFGraph) (r : Nat → List Char) (c : Nat)
    (hm : SameMarks r g) :
    CheckComposedBNAdd (g.rename r) c =
      (CheckComposedBNAdd g c).map fun p => (p.1, p.2.rename r) := by
  unfold CheckComposedBNAdd
  simp only [Option.bind_eq_bind, rename_heap]
  by_cases c1 : (g.heap c).op ≠ "Add".toList
  · rw [if_pos c1, if_pos c1]
    rfl
  · rw [if_neg c1, if_neg c1]
    cases (g.heap c).inputs[0]? with
    | none => rfl
    | some i0 =>
      simp only [Option.some_bind]
      cases (g.heap c).inputs[1]? with
      | none => rfl
      | some i1 =>
        simp only [Option.some_bind]
        have e0 := hm c "/add_1".toList (by decide)
        have e1 := hm i0 "/mul_1".toList (by decide)
        have e2 := hm i1 "/mul_1".toList (by decide)
        simp only [e0, e1, e2]
        by_cases c2 : (g.heap i0).op ≠ "Mul".toList ∨ (g.heap i1).op ≠ "Sub".toList
        · rw [if_pos c2, if_pos c2]
          rfl
        · rw [if_neg c2, if_neg c2]
          by_cases c3 : (strFind "/add_1".toList (g.heap c).name).isSome = true
          · rw [if_pos c3, if_pos c3]
            by_cases c4 : (strFind "/mul_1".toList (g.heap i0).name).isSome = true ∨
                (strFind "/mul_1".toList (g.heap i1).name).isSome = true
            · rw [if_pos c4, if_pos c4, modify_rename g r c _ (fun _ _ => rfl)]
              rfl
            · rw [if_neg c4, if_neg c4, modify_rename g r c _ (fun _ _ => rfl)]
              rfl
          · rw [if_neg c3, if_neg c3]
            rfl

theorem composedBNNodes_rename (name : Nat → List Char) :
    TFGraph.ofNodes (composedBNNodes name) =
      (composedBNGraph "bn".toList).rename fun a => if a < 14 then name a else [] := by
  refine TFGraph.ext_heap rfl rfl (fun a => ?_)
  by_cases ha : a < 14
  · interval_cases a <;> rfl
  · have e1 : (TFGraph.ofNodes (composedBNNodes name)).heap a = {} :=
      ofNodes_heap_of_le _ a (Nat.le_of_not_lt ha)
    have e0 : (composedBNGraph "bn".toList).heap a = {} :=
      ofNodes_heap_of_le _ a (Nat.le_of_not_lt ha)
    rw [rename_heap, e1, e0, if_neg ha]

theorem composedBN_sameMarks (name : Nat → List Char)
    (hmarks : ∀ a, a < 14 → ∀ pat ∈ bnMarkers,
      (strFind pat (name a)).isSome =
        (strFind pat (composedBNNames "bn".toList a)).isSome) :
    SameMarks (fun a => if a < 14 then name a else []) (composedBNGraph "bn".toList) := by
  intro a pat hp
  by_cases ha : a < 14
  · have h := hmarks a ha pat hp
    simp only [if_pos ha]
    interval_cases a <;> exact h
  · have e0 : (composedBNGraph "bn".toList).heap a = {} :=
      ofNodes_heap_of_le _ a (Nat.le_of_not_lt ha)
    simp only [if_neg ha, e0]

set_option maxRecDepth 100000 in
/-- The expansion of a batch-norm with scale, whatever the names of its nodes,
provided each contains the markers `/mul`, `/mul_1`, `/mul_2`, `/mul2`, `/add_1`
and `/add/y` exactly where the names under the prefix `bn` do:
`CheckComposedBNAdd` accepts `add_1` with variant tag 1, and `FuseComposedBN`
leaves it with op ComposedBN, the first `/add_1` of its name replaced by
`bn.fused`, the inputs `[x, gamma, variance, eps, beta, mean]`, eps flagged, and
the six absorbed nodes without edges. -/
theorem FuseComposedBN_composedBNNodes (name : Nat → List Char)
    (hmarks : ∀ a, a < 14 → ∀ pat ∈ bnMarkers,
      (strFind pat (name a)).isSome =
        (strFind pat (composedBNNames "bn".toList a)).isSome) :
    ∃ g1 g2 pos,
      CheckComposedBNAdd (TFGraph.ofNodes (composedBNNodes name)) 12 = some (true, g1) ∧
      (g1.heap 12).BNAddType = 1 ∧
      FuseComposedBN g1.next g1 12 = some g2 ∧
      (g2.heap 12).op = "ComposedBN".toList ∧
      strFind "/add_1".toList (name 12) = some pos ∧
      (g2.heap 12).name = strReplace (name 12) pos 6 "bn.fused".toList ∧
      (g2.heap 12).inputs = [0, 3, 1, 2, 5, 4] ∧
      (g2.heap 2).no_static_node = true ∧
      ∀ a ∈ [6, 7, 8, 9, 10, 11], (g2.heap a).inputs = [] ∧ (g2.heap a).outputs = [] := by
  have hm := composedBN_sameMarks name hmarks
  have hcheck : CheckComposedBNAdd (composedBNGraph "bn".toList) 12 =
      some (true, (composedBNGraph "bn".toList).modify 12 fun n => { n with BNAddType := 1 }) :=
    rfl
  have hm1 : SameMarks (fun a => if a < 14 then name a else [])
      ((composedBNGraph "bn".toList).modify 12 fun n => { n with BNAddType := 1 }) :=
    sameMarks_modify hm 12 _ (fun _ => rfl)
  obtain ⟨hbn, hnames⟩ := BNRecursiveInputMerge_rename (fun a => if a < 14 then name a else [])
    14 _ 12 hm1
  have hfacts : (BNRecursiveInputMerge 14
      ((composedBNGraph "bn".toList).modify 12 fun n => { n with BNAddType := 1 }) 12).map
        (fun h => ((h.heap 12).inputs,
          [6, 7, 8, 9, 10, 11].map fun a => ((h.heap a).inputs, (h.heap a).outputs))) =
      some ([0, 3, 1, 2, 5, 4], [([], []), ([], []), ([], []), ([], []), ([], []), ([], [])]) := by
    decide
  have hpos : (strFind "/add_1".toList (name 12)).isSome = true :=
    (hmarks 12 (by decide) _ (by decide)).trans (by decide)
  have heps : (strFind "/add/y".toList (name 2)).isSome = true :=
    (hmarks 2 (by decide) _ (by decide)).trans (by decide)
  obtain ⟨pos, hpos⟩ := Option.isSome_iff_exists.mp hpos
  cases hb : BNRecursiveInputMerge 14
      ((composedBNGraph "bn".toList).modify 12 fun n => { n with BNAddType := 1 }) 12 with
  | none => rw [hb] at hfacts; cases hfacts
  | some h0 =>
    rw [hb, Option.map_some', Option.some.injEq, Prod.mk.injEq] at hfacts
    obtain ⟨hin, hedges⟩ := hfacts
    rw [hb, Option.map_some'] at hbn
    have hfuse : FuseComposedBN 14
        (((composedBNGraph "bn".toList).modify 12 fun n => { n with BNAddType := 1 }).rename
          fun a => if a < 14 then name a else []) 12 =
        some ((h0.heap 12).inputs.foldl (fun h node =>
          if (strFind "/add/y".toList (h.heap node).name).isSome then
            h.modify node fun n => { n with no_static_node := true }
          else h)
          (((h0.rename fun a => if a < 14 then name a else []).modify 12 fun n =>
            { n with op := "ComposedBN".toList }).modify 12 fun n =>
              { n with name := strReplace n.name pos 6 "bn.fused".toList })) := by
      unfold FuseComposedBN
      rw [hbn]
      simp only [Option.bind_eq_bind, Option.some_bind, Option.pure_def]
      exact (congrArg (fun o => Option.bind o _) hpos).trans rfl
    refine ⟨((composedBNGraph "bn".toList).modify 12 fun n => { n with BNAddType := 1 }).rename
      fun a => if a < 14 then name a else [], _, pos, ?_, rfl, hfuse, ?_, hpos, ?_, ?_, ?_, ?_⟩
    · rw [composedBNNodes_rename, CheckComposedBNAdd_rename _ _ _ hm, hcheck]
      rfl
    · rw [foldl_flag_heap]
      split <;> rfl
    · rw [foldl_flag_heap]
      split <;> rfl
    · rw [foldl_flag_heap]
      split <;> exact hin
    · rw [foldl_flag_heap, if_pos ⟨by rw [hin]; decide, heps⟩]
    · intro a ha
      have e : ((h0.heap a).inputs, (h0.heap a).outputs) = ([], []) := by
        simp only [List.map_cons, List.map_nil, List.cons.injEq, and_true] at hedges
        simp only [List.mem_cons, List.mem_singleton, List.not_mem_nil, or_false] at ha
        rcases ha with rfl | rfl | rfl | rfl | rfl | rfl
        · exact hedges.1
        · exact hedges.2.1
        · exact hedges.2.2.1
        · exact hedges.2.2.2.1
        · exact hedges.2.2.2.2.1
        · exact hedges.2.2.2.2.2
      rw [Prod.mk.injEq] at e
      have hne : a ≠ 12 := by
        simp only [List.mem_cons, List.mem_singleton, List.not_mem_nil, or_false] at ha
        omega
      rw [foldl_flag_heap]
      have hh : ∀ (f1 f2 : TFNode → TFNode),
          ((((h0.rename fun a => if a < 14 then name a else []).modify 12 f1).modify 12 f2).heap
            a) = { h0.heap a with name := if a < 14 then name a else [] } := by
        intro f1 f2
        simp only [TFGraph.modify, if_neg hne, TFGraph.rename]
      rw [hh, apply_ite TFNode.inputs, apply_ite TFNode.outputs]
      simp only [ite_self]
      exact ⟨e.1, e.2⟩

/-! ## The axis of a concatenation -/

theorem concatInputs_defined (g : TFGraph) (node : Nat) :
    ∀ (l : List Nat) (graph : StaticGraph),
      (∀ i ∈ l, (g.heap i).static_tensor ≠ none) →
      ∃ s1, concatInputs g node l graph = some s1 ∧ s1.op_list = graph.op_list := by
  intro l
  induction l with
  | nil => exact fun graph _ => ⟨graph, rfl, rfl⟩
  | cons i rest ih =>
    intro graph h
    cases ht : (g.heap i).static_tensor with
    | none => exact absurd ht (h i (List.mem_cons_self i rest))
    | some t =>
      obtain ⟨s1, h1, h2⟩ := ih (AddNodeInputTensor graph node t)
        (fun j hj => h j (List.mem_cons_of_mem i hj))
      refine ⟨s1, ?_, h2⟩
      rw [concatInputs, ht]
      exact h1

/-- The operator `LoadConcat` creates: when the node has its handle, its inputs
have their tensors and the packed `int_val` of the attribute `value` of its
second definition starts with `a`, an entry of the table, the call succeeds and
the new operator `Concat` carries the axis `nhwc_axis_swap[a]`. -/
theorem LoadConcat_axis (tf_net : GraphDef) (def_param : ConcatParam) (g : TFGraph)
    (sg : StaticGraph) (c node : Nat) (axis_def : NodeDef) (value : AttrValue)
    (a k : Int) (rest : List Int)
    (hnode : (g.heap c).static_node = some node)
    (hinp : ∀ i ∈ (g.heap c).inputs, (g.heap i).static_tensor ≠ none)
    (hdef : pbDef tf_net (g.heap c) 1 = some axis_def)
    (hval : GetAttrValue axis_def "value".toList = some value)
    (hint : (value.tensor.getD {}).int_val = a :: rest)
    (hk : readAt (some nhwc_axis_swap) a = some k) :
    ∃ sg1, LoadConcat tf_net def_param c g sg = some (true, sg1) ∧
      sg1.op_list[sg.op_list.length]? =
        some { name := "Concat".toList, param := OpParam.concat { def_param with axis := k } } := by
  obtain ⟨s1, h1, h2⟩ := concatInputs_defined g node (g.heap c).inputs sg hinp
  have hax : concatAxis axis_def def_param = some { def_param with axis := k } := by
    unfold concatAxis
    rw [hval]
    simp only [hint, List.getElem?_cons_zero, hk, Option.map_some']
  unfold LoadConcat
  simp only [hnode, h1, hdef, Option.some_bind, hax]
  refine ⟨_, rfl, ?_⟩
  simp [SetNodeOp, SetOperatorParam, CreateStaticOp, StaticGraph.setNode,
    List.getElem?_modify, h2]

/-- C39, counterexample: for the rank-4 shape `[2^32 + 1, 224, 224, 3]` and the
axis `0`, the table gives `nhwc_axis_swap[0] = 0`, and the entry `CreateInputNode`
places at index `0` of the dims is `1`, not the size `2^32 + 1` the shape holds
at index `0`. -/
theorem C39_counterexample :
    nhwc_axis_swap[0]? = some 0 ∧
    (wideInputNet[0]?.bind fun r => GetAttrValue r "shape".toList).map (fun v => v.shape) =
      some [4294967297, 224, 224, 3] ∧
    (CreateInputNode wideInputNet shapedInputGraph 0 {}).map
      (fun r => (r.2.dimsOf 0).bind fun dims => dims[0]?) = some (some 1) := by
  refine ⟨by decide, by decide, by decide⟩

/-- C39, amended: for every rank-4 shape `[d0, d1, d2, d3]` with sizes within the
range of `int` and every axis `a < 4`: `CreateInputNode`, called for a Placeholder
with this shape attribute, sets dims, and `LoadConcat`, called for a node whose
axis record holds the packed value `a`, creates the operator `Concat` with the
axis `k = nhwc_axis_swap[a]`; the dims hold at index `k` the size the shape holds
at index `a`. The other hypotheses say that the concatenation has its handle and
its inputs their tensors. -/
theorem C39_concat_axis_inverts_permutation (tf_net : GraphDef) (def_param : ConcatParam)
    (g g2 : TFGraph) (sg sg2 : StaticGraph) (p c j node : Nat)
    (shape_def axis_def : NodeDef) (shape value : AttrValue)
    (d0 d1 d2 d3 : Int) (a : Nat) (rest : List Int)
    (hp : (g.heap p).pb_defs = [j]) (hj : tf_net[j]? = some shape_def)
    (hs : GetAttrValue shape_def "shape".toList = some shape)
    (hsh : shape.shape = [d0, d1, d2, d3])
    (hsize : InInt d0 ∧ InInt d1 ∧ InInt d2 ∧ InInt d3)
    (hnode : (g2.heap c).static_node = some node)
    (hinp : ∀ i ∈ (g2.heap c).inputs, (g2.heap i).static_tensor ≠ none)
    (hdef : pbDef tf_net (g2.heap c) 1 = some axis_def)
    (hval : GetAttrValue axis_def "value".toList = some value)
    (hint : (value.tensor.getD {}).int_val = (a : Int) :: rest)
    (ha : a < 4) :
    ∃ g1 sg1 t dims sg3 k,
      CreateInputNode tf_net g p sg = some (g1, sg1) ∧
      (g1.heap p).static_tensor = some t ∧ sg1.dimsOf t = some dims ∧
      LoadConcat tf_net def_param c g2 sg2 = some (true, sg3) ∧
      sg3.op_list[sg2.op_list.length]? =
        some { name := "Concat".toList,
               param := OpParam.concat { def_param with axis := (k : Nat) } } ∧
      nhwc_axis_swap[a]? = some (k : Int) ∧
      dims[k]? = [d0, d1, d2, d3][a]? := by
  obtain ⟨g1, sg1, t, h1, h2, h3⟩ :=
    CreateInputNode_shape_dims tf_net g p sg j shape_def shape hp hj hs
  have hdims : sg1.dimsOf t = some [d0, d3, d1, d2] := by
    rw [h3, hsh]
    show some [toInt d0, toInt d3, toInt d1, toInt d2] = _
    rw [toInt_of_inInt d0 hsize.1, toInt_of_inInt d1 hsize.2.1,
      toInt_of_inInt d2 hsize.2.2.1, toInt_of_inInt d3 hsize.2.2.2]
  have key : ∀ k : Nat, readAt (some nhwc_axis_swap) (a : Int) = some (k : Int) →
      ∃ sg3, LoadConcat tf_net def_param c g2 sg2 = some (true, sg3) ∧
        sg3.op_list[sg2.op_list.length]? =
          some { name := "Concat".toList,
                 param := OpParam.concat { def_param with axis := (k : Nat) } } :=
    fun k hk => LoadConcat_axis tf_net def_param g2 sg2 c node axis_def value a k rest
      hnode hinp hdef hval hint hk
  interval_cases a
  · obtain ⟨sg3, e1, e2⟩ := key 0 rfl
    exact ⟨g1, sg1, t, _, sg3, 0, h1, h2, hdims, e1, e2, rfl, rfl⟩
  · obtain ⟨sg3, e1, e2⟩ := key 2 rfl
    exact ⟨g1, sg1, t, _, sg3, 2, h1, h2, hdims, e1, e2, rfl, rfl⟩
  · obtain ⟨sg3, e1, e2⟩ := key 3 rfl
    exact ⟨g1, sg1, t, _, sg3, 3, h1, h2, hdims, e1, e2, rfl, rfl⟩
  · obtain ⟨sg3, e1, e2⟩ := key 1 rfl
    exact ⟨g1, sg1, t, _, sg3, 1, h1, h2, hdims, e1, e2, rfl, rfl⟩

/-- C39 on the Placeholder of shape `[1, 224, 224, 3]` and the concatenation along
the channel axis 3 of `concatNet`: the operator gets the axis 1, and the dims
`[1, 3, 224, 224]` hold the size 3 at index 1. -/
theorem C39_concat_axis_inverts_permutation_witness :
    ∃ g1 sg1 t dims sg3 k,
      CreateInputNode concatNet concatGraph 0 {} = some (g1, sg1) ∧
      (g1.heap 0).static_tensor = some t ∧ sg1.dimsOf t = some dims ∧
      LoadConcat concatNet {} 2 concatGraph concatTarget = some (true, sg3) ∧
      sg3.op_list[concatTarget.op_list.length]? =
        some { name := "Concat".toList,
               param := OpParam.concat { ({} : ConcatParam) with axis := (k : Nat) } } ∧
      nhwc_axis_swap[3]? = some (k : Int) ∧
      dims[k]? = [(1 : Int), 224, 224, 3][3]? :=
  C39_concat_axis_inverts_permutation concatNet {} concatGraph concatGraph {} concatTarget
    0 2 0 2 _ _ { shape := [1, 224, 224, 3] }
    { tensor := some { dtype := DataType.DT_INT32, int_val := [3] } } 1 224 224 3 3 []
    rfl rfl rfl rfl (by decide) rfl (by decide) rfl rfl rfl (by decide)

/-! ## Merges: multiplicities and operand positions -/

/-- C35: in a graph in which `B` occurs in `A.outputs` as many times as `A`
occurs in `B.inputs`, for all `A` and `B`, when `x` is not its own input and
occurs exactly once in `base.inputs`, `MergeParentNode(base, x)` returns a graph
with the same property; and when `x` is not its own output and occurs exactly
once in `base.outputs`, so does `MergeChildNode(base, x)`. -/
theorem C35_merges_keep_multiplicities (g : TFGraph) (base x : Nat) (hsym : CountSym g) :
    ((g.heap base).inputs.count x = 1 → x ∉ (g.heap x).inputs →
      ∃ g', MergeParentNode g base x = some g' ∧ CountSym g') ∧
    ((g.heap base).outputs.count x = 1 → x ∉ (g.heap x).outputs →
      ∃ g', MergeChildNode g base x = some g' ∧ CountSym g') :=
  ⟨fun h1 h2 => MergeParentNode_countSym g base x hsym h1 h2,
    fun h1 h2 => MergeChildNode_countSym g base x hsym h1 h2⟩

/-- C35 on the chain Placeholder, Identity, Identity, Relu: the second Identity
absorbs the first as its parent, and absorbs the Relu as its child. -/
theorem C35_merges_keep_multiplicities_witness :
    CountSym identityChainGraph ∧
    (∃ g', MergeParentNode identityChainGraph 2 1 = some g' ∧ CountSym g') ∧
    (∃ g', MergeChildNode identityChainGraph 2 3 = some g' ∧ CountSym g') :=
  ⟨countSym_ofNodes _ (by decide) (by decide),
    (C35_merges_keep_multiplicities identityChainGraph 2 1
      (countSym_ofNodes _ (by decide) (by decide))).1 (by decide) (by decide),
    (C35_merges_keep_multiplicities identityChainGraph 2 3
      (countSym_ofNodes _ (by decide) (by decide))).2 (by decide) (by decide)⟩

/-- C36, as stated, fails. In `twiceReadChildGraph`, symmetric as to membership,
node 2 reads the child twice and keeps it at the second position after
`MergeChildNode(0, 1)`; in `twiceReadParentGraph` node 2 keeps the parent at the
second position after `MergeParentNode(1, 0)`. In `selfReadingChildGraph`,
symmetric with multiplicities, the child is a consumer of itself and ends
without inputs. -/
theorem C36_counterexample :
    (EdgeSym twiceReadChildGraph ∧ (twiceReadChildGraph.heap 2).inputs = [1, 1] ∧
      (MergeChildNode twiceReadChildGraph 0 1).map (fun g => (g.heap 2).inputs) =
        some [0, 1]) ∧
    (EdgeSym twiceReadParentGraph ∧ (twiceReadParentGraph.heap 2).inputs = [0, 0] ∧
      (MergeParentNode twiceReadParentGraph 1 0).map (fun g => (g.heap 2).inputs) =
        some [1, 0]) ∧
    (CountSym selfReadingChildGraph ∧ (selfReadingChildGraph.heap 1).inputs = [0, 1] ∧
      (MergeChildNode selfReadingChildGraph 0 1).map (fun g => (g.heap 1).inputs) =
        some []) :=
  ⟨⟨edgeSym_ofNodes _ (by decide) (by decide), by decide, by decide⟩,
    ⟨edgeSym_ofNodes _ (by decide) (by decide), by decide, by decide⟩,
    ⟨countSym_ofNodes _ (by decide) (by decide), by decide, by decide⟩⟩

/-- C36, amended: in a graph that is edge-symmetric with multiplicities, for two
different nodes `base` and `x`: when `x` is an output of `base`,
`MergeChildNode(base, x)` leaves every node other than `x` with `base` at each
position of its input list where `x` stood and its other inputs as they were,
followed, for `base` only, by inputs taken over from `x`; when `x` is an input
of `base`, `MergeParentNode(base, x)` leaves every node other than `base` and `x`
with `base` at each position where `x` stood and its other inputs as they
were. -/
theorem C36_merge_keeps_operand_positions (g : TFGraph) (base x : Nat) (hsym : CountSym g)
    (hne : base ≠ x) :
    (x ∈ (g.heap base).outputs →
      ∃ g', MergeChildNode g base x = some g' ∧
        ∀ D, D ≠ x → ∃ extra,
          (g'.heap D).inputs =
            ((g.heap D).inputs.map fun y => if y = x then base else y) ++ extra ∧
          (D ≠ base → extra = [])) ∧
    (x ∈ (g.heap base).inputs →
      ∃ g', MergeParentNode g base x = some g' ∧
        ∀ D, D ≠ base → D ≠ x →
          (g'.heap D).inputs = (g.heap D).inputs.map fun y => if y = x then base else y) := by
  have hxb : x ≠ base := fun e => hne e.symm
  constructor
  · intro hmem
    obtain ⟨g', e, -, -, hh⟩ := MergeChildNode_closed g base x hne hmem
    refine ⟨g', e, ?_⟩
    intro D hDx
    by_cases hDb : D = base
    · subst hDb
      refine ⟨((replaceFirst x D)^[(g.heap x).outputs.count x] (g.heap x).inputs).filter
        fun y => y ≠ D, ?_, fun h => absurd rfl h⟩
      rw [hh D, if_neg hDx, if_pos rfl]
      simp only
      rw [iterate_replaceFirst_all x D hxb _ _ (by rw [hsym x D])]
    · refine ⟨[], ?_, fun _ => rfl⟩
      rw [hh D, if_neg hDx, if_neg hDb, List.append_nil]
      simp only
      exact iterate_replaceFirst_all x base hxb _ _ (by rw [hsym x D])
  · intro hmem
    obtain ⟨g', e, -, -, hh⟩ := MergeParentNode_closed g base x hne hmem
    refine ⟨g', e, ?_⟩
    intro D hDb hDx
    rw [hh D, if_neg hDx, if_neg hDb]
    simp only
    refine iterate_replaceFirst_all x base hxb _ _ ?_
    rw [count_iterate_replaceFirst_other x base D hDx hDb, hsym x D]

/-- C36 on the chain Placeholder, Identity, Identity, Relu, where the Relu reads
the first Identity after it has absorbed the second as its child, and on
`chainGraph`, where node 3, the other consumer of node 1, reads node 2 after
node 2 has absorbed node 1 as its parent. -/
theorem C36_merge_keeps_operand_positions_witness :
    CountSym identityChainGraph ∧ CountSym chainGraph ∧
    (∃ g', MergeChildNode identityChainGraph 1 2 = some g' ∧ (g'.heap 3).inputs = [1]) ∧
    (∃ g', MergeParentNode chainGraph 2 1 = some g' ∧ (g'.heap 3).inputs = [2]) := by
  have hsym : CountSym identityChainGraph := countSym_ofNodes _ (by decide) (by decide)
  refine ⟨hsym, countSym_chainGraph, ?_, ?_⟩
  · obtain ⟨g', e, h⟩ := (C36_merge_keeps_operand_positions identityChainGraph 1 2 hsym
      (by decide)).1 (by decide)
    obtain ⟨extra, h1, h2⟩ := h 3 (by decide)
    refine ⟨g', e, ?_⟩
    rw [h1, h2 (by decide)]
    decide
  · obtain ⟨g', e, h⟩ := (C36_merge_keeps_operand_positions chainGraph 2 1
      countSym_chainGraph (by decide)).2 (by decide)
    refine ⟨g', e, ?_⟩
    rw [h 3 (by decide) (by decide)]
    decide

/-! ## The batch-norm detection after the bias-add fusion -/

/-- On an Add node without inputs `CheckComposedBNAdd` reads `inputs[0]` outside
the list. -/
theorem CheckComposedBNAdd_no_input (g : TFGraph) (c : Nat)
    (hop : (g.heap c).op = "Add".toList) (hin : (g.heap c).inputs = []) :
    CheckComposedBNAdd g c = none := by
  unfold CheckComposedBNAdd
  rw [if_neg (not_not.mpr hop), hin]
  rfl

/-- On a node with at least two inputs both reads of `CheckComposedBNAdd` are
inside the list, and so they are on every node whose op is not Add, which is
not read at all. -/
theorem CheckComposedBNAdd_defined (g : TFGraph) (c : Nat)
    (h : (g.heap c).op ≠ "Add".toList ∨ 2 ≤ (g.heap c).inputs.length) :
    ∃ r, CheckComposedBNAdd g c = some r := by
  unfold CheckComposedBNAdd
  by_cases hop : (g.heap c).op ≠ "Add".toList
  · rw [if_pos hop]
    exact ⟨_, rfl⟩
  · rw [if_neg hop]
    have hl : 2 ≤ (g.heap c).inputs.length := h.resolve_left hop
    obtain ⟨i0, h0⟩ : ∃ i0, (g.heap c).inputs[0]? = some i0 :=
      ⟨_, List.getElem?_eq_getElem (by omega)⟩
    obtain ⟨i1, h1⟩ : ∃ i1, (g.heap c).inputs[1]? = some i1 :=
      ⟨_, List.getElem?_eq_getElem (by omega)⟩
    simp only [h0, h1, Option.bind_eq_bind, Option.some_bind]
    split
    · exact ⟨_, rfl⟩
    · split
      · split <;> exact ⟨_, rfl⟩
      · exact ⟨_, rfl⟩

/-- C37, divergence: `denseAddGraph` is edge-symmetric with multiplicities and
its Add node has two inputs. The bias-add fusion merges the Add into the MatMul
and leaves it in the sequence, with the op Add and an empty input list; the
batch-norm detection then reaches it and reads `inputs[0]` of the empty list, so
that `OptimizeGraph` has no defined result. -/
theorem C37_emptied_add_is_inspected :
    CountSym denseAddGraph ∧
    (∀ a ∈ denseAddGraph.seq_nodes, (denseAddGraph.heap a).op = "Add".toList →
      (denseAddGraph.heap a).inputs.length = 2) ∧
    (∃ g5, optimizeFusions denseAddGraph = some g5 ∧ 4 ∈ g5.seq_nodes ∧
      (g5.heap 4).op = "Add".toList ∧ (g5.heap 4).inputs = [] ∧
      (g5.heap 2).inputs = [0, 1, 3] ∧
      CheckComposedBNAdd g5 4 = none) ∧
    OptimizeGraph denseAddGraph = none := by
  refine ⟨countSym_ofNodes _ (by decide) (by decide), by decide, ?_, rfl⟩
  have hf : (optimizeFusions denseAddGraph).map (fun g5 =>
      (g5.seq_nodes, (g5.heap 4).op, (g5.heap 4).inputs, (g5.heap 2).inputs)) =
      some ([0, 1, 2, 3, 4, 5], "Add".toList, [], [0, 1, 3]) := by decide
  cases h : optimizeFusions denseAddGraph with
  | none => rw [h] at hf; cases hf
  | some g5 =>
    rw [h, Option.map_some', Option.some.injEq, Prod.mk.injEq, Prod.mk.injEq,
      Prod.mk.injEq] at hf
    obtain ⟨h1, h2, h3, h4⟩ := hf
    exact ⟨g5, rfl, by rw [h1]; decide, h2, h3, h4, CheckComposedBNAdd_no_input g5 4 h2 h3⟩

/-! ## The weights of a depthwise convolution -/

theorem weightDims_depthwise (weight_def : NodeDef) (value : AttrValue) (d0 d1 d2 d3 : Int)
    (hval : GetAttrValue weight_def "value".toList = some value)
    (hshape : (value.tensor.getD {}).tensor_shape = [d0, d1, d2, d3]) :
    weightDims weight_def "DepthwiseConv2dNative".toList
      = { kernel_h := toInt d0, kernel_w := toInt d1, in_channel := 1,
          out_channel := toInt (toInt d2 * toInt d3), group := toInt d2 } := by
  unfold weightDims
  simp only [hval, hshape]
  rfl

theorem loopDims_depthwise (H W C M : Nat) (hC : 0 < C)
    (hfit : M * C * H * W ≤ 2147483647) :
    loopDims { kernel_h := H, kernel_w := W, in_channel := 1, out_channel := (C : Int) * M,
               group := C } "DepthwiseConv2dNative".toList =
      some { kernel_h := H, kernel_w := W, in_channel := C, out_channel := M, group := C } := by
  have hC0 : ¬ ((C : Int) = 0) := by omega
  have hdiv : Int.tdiv ((C : Int) * M) C = M := by
    rw [Int.mul_comm]
    exact Int.mul_tdiv_cancel _ hC0
  unfold loopDims
  simp only [if_true]
  rw [if_neg (by
    rintro (h | ⟨-, h⟩)
    · exact hC0 h
    · omega), Option.some_bind, hdiv]
  rw [if_pos (Or.inr (weightWrites_fit M C H W C hfit))]

/-- For a DepthwiseConv2dNative node whose weight tensor has the shape
`[H, W, C, M]` with `C > 0`, with the sizes, the product `C*M` and the element
count at most `2^31 - 1`, and a buffer `old` of `H*W*C*M` elements,
`LoadConv2D` succeeds, sets the dims of the weight tensor to `[C*M, 1, H, W]`,
gives the operator `group = C` and `output_channel = C*M`, and replaces the
buffer by `new` with `new[((m*C+c)*H+h)*W+w] = old[((h*W+w)*C+c)*M+m]`: the
filter of input channel `c` and multiplier `m` is stored as output channel
`m*C + c`. -/
theorem LoadConv2D_depthwise (tf_net : GraphDef) (def_param : ConvParam)
    (g : TFGraph) (sg : StaticGraph) (a input0 input1 : Nat) (rest : List Nat)
    (node t0 wt : Nat) (node_def weight_def : NodeDef) (attrs : ConvParam)
    (pads : Option (List Int)) (value : AttrValue) (H W C M : Nat) (old : List Int)
    (hop : (g.heap a).op = "DepthwiseConv2dNative".toList)
    (hin : (g.heap a).inputs = input0 :: input1 :: rest)
    (hrest : rest = [] ∨
      ∃ input2 t2, rest.head? = some input2 ∧ (g.heap input2).static_tensor = some t2)
    (hnode : (g.heap a).static_node = some node)
    (ht0 : (g.heap input0).static_tensor = some t0)
    (ht1 : (g.heap input1).static_tensor = some wt)
    (hdef : pbDef tf_net (g.heap a) 0 = some node_def)
    (hattr : convAttributes node_def def_param = some attrs)
    (hpads : mergedPads tf_net (g.heap a) = some pads)
    (hwd : pbDef tf_net (g.heap input1) 0 = some weight_def)
    (hval : GetAttrValue weight_def "value".toList = some value)
    (hshape : (value.tensor.getD {}).tensor_shape = [(H : Int), W, C, M])
    (hC : 0 < C)
    (hsize : H ≤ 2147483647 ∧ W ≤ 2147483647 ∧ C ≤ 2147483647 ∧ M ≤ 2147483647)
    (hCM : C * M ≤ 2147483647)
    (hfit : H * W * C * M ≤ 2147483647)
    (hbuf : GetConstTensorBuffer sg wt = some old)
    (hlen : old.length = H * W * C * M) :
    ∃ sg1 new p, LoadConv2D tf_net def_param a g sg = some (true, sg1) ∧
      sg1.dimsOf wt = some [(C : Int) * M, 1, H, W] ∧
      sg1.convParamOf sg.op_list.length = some p ∧
      p.group = C ∧ p.output_channel = (C : Int) * M ∧
      GetConstTensorBuffer sg1 wt = some new ∧
      (∀ m c h w, m < M → c < C → h < H → w < W →
        new[oihwIndex C H W m c h w]? = old[hwioIndex W C M m c h w]?) ∧
      new.Perm old := by
  obtain ⟨s1, hs1, hts, hos⟩ :=
    convInputs_defined g (g.heap a) sg input0 input1 rest node t0 wt hin hrest hnode ht0 ht1
  obtain ⟨new, hnew, hidx, hperm⟩ := transposed_buffer M C H W old hlen
  have hdims := weightDims_depthwise weight_def value H W C M hval hshape
  rw [toInt_natCast H hsize.1, toInt_natCast W hsize.2.1, toInt_natCast C hsize.2.2.1,
    toInt_natCast M hsize.2.2.2,
    show (C : Int) * M = ((C * M : Nat) : Int) by push_cast; rfl, toInt_natCast _ hCM,
    show ((C * M : Nat) : Int) = (C : Int) * M by push_cast; rfl] at hdims
  have hloop := loopDims_depthwise H W C M hC
    (by rw [show M * C * H * W = H * W * C * M by ring]; exact hfit)
  obtain ⟨T, hT, hTm⟩ : ∃ T, s1.tensor_list[wt]? = some T ∧ T.mem_addr = some old := by
    unfold GetConstTensorBuffer at hbuf
    rw [hts]
    cases hq : sg.tensor_list[wt]? with
    | none => rw [hq] at hbuf; cases hbuf
    | some T => rw [hq] at hbuf; exact ⟨T, rfl, hbuf⟩
  have hsrc : ∀ (p : OpParam) (l : List Char) (d : List Int),
      GetConstTensorBuffer (SetNodeOp (SetOperatorParam
        (CreateStaticOp (SetTensorDataLayout (SetTensorDim s1 wt d) wt l)
          "Convolution".toList).2 s1.op_list.length p) node s1.op_list.length) wt
        = some old := by
    intro p l d
    simp [GetConstTensorBuffer, SetNodeOp, SetOperatorParam, CreateStaticOp,
      SetTensorDataLayout, SetTensorDim, StaticGraph.setNode, StaticGraph.setTensor,
      List.getElem?_modify, hT, hTm]
  unfold LoadConv2D
  simp only [hs1, hdef, Option.some_bind, hattr, hin, List.getElem?_cons_succ,
    List.getElem?_cons_zero, hwd, hop, hdims, hloop]
  have hops : (CreateStaticOp (SetTensorDataLayout
      (SetTensorDim s1 wt [(C : Int) * M, 1, H, W]) wt "NCHW".toList) "Convolution".toList).1
      = s1.op_list.length := rfl
  simp only [hops, hsrc, hnew, hpads]
  rw [← hos]
  cases pads with
  | none =>
    have hp : ∃ p : ConvParam, p =
        { attrs with kernel_h := H, kernel_w := W, output_channel := (C : Int) * M, group := C } :=
      ⟨_, rfl⟩
    obtain ⟨p, hp⟩ := hp
    refine ⟨_, new, p, rfl, ?_, ?_, by rw [hp], by rw [hp], ?_, hidx, hperm⟩
    · simp [StaticGraph.dimsOf, SetConstTensorBuffer, SetNodeOp, SetOperatorParam,
        CreateStaticOp, SetTensorDataLayout, SetTensorDim, StaticGraph.setNode,
        StaticGraph.setTensor, List.getElem?_modify, hT]
    · simp [StaticGraph.convParamOf, SetConstTensorBuffer, SetNodeOp, SetOperatorParam,
        CreateStaticOp, SetTensorDataLayout, SetTensorDim, StaticGraph.setNode,
        StaticGraph.setTensor, List.getElem?_modify, hp]
    · simp [GetConstTensorBuffer, SetConstTensorBuffer, SetNodeOp, SetOperatorParam,
        CreateStaticOp, SetTensorDataLayout, SetTensorDim, StaticGraph.setNode,
        StaticGraph.setTensor, List.getElem?_modify, hT]
  | some q =>
    have hp : ∃ p : ConvParam, p =
        { attrs with kernel_h := H, kernel_w := W, output_channel := (C : Int) * M, group := C,
                     pads := q } :=
      ⟨_, rfl⟩
    obtain ⟨p, hp⟩ := hp
    refine ⟨_, new, p, rfl, ?_, ?_, by rw [hp], by rw [hp], ?_, hidx, hperm⟩
    · simp [StaticGraph.dimsOf, SetConstTensorBuffer, SetNodeOp, SetOperatorParam,
        CreateStaticOp, SetTensorDataLayout, SetTensorDim, StaticGraph.setNode,
        StaticGraph.setTensor, List.getElem?_modify, hT]
    · simp [StaticGraph.convParamOf, SetConstTensorBuffer, SetNodeOp, SetOperatorParam,
        CreateStaticOp, SetTensorDataLayout, SetTensorDim, StaticGraph.setNode,
        StaticGraph.setTensor, List.getElem?_modify, hp]
    · simp [GetConstTensorBuffer, SetConstTensorBuffer, SetNodeOp, SetOperatorParam,
        CreateStaticOp, SetTensorDataLayout, SetTensorDim, StaticGraph.setNode,
        StaticGraph.setTensor, List.getElem?_modify, hT]

/-- C38, divergence: on a DepthwiseConv2dNative with weights of shape
`[1, 1, 2, 2]` (`C = 2`, `M = 2`) and source buffer `[10, 11, 20, 21]`, where the
filter of channel `c` and multiplier `m` is `old[c*2 + m]`, `LoadConv2D` sets
`group = 2`, `output_channel = 4` and the dims `[4, 1, 1, 1]` as claimed, and
stores `[10, 20, 11, 21]`: output channel 1, which belongs to group 0 and
should hold the filter of channel 0 and multiplier 1 (the value 11), holds the
filter of channel 1 and multiplier 0, and output channel 2 of group 1 holds the
filter of channel 0. -/
theorem C38_multiplier_major_order :
    (LoadConv2D depthwiseNet {} 2 depthwiseGraph depthwiseTarget).map (fun r =>
      (r.1, r.2.dimsOf 1, (r.2.convParamOf 0).map (fun p => (p.group, p.output_channel)),
        GetConstTensorBuffer r.2 1)) =
      some (true, some [4, 1, 1, 1], some (2, 4), some [10, 20, 11, 21]) ∧
    ([(10 : Int), 20, 11, 21][oihwIndex 1 1 1 (0 * 2 + 1) 0 0 0]? ≠
      [(10 : Int), 11, 20, 21][hwioIndex 1 2 2 1 0 0 0]?) := by
  constructor
  · decide
  · decide

/-! ## The detection of a recurrent scope -/

theorem strFind_prefix (pat : List Char) :
    ∀ (s : List Char) (k : Nat), strFind pat s = some k → pat <+: s.drop k := by
  intro s
  induction s with
  | nil =>
    intro k h
    simp only [strFind] at h
    split at h
    · rename_i hp
      subst hp
      exact List.nil_prefix
    · cases h
  | cons c cs ih =>
    intro k h
    rw [strFind] at h
    split at h
    · rename_i hp
      cases h
      exact List.isPrefixOf_iff_prefix.mp hp
    · obtain ⟨j, hj, rfl⟩ := Option.map_eq_some'.mp h
      exact ih j hj

theorem strFind_isSome_of_prefix (pat : List Char) :
    ∀ (s : List Char) (k : Nat), pat <+: s.drop k → (strFind pat s).isSome = true := by
  intro s
  induction s with
  | nil =>
    intro k h
    rw [List.drop_nil, List.prefix_nil] at h
    subst h
    rfl
  | cons c cs ih =>
    intro k h
    rw [strFind]
    split
    · rfl
    · rename_i hp
      cases k with
      | zero => exact absurd (List.isPrefixOf_iff_prefix.mpr h) hp
      | succ j =>
        rw [Option.isSome_map']
        exact ih j h

/-- A string that contains `p ++ q` contains `q`. -/
theorem strFind_isSome_append (p q s : List Char) (h : (strFind (p ++ q) s).isSome = true) :
    (strFind q s).isSome = true := by
  obtain ⟨k, hk⟩ := Option.isSome_iff_exists.mp h
  obtain ⟨t, ht⟩ := strFind_prefix (p ++ q) s k hk
  refine strFind_isSome_of_prefix q s (k + p.length) ?_
  rw [← List.drop_drop, ← ht, List.append_assoc, List.drop_left]
  exact List.prefix_append q t

theorem strFindFrom_isSome_append (p q s : List Char) (pos : Nat)
    (h : (strFindFrom (p ++ q) pos s).isSome = true) : (strFindFrom q pos s).isSome = true := by
  unfold strFindFrom at h ⊢
  split
  · rename_i hpos
    rw [if_pos hpos, Option.isSome_map'] at h
    rw [Option.isSome_map']
    exact strFind_isSome_append p q _ h
  · rename_i hpos
    rw [if_neg hpos] at h
    cases h

/-- The third test of the loop of `FindRNNScope` is never reached with a name
that passes it: such a name passes the first test. -/
theorem rnnMarker_ne_basic (name : List Char) (r : Nat × RNNType)
    (h : rnnMarker name = some r) : r.2 ≠ RNNType.TF_RNN_BASIC_LSTM := by
  unfold rnnMarker at h
  split at h
  · cases h
  · rename_i while_pos _
    split at h
    · cases h
      exact fun e => RNNType.noConfusion e
    · rename_i h1
      split at h
      · cases h
        exact fun e => RNNType.noConfusion e
      · split at h
        · rename_i h3
          exact absurd (strFindFrom_isSome_append "basic_".toList "lstm_cell".toList name
            while_pos h3) h1
        · cases h

/-- `FindRNNScope` never returns `TF_RNN_BASIC_LSTM`. -/
theorem FindRNNScope_ne_basic (g : TFGraph) (rnn_scope : List Char) :
    (FindRNNScope g rnn_scope).1 ≠ some RNNType.TF_RNN_BASIC_LSTM := by
  unfold FindRNNScope
  split
  · exact fun e => Option.noConfusion e
  · rename_i rnn_node while_pos rnn_type hfind
    split
    · exact fun e => Option.noConfusion e
    · obtain ⟨node, -, hnode⟩ := List.exists_of_findSome?_eq_some hfind
      obtain ⟨r, hr, he⟩ := Option.map_eq_some'.mp hnode
      rw [Prod.mk.injEq] at he
      have h2 := rnnMarker_ne_basic _ r hr
      rw [he.2] at h2
      intro e
      exact h2 (Option.some.inj e)

/-- When no name of the sequence carries both markers, `FindRNNScope` returns
`-1` and leaves `rnn_scope` as it was. -/
theorem FindRNNScope_none (g : TFGraph) (rnn_scope : List Char)
    (h : ∀ a ∈ g.seq_nodes, rnnMarker (g.heap a).name = none) :
    FindRNNScope g rnn_scope = (none, rnn_scope) := by
  unfold FindRNNScope
  have e : (g.seq_nodes.findSome? fun node =>
      (rnnMarker (g.heap node).name).map fun r => ((g.heap node).name, r)) = none := by
    rw [List.findSome?_eq_none_iff]
    intro a ha
    rw [h a ha]
    rfl
  rw [e]

/-- C32, divergence: the loop of `FindRNNScope` tests `lstm_cell` before
`basic_lstm_cell`. On `basicCellGraph`, whose cell node is named
`net/rnn/while/basic_lstm_cell/MatMul`, it returns `TF_RNN_LSTM` (with the scope
`net/`), not `TF_RNN_BASIC_LSTM`. The other kinds are told apart as claimed: the
cell of `lstmLayerGraph` is reported as `TF_RNN_LSTM`, that of
`topLevelLoopGraph` as `TF_RNN_GRU`, and on a graph without marked names the
result is `-1` with the scope left empty. -/
theorem C32_basic_cell_reported_as_lstm :
    rnnMarker "net/rnn/while/basic_lstm_cell/MatMul".toList =
      some (8, RNNType.TF_RNN_LSTM) ∧
    FindRNNScope basicCellGraph [] = (some RNNType.TF_RNN_LSTM, "net/".toList) ∧
    FindRNNScope lstmLayerGraph [] = (some RNNType.TF_RNN_LSTM, "model/".toList) ∧
    (FindRNNScope topLevelLoopGraph []).1 = some RNNType.TF_RNN_GRU ∧
    FindRNNScope identityChainGraph [] = (none, []) := by
  decide

/-! ## The slots of a composite LSTM node -/

theorem strFind_none_of_short (pat : List Char) :
    ∀ s : List Char, s.length < pat.length → strFind pat s = none := by
  intro s
  induction s with
  | nil =>
    intro h
    rw [strFind, if_neg]
    intro e
    rw [e] at h
    exact absurd h (Nat.lt_irrefl _)
  | cons c cs ih =>
    intro h
    rw [strFind, if_neg, ih (by simp only [List.length_cons] at h; omega)]
    · rfl
    · intro hp
      have := (List.isPrefixOf_iff_prefix.mp hp).length_le
      omega

/-- The test of `ParseLSTMGraph` on the end of a name holds exactly when the
name ends with the pattern. -/
theorem strEndsAt_iff (pat name : List Char) : strEndsAt pat name = true ↔ pat <:+ name := by
  unfold strEndsAt strFindFrom
  by_cases hl : pat.length ≤ name.length
  · rw [if_pos hl, if_pos (Nat.sub_le _ _), Option.isSome_map']
    have hlen : (name.drop (name.length - pat.length)).length = pat.length := by
      rw [List.length_drop]
      omega
    constructor
    · intro h
      obtain ⟨k, hk⟩ := Option.isSome_iff_exists.mp h
      have hp := strFind_prefix pat _ k hk
      have h1 := hp.length_le
      have h2 : ((name.drop (name.length - pat.length)).drop k).length = pat.length - k := by
        rw [List.length_drop, hlen]
      have e : pat = (name.drop (name.length - pat.length)).drop k :=
        hp.eq_of_length (by omega)
      rw [e]
      exact (List.drop_suffix _ _).trans (List.drop_suffix _ _)
    · intro h
      obtain ⟨t, ht⟩ := h
      have e : name.drop (name.length - pat.length) = pat := by
        rw [← ht, List.length_append, Nat.add_sub_cancel, List.drop_left]
      rw [e]
      exact strFind_isSome_of_prefix pat pat 0 (List.prefix_refl _)
  · rw [if_neg hl]
    constructor
    · intro h
      cases h
    · intro h
      exact absurd h.length_le hl

theorem foldl_parseLSTMState_inputs (g : TFGraph) (l : List Nat) :
    ∀ s : LSTMSlots, (l.foldl (parseLSTMState g) s).kernel = s.kernel ∧
      (l.foldl (parseLSTMState g) s).bias = s.bias := by
  induction l with
  | nil => intro s; exact ⟨rfl, rfl⟩
  | cons a l ih =>
    intro s
    rw [List.foldl_cons]
    obtain ⟨h1, h2⟩ := ih (parseLSTMState g s a)
    rw [h1, h2]
    unfold parseLSTMState
    simp only
    split
    · exact ⟨rfl, rfl⟩
    · split
      · exact ⟨rfl, rfl⟩
      · split <;> exact ⟨rfl, rfl⟩

/-- The slot `kernel` after the first loop of `ParseLSTMGraph`: the last input
that is a Const with `lstm_cell/kernel` in its name. -/
theorem foldl_parseLSTMInput_kernel (g : TFGraph) (k : Nat) (pre post : List Nat)
    (s : LSTMSlots) (hop : (g.heap k).op = "Const".toList)
    (hk : (strFind "lstm_cell/kernel".toList (g.heap k).name).isSome = true)
    (hpost : ∀ b ∈ post, ¬ ((g.heap b).op = "Const".toList ∧
      (strFind "lstm_cell/kernel".toList (g.heap b).name).isSome = true)) :
    ((pre ++ k :: post).foldl (parseLSTMInput g) s).kernel = some k := by
  have keep : ∀ (l : List Nat) (s : LSTMSlots), (∀ b ∈ l, ¬ ((g.heap b).op = "Const".toList ∧
      (strFind "lstm_cell/kernel".toList (g.heap b).name).isSome = true)) →
      (l.foldl (parseLSTMInput g) s).kernel = s.kernel := by
    intro l
    induction l with
    | nil => intro s _; rfl
    | cons a l ih =>
      intro s h
      rw [List.foldl_cons, ih _ (fun b hb => h b (List.mem_cons_of_mem a hb))]
      have ha := h a (List.mem_cons_self a l)
      unfold parseLSTMInput
      simp only
      by_cases c0 : (g.heap a).op ≠ "Const".toList
      · rw [if_pos c0]
      · rw [if_neg c0, if_neg (fun e => ha ⟨not_not.mp c0, e⟩)]
        split
        · rfl
        · split
          · rfl
          · split
            · rfl
            · split
              · rfl
              · split <;> rfl
  rw [List.foldl_append, List.foldl_cons, keep post _ hpost]
  unfold parseLSTMInput
  simp only
  rw [if_neg (not_not.mpr hop), if_pos hk]

/-- The slot `bias` after the first loop of `ParseLSTMGraph`: the last input that
is a Const with `lstm_cell/bias` and without `lstm_cell/kernel` in its name. -/
theorem foldl_parseLSTMInput_bias (g : TFGraph) (k : Nat) (pre post : List Nat)
    (s : LSTMSlots) (hop : (g.heap k).op = "Const".toList)
    (hnk : (strFind "lstm_cell/kernel".toList (g.heap k).name).isSome = false)
    (hk : (strFind "lstm_cell/bias".toList (g.heap k).name).isSome = true)
    (hpost : ∀ b ∈ post, ¬ ((g.heap b).op = "Const".toList ∧
      (strFind "lstm_cell/kernel".toList (g.heap b).name).isSome = false ∧
      (strFind "lstm_cell/bias".toList (g.heap b).name).isSome = true)) :
    ((pre ++ k :: post).foldl (parseLSTMInput g) s).bias = some k := by
  have keep : ∀ (l : List Nat) (s : LSTMSlots), (∀ b ∈ l, ¬ ((g.heap b).op = "Const".toList ∧
      (strFind "lstm_cell/kernel".toList (g.heap b).name).isSome = false ∧
      (strFind "lstm_cell/bias".toList (g.heap b).name).isSome = true)) →
      (l.foldl (parseLSTMInput g) s).bias = s.bias := by
    intro l
    induction l with
    | nil => intro s _; rfl
    | cons a l ih =>
      intro s h
      rw [List.foldl_cons, ih _ (fun b hb => h b (List.mem_cons_of_mem a hb))]
      have ha := h a (List.mem_cons_self a l)
      unfold parseLSTMInput
      simp only
      by_cases c0 : (g.heap a).op ≠ "Const".toList
      · rw [if_pos c0]
      · rw [if_neg c0]
        by_cases c1 : (strFind "lstm_cell/kernel".toList (g.heap a).name).isSome = true
        · rw [if_pos c1]
        · rw [if_neg c1, if_neg (fun e => ha ⟨not_not.mp c0, Bool.eq_false_iff.mpr c1, e⟩)]
          split
          · rfl
          · split
            · rfl
            · split
              · rfl
              · split <;> rfl
  rw [List.foldl_append, List.foldl_cons, keep post _ hpost]
  unfold parseLSTMInput
  simp only
  rw [if_neg (not_not.mpr hop), if_neg (by rw [hnk]; exact Bool.false_ne_true), if_pos hk]

theorem zeros_endings (name : List Char) :
    (strEndsAt "LSTMCellZeroState/zeros_1".toList name = true →
      strEndsAt "LSTMCellZeroState/zeros".toList name = false) ∧
    (strEndsAt "lstm_cell/add/y".toList name = true →
      strEndsAt "LSTMCellZeroState/zeros".toList name = false ∧
        strEndsAt "LSTMCellZeroState/zeros_1".toList name = false) := by
  have excl : ∀ p q : List Char, p.length ≤ q.length → ¬ p <:+ q →
      strEndsAt q name = true → strEndsAt p name = false := by
    intro p q hl hn hq
    rw [Bool.eq_false_iff]
    intro hp
    exact hn (List.suffix_of_suffix_length_le ((strEndsAt_iff p name).mp hp)
      ((strEndsAt_iff q name).mp hq) hl)
  have excl2 : ∀ p q : List Char, p.length ≤ q.length → ¬ p <:+ q →
      strEndsAt p name = true → strEndsAt q name = false := by
    intro p q hl hn hp
    rw [Bool.eq_false_iff]
    intro hq
    exact hn (List.suffix_of_suffix_length_le ((strEndsAt_iff p name).mp hp)
      ((strEndsAt_iff q name).mp hq) hl)
  have d1 : ¬ "LSTMCellZeroState/zeros".toList <:+ "LSTMCellZeroState/zeros_1".toList := by
    rw [← List.isSuffixOf_iff_suffix]
    decide
  have d2 : ¬ "lstm_cell/add/y".toList <:+ "LSTMCellZeroState/zeros".toList := by
    rw [← List.isSuffixOf_iff_suffix]
    decide
  have d3 : ¬ "lstm_cell/add/y".toList <:+ "LSTMCellZeroState/zeros_1".toList := by
    rw [← List.isSuffixOf_iff_suffix]
    decide
  exact ⟨excl _ _ (by decide) d1,
    fun h => ⟨excl2 _ _ (by decide) d2 h, excl2 _ _ (by decide) d3 h⟩⟩

theorem strFind_isSome_of_suffix (pat name : List Char) (h : pat <:+ name) :
    (strFind pat name).isSome = true := by
  obtain ⟨t, ht⟩ := h
  apply strFind_isSome_of_prefix pat name t.length
  rw [← ht, List.drop_left]

/-- The slot `init_c` after the second loop of `ParseLSTMGraph`: the last
absorbed node the name of which ends with `LSTMCellZeroState/zeros`. -/
theorem foldl_parseLSTMState_init_c (g : TFGraph) (z : Nat) (pre post : List Nat)
    (s : LSTMSlots)
    (hz : strEndsAt "LSTMCellZeroState/zeros".toList (g.heap z).name = true)
    (hpost : ∀ b ∈ post, strEndsAt "LSTMCellZeroState/zeros".toList (g.heap b).name = false) :
    ((pre ++ z :: post).foldl (parseLSTMState g) s).init_c = some z := by
  have keep : ∀ (l : List Nat) (s : LSTMSlots),
      (∀ b ∈ l, strEndsAt "LSTMCellZeroState/zeros".toList (g.heap b).name = false) →
      (l.foldl (parseLSTMState g) s).init_c = s.init_c := by
    intro l
    induction l with
    | nil => intro s _; rfl
    | cons a l ih =>
      intro s h
      rw [List.foldl_cons, ih _ (fun b hb => h b (List.mem_cons_of_mem a hb))]
      have ha := h a (List.mem_cons_self a l)
      unfold parseLSTMState
      simp only
      rw [ha, if_neg Bool.false_ne_true]
      split
      · rfl
      · split <;> rfl
  rw [List.foldl_append, List.foldl_cons, keep post _ hpost]
  unfold parseLSTMState
  simp only
  rw [if_pos hz]

/-- The slot `init_h` after the second loop of `ParseLSTMGraph`. -/
theorem foldl_parseLSTMState_init_h (g : TFGraph) (z : Nat) (pre post : List Nat)
    (s : LSTMSlots)
    (hz : strEndsAt "LSTMCellZeroState/zeros_1".toList (g.heap z).name = true)
    (hpost : ∀ b ∈ post,
      strEndsAt "LSTMCellZeroState/zeros_1".toList (g.heap b).name = false) :
    ((pre ++ z :: post).foldl (parseLSTMState g) s).init_h = some z := by
  have keep : ∀ (l : List Nat) (s : LSTMSlots),
      (∀ b ∈ l, strEndsAt "LSTMCellZeroState/zeros_1".toList (g.heap b).name = false) →
      (l.foldl (parseLSTMState g) s).init_h = s.init_h := by
    intro l
    induction l with
    | nil => intro s _; rfl
    | cons a l ih =>
      intro s h
      rw [List.foldl_cons, ih _ (fun b hb => h b (List.mem_cons_of_mem a hb))]
      have ha := h a (List.mem_cons_self a l)
      unfold parseLSTMState
      simp only
      rw [ha]
      split
      · rfl
      · rw [if_neg Bool.false_ne_true]
        split <;> rfl
  rw [List.foldl_append, List.foldl_cons, keep post _ hpost]
  unfold parseLSTMState
  simp only
  rw [(zeros_endings (g.heap z).name).1 hz, if_neg Bool.false_ne_true, if_pos hz]

/-- The slot `forget_bias` after the second loop of `ParseLSTMGraph`. -/
theorem foldl_parseLSTMState_forget_bias (g : TFGraph) (z : Nat) (pre post : List Nat)
    (s : LSTMSlots)
    (hz : strEndsAt "lstm_cell/add/y".toList (g.heap z).name = true)
    (hpost : ∀ b ∈ post, strEndsAt "lstm_cell/add/y".toList (g.heap b).name = false) :
    ((pre ++ z :: post).foldl (parseLSTMState g) s).forget_bias = some z := by
  have keep : ∀ (l : List Nat) (s : LSTMSlots),
      (∀ b ∈ l, strEndsAt "lstm_cell/add/y".toList (g.heap b).name = false) →
      (l.foldl (parseLSTMState g) s).forget_bias = s.forget_bias := by
    intro l
    induction l with
    | nil => intro s _; rfl
    | cons a l ih =>
      intro s h
      rw [List.foldl_cons, ih _ (fun b hb => h b (List.mem_cons_of_mem a hb))]
      have ha := h a (List.mem_cons_self a l)
      unfold parseLSTMState
      simp only
      rw [ha]
      split
      · rfl
      · split
        · rfl
        · rw [if_neg Bool.false_ne_true]
  rw [List.foldl_append, List.foldl_cons, keep post _ hpost]
  unfold parseLSTMState
  simp only
  rw [((zeros_endings (g.heap z).name).2 hz).1, ((zeros_endings (g.heap z).name).2 hz).2,
    if_neg Bool.false_ne_true, if_neg Bool.false_ne_true, if_pos hz]

/-- The slots of the composite node after `ParseLSTMGraph`. -/
theorem ParseLSTMGraph_slots (g : TFGraph) (lstm_node : Nat) (rnn_graph : List Nat) :
    ((ParseLSTMGraph g lstm_node rnn_graph).heap lstm_node).lstm =
      some (rnn_graph.foldl (parseLSTMState g)
        ((g.heap lstm_node).inputs.foldl (parseLSTMInput g)
          ((g.heap lstm_node).lstm.getD {}))) := by
  unfold ParseLSTMGraph
  simp only [modify_heap, if_true]

/-- `ParseLSTMGraph` changes the slots of the composite node only. -/
theorem ParseLSTMGraph_frame (g : TFGraph) (lstm_node : Nat) (rnn_graph : List Nat) :
    (ParseLSTMGraph g lstm_node rnn_graph).seq_nodes = g.seq_nodes ∧
    (∀ a, ((ParseLSTMGraph g lstm_node rnn_graph).heap a).inputs = (g.heap a).inputs ∧
      ((ParseLSTMGraph g lstm_node rnn_graph).heap a).outputs = (g.heap a).outputs ∧
      ((ParseLSTMGraph g lstm_node rnn_graph).heap a).name = (g.heap a).name ∧
      ((ParseLSTMGraph g lstm_node rnn_graph).heap a).op = (g.heap a).op) := by
  unfold ParseLSTMGraph
  refine ⟨rfl, fun a => ?_⟩
  simp only [modify_heap]
  split <;> exact ⟨rfl, rfl, rfl, rfl⟩

/-- The extraction on `innerKernelGraph`: the kernel constant is absorbed, the
only input of the composite node is the placeholder, and no slot is filled. -/
theorem StripRNNScope_innerKernelGraph :
    (StripRNNScope innerKernelGraph "model/".toList (some RNNType.TF_RNN_LSTM)).map
      (fun g => (g.seq_nodes, (g.heap 4).inputs, (g.heap 4).outputs, (g.heap 4).lstm)) =
    some ([4, 0, 3], [0], [3], some { rnn_graph := [1, 2] }) := by
  decide

/-- C33, counterexample: in `innerKernelGraph` the scope found is `model/`, the
absorbed set of the composite node 4 contains the Const node 1, the name of which
ends with `lstm_cell/kernel`, and after `StripRNNScope` (which calls
`ParseLSTMGraph` for the kind LSTM) the kernel slot of the composite node is
empty. The same for `ParseLSTMGraph` alone on a composite node without inputs
and with the absorbed set `[1, 2]`. In `stackedStatesGraph` the absorbed set
`[0, 1]` contains the node 0, the name of which ends with
`LSTMCellZeroState/zeros`, and the slot `init_c` refers to the node 1. -/
theorem C33_counterexample :
    FindRNNScope innerKernelGraph [] = (some RNNType.TF_RNN_LSTM, "model/".toList) ∧
    (innerKernelGraph.heap 1).op = "Const".toList ∧
    "lstm_cell/kernel".toList <:+ (innerKernelGraph.heap 1).name ∧
    (StripRNNScope innerKernelGraph "model/".toList (some RNNType.TF_RNN_LSTM)).map
      (fun g => ((g.heap 4).lstm.map fun s => (s.rnn_graph, s.kernel))) =
      some (some ([1, 2], none)) ∧
    (((ParseLSTMGraph innerKernelGraph 4 [1, 2]).heap 4).lstm.map fun s => s.kernel) =
      some none ∧
    "LSTMCellZeroState/zeros".toList <:+ (stackedStatesGraph.heap 0).name ∧
    (((ParseLSTMGraph stackedStatesGraph 2 [0, 1]).heap 2).lstm.map fun s => s.init_c) =
      some (some 1) := by
  refine ⟨by decide, by decide, ?_, by decide, by decide, ?_, by decide⟩
  · rw [← List.isSuffixOf_iff_suffix]
    decide
  · rw [← List.isSuffixOf_iff_suffix]
    decide

/-- C33, amended: `ParseLSTMGraph` fills the kernel and bias slots from the
inputs of the composite node and the state slots from the absorbed set. If a
Const node among the inputs of the composite node has a name ending with
`lstm_cell/kernel`, and no later input is a Const with `lstm_cell/kernel` in its
name, the kernel slot refers to it; the same for `lstm_cell/bias` and the bias
slot, for names without `lstm_cell/kernel` in them. If a node of the absorbed set
has a name ending with `LSTMCellZeroState/zeros` (`LSTMCellZeroState/zeros_1`,
`lstm_cell/add/y`) and no later node of the set has such a name, the slot
`init_c` (`init_h`, `forget_bias`) refers to it. -/
theorem C33_slots_from_inputs_and_absorbed_set (g : TFGraph) (lstm_node : Nat)
    (rnn_graph : List Nat) :
    ∃ s : LSTMSlots, ((ParseLSTMGraph g lstm_node rnn_graph).heap lstm_node).lstm = some s ∧
      (∀ k pre post, (g.heap lstm_node).inputs = pre ++ k :: post →
        (g.heap k).op = "Const".toList →
        "lstm_cell/kernel".toList <:+ (g.heap k).name →
        (∀ b ∈ post, ¬ ((g.heap b).op = "Const".toList ∧
          (strFind "lstm_cell/kernel".toList (g.heap b).name).isSome = true)) →
        s.kernel = some k) ∧
      (∀ k pre post, (g.heap lstm_node).inputs = pre ++ k :: post →
        (g.heap k).op = "Const".toList →
        "lstm_cell/bias".toList <:+ (g.heap k).name →
        (strFind "lstm_cell/kernel".toList (g.heap k).name).isSome = false →
        (∀ b ∈ post, ¬ ((g.heap b).op = "Const".toList ∧
          (strFind "lstm_cell/kernel".toList (g.heap b).name).isSome = false ∧
          (strFind "lstm_cell/bias".toList (g.heap b).name).isSome = true)) →
        s.bias = some k) ∧
      (∀ z pre post, rnn_graph = pre ++ z :: post →
        "LSTMCellZeroState/zeros".toList <:+ (g.heap z).name →
        (∀ b ∈ post, ¬ "LSTMCellZeroState/zeros".toList <:+ (g.heap b).name) →
        s.init_c = some z) ∧
      (∀ z pre post, rnn_graph = pre ++ z :: post →
        "LSTMCellZeroState/zeros_1".toList <:+ (g.heap z).name →
        (∀ b ∈ post, ¬ "LSTMCellZeroState/zeros_1".toList <:+ (g.heap b).name) →
        s.init_h = some z) ∧
      (∀ z pre post, rnn_graph = pre ++ z :: post →
        "lstm_cell/add/y".toList <:+ (g.heap z).name →
        (∀ b ∈ post, ¬ "lstm_cell/add/y".toList <:+ (g.heap b).name) →
        s.forget_bias = some z) := by
  have hno : ∀ (pat : List Char) (post : List Nat),
      (∀ b ∈ post, ¬ pat <:+ (g.heap b).name) →
      ∀ b ∈ post, strEndsAt pat (g.heap b).name = false := by
    intro pat post h b hb
    rw [Bool.eq_false_iff]
    exact fun e => h b hb ((strEndsAt_iff _ _).mp e)
  refine ⟨_, ParseLSTMGraph_slots g lstm_node rnn_graph, ?_, ?_, ?_, ?_, ?_⟩
  · intro k pre post hin hop hk hpost
    rw [(foldl_parseLSTMState_inputs g rnn_graph _).1, hin]
    exact foldl_parseLSTMInput_kernel g k pre post _ hop (strFind_isSome_of_suffix _ _ hk) hpost
  · intro k pre post hin hop hk hnk hpost
    rw [(foldl_parseLSTMState_inputs g rnn_graph _).2, hin]
    exact foldl_parseLSTMInput_bias g k pre post _ hop hnk (strFind_isSome_of_suffix _ _ hk)
      hpost
  · intro z pre post hr hz hpost
    rw [hr]
    exact foldl_parseLSTMState_init_c g z pre post _ ((strEndsAt_iff _ _).mpr hz)
      (hno _ post hpost)
  · intro z pre post hr hz hpost
    rw [hr]
    exact foldl_parseLSTMState_init_h g z pre post _ ((strEndsAt_iff _ _).mpr hz)
      (hno _ post hpost)
  · intro z pre post hr hz hpost
    rw [hr]
    exact foldl_parseLSTMState_forget_bias g z pre post _ ((strEndsAt_iff _ _).mpr hz)
      (hno _ post hpost)

/-- C33, witness: on `lstmSlotsGraph` the composite node 6 has the inputs
`[0, 1, 2]` and the absorbed set `[3, 4, 5]`; the five slots are filled with the
nodes 1, 2, 3, 4 and 5. -/
theorem C33_slots_from_inputs_and_absorbed_set_witness :
    (((ParseLSTMGraph lstmSlotsGraph 6 [3, 4, 5]).heap 6).lstm.map fun s =>
      (s.kernel, s.bias, s.init_c, s.init_h, s.forget_bias)) =
    some (some 1, some 2, some 3, some 4, some 5) := by
  obtain ⟨s, hs, h1, h2, h3, h4, h5⟩ :=
    C33_slots_from_inputs_and_absorbed_set lstmSlotsGraph 6 [3, 4, 5]
  rw [hs, Option.map_some',
    h1 1 [0] [2] (by decide) (by decide) (by rw [← List.isSuffixOf_iff_suffix]; decide)
      (by decide),
    h2 2 [0, 1] [] (by decide) (by decide) (by rw [← List.isSuffixOf_iff_suffix]; decide)
      (by decide) (by decide),
    h3 3 [] [4, 5] (by decide) (by rw [← List.isSuffixOf_iff_suffix]; decide)
      (by simp only [← List.isSuffixOf_iff_suffix]; decide),
    h4 4 [3] [5] (by decide) (by rw [← List.isSuffixOf_iff_suffix]; decide)
      (by simp only [← List.isSuffixOf_iff_suffix]; decide),
    h5 5 [3, 4] [] (by decide) (by rw [← List.isSuffixOf_iff_suffix]; decide)
      (by simp only [← List.isSuffixOf_iff_suffix]; decide)]

/-! ## The steps of `StripRNNScope` -/

/-- The graph of `StripRNNScope` after its first loop: the sequence without the
nodes of the scope, and the composite node at the address `next`. -/
theorem StripRNNScope_of (g : TFGraph) (rnn_scope : List Char) (rnn_type : Option RNNType)
    (kept absorbed rnn_graph rnn_inputs rnn_outputs : List Nat) (g0 g2 : TFGraph)
    (hs : stripScopeNodes g rnn_scope g.seq_nodes [] = (kept, absorbed))
    (hso : setOrder absorbed = rnn_graph)
    (hg0 : g0 = { seq_nodes := kept
                  heap := fun b =>
                    if b = g.next then
                      { name := rnn_scope ++ "lstm".toList, op := "LSTM".toList,
                        lstm := some { rnn_graph := rnn_graph } }
                    else g.heap b
                  next := g.next + 1 })
    (hb : rnnBoundary g0 rnn_graph = (rnn_inputs, rnn_outputs))
    (h2 : rnn_inputs.foldlM (connectRNNInput rnn_graph g.next)
      { g0 with seq_nodes := insertLSTMNode rnn_inputs g.next g0.seq_nodes } = some g2) :
    StripRNNScope g rnn_scope rnn_type =
      some (removeUnlinked
        (if rnn_type = some RNNType.TF_RNN_LSTM then
          ParseLSTMGraph (rnn_outputs.foldl (connectRNNOutput rnn_graph g.next) g2) g.next
            rnn_graph
        else rnn_outputs.foldl (connectRNNOutput rnn_graph g.next) g2)) := by
  subst hg0 hso
  unfold StripRNNScope
  simp only [hs, hb, h2]

/-- One turn of the loop over `rnn_inputs` on a node that is not an Identity. -/
theorem connectRNNInput_plain (rnn_graph : List Nat) (lstm_node : Nat) (g : TFGraph)
    (input_node : Nat) (hne : input_node ≠ lstm_node)
    (hop : (g.heap input_node).op ≠ "Identity".toList) :
    connectRNNInput rnn_graph lstm_node g input_node =
      some ((g.modify input_node fun n =>
        { n with outputs := n.outputs.map fun child_node =>
            if child_node ∈ rnn_graph then lstm_node else child_node }).modify lstm_node
        fun n => { n with inputs := n.inputs ++ [input_node] }) := by
  unfold connectRNNInput
  simp only [modify_heap, if_neg hne, if_true]
  rw [if_neg hop]

/-! ## The boundary of an extracted recurrent scope -/

/-- The extraction on `lstmLayerGraph`: the nodes 5, 6 and 7 are absorbed, the
Identity nodes 2 and 4 are merged into the constants they read, and every edge
that crossed the boundary is an edge of the composite node 9. -/
theorem StripRNNScope_lstmLayerGraph :
    (StripRNNScope lstmLayerGraph "model/".toList (some RNNType.TF_RNN_LSTM)).map
      (fun g => (g.seq_nodes, g.next, (g.heap 9).name, (g.heap 9).op)) =
      some ([9, 0, 1, 3, 8], 10, "model/lstm".toList, "LSTM".toList) ∧
    (StripRNNScope lstmLayerGraph "model/".toList (some RNNType.TF_RNN_LSTM)).map
      (fun g => ((g.heap 9).inputs, (g.heap 9).outputs)) = some ([0, 1, 3], [8]) ∧
    (StripRNNScope lstmLayerGraph "model/".toList (some RNNType.TF_RNN_LSTM)).map
      (fun g => (g.heap 9).lstm.map fun s => (s.rnn_graph, s.kernel, s.bias, s.init_c)) =
      some (some ([5, 6, 7], some 1, some 3, some 5)) ∧
    (StripRNNScope lstmLayerGraph "model/".toList (some RNNType.TF_RNN_LSTM)).map
      (fun g => [0, 1, 3, 8].map fun a => ((g.heap a).inputs, (g.heap a).outputs)) =
      some [([], [9]), ([], [9]), ([], [9]), ([9], [])] := by
  refine ⟨by decide, by decide, by decide, by decide⟩

/-- C31, divergence: `tappedScopeGraph` is edge-symmetric, the scope found in it
is `model/`, and `StripRNNScope` absorbs the nodes 1 and 3. The Identity node 2
is an input of the scope and is merged into the node it reads, which is the
absorbed node 1: afterwards the composite node 5, which is in the sequence,
has the absorbed node 1 among its inputs, and among its outputs the node 2,
which the last loop has removed from the sequence. -/
theorem C31_composite_reads_absorbed_node :
    EdgeSym tappedScopeGraph ∧
    FindRNNScope tappedScopeGraph [] = (some RNNType.TF_RNN_LSTM, "model/".toList) ∧
    (StripRNNScope tappedScopeGraph "model/".toList (some RNNType.TF_RNN_LSTM)).map
      (fun g => (g.seq_nodes, (g.heap 5).inputs, (g.heap 5).outputs,
        (g.heap 5).lstm.map fun s => s.rnn_graph)) =
    some ([5, 0, 4], [0, 1], [2, 4], some [1, 3]) := by
  refine ⟨edgeSym_ofNodes _ (by decide) (by decide), by decide, by decide⟩

/-! ## The loop of `OptimizeRNN` -/

/-- In a state of the shape `TopLevelLoop` the scope found is
`while/gru_cell/`, of the kind GRU. -/
theorem topLevelLoop_find (g : TFGraph) (h : TopLevelLoop g) :
    FindRNNScope g [] = (some RNNType.TF_RNN_GRU, "while/gru_cell/".toList) := by
  obtain ⟨c, -, -, hseq, hn0, -, -, hnc, -, -⟩ := h
  have m0 : rnnMarker (g.heap 0).name = none := by rw [hn0]; decide
  unfold FindRNNScope
  rcases hnc with hnc | hnc
  · have mc : rnnMarker (g.heap c).name = some (0, RNNType.TF_RNN_GRU) := by rw [hnc]; decide
    have e : (g.seq_nodes.findSome? fun node =>
        (rnnMarker (g.heap node).name).map fun r => ((g.heap node).name, r)) =
        some ("while/gru_cell/MatMul".toList, 0, RNNType.TF_RNN_GRU) := by
      rcases hseq with hseq | hseq <;> rw [hseq] <;>
        simp only [List.findSome?, m0, mc, Option.map_none', Option.map_some'] <;> rw [hnc]
    rw [e]
    decide
  · have mc : rnnMarker (g.heap c).name = some (0, RNNType.TF_RNN_GRU) := by rw [hnc]; decide
    have e : (g.seq_nodes.findSome? fun node =>
        (rnnMarker (g.heap node).name).map fun r => ((g.heap node).name, r)) =
        some ("while/gru_cell/lstm".toList, 0, RNNType.TF_RNN_GRU) := by
      rcases hseq with hseq | hseq <;> rw [hseq] <;>
        simp only [List.findSome?, m0, mc, Option.map_none', Option.map_some'] <;> rw [hnc]
    rw [e]
    decide

/-- In a state of the shape `TopLevelLoop` the extraction of the scope
`while/gru_cell/` is defined and gives a state of the same shape: the composite
node, named `while/gru_cell/lstm`, takes the place of the node absorbed. -/
theorem topLevelLoop_strip (g : TFGraph) (h : TopLevelLoop g) :
    ∃ g1, StripRNNScope g "while/gru_cell/".toList (some RNNType.TF_RNN_GRU) = some g1 ∧
      TopLevelLoop g1 := by
  obtain ⟨c, hc0, hcn, hseq, hn0, hop0, hout0, hnc, hinc, houtc⟩ := h
  have hn : g.next ≠ 0 := by omega
  have hcn2 : c ≠ g.next := by omega
  have k0 : (strFind "while/gru_cell/".toList (g.heap 0).name).isNone = true := by
    rw [hn0]; decide
  have kc : (strFind "while/gru_cell/".toList (g.heap c).name).isNone = false := by
    rcases hnc with hnc | hnc <;> rw [hnc] <;> decide
  have hs : stripScopeNodes g "while/gru_cell/".toList g.seq_nodes [] = ([0], [c]) := by
    rcases hseq with hseq | hseq <;> rw [hseq] <;>
      simp only [stripScopeNodes, k0, kc, if_true, Bool.false_eq_true, if_false,
        List.insert_nil]
  have hso : setOrder [c] = [c] := rfl
  obtain ⟨g0, hg0⟩ : ∃ g0 : TFGraph, g0 =
      { seq_nodes := [0]
        heap := fun b =>
          if b = g.next then
            { name := "while/gru_cell/".toList ++ "lstm".toList, op := "LSTM".toList,
              lstm := some { rnn_graph := [c] } }
          else g.heap b
        next := g.next + 1 } := ⟨_, rfl⟩
  have h0c : g0.heap c = g.heap c := by rw [hg0]; exact if_neg hcn2
  have h00 : g0.heap 0 = g.heap 0 := by rw [hg0]; exact if_neg (Ne.symm hn)
  have h0n : (g0.heap g.next).name = "while/gru_cell/lstm".toList ∧
      (g0.heap g.next).inputs = [] ∧ (g0.heap g.next).outputs = [] := by
    rw [hg0]
    simp only [if_pos]
    decide
  have h0s : g0.seq_nodes = [0] := by rw [hg0]
  have hb : rnnBoundary g0 [c] = ([0], []) := by
    unfold rnnBoundary
    simp only [List.flatMap_cons, List.flatMap_nil, List.append_nil, h0c, hinc, houtc,
      List.filter_nil, List.filter_cons, List.mem_singleton]
    rw [if_pos (decide_eq_true (Ne.symm hc0))]
    rfl
  have hg2 : ∃ g2, [0].foldlM (connectRNNInput [c] g.next)
      { g0 with seq_nodes := insertLSTMNode [0] g.next g0.seq_nodes } = some g2 ∧
      g2.seq_nodes = [g.next, 0] ∧ g2.next = g.next + 1 ∧
      (g2.heap 0).name = "x".toList ∧ (g2.heap 0).op = "Placeholder".toList ∧
      (g2.heap 0).outputs = [g.next] ∧
      (g2.heap g.next).name = "while/gru_cell/lstm".toList ∧
      (g2.heap g.next).inputs = [0] ∧ (g2.heap g.next).outputs = [] := by
    rw [List.foldlM_cons, connectRNNInput_plain _ _ _ _ (Ne.symm hn)
      (by rw [show ∀ s : List Nat, ({ g0 with seq_nodes := s } : TFGraph).heap 0 = g0.heap 0
        from fun _ => rfl, h00, hop0]; decide)]
    simp only [Option.bind_eq_bind, Option.some_bind, List.foldlM_nil, Option.pure_def]
    refine ⟨_, rfl, ?_⟩
    have hnx : g0.next = g.next + 1 := by rw [hg0]
    simp only [modify_heap, modify_seq_nodes, modify_next, if_neg (Ne.symm hn), if_neg hn,
      if_true, h00, h0n, hn0, hop0, hout0, h0s, hnx, List.map_cons, List.map_nil,
      List.mem_singleton, List.nil_append, insertLSTMNode, and_self]
  obtain ⟨g2, h2, q1, q2, q3, q4, q5, q6, q7, q8⟩ := hg2
  refine ⟨_, StripRNNScope_of g _ _ [0] [c] [c] [0] [] g0 g2 hs hso hg0 hb h2, ?_⟩
  rw [if_neg (by decide), List.foldl_nil]
  refine ⟨g.next, hn, ?_, Or.inr ?_, q3, q4, q5, Or.inr q6, q7, q8⟩
  · show g2.next > g.next
    omega
  · unfold removeUnlinked
    simp [q1, q7, q5]

theorem topLevelLoop_start : TopLevelLoop topLevelLoopGraph :=
  ⟨1, by decide, by decide, Or.inl (by decide), by decide, by decide, by decide,
    Or.inl (by decide), by decide, by decide⟩

/-- From a state of the shape `TopLevelLoop` every number of turns of the loop
of `OptimizeRNN` is defined and ends in a state of that shape. -/
theorem topLevelLoop_turns (n : Nat) :
    ∀ g, TopLevelLoop g → ∃ g1, optimizeRNNTurns n g = some g1 ∧ TopLevelLoop g1 := by
  induction n with
  | zero => exact fun g h => ⟨g, rfl, h⟩
  | succ n ih =>
    intro g h
    obtain ⟨g1, h1, hl⟩ := topLevelLoop_strip g h
    obtain ⟨g2, h2, hl2⟩ := ih g1 hl
    refine ⟨g2, ?_, hl2⟩
    rw [optimizeRNNTurns, topLevelLoop_find g h, if_neg (by decide)]
    simp only [h1, Option.some_bind, h2]

/-- From a state of the shape `TopLevelLoop` no number of turns brings
`OptimizeRNN` to its `return`. -/
theorem topLevelLoop_no_result (fuel : Nat) :
    ∀ g, TopLevelLoop g → OptimizeRNN fuel g = none := by
  induction fuel with
  | zero => exact fun g _ => rfl
  | succ n ih =>
    intro g h
    obtain ⟨g1, h1, hl⟩ := topLevelLoop_strip g h
    rw [OptimizeRNN, topLevelLoop_find g h]
    simp only [h1]
    rw [if_neg (by decide)]
    exact ih g1 hl

/-- C34, divergence: in `topLevelLoopGraph` the marked name
`while/gru_cell/MatMul` starts with `while`, `while_pos - 1` wraps around and
the scope is cut from the whole name: `while/gru_cell/`. The composite node
that `StripRNNScope` puts in place of the absorbed node is named
`while/gru_cell/lstm`, which carries both markers, so the sequence holds as
many marked names after the call as before (one) and the same scope is found
again. Every number `n` of turns of the loop is defined and leaves a graph in
which a scope is found; `OptimizeRNN` has no result for any bound on the
turns. -/
theorem C34_top_level_loop_never_ends :
    FindRNNScope topLevelLoopGraph [] = (some RNNType.TF_RNN_GRU, "while/gru_cell/".toList) ∧
    (topLevelLoopGraph.seq_nodes.filter fun a =>
      (rnnMarker (topLevelLoopGraph.heap a).name).isSome) = [1] ∧
    (StripRNNScope topLevelLoopGraph "while/gru_cell/".toList (some RNNType.TF_RNN_GRU)).map
      (fun g => (g.seq_nodes, (g.heap 2).name,
        g.seq_nodes.filter fun a => (rnnMarker (g.heap a).name).isSome,
        FindRNNScope g [])) =
      some ([2, 0], "while/gru_cell/lstm".toList, [2],
        (some RNNType.TF_RNN_GRU, "while/gru_cell/".toList)) ∧
    ∀ n : Nat, OptimizeRNN n topLevelLoopGraph = none ∧
      ∃ g, optimizeRNNTurns n topLevelLoopGraph = some g ∧ (FindRNNScope g []).2 ≠ [] := by
  refine ⟨by decide, by decide, by decide, fun n => ?_⟩
  obtain ⟨g, hg, hl⟩ := topLevelLoop_turns n _ topLevelLoop_start
  refine ⟨topLevelLoop_no_result n _ topLevelLoop_start, g, hg, ?_⟩
  rw [topLevelLoop_find g hl]
  decide

/-! ## The scope of a marked name and the name of the composite node -/

/-- `find` returns the first occurrence: the pattern does not start at any
earlier position. -/
theorem strFind_first (pat : List Char) :
    ∀ (s : List Char) (k : Nat), strFind pat s = some k → ∀ j < k, ¬ pat <+: s.drop j := by
  intro s
  induction s with
  | nil =>
    intro k h j hj
    rw [strFind] at h
    split at h
    · cases h
      exact absurd hj (Nat.not_lt_zero _)
    · cases h
  | cons c cs ih =>
    intro k h j hj
    rw [strFind] at h
    split at h
    · cases h
      exact absurd hj (Nat.not_lt_zero _)
    · rename_i hp
      obtain ⟨k1, hk1, rfl⟩ := Option.map_eq_some'.mp h
      cases j with
      | zero =>
        rw [List.drop_zero]
        exact fun e => hp (List.isPrefixOf_iff_prefix.mpr e)
      | succ j =>
        rw [List.drop_succ_cons]
        exact ih k1 hk1 j (by omega)

theorem mem_of_prefix_append_cons (pat t u : List Char) (c : Char)
    (h : pat <+: t ++ c :: u) (hl : t.length < pat.length) : c ∈ pat := by
  obtain ⟨v, hv⟩ := h
  have e : (pat ++ v)[t.length]? = (t ++ c :: u)[t.length]? := by rw [hv]
  rw [List.getElem?_append_left hl, List.getElem?_append_right (Nat.le_refl _),
    Nat.sub_self, List.getElem?_cons_zero] at e
  exact List.getElem?_mem e

/-- The position `rfind` returns holds the character looked for. -/
theorem strRFind_spec (c : Char) :
    ∀ (l : List Char) (k : Nat), strRFind c l = some k → l.take (k + 1) = l.take k ++ [c] := by
  intro l
  induction l with
  | nil => intro k h; cases h
  | cons x xs ih =>
    intro k h
    rw [strRFind] at h
    split at h
    · rename_i k1 hk1
      cases h
      rw [List.take_succ_cons, List.take_succ_cons, ih k1 hk1, List.cons_append]
    · split at h
      · rename_i hx
        cases h
        rw [hx]
        rfl
      · cases h

/-- The scope `FindRNNScope` derives is empty or ends with `'/'`, and it is the
beginning of the layer name it was cut from. -/
theorem rnnScopeOf_shape (rnn_node : List Char) (while_pos : Nat) :
    (rnnScopeOf rnn_node while_pos = [] ∨
      ∃ t, rnnScopeOf rnn_node while_pos = t ++ ['/']) ∧
    rnnScopeOf rnn_node while_pos <+:
      (if while_pos = 0 then rnn_node else rnn_node.take (while_pos - 1)) := by
  unfold rnnScopeOf
  simp only
  split
  · exact ⟨Or.inl rfl, List.nil_prefix⟩
  · rename_i up_pos h
    exact ⟨Or.inr ⟨_, strRFind_spec _ _ _ h⟩, List.take_prefix _ _⟩

/-- The scope is the beginning of the name it was derived from. -/
theorem rnnScopeOf_begins (rnn_node : List Char) (while_pos : Nat) :
    rnnScopeOf rnn_node while_pos <+: rnn_node := by
  have h := (rnnScopeOf_shape rnn_node while_pos).2
  split at h
  · exact h
  · exact h.trans (List.take_prefix _ _)

/-- When the first `while` of a name is not at its start, the name of the
composite node, `rnn_scope + "lstm"`, does not contain `while`. -/
theorem composite_name_no_while (rnn_node : List Char) (while_pos : Nat)
    (hw : strFind "while".toList rnn_node = some while_pos) (hpos : while_pos ≠ 0) :
    strFind "while".toList (rnnScopeOf rnn_node while_pos ++ "lstm".toList) = none := by
  obtain ⟨hshape, hpre⟩ := rnnScopeOf_shape rnn_node while_pos
  rw [if_neg hpos] at hpre
  have hlen : (rnnScopeOf rnn_node while_pos).length < while_pos := by
    have := hpre.length_le
    rw [List.length_take] at this
    omega
  cases hk : strFind "while".toList (rnnScopeOf rnn_node while_pos ++ "lstm".toList) with
  | none => rfl
  | some k =>
    exfalso
    have hp := strFind_prefix _ _ k hk
    have hpl := hp.length_le
    rw [List.length_drop, List.length_append] at hpl
    have h5 : "while".toList.length = 5 := rfl
    have h4 : "lstm".toList.length = 4 := rfl
    rcases hshape with he | ⟨t, he⟩
    · rw [he, List.length_nil] at hpl
      omega
    · rw [he] at hp hlen hpl
      rw [List.length_append, List.length_singleton] at hlen hpl
      have hkt : k ≤ t.length := by omega
      rw [List.append_assoc, List.drop_append_of_le_length hkt] at hp
      by_cases hs : (t.drop k).length < "while".toList.length
      · have hm := mem_of_prefix_append_cons _ _ _ _ hp hs
        revert hm
        decide
      · have hp2 : "while".toList <+: t.drop k :=
          List.prefix_of_prefix_length_le hp (List.prefix_append _ _) (by omega)
        have hsub : t <+: rnn_node := by
          have h1 : t <+: rnnScopeOf rnn_node while_pos := by
            rw [he]
            exact List.prefix_append _ _
          exact h1.trans (rnnScopeOf_begins _ _)
        obtain ⟨v, hv⟩ := hsub
        have hp3 : "while".toList <+: rnn_node.drop k := by
          rw [← hv, List.drop_append_of_le_length hkt]
          exact hp2.trans (List.prefix_append _ _)
        exact strFind_first _ _ _ hw k (by omega) hp3

/-- A name without `while` carries no marker. -/
theorem rnnMarker_of_no_while (name : List Char) (h : strFind "while".toList name = none) :
    rnnMarker name = none := by
  unfold rnnMarker
  rw [h]

/-! ## The sequence and the names after `StripRNNScope` -/

theorem MergeChildNode_of_some (g g2 : TFGraph) (B C : Nat)
    (h : MergeChildNode g B C = some g2) : B ≠ C ∧ C ∈ (g.heap B).outputs := by
  unfold MergeChildNode at h
  split at h
  · cases h
  · split at h
    · cases h
    · rename_i h1 h2
      exact ⟨h1, not_not.mp h2⟩

theorem MergeChildNode_name (g g2 : TFGraph) (B C : Nat)
    (h : MergeChildNode g B C = some g2) :
    g2.seq_nodes = g.seq_nodes ∧ g2.next = g.next ∧
      ∀ a, (g2.heap a).name = (g.heap a).name := by
  obtain ⟨hne, hmem⟩ := MergeChildNode_of_some g g2 B C h
  obtain ⟨g3, e, hseq, hnext, hh⟩ := MergeChildNode_closed g B C hne hmem
  rw [e] at h
  cases h
  refine ⟨hseq, hnext, fun a => ?_⟩
  rw [hh a]
  split
  · rfl
  · split <;> rfl

theorem connectRNNInput_name (rnn_graph : List Nat) (lstm_node : Nat) (g g2 : TFGraph)
    (input_node : Nat) (h : connectRNNInput rnn_graph lstm_node g input_node = some g2) :
    g2.seq_nodes = g.seq_nodes ∧ g2.next = g.next ∧
      ∀ a, (g2.heap a).name = (g.heap a).name := by
  unfold connectRNNInput at h
  simp only at h
  split at h
  · simp only [Option.bind_eq_bind] at h
    obtain ⟨p, -, h⟩ := Option.bind_eq_some.mp h
    obtain ⟨h1, h3, h2⟩ := MergeChildNode_name _ _ _ _ h
    refine ⟨h1, h3, fun a => ?_⟩
    rw [h2 a]
    simp only [modify_heap]
    split <;> split <;> rfl
  · cases h
    refine ⟨rfl, rfl, fun a => ?_⟩
    simp only [modify_heap]
    split <;> split <;> rfl

theorem foldlM_connectRNNInput_name (rnn_graph : List Nat) (lstm_node : Nat) :
    ∀ (l : List Nat) (g g2 : TFGraph),
      l.foldlM (connectRNNInput rnn_graph lstm_node) g = some g2 →
      g2.seq_nodes = g.seq_nodes ∧ g2.next = g.next ∧
        ∀ a, (g2.heap a).name = (g.heap a).name := by
  intro l
  induction l with
  | nil =>
    intro g g2 h
    cases h
    exact ⟨rfl, rfl, fun _ => rfl⟩
  | cons x l ih =>
    intro g g2 h
    rw [List.foldlM_cons] at h
    simp only [Option.bind_eq_bind] at h
    obtain ⟨g1, h1, h⟩ := Option.bind_eq_some.mp h
    obtain ⟨a1, a3, a2⟩ := connectRNNInput_name _ _ _ _ _ h1
    obtain ⟨b1, b3, b2⟩ := ih g1 g2 h
    exact ⟨b1.trans a1, b3.trans a3, fun a => (b2 a).trans (a2 a)⟩

theorem foldl_connectRNNOutput_name (rnn_graph : List Nat) (lstm_node : Nat) :
    ∀ (l : List Nat) (g : TFGraph),
      (l.foldl (connectRNNOutput rnn_graph lstm_node) g).seq_nodes = g.seq_nodes ∧
      (l.foldl (connectRNNOutput rnn_graph lstm_node) g).next = g.next ∧
      ∀ a, ((l.foldl (connectRNNOutput rnn_graph lstm_node) g).heap a).name =
        (g.heap a).name := by
  intro l
  induction l with
  | nil => exact fun g => ⟨rfl, rfl, fun _ => rfl⟩
  | cons x l ih =>
    intro g
    rw [List.foldl_cons]
    obtain ⟨b1, b3, b2⟩ := ih (connectRNNOutput rnn_graph lstm_node g x)
    refine ⟨b1, b3, fun a => ?_⟩
    rw [b2 a]
    unfold connectRNNOutput
    simp only [modify_heap]
    split <;> split <;> rfl

theorem insertLSTMNode_countP (p : Nat → Bool) (rnn_inputs : List Nat) (lstm_node : Nat) :
    ∀ l : List Nat, (insertLSTMNode rnn_inputs lstm_node l).countP p ≤
      l.countP p + (if p lstm_node then 1 else 0) := by
  intro l
  induction l with
  | nil => exact Nat.zero_le _
  | cons x l ih =>
    rw [insertLSTMNode]
    split
    · rw [List.countP_cons]
    · rw [List.countP_cons, List.countP_cons]
      omega

/-- The sequence `StripRNNScope` leaves is taken from the nodes without the
scope in their names and the composite node; it keeps the name of every other
node, the composite node is named `rnn_scope + "lstm"`, and one address has been
allocated. -/
theorem StripRNNScope_seq_names (g g1 : TFGraph) (rnn_scope : List Char)
    (rnn_type : Option RNNType) (h : StripRNNScope g rnn_scope rnn_type = some g1) :
    (∀ a, a ≠ g.next → (g1.heap a).name = (g.heap a).name) ∧
    (g1.heap g.next).name = rnn_scope ++ "lstm".toList ∧
    g1.next = g.next + 1 ∧
    ∀ p : Nat → Bool, g1.seq_nodes.countP p ≤
      (g.seq_nodes.filter fun node => (strFind rnn_scope (g.heap node).name).isNone).countP p +
        (if p g.next then 1 else 0) := by
  unfold StripRNNScope at h
  simp only at h
  split at h
  · cases h
  · rename_i g2 hf
    cases h
    obtain ⟨a1, a3, a2⟩ := foldlM_connectRNNInput_name _ _ _ _ _ hf
    have hnames : ∀ (g3 : TFGraph), (∀ a, (g3.heap a).name = (g2.heap a).name) →
        g3.seq_nodes = g2.seq_nodes → g3.next = g2.next →
        (∀ a, a ≠ g.next → ((removeUnlinked g3).heap a).name = (g.heap a).name) ∧
        ((removeUnlinked g3).heap g.next).name = rnn_scope ++ "lstm".toList ∧
        (removeUnlinked g3).next = g.next + 1 ∧
        ∀ p : Nat → Bool, (removeUnlinked g3).seq_nodes.countP p ≤
          (g.seq_nodes.filter fun node =>
            (strFind rnn_scope (g.heap node).name).isNone).countP p +
            (if p g.next then 1 else 0) := by
      intro g3 hn hs hx
      refine ⟨fun a ha => ?_, ?_, ?_, fun p => ?_⟩
      · show (g3.heap a).name = _
        rw [hn a, a2 a]
        exact congrArg TFNode.name (if_neg ha)
      · show (g3.heap g.next).name = _
        rw [hn _, a2 _]
        exact congrArg TFNode.name (if_pos rfl)
      · show g3.next = _
        rw [hx, a3]
      · refine Nat.le_trans (List.Sublist.countP_le _ (List.filter_sublist _)) ?_
        rw [hs, a1]
        rw [← (stripScopeNodes_closed g rnn_scope g.seq_nodes []).1]
        exact insertLSTMNode_countP p _ _ _
    obtain ⟨c1, c3, c2⟩ := foldl_connectRNNOutput_name (setOrder
      (stripScopeNodes g rnn_scope g.seq_nodes []).2) g.next
      (rnnBoundary _ (setOrder (stripScopeNodes g rnn_scope g.seq_nodes []).2)).2 g2
    split
    · exact hnames _ (fun a => ((ParseLSTMGraph_frame _ _ _).2 a).2.2.1.trans (c2 a))
        ((ParseLSTMGraph_frame _ _ _).1.trans c1) c3
    · exact hnames _ c2 c1 c3

theorem countP_filter_lt (p q : Nat → Bool) :
    ∀ (l : List Nat) (x : Nat), x ∈ l → p x = true → q x = false →
      (l.filter q).countP p < l.countP p := by
  intro l
  induction l with
  | nil => intro x hx; cases hx
  | cons y l ih =>
    intro x hx hp hq
    rcases List.mem_cons.mp hx with rfl | hx
    · rw [List.filter_cons, hq, if_neg Bool.false_ne_true, List.countP_cons, hp, if_pos rfl]
      exact Nat.lt_succ_of_le (List.Sublist.countP_le _ (List.filter_sublist _))
    · have := ih x hx hp hq
      rw [List.filter_cons]
      split
      · rw [List.countP_cons, List.countP_cons]
        omega
      · rw [List.countP_cons]
        omega

/-- The name `FindRNNScope` stops at: a node of the sequence carries the
markers, and the scope returned is derived from its name. -/
theorem FindRNNScope_found (g : TFGraph) (rnn_type : Option RNNType) (rnn_scope : List Char)
    (h : FindRNNScope g [] = (rnn_type, rnn_scope)) (hne : rnn_scope ≠ []) :
    ∃ node ∈ g.seq_nodes, ∃ while_pos,
      strFind "while".toList (g.heap node).name = some while_pos ∧
      (rnnMarker (g.heap node).name).isSome = true ∧
      rnn_scope = rnnScopeOf (g.heap node).name while_pos := by
  unfold FindRNNScope at h
  split at h
  · rw [Prod.mk.injEq] at h
    exact absurd h.2.symm hne
  · rename_i rnn_node while_pos ty hfind
    split at h
    · rw [Prod.mk.injEq] at h
      exact absurd h.2.symm hne
    · rw [Prod.mk.injEq] at h
      obtain ⟨node, hmem, hnode⟩ := List.exists_of_findSome?_eq_some hfind
      obtain ⟨r, hr, he⟩ := Option.map_eq_some'.mp hnode
      rw [Prod.mk.injEq] at he
      obtain ⟨he1, he2⟩ := he
      subst he2
      refine ⟨node, hmem, while_pos, ?_, ?_, ?_⟩
      · unfold rnnMarker at hr
        split at hr
        · cases hr
        · rename_i wp hwp
          rw [hwp]
          split at hr
          · cases hr; rfl
          · split at hr
            · cases hr; rfl
            · split at hr
              · cases hr; rfl
              · cases hr
      · rw [hr]; rfl
      · rw [he1]
        exact h.2.symm

/-- The measure of the loop of `OptimizeRNN`: when no name of the sequence starts
with `while` and the nodes of the sequence are below `next`, the composite node
`StripRNNScope` makes for the scope found carries no marker, and the sequence
holds strictly fewer marked names after the call than before. -/
theorem StripRNNScope_fewer_marked (g g1 : TFGraph) (rnn_type : Option RNNType)
    (rnn_scope : List Char)
    (hfresh : ∀ a ∈ g.seq_nodes, a < g.next)
    (hpos : ∀ a ∈ g.seq_nodes, strFind "while".toList (g.heap a).name ≠ some 0)
    (hfind : FindRNNScope g [] = (rnn_type, rnn_scope)) (hne : rnn_scope ≠ [])
    (h : StripRNNScope g rnn_scope rnn_type = some g1) :
    rnnMarker (g1.heap g.next).name = none ∧
    (g1.seq_nodes.countP fun a => (rnnMarker (g1.heap a).name).isSome) <
      g.seq_nodes.countP fun a => (rnnMarker (g.heap a).name).isSome := by
  obtain ⟨node, hmem, while_pos, hw, hmark, hscope⟩ := FindRNNScope_found g _ _ hfind hne
  obtain ⟨hnames, hcomp, -, hcount⟩ := StripRNNScope_seq_names g g1 _ _ h
  have hwp : while_pos ≠ 0 := by
    intro e
    rw [e] at hw
    exact hpos node hmem hw
  have hcm : rnnMarker (g1.heap g.next).name = none := by
    rw [hcomp, hscope]
    exact rnnMarker_of_no_while _ (composite_name_no_while _ _ hw hwp)
  refine ⟨hcm, ?_⟩
  have h1 := hcount fun a => (rnnMarker (g1.heap a).name).isSome
  simp only [hcm, Option.isSome_none, Bool.false_eq_true, if_false, Nat.add_zero] at h1
  have h2 : ((g.seq_nodes.filter fun node =>
      (strFind rnn_scope (g.heap node).name).isNone).countP
        fun a => (rnnMarker (g1.heap a).name).isSome) =
      (g.seq_nodes.filter fun node =>
        (strFind rnn_scope (g.heap node).name).isNone).countP
        fun a => (rnnMarker (g.heap a).name).isSome := by
    apply List.countP_congr
    intro a ha
    rw [hnames a (Nat.ne_of_lt (hfresh a (List.mem_of_mem_filter ha)))]
  rw [h2] at h1
  refine Nat.lt_of_le_of_lt h1 (countP_filter_lt _ _ _ node hmem hmark ?_)
  have hin : (strFind rnn_scope (g.heap node).name).isSome = true := by
    apply strFind_isSome_of_prefix _ _ 0
    rw [List.drop_zero, hscope]
    exact rnnScopeOf_begins _ _
  rw [Option.isNone_eq_false_iff]
  exact hin


/-- The state `StripRNNScope` leaves keeps what the measure needs: its sequence
is below `next`, and no name of it starts with `while`. -/
theorem StripRNNScope_keeps_invariant (g g1 : TFGraph) (rnn_type : Option RNNType)
    (rnn_scope : List Char)
    (hfresh : ∀ a ∈ g.seq_nodes, a < g.next)
    (hpos : ∀ a ∈ g.seq_nodes, strFind "while".toList (g.heap a).name ≠ some 0)
    (hfind : FindRNNScope g [] = (rnn_type, rnn_scope)) (hne : rnn_scope ≠ [])
    (h : StripRNNScope g rnn_scope rnn_type = some g1) :
    (∀ a ∈ g1.seq_nodes, a < g1.next) ∧
    ∀ a ∈ g1.seq_nodes, strFind "while".toList (g1.heap a).name ≠ some 0 := by
  obtain ⟨node, hmem, while_pos, hw, -, hscope⟩ := FindRNNScope_found g _ _ hfind hne
  obtain ⟨hnames, hcomp, hnext, hcount⟩ := StripRNNScope_seq_names g g1 _ _ h
  have hwp : while_pos ≠ 0 := by
    intro e
    rw [e] at hw
    exact hpos node hmem hw
  have hold : ∀ a ∈ g1.seq_nodes, a = g.next ∨ a ∈ g.seq_nodes := by
    intro a ha
    have h1 := hcount fun b => decide (b = a)
    have h2 : 0 < g1.seq_nodes.countP fun b => decide (b = a) :=
      List.countP_pos_iff.mpr ⟨a, ha, decide_eq_true rfl⟩
    by_cases e : a = g.next
    · exact Or.inl e
    · right
      rw [if_neg (by rw [decide_eq_true_iff]; exact fun e2 => e e2.symm), Nat.add_zero] at h1
      obtain ⟨b, hb, hba⟩ := List.countP_pos_iff.mp (Nat.lt_of_lt_of_le h2 h1)
      rw [decide_eq_true_iff] at hba
      rw [← hba]
      exact List.mem_of_mem_filter hb
  refine ⟨fun a ha => ?_, fun a ha => ?_⟩
  · rw [hnext]
    rcases hold a ha with e | e
    · omega
    · exact Nat.lt_succ_of_lt (hfresh a e)
  · rcases hold a ha with e | e
    · rw [e, hcomp, hscope, composite_name_no_while _ _ hw hwp]
      exact fun e2 => Option.noConfusion e2
    · rw [hnames a (Nat.ne_of_lt (hfresh a e))]
      exact hpos a e

/-- The loop of `OptimizeRNN` makes at most as many turns as the sequence holds
marked names, when no name of the sequence starts with `while` and the nodes of
the sequence are below `next`. -/
theorem optimizeRNNTurns_bounded :
    ∀ (n : Nat) (g : TFGraph), (∀ a ∈ g.seq_nodes, a < g.next) →
      (∀ a ∈ g.seq_nodes, strFind "while".toList (g.heap a).name ≠ some 0) →
      (g.seq_nodes.countP fun a => (rnnMarker (g.heap a).name).isSome) < n →
      optimizeRNNTurns n g = none := by
  intro n
  induction n with
  | zero => exact fun g _ _ h => absurd h (Nat.not_lt_zero _)
  | succ n ih =>
    intro g hfresh hpos hn
    rw [optimizeRNNTurns]
    split
    · rfl
    · rename_i hne
      cases hs : StripRNNScope g (FindRNNScope g []).2 (FindRNNScope g []).1 with
      | none => rfl
      | some g1 =>
        rw [Option.some_bind]
        obtain ⟨i1, i2⟩ := StripRNNScope_keeps_invariant g g1 _ _ hfresh hpos rfl hne hs
        have hlt := (StripRNNScope_fewer_marked g g1 _ _ hfresh hpos rfl hne hs).2
        exact ih g1 i1 i2 (by omega)

/-- With the bound of `optimizeRNNTurns_bounded` as fuel, `OptimizeRNN` returns,
unless a turn of its loop calls `StripRNNScope` where that has no defined
result. -/
theorem OptimizeRNN_returns_or_undefined :
    ∀ (n : Nat) (g : TFGraph), (∀ a ∈ g.seq_nodes, a < g.next) →
      (∀ a ∈ g.seq_nodes, strFind "while".toList (g.heap a).name ≠ some 0) →
      (g.seq_nodes.countP fun a => (rnnMarker (g.heap a).name).isSome) < n →
      (∃ g1, OptimizeRNN n g = some (true, g1)) ∨
      ∃ k g1, optimizeRNNTurns k g = some g1 ∧ (FindRNNScope g1 []).2 ≠ [] ∧
        StripRNNScope g1 (FindRNNScope g1 []).2 (FindRNNScope g1 []).1 = none := by
  intro n
  induction n with
  | zero => exact fun g _ _ h => absurd h (Nat.not_lt_zero _)
  | succ n ih =>
    intro g hfresh hpos hn
    by_cases hne : (FindRNNScope g []).2 = []
    · left
      refine ⟨g, ?_⟩
      rw [OptimizeRNN]
      simp only [hne, if_true]
    · cases hs : StripRNNScope g (FindRNNScope g []).2 (FindRNNScope g []).1 with
      | none => exact Or.inr ⟨0, g, rfl, hne, hs⟩
      | some g1 =>
        obtain ⟨i1, i2⟩ := StripRNNScope_keeps_invariant g g1 _ _ hfresh hpos rfl hne hs
        have hlt := (StripRNNScope_fewer_marked g g1 _ _ hfresh hpos rfl hne hs).2
        rcases ih g1 i1 i2 (by omega) with ⟨g2, h2⟩ | ⟨k, g2, h2, h3, h4⟩
        · left
          refine ⟨g2, ?_⟩
          rw [OptimizeRNN]
          simp only [hne, if_false, hs]
          exact h2
        · right
          refine ⟨k + 1, g2, ?_, h3, h4⟩
          rw [optimizeRNNTurns, if_neg hne, hs, Option.some_bind]
          exact h2
/-! ## The rewiring of `StripRNNScope` when no input of the scope is an Identity -/

theorem mem_setInsert (a x : Nat) : ∀ l : List Nat, x ∈ setInsert a l ↔ x = a ∨ x ∈ l := by
  intro l
  induction l with
  | nil => simp only [setInsert, List.mem_singleton, List.not_mem_nil, or_false]
  | cons b l ih =>
    rw [setInsert]
    split
    · simp only [List.mem_cons]
    · split
      · rename_i hab
        subst hab
        simp only [List.mem_cons]
        constructor
        · exact Or.inr
        · rintro (h | h)
          · exact Or.inl h
          · exact h
      · rw [List.mem_cons, ih, List.mem_cons]
        constructor
        · rintro (h | h | h)
          · exact Or.inr (Or.inl h)
          · exact Or.inl h
          · exact Or.inr (Or.inr h)
        · rintro (h | h | h)
          · exact Or.inr (Or.inl h)
          · exact Or.inl h
          · exact Or.inr (Or.inr h)

theorem pairwise_setInsert (a : Nat) :
    ∀ l : List Nat, l.Pairwise (fun x y => x < y) →
      (setInsert a l).Pairwise (fun x y => x < y) := by
  intro l
  induction l with
  | nil => intro _; exact List.pairwise_singleton _ _
  | cons b l ih =>
    intro h
    rw [setInsert]
    split
    · rename_i hab
      refine List.Pairwise.cons ?_ h
      intro y hy
      rcases List.mem_cons.mp hy with rfl | hy
      · exact hab
      · exact Nat.lt_trans hab (List.rel_of_pairwise_cons h hy)
    · split
      · exact h
      · rename_i h1 h2
        refine List.Pairwise.cons ?_ (ih (List.Pairwise.of_cons h))
        intro y hy
        rcases (mem_setInsert a y l).mp hy with rfl | hy
        · omega
        · exact List.rel_of_pairwise_cons h hy

/-- The set of a list has the elements of the list, each of them once. -/
theorem setOrder_spec (l : List Nat) :
    (∀ x, x ∈ setOrder l ↔ x ∈ l) ∧ (setOrder l).Nodup := by
  have h : (∀ x, x ∈ setOrder l ↔ x ∈ l) ∧ (setOrder l).Pairwise (fun x y => x < y) := by
    unfold setOrder
    induction l with
    | nil => exact ⟨fun _ => Iff.rfl, List.Pairwise.nil⟩
    | cons a l ih =>
      rw [List.foldr_cons]
      refine ⟨fun x => ?_, pairwise_setInsert a _ ih.2⟩
      rw [mem_setInsert, ih.1 x, List.mem_cons]
  exact ⟨h.1, h.2.imp (fun hlt => Nat.ne_of_lt hlt)⟩

theorem mem_insertLSTMNode (rnn_inputs : List Nat) (lstm_node a : Nat) :
    ∀ l : List Nat, a ∈ insertLSTMNode rnn_inputs lstm_node l → a = lstm_node ∨ a ∈ l := by
  intro l
  induction l with
  | nil => intro h; cases h
  | cons x l ih =>
    rw [insertLSTMNode]
    split
    · intro h
      rcases List.mem_cons.mp h with h | h
      · exact Or.inl h
      · exact Or.inr h
    · intro h
      rcases List.mem_cons.mp h with h | h
      · exact Or.inr (h ▸ List.mem_cons_self _ _)
      · rcases ih h with h | h
        · exact Or.inl h
        · exact Or.inr (List.mem_cons_of_mem _ h)

theorem connectRNNInput_plain_fields (rnn_graph : List Nat) (lstm_node : Nat) (g : TFGraph)
    (x : Nat) (hne : x ≠ lstm_node) (hop : (g.heap x).op ≠ "Identity".toList) :
    ∃ g1, connectRNNInput rnn_graph lstm_node g x = some g1 ∧
      g1.seq_nodes = g.seq_nodes ∧
      (g1.heap lstm_node).inputs = (g.heap lstm_node).inputs ++ [x] ∧
      (g1.heap lstm_node).outputs = (g.heap lstm_node).outputs ∧
      (∀ m, (g1.heap m).op = (g.heap m).op) ∧
      ∀ m, m ≠ lstm_node →
        (g1.heap m).inputs = (g.heap m).inputs ∧
        (g1.heap m).outputs =
          (if m = x then (g.heap m).outputs.map fun child_node =>
            if child_node ∈ rnn_graph then lstm_node else child_node
          else (g.heap m).outputs) := by
  refine ⟨_, connectRNNInput_plain _ _ _ _ hne hop, rfl, ?_, ?_, fun m => ?_, fun m hm => ?_⟩
  · simp only [modify_heap, if_true, if_neg (Ne.symm hne)]
  · simp only [modify_heap, if_true, if_neg (Ne.symm hne)]
  · simp only [modify_heap]
    split <;> split <;> rfl
  · simp only [modify_heap, if_neg hm]
    split
    · exact ⟨rfl, rfl⟩
    · exact ⟨rfl, rfl⟩

/-- The loop of `StripRNNScope` over `rnn_inputs` when none of them is an
Identity: each input has its edges into the scope turned to the composite node,
which lists the inputs in the order of the loop. -/
theorem foldlM_connectRNNInput_plain (rnn_graph : List Nat) (lstm_node : Nat) :
    ∀ (l : List Nat) (g : TFGraph), l.Nodup →
      (∀ a ∈ l, a ≠ lstm_node ∧ (g.heap a).op ≠ "Identity".toList) →
      ∃ g2, l.foldlM (connectRNNInput rnn_graph lstm_node) g = some g2 ∧
        g2.seq_nodes = g.seq_nodes ∧
        (g2.heap lstm_node).inputs = (g.heap lstm_node).inputs ++ l ∧
        (g2.heap lstm_node).outputs = (g.heap lstm_node).outputs ∧
        ∀ m, m ≠ lstm_node →
          (g2.heap m).inputs = (g.heap m).inputs ∧
          (g2.heap m).outputs =
            (if m ∈ l then (g.heap m).outputs.map fun child_node =>
              if child_node ∈ rnn_graph then lstm_node else child_node
            else (g.heap m).outputs) := by
  intro l
  induction l with
  | nil =>
    intro g _ _
    refine ⟨g, rfl, rfl, (List.append_nil _).symm, rfl, fun m _ => ⟨rfl, ?_⟩⟩
    rw [if_neg (List.not_mem_nil m)]
  | cons x l ih =>
    intro g hnd hall
    obtain ⟨hx1, hx2⟩ := hall x (List.mem_cons_self x l)
    obtain ⟨hxl, hnd2⟩ := List.nodup_cons.mp hnd
    obtain ⟨g1, e1, s1, s2, s3, s4, s5⟩ :=
      connectRNNInput_plain_fields rnn_graph lstm_node g x hx1 hx2
    obtain ⟨g2, e, p1, p2, p3, p4⟩ := ih g1 hnd2 (fun a ha => by
      rw [s4 a]
      exact hall a (List.mem_cons_of_mem x ha))
    refine ⟨g2, ?_, p1.trans s1, ?_, p3.trans s3, fun m hm => ?_⟩
    · rw [List.foldlM_cons, e1]
      exact e
    · rw [p2, s2, List.append_assoc, List.singleton_append]
    · obtain ⟨q1, q2⟩ := p4 m hm
      obtain ⟨r1, r2⟩ := s5 m hm
      refine ⟨q1.trans r1, ?_⟩
      rw [q2, r2]
      by_cases hmx : m = x
      · subst hmx
        rw [if_neg hxl, if_pos rfl, if_pos (List.mem_cons_self _ _)]
      · rw [if_neg hmx]
        by_cases hml : m ∈ l
        · rw [if_pos hml, if_pos (List.mem_cons_of_mem _ hml)]
        · rw [if_neg hml, if_neg (fun h => (List.mem_cons.mp h).elim hmx hml)]

theorem connectRNNOutput_fields (rnn_graph : List Nat) (lstm_node : Nat) (g : TFGraph)
    (x : Nat) (hne : x ≠ lstm_node) :
    (connectRNNOutput rnn_graph lstm_node g x).seq_nodes = g.seq_nodes ∧
    ((connectRNNOutput rnn_graph lstm_node g x).heap lstm_node).outputs =
      (g.heap lstm_node).outputs ++ [x] ∧
    ((connectRNNOutput rnn_graph lstm_node g x).heap lstm_node).inputs =
      (g.heap lstm_node).inputs ∧
    ∀ m, m ≠ lstm_node →
      ((connectRNNOutput rnn_graph lstm_node g x).heap m).outputs = (g.heap m).outputs ∧
      ((connectRNNOutput rnn_graph lstm_node g x).heap m).inputs =
        (if m = x then (g.heap m).inputs.map fun parent_node =>
          if parent_node ∈ rnn_graph then lstm_node else parent_node
        else (g.heap m).inputs) := by
  unfold connectRNNOutput
  refine ⟨rfl, ?_, ?_, fun m hm => ?_⟩
  · simp only [modify_heap, if_true, if_neg (Ne.symm hne)]
  · simp only [modify_heap, if_true, if_neg (Ne.symm hne)]
  · simp only [modify_heap, if_neg hm]
    split
    · exact ⟨rfl, rfl⟩
    · exact ⟨rfl, rfl⟩

/-- The loop of `StripRNNScope` over `rnn_outputs`: each output has its edges
from the scope turned to the composite node, which lists the outputs in the
order of the loop. -/
theorem foldl_connectRNNOutput_closed (rnn_graph : List Nat) (lstm_node : Nat) :
    ∀ (l : List Nat) (g : TFGraph), l.Nodup → (∀ a ∈ l, a ≠ lstm_node) →
      (l.foldl (connectRNNOutput rnn_graph lstm_node) g).seq_nodes = g.seq_nodes ∧
      ((l.foldl (connectRNNOutput rnn_graph lstm_node) g).heap lstm_node).outputs =
        (g.heap lstm_node).outputs ++ l ∧
      ((l.foldl (connectRNNOutput rnn_graph lstm_node) g).heap lstm_node).inputs =
        (g.heap lstm_node).inputs ∧
      ∀ m, m ≠ lstm_node →
        ((l.foldl (connectRNNOutput rnn_graph lstm_node) g).heap m).outputs =
          (g.heap m).outputs ∧
        ((l.foldl (connectRNNOutput rnn_graph lstm_node) g).heap m).inputs =
          (if m ∈ l then (g.heap m).inputs.map fun parent_node =>
            if parent_node ∈ rnn_graph then lstm_node else parent_node
          else (g.heap m).inputs) := by
  intro l
  induction l with
  | nil =>
    intro g _ _
    refine ⟨rfl, (List.append_nil _).symm, rfl, fun m _ => ⟨rfl, ?_⟩⟩
    rw [if_neg (List.not_mem_nil m)]
    rfl
  | cons x l ih =>
    intro g hnd hall
    have hx1 := hall x (List.mem_cons_self x l)
    obtain ⟨hxl, hnd2⟩ := List.nodup_cons.mp hnd
    rw [List.foldl_cons]
    obtain ⟨s1, s2, s3, s5⟩ := connectRNNOutput_fields rnn_graph lstm_node g x hx1
    obtain ⟨p1, p2, p3, p4⟩ := ih (connectRNNOutput rnn_graph lstm_node g x) hnd2
      (fun a ha => hall a (List.mem_cons_of_mem x ha))
    refine ⟨p1.trans s1, ?_, p3.trans s3, fun m hm => ?_⟩
    · rw [p2, s2, List.append_assoc, List.singleton_append]
    · obtain ⟨q1, q2⟩ := p4 m hm
      obtain ⟨r1, r2⟩ := s5 m hm
      refine ⟨q1.trans r1, ?_⟩
      rw [q2, r2]
      by_cases hmx : m = x
      · subst hmx
        rw [if_neg hxl, if_pos rfl, if_pos (List.mem_cons_self _ _)]
      · rw [if_neg hmx]
        by_cases hml : m ∈ l
        · rw [if_pos hml, if_pos (List.mem_cons_of_mem _ hml)]
        · rw [if_neg hml, if_neg (fun h => (List.mem_cons.mp h).elim hmx hml)]

/-- The sets `rnn_inputs` and `rnn_outputs`: the nodes outside the scope that a
node of the scope reads, and those that read a node of the scope, each once. -/
theorem rnnBoundary_spec (g : TFGraph) (rnn_graph : List Nat) :
    (∀ x, x ∈ (rnnBoundary g rnn_graph).1 ↔
      x ∉ rnn_graph ∧ ∃ b ∈ rnn_graph, x ∈ (g.heap b).inputs) ∧
    (∀ x, x ∈ (rnnBoundary g rnn_graph).2 ↔
      x ∉ rnn_graph ∧ ∃ b ∈ rnn_graph, x ∈ (g.heap b).outputs) ∧
    (rnnBoundary g rnn_graph).1.Nodup ∧ (rnnBoundary g rnn_graph).2.Nodup := by
  unfold rnnBoundary
  refine ⟨fun x => ?_, fun x => ?_, (setOrder_spec _).2, (setOrder_spec _).2⟩
  · rw [(setOrder_spec _).1, List.mem_flatMap]
    constructor
    · rintro ⟨b, hb, hx⟩
      rw [List.mem_filter, decide_eq_true_iff] at hx
      exact ⟨hx.2, b, hb, hx.1⟩
    · rintro ⟨hx, b, hb, hxb⟩
      exact ⟨b, hb, List.mem_filter.mpr ⟨hxb, decide_eq_true hx⟩⟩
  · rw [(setOrder_spec _).1, List.mem_flatMap]
    constructor
    · rintro ⟨b, hb, hx⟩
      rw [List.mem_filter, decide_eq_true_iff] at hx
      exact ⟨hx.2, b, hb, hx.1⟩
    · rintro ⟨hx, b, hb, hxb⟩
      exact ⟨b, hb, List.mem_filter.mpr ⟨hxb, decide_eq_true hx⟩⟩

theorem map_redirect_of_outside (rnn_graph : List Nat) (lstm_node : Nat) (l : List Nat)
    (h : ∀ x ∈ l, x ∉ rnn_graph) :
    (l.map fun x => if x ∈ rnn_graph then lstm_node else x) = l := by
  induction l with
  | nil => rfl
  | cons y l ih =>
    rw [List.map_cons, if_neg (h y (List.mem_cons_self y l)),
      ih (fun x hx => h x (List.mem_cons_of_mem y hx))]

theorem mem_map_redirect (rnn_graph : List Nat) (lstm_node : Nat) (l : List Nat)
    (hl : lstm_node ∉ rnn_graph) (x : Nat)
    (h : x ∈ l.map fun x => if x ∈ rnn_graph then lstm_node else x) : x ∉ rnn_graph := by
  obtain ⟨y, -, rfl⟩ := List.mem_map.mp h
  split
  · exact hl
  · rename_i hy
    exact hy

/-- The rewiring of `StripRNNScope`, for an edge-symmetric graph whose nodes
do not refer to the address `next`, when none of the nodes outside the scope
that the scope reads is an Identity: the call is defined; no node of the
sequence left, the composite node included, lists an absorbed node; every node
outside the scope has the composite node at the places of its lists where an
absorbed node stood; the inputs of the composite node are the nodes outside the
scope that the scope read, and each outside node that read an absorbed node is
listed once among its outputs. -/
theorem StripRNNScope_rewires (g : TFGraph) (rnn_scope : List Char)
    (rnn_type : Option RNNType) (rnn_graph : List Nat)
    (hrg : rnn_graph = setOrder (stripScopeNodes g rnn_scope g.seq_nodes []).2)
    (hsym : EdgeSym g) (hseq : ∀ a ∈ g.seq_nodes, a < g.next)
    (hnew : ∀ a, g.next ∉ (g.heap a).inputs ∧ g.next ∉ (g.heap a).outputs)
    (hid : ∀ b ∈ rnn_graph, ∀ a ∈ (g.heap b).inputs, a ∉ rnn_graph →
      (g.heap a).op ≠ "Identity".toList) :
    ∃ g1, StripRNNScope g rnn_scope rnn_type = some g1 ∧
      (∀ a ∈ g1.seq_nodes, ∀ x, x ∈ (g1.heap a).inputs ∨ x ∈ (g1.heap a).outputs →
        x ∉ rnn_graph) ∧
      (∀ a, a ∉ rnn_graph → a ≠ g.next →
        (g1.heap a).inputs =
          ((g.heap a).inputs.map fun x => if x ∈ rnn_graph then g.next else x) ∧
        (g1.heap a).outputs =
          ((g.heap a).outputs.map fun x => if x ∈ rnn_graph then g.next else x)) ∧
      (∀ a, a ∈ (g1.heap g.next).inputs ↔
        a ∉ rnn_graph ∧ ∃ b ∈ rnn_graph, a ∈ (g.heap b).inputs) ∧
      (∀ a, a ∉ rnn_graph → (∃ b ∈ rnn_graph, b ∈ (g.heap a).inputs) →
        (g1.heap g.next).outputs.count a = 1) := by
  have hmem : ∀ x, x ∈ rnn_graph ↔
      x ∈ g.seq_nodes ∧ (strFind rnn_scope (g.heap x).name).isSome = true := by
    intro x
    rw [hrg, (setOrder_spec _).1, (stripScopeNodes_closed g rnn_scope g.seq_nodes []).2]
    simp only [List.not_mem_nil, false_or]
  have hlrg : g.next ∉ rnn_graph := fun h => Nat.lt_irrefl _ (hseq _ ((hmem _).mp h).1)
  obtain ⟨g0, hg0⟩ : ∃ g0 : TFGraph, g0 =
      { seq_nodes := (stripScopeNodes g rnn_scope g.seq_nodes []).1
        heap := fun b =>
          if b = g.next then
            { name := rnn_scope ++ "lstm".toList, op := "LSTM".toList,
              lstm := some { rnn_graph := rnn_graph } }
          else g.heap b
        next := g.next + 1 } := ⟨_, rfl⟩
  have h0 : ∀ a, a ≠ g.next → g0.heap a = g.heap a := by
    intro a ha
    rw [hg0]
    exact if_neg ha
  have h0n : (g0.heap g.next).inputs = [] ∧ (g0.heap g.next).outputs = [] := by
    rw [hg0]
    simp
  have h0s : g0.seq_nodes = g.seq_nodes.filter fun node =>
      (strFind rnn_scope (g.heap node).name).isNone := by
    rw [hg0]
    exact (stripScopeNodes_closed g rnn_scope g.seq_nodes []).1
  have hgn : ∀ b ∈ rnn_graph, g0.heap b = g.heap b :=
    fun b hb => h0 b (fun e => hlrg (e ▸ hb))
  obtain ⟨bi, bo, bn1, bn2⟩ := rnnBoundary_spec g0 rnn_graph
  have hins : ∀ x, x ∈ (rnnBoundary g0 rnn_graph).1 ↔
      x ∉ rnn_graph ∧ ∃ b ∈ rnn_graph, x ∈ (g.heap b).inputs := by
    intro x
    rw [bi x]
    constructor
    · rintro ⟨h1, b, hb, h2⟩
      exact ⟨h1, b, hb, hgn b hb ▸ h2⟩
    · rintro ⟨h1, b, hb, h2⟩
      exact ⟨h1, b, hb, (hgn b hb).symm ▸ h2⟩
  have houts : ∀ x, x ∈ (rnnBoundary g0 rnn_graph).2 ↔
      x ∉ rnn_graph ∧ ∃ b ∈ rnn_graph, x ∈ (g.heap b).outputs := by
    intro x
    rw [bo x]
    constructor
    · rintro ⟨h1, b, hb, h2⟩
      exact ⟨h1, b, hb, hgn b hb ▸ h2⟩
    · rintro ⟨h1, b, hb, h2⟩
      exact ⟨h1, b, hb, (hgn b hb).symm ▸ h2⟩
  have hins_ne : ∀ a ∈ (rnnBoundary g0 rnn_graph).1, a ≠ g.next := by
    intro a ha e
    obtain ⟨-, b, -, hb⟩ := (hins a).mp ha
    exact (hnew b).1 (e ▸ hb)
  have houts_ne : ∀ a ∈ (rnnBoundary g0 rnn_graph).2, a ≠ g.next := by
    intro a ha e
    obtain ⟨-, b, -, hb⟩ := (houts a).mp ha
    exact (hnew b).2 (e ▸ hb)
  obtain ⟨g2, e2, s1, s2, s3, s4⟩ := foldlM_connectRNNInput_plain rnn_graph g.next
    (rnnBoundary g0 rnn_graph).1
    { g0 with seq_nodes := insertLSTMNode (rnnBoundary g0 rnn_graph).1 g.next g0.seq_nodes }
    bn1 (fun a ha => by
      refine ⟨hins_ne a ha, ?_⟩
      obtain ⟨h1, b, hb, h2⟩ := (hins a).mp ha
      show (g0.heap a).op ≠ _
      rw [h0 a (hins_ne a ha)]
      exact hid b hb a h2 h1)
  obtain ⟨t1, t2, t3, t4⟩ := foldl_connectRNNOutput_closed rnn_graph g.next
    (rnnBoundary g0 rnn_graph).2 g2 bn2 houts_ne
  have hg4 : ∃ g4, (if rnn_type = some RNNType.TF_RNN_LSTM then
        ParseLSTMGraph ((rnnBoundary g0 rnn_graph).2.foldl
          (connectRNNOutput rnn_graph g.next) g2) g.next rnn_graph
      else (rnnBoundary g0 rnn_graph).2.foldl (connectRNNOutput rnn_graph g.next) g2) = g4 ∧
      g4.seq_nodes = g2.seq_nodes ∧
      ∀ a, (g4.heap a).inputs = (((rnnBoundary g0 rnn_graph).2.foldl
          (connectRNNOutput rnn_graph g.next) g2).heap a).inputs ∧
        (g4.heap a).outputs = (((rnnBoundary g0 rnn_graph).2.foldl
          (connectRNNOutput rnn_graph g.next) g2).heap a).outputs := by
    split
    · exact ⟨_, rfl, (ParseLSTMGraph_frame _ _ _).1.trans t1, fun a =>
        ⟨((ParseLSTMGraph_frame _ _ _).2 a).1, ((ParseLSTMGraph_frame _ _ _).2 a).2.1⟩⟩
    · exact ⟨_, rfl, t1, fun a => ⟨rfl, rfl⟩⟩
  obtain ⟨g4, e4, u1, u2⟩ := hg4
  have hstrip := StripRNNScope_of g rnn_scope rnn_type
    (stripScopeNodes g rnn_scope g.seq_nodes []).1 (stripScopeNodes g rnn_scope g.seq_nodes []).2
    rnn_graph (rnnBoundary g0 rnn_graph).1 (rnnBoundary g0 rnn_graph).2 g0 g2 rfl hrg.symm
    hg0 rfl e2
  rw [e4] at hstrip
  have hin : ∀ a, a ∉ rnn_graph → a ≠ g.next → (g4.heap a).inputs =
      ((g.heap a).inputs.map fun x => if x ∈ rnn_graph then g.next else x) := by
    intro a ha hne
    rw [(u2 a).1, (t4 a hne).2, (s4 a hne).1]
    show (if _ then List.map _ (g0.heap a).inputs else (g0.heap a).inputs) = _
    rw [h0 a hne]
    split
    · rfl
    · rename_i hno
      rw [map_redirect_of_outside]
      intro x hx hxr
      exact hno ((houts a).mpr ⟨ha, x, hxr, (hsym x a).mpr hx⟩)
  have hout : ∀ a, a ∉ rnn_graph → a ≠ g.next → (g4.heap a).outputs =
      ((g.heap a).outputs.map fun x => if x ∈ rnn_graph then g.next else x) := by
    intro a ha hne
    rw [(u2 a).2, (t4 a hne).1, (s4 a hne).2]
    show (if _ then List.map _ (g0.heap a).outputs else (g0.heap a).outputs) = _
    rw [h0 a hne]
    split
    · rfl
    · rename_i hno
      rw [map_redirect_of_outside]
      intro x hx hxr
      exact hno ((hins a).mpr ⟨ha, x, hxr, (hsym a x).mp hx⟩)
  have hcin : (g4.heap g.next).inputs = (rnnBoundary g0 rnn_graph).1 := by
    rw [(u2 _).1, t3, s2]
    show (g0.heap g.next).inputs ++ _ = _
    rw [h0n.1, List.nil_append]
  have hcout : (g4.heap g.next).outputs = (rnnBoundary g0 rnn_graph).2 := by
    rw [(u2 _).2, t2, s3]
    show (g0.heap g.next).outputs ++ _ = _
    rw [h0n.2, List.nil_append]
  refine ⟨_, hstrip, ?_, fun a ha hne => ⟨hin a ha hne, hout a ha hne⟩, fun a => ?_,
    fun a ha hb => ?_⟩
  · intro a ha x hx
    have ha4 : a ∈ g4.seq_nodes := List.mem_of_mem_filter ha
    rw [u1, s1] at ha4
    rcases mem_insertLSTMNode _ _ _ _ ha4 with e | hk
    · subst e
      rcases hx with hx | hx
      · exact ((hins x).mp (hcin ▸ hx)).1
      · exact ((houts x).mp (hcout ▸ hx)).1
    · rw [h0s, List.mem_filter] at hk
      have har : a ∉ rnn_graph := by
        intro h
        have := ((hmem a).mp h).2
        rw [Option.isNone_iff_eq_none] at hk
        rw [hk.2] at this
        cases this
      have hne : a ≠ g.next := Nat.ne_of_lt (hseq a hk.1)
      rcases hx with hx | hx
      · exact mem_map_redirect rnn_graph g.next _ hlrg x (hin a har hne ▸ hx)
      · exact mem_map_redirect rnn_graph g.next _ hlrg x (hout a har hne ▸ hx)
  · show a ∈ (g4.heap g.next).inputs ↔ _
    rw [hcin]
    exact hins a
  · show (g4.heap g.next).outputs.count a = 1
    rw [hcout]
    obtain ⟨b, hb1, hb2⟩ := hb
    exact List.count_eq_one_of_mem bn2 ((houts a).mpr ⟨ha, b, hb1, (hsym b a).mpr hb2⟩)

/-- The rewiring on `innerKernelGraph`, whose only input of the scope is the
Placeholder: the hypotheses of `StripRNNScope_rewires` hold, and no node left
in the sequence lists one of the absorbed nodes 1 and 2. -/
theorem StripRNNScope_rewires_innerKernelGraph :
    ∃ g1, StripRNNScope innerKernelGraph "model/".toList (some RNNType.TF_RNN_LSTM) = some g1 ∧
      (∀ a ∈ g1.seq_nodes, ∀ x, x ∈ (g1.heap a).inputs ∨ x ∈ (g1.heap a).outputs →
        x ∉ [1, 2]) ∧
      (g1.heap 4).outputs.count 3 = 1 := by
  have hnew : ∀ a, innerKernelGraph.next ∉ (innerKernelGraph.heap a).inputs ∧
      innerKernelGraph.next ∉ (innerKernelGraph.heap a).outputs := by
    intro a
    by_cases ha : a < 4
    · have h : ∀ b < 4, innerKernelGraph.next ∉ (innerKernelGraph.heap b).inputs ∧
          innerKernelGraph.next ∉ (innerKernelGraph.heap b).outputs := by decide
      exact h a ha
    · unfold innerKernelGraph
      rw [ofNodes_heap_of_le _ a (by simp only [List.length_cons, List.length_nil]; omega)]
      exact ⟨List.not_mem_nil _, List.not_mem_nil _⟩
  obtain ⟨g1, h, p1, -, -, p4⟩ := StripRNNScope_rewires innerKernelGraph "model/".toList
    (some RNNType.TF_RNN_LSTM) [1, 2] (by decide)
    (edgeSym_ofNodes _ (by decide) (by decide)) (by decide) hnew (by decide)
  exact ⟨g1, h, p1, p4 3 (by decide) ⟨2, by decide, by decide⟩⟩

/-- The bound on the turns on `lstmLayerGraph`, which has two marked names: the
hypotheses of `optimizeRNNTurns_bounded` hold, and the loop of `OptimizeRNN`
does not reach a third turn. -/
theorem optimizeRNNTurns_lstmLayerGraph :
    optimizeRNNTurns 3 lstmLayerGraph = none ∧
    (OptimizeRNN 3 lstmLayerGraph).map (fun r => (r.1, r.2.seq_nodes)) =
      some (true, [9, 0, 1, 3, 8]) :=
  ⟨optimizeRNNTurns_bounded 3 lstmLayerGraph (by decide) (by decide) (by decide), by decide⟩

/-! ## The kind `FindRNNScope` reports -/

/-- The kinds the loop of `FindRNNScope` tells apart on a name with `while` at
`while_pos`: LSTM when `lstm_cell` follows, GRU when `lstm_cell` does not follow
and `gru` does, and no marker when neither follows. -/
theorem rnnMarker_kinds (name : List Char) (while_pos : Nat)
    (hw : strFind "while".toList name = some while_pos) :
    ((strFindFrom "lstm_cell".toList while_pos name).isSome = true →
      rnnMarker name = some (while_pos, RNNType.TF_RNN_LSTM)) ∧
    ((strFindFrom "lstm_cell".toList while_pos name).isSome = false →
      (strFindFrom "gru".toList while_pos name).isSome = true →
      rnnMarker name = some (while_pos, RNNType.TF_RNN_GRU)) ∧
    ((strFindFrom "lstm_cell".toList while_pos name).isSome = false →
      (strFindFrom "gru".toList while_pos name).isSome = false →
      rnnMarker name = none) := by
  unfold rnnMarker
  rw [hw]
  refine ⟨fun h1 => ?_, fun h1 h2 => ?_, fun h1 h2 => ?_⟩
  · simp only [h1, if_true]
  · simp only [h1, h2, Bool.false_eq_true, if_false, if_true]
  · have h3 : (strFindFrom "basic_lstm_cell".toList while_pos name).isSome = false := by
      rw [Bool.eq_false_iff]
      intro h
      have := strFindFrom_isSome_append "basic_".toList "lstm_cell".toList name while_pos h
      rw [h1] at this
      cases this
    simp only [h1, h2, h3, Bool.false_eq_true, if_false]

/-- `FindRNNScope` reports the first marked name of the sequence: its kind, and
the scope derived from it. -/
theorem FindRNNScope_first (g : TFGraph) (rnn_scope : List Char) (pre post : List Nat)
    (node while_pos : Nat) (rnn_type : RNNType) (hseq : g.seq_nodes = pre ++ node :: post)
    (hpre : ∀ a ∈ pre, rnnMarker (g.heap a).name = none)
    (hnode : rnnMarker (g.heap node).name = some (while_pos, rnn_type)) :
    FindRNNScope g rnn_scope =
      (some rnn_type, rnnScopeOf (g.heap node).name while_pos) := by
  have e : (g.seq_nodes.findSome? fun node =>
      (rnnMarker (g.heap node).name).map fun r => ((g.heap node).name, r)) =
      some ((g.heap node).name, while_pos, rnn_type) := by
    rw [hseq]
    clear hseq
    induction pre with
    | nil =>
      rw [List.nil_append, List.findSome?_cons, hnode]
      rfl
    | cons a pre ih =>
      rw [List.cons_append, List.findSome?_cons, hpre a (List.mem_cons_self a pre)]
      exact ih (fun b hb => hpre b (List.mem_cons_of_mem a hb))
  have hne : (g.heap node).name ≠ [] := by
    intro h
    rw [h, (by decide : rnnMarker [] = none)] at hnode
    cases hnode
  unfold FindRNNScope
  rw [e]
  simp only [if_neg hne]

end Tengine
